import Mathlib

/-!
# Imhotep native FTGS core

A shallow embedding of the bit-packed table (`packed_table.c`), the multi-remap
routine (`groups.c`) and the TGS pass driver (`tgs.c`), with the properties
proved about them.

Conventions of the embedding.

* A 128-bit lane (`__v16qi`, `__m128i`) is the list of its 16 bytes, lowest
  address first; a byte is a natural number below 256.
* `long` / `int64_t` values are integers; arithmetic on them is followed by
  `to_int64`, the two's-complement wrap.
* C arrays are lists.  A read past the end yields the default (a zero byte, a
  zero lane, 0) and a write past the end is dropped; the theorems carry the
  bounds under which no such access happens.
* The headers (`table.h`, `imhotep_native.h`) are not part of the sources at
  hand; record types are reconstructed from the fields the code uses.
-/

namespace Imhotep

/-! ## Machine-level helpers -/

/-- A 128-bit SIMD lane as 16 bytes, lowest address first. -/
abbrev Vec128 := List Nat

/-- The all-zero lane (what `calloc` and `memset(…, 0, …)` leave behind). -/
def zero_vec : Vec128 := List.replicate 16 0

/-- Two's-complement wrap of an integer to a signed 64-bit `long`. -/
def to_int64 (x : Int) : Int := (x + 2 ^ 63) % 2 ^ 64 - 2 ^ 63

/-- The 64-bit pattern of a `long`, as a natural number below `2 ^ 64`. -/
def long_bits (x : Int) : Nat := (x % 2 ^ 64).toNat

/-- Conversion of a `long` to an `int`: the low 32 bits, two's complement. -/
def to_int32 (x : Int) : Int := (x + 2 ^ 31) % 2 ^ 32 - 2 ^ 31

/-- `_mm_setr_epi8 (b0, …, b15)`: the lane whose byte `j` is `bytes[j]`
(each argument converted to an unsigned byte). -/
def _mm_setr_epi8 (bytes : List Nat) : Vec128 :=
  (List.range 16).map (fun j => bytes.getD j 0 % 256)

/-- `_mm_shuffle_epi8 a mask`: byte `j` of the result is 0 when bit 7 of
`mask[j]` is set, and byte `mask[j] & 15` of `a` otherwise. -/
def _mm_shuffle_epi8 (a mask : Vec128) : Vec128 :=
  (List.range 16).map (fun j =>
    if 128 ≤ mask.getD j 0 then 0 else a.getD (mask.getD j 0 % 16) 0)

/-- `_mm_blendv_epi8 a b mask`: byte `j` of the result is `b[j]` when bit 7 of
`mask[j]` is set, and `a[j]` otherwise. -/
def _mm_blendv_epi8 (a b mask : Vec128) : Vec128 :=
  (List.range 16).map (fun j =>
    if 128 ≤ mask.getD j 0 then b.getD j 0 else a.getD j 0)

/-- `_mm_cvtsi64_si128 value`: the low 64 bits hold `value`, the high 64 bits
are zero. -/
def _mm_cvtsi64_si128 (value : Int) : Vec128 :=
  (List.range 16).map (fun j =>
    if j < 8 then long_bits value / 256 ^ j % 256 else 0)

/-- The unsigned little-endian number held in the first `n` bytes of a lane. -/
def le_bytes (a : Vec128) : Nat → Nat
  | 0 => 0
  | n + 1 => le_bytes a n + a.getD n 0 * 256 ^ n

/-- `_mm_extract_epi64 (a, 0)`: the low 64 bits of the lane as an `int64_t`. -/
def _mm_extract_epi64_0 (a : Vec128) : Int := to_int64 (le_bytes a 8)

/-- Load of a `uint32_t` from the start of a lane (`*(uint32_t *) packed_addr`). -/
def load_u32 (a : Vec128) : Nat := le_bytes a 4 % 2 ^ 32

/-- Store of a `uint32_t` at the start of a lane; bytes 4..15 are kept. -/
def store_u32 (a : Vec128) (x : Nat) : Vec128 :=
  (List.range 16).map (fun j =>
    if j < 4 then x / 256 ^ j % 256 else a.getD j 0)

/-! ## `packed_table.c` -/

namespace PackedTable

/-- Width of the group id inside the row header. -/
def GROUP_SIZE : Nat := 28

/-- Mask of the group id inside the row header. -/
def GROUP_MASK : Int := 0xFFFFFFF

/-- The table record (`packed_table_t`), with the fields `packed_table.c` uses.
`index_cols` is a local of `packed_table_create` in the source; it is not kept. -/
structure packed_table_t where
  n_rows : Nat
  n_cols : Nat
  size : Nat
  row_size : Nat
  unpadded_row_size : Nat
  n_boolean_cols : Nat
  col_mins : List Int
  col_2_vector : List Nat
  n_cols_per_vector : List Nat
  shuffle_vecs_get1 : List Vec128
  shuffle_vecs_get2 : List Vec128
  shuffle_vecs_put : List Vec128
  blend_vecs_put : List Vec128
  data : List Vec128
  deriving DecidableEq, Repr

/-- The header word of a row is `struct bit_fields_and_group`: a 28-bit field
`grp` in the low bits and a 4-bit field `cols` above it. -/
def bf_grp (header : Nat) : Nat := header % 2 ^ 28

/-- The 4-bit field `cols` of the header word. -/
def bf_cols (header : Nat) : Nat := header / 2 ^ 28 % 2 ^ 4

/-- Assignment to the bit-field `grp`: the other field is kept. -/
def bf_set_grp (header : Nat) (grp : Nat) : Nat :=
  header / 2 ^ 28 % 2 ^ 4 * 2 ^ 28 + grp % 2 ^ 28

/-- The state of the first loop of `createColumnIndexes`. -/
structure col_index_state where
  n_boolean_cols : Nat
  index_cols : List Nat
  col_2_vector : List Nat
  deriving DecidableEq, Repr

/-- One iteration of the first loop of `createColumnIndexes` (column `i`);
`index_cols` holds `uint16_t`, `col_2_vector` holds `uint8_t`. -/
def createColumnIndexes_step (sizes vec_nums offsets_in_vecs : List Nat)
    (i : Nat) (s : col_index_state) : col_index_state :=
  let col_size := sizes.getD i 0
  { n_boolean_cols := if col_size = 0 then s.n_boolean_cols + 1 else s.n_boolean_cols
    index_cols :=
      (s.index_cols.set (2 * i) (offsets_in_vecs.getD i 0 % 65536)).set (2 * i + 1)
        ((offsets_in_vecs.getD i 0 + col_size) % 65536)
    col_2_vector := s.col_2_vector.set i (vec_nums.getD i 0 % 256) }

/-- A counted loop `for (i = lo; i < lo + n; i++) s = body i s`. -/
def for_loop {σ : Type} (body : Nat → σ → σ) : (n : Nat) → (lo : Nat) → σ → σ
  | 0, _, s => s
  | n + 1, lo, s => for_loop body n (lo + 1) (body lo s)

/-- The second loop of `createColumnIndexes`: count the non-bitfield columns of
each lane (`uint8_t` counters). -/
def count_cols_per_vector (col_2_vector : List Nat) (n_boolean_cols n_cols : Nat)
    (counts : List Nat) : List Nat :=
  for_loop (fun i c =>
      c.set (col_2_vector.getD i 0) ((c.getD (col_2_vector.getD i 0) 0 + 1) % 256))
    (n_cols - n_boolean_cols) n_boolean_cols counts

/-- Row padding of `createColumnIndexes`: one lane, or the next multiple of two
(`(n_vectors + 1) & ~0x1`). -/
def padded_row_size (n_vectors : Nat) : Nat :=
  if n_vectors = 1 then n_vectors else (n_vectors + 1) / 2 * 2

/-- `createColumnIndexes`: returns the table with `n_boolean_cols`,
`col_2_vector`, `unpadded_row_size`, `n_cols_per_vector` and `row_size` filled
in, together with `index_cols`. -/
def createColumnIndexes (table : packed_table_t) (n_cols : Nat)
    (sizes vec_nums offsets_in_vecs : List Nat) (index_cols : List Nat) :
    packed_table_t × List Nat :=
  let n_vectors := vec_nums.getD (n_cols - 1) 0 + 1
  let s := for_loop (createColumnIndexes_step sizes vec_nums offsets_in_vecs) n_cols 0
    { n_boolean_cols := table.n_boolean_cols
      index_cols := index_cols
      col_2_vector := table.col_2_vector }
  ({ table with
      n_boolean_cols := s.n_boolean_cols
      col_2_vector := s.col_2_vector
      unpadded_row_size := n_vectors
      n_cols_per_vector :=
        count_cols_per_vector s.col_2_vector s.n_boolean_cols n_cols
          (List.replicate n_vectors 0)
      row_size := padded_row_size n_vectors },
   s.index_cols)

/-- The state in which the first loop of `createColumnIndexes` ends when it is
called from `packed_table_create`. -/
def create_index_state (n_cols : Nat) (sizes vec_nums offsets_in_vecs : List Nat) :
    col_index_state :=
  for_loop (createColumnIndexes_step sizes vec_nums offsets_in_vecs) n_cols 0
    { n_boolean_cols := 0
      index_cols := List.replicate (n_cols * 2) 0
      col_2_vector := List.replicate n_cols 0 }

/-- The inner loop `for (j = start; j < start + n; j++) byte_vector[k++] = j`. -/
def gather_fill : (n : Nat) → (j k : Nat) → List Nat → List Nat
  | 0, _, _, bv => bv
  | n + 1, j, k, bv => gather_fill n (j + 1) (k + 1) (bv.set k (j % 256))

/-- The main loop of `createShuffleVecFromIndexes`, from column `i` on; each
iteration handles one column or a pair of columns of the same lane.  `fuel`
bounds the number of iterations (`n_cols - i` suffices). -/
def createShuffleVec_loop (index_cols col_n_vector : List Nat) (n_cols : Nat) :
    (fuel : Nat) → (i : Nat) → List Vec128 → List Vec128 → List Vec128 × List Vec128
  | 0, _, get1, get2 => (get1, get2)
  | fuel + 1, i, get1, get2 =>
    if i < n_cols then
      let bv0 := gather_fill (index_cols.getD (2 * i + 1) 0 - index_cols.getD (2 * i) 0)
        (index_cols.getD (2 * i) 0) 0 (List.replicate 16 255)
      let get1a := get1 ++ [_mm_setr_epi8 (bv0.take 8 ++ List.replicate 8 255)]
      if i + 1 < n_cols ∧ col_n_vector.getD (i + 1) 0 = col_n_vector.getD i 0 then
        let bv1 := gather_fill
          (index_cols.getD (2 * (i + 1) + 1) 0 - index_cols.getD (2 * (i + 1)) 0)
          (index_cols.getD (2 * (i + 1)) 0) 8 bv0
        createShuffleVec_loop index_cols col_n_vector n_cols fuel (i + 2)
          (get1a ++ [_mm_setr_epi8 (bv1.drop 8 ++ List.replicate 8 255)])
          (get2 ++ [_mm_setr_epi8 bv1])
      else
        createShuffleVec_loop index_cols col_n_vector n_cols fuel (i + 1)
          get1a (get2 ++ [_mm_setr_epi8 bv0])
    else (get1, get2)

/-- Pad a mask array to the `calloc`ed length with zero lanes. -/
def pad_vecs (vecs : List Vec128) (n : Nat) : List Vec128 :=
  vecs ++ List.replicate (n - vecs.length) zero_vec

/-- `createShuffleVecFromIndexes`: the gather masks `shuffle_vecs_get1` (one
column into bytes 0..7) and `shuffle_vecs_get2` (two columns of a lane). -/
def createShuffleVecFromIndexes (table : packed_table_t) (index_cols : List Nat) :
    packed_table_t :=
  let n_boolean_cols := table.n_boolean_cols % 256
  let n_cols := table.n_cols % 256
  let r := createShuffleVec_loop index_cols table.col_2_vector n_cols
    (n_cols - n_boolean_cols) n_boolean_cols [] []
  { table with
    shuffle_vecs_get1 := pad_vecs r.1 (n_cols - n_boolean_cols)
    shuffle_vecs_get2 := pad_vecs r.2 (n_cols - n_boolean_cols) }

/-- The inner loop of `createShuffleBlendFromIndexes`:
`for (j = start; j < start + n; j++) { shuffle[j] = k++; blend[j] = -1; }`. -/
def scatter_fill : (n : Nat) → (j k : Nat) → List Nat × List Nat → List Nat × List Nat
  | 0, _, _, sb => sb
  | n + 1, j, k, sb => scatter_fill n (j + 1) (k + 1) (sb.1.set j (k % 256), sb.2.set j 255)

/-- The scatter and blend byte vectors of column `i`. -/
def scatter_bytes (index_cols : List Nat) (i : Nat) : List Nat × List Nat :=
  scatter_fill (index_cols.getD (2 * i + 1) 0 - index_cols.getD (2 * i) 0)
    (index_cols.getD (2 * i) 0) 0 (List.replicate 16 255, List.replicate 16 0)

/-- `createShuffleBlendFromIndexes`: mask number `index = i - n_boolean_cols`
scatters a value into the bytes of column `i` and selects exactly those bytes. -/
def createShuffleBlendFromIndexes (table : packed_table_t) (index_cols : List Nat) :
    packed_table_t :=
  let n_boolean_cols := table.n_boolean_cols % 256
  let n_cols := table.n_cols % 256
  { table with
    shuffle_vecs_put := (List.range (n_cols - n_boolean_cols)).map (fun index =>
      _mm_setr_epi8 (scatter_bytes index_cols (index + n_boolean_cols)).1)
    blend_vecs_put := (List.range (n_cols - n_boolean_cols)).map (fun index =>
      _mm_setr_epi8 (scatter_bytes index_cols (index + n_boolean_cols)).2) }

/-- `packed_table_create`.  `column_maxes` is accepted and not used, as in the
source. -/
def packed_table_create (n_rows : Nat) (column_mins _column_maxes : List Int)
    (sizes vec_nums offsets_in_vecs : List Nat) (n_cols : Nat) : packed_table_t :=
  let table0 : packed_table_t :=
    { n_rows := n_rows, n_cols := n_cols, size := 0, row_size := 0,
      unpadded_row_size := 0, n_boolean_cols := 0,
      col_mins := (List.range n_cols).map (fun i => column_mins.getD i 0),
      col_2_vector := List.replicate n_cols 0,
      n_cols_per_vector := [], shuffle_vecs_get1 := [], shuffle_vecs_get2 := [],
      shuffle_vecs_put := [], blend_vecs_put := [], data := [] }
  let r := createColumnIndexes table0 n_cols sizes vec_nums offsets_in_vecs
    (List.replicate (n_cols * 2) 0)
  let table1 :=
    if n_cols - r.1.n_boolean_cols ≠ 0 then
      createShuffleBlendFromIndexes (createShuffleVecFromIndexes r.1 r.2) r.2
    else r.1
  { table1 with
    size := n_rows * table1.row_size
    data := List.replicate (n_rows * table1.row_size) zero_vec }

/-- `internal_set_cell`: scatter `value` with mask number `col` and blend it
into lane `row_vector_index` of the row. -/
def internal_set_cell (table : packed_table_t) (row col : Nat) (value : Int)
    (row_vector_index : Nat) : packed_table_t :=
  let index := row * table.row_size
  let vector_index := row_vector_index + index
  let shuffled_col := _mm_shuffle_epi8 (_mm_cvtsi64_si128 value)
    (table.shuffle_vecs_put.getD col zero_vec)
  let packed_data := table.data.getD vector_index zero_vec
  let updated_data := _mm_blendv_epi8 packed_data shuffled_col
    (table.blend_vecs_put.getD col zero_vec)
  { table with data := table.data.set vector_index updated_data }

/-- `internal_set_boolean_cell`: `*store_address |= value << (GROUP_SIZE + col)`
on the 32-bit header word of the row. -/
def internal_set_boolean_cell (table : packed_table_t) (row col : Nat) (value : Int) :
    packed_table_t :=
  let index := row * table.row_size + 0
  let lane := table.data.getD index zero_vec
  let shifted := long_bits (value * 2 ^ (GROUP_SIZE + col))
  { table with
    data := table.data.set index (store_u32 lane ((load_u32 lane ||| shifted) % 2 ^ 32)) }

/-- `internal_get_cell`: gather with mask number `column` from lane
`col_vector` of the row and take the low 64 bits. -/
def internal_get_cell (table : packed_table_t) (row column row_size col_vector : Nat) :
    Int :=
  let packed := table.data.getD (row * row_size + col_vector) zero_vec
  let shuffle_control_vec := table.shuffle_vecs_get1.getD column zero_vec
  _mm_extract_epi64_0 (_mm_shuffle_epi8 packed shuffle_control_vec)

/-- `internal_get_boolean_cell`: test bit `GROUP_SIZE + column` of the header. -/
def internal_get_boolean_cell (table : packed_table_t) (row column row_size : Nat) :
    Int :=
  let index := row * row_size + 0
  let bit := load_u32 (table.data.getD index zero_vec) &&&
    (2 ^ (GROUP_SIZE + column) % 2 ^ 32)
  if bit ≠ 0 then 1 else 0

/-- `internal_get_group`: the bit-field `grp` of the row header. -/
def internal_get_group (table : packed_table_t) (row row_size : Nat) : Int :=
  let index := row * row_size
  (bf_grp (load_u32 (table.data.getD index zero_vec)) : Nat)

/-- `internal_set_group`: `packed_bf_grp->grp = value & GROUP_MASK`. -/
def internal_set_group (table : packed_table_t) (row : Nat) (value : Int) :
    packed_table_t :=
  let index := row * table.row_size
  let lane := table.data.getD index zero_vec
  { table with
    data := table.data.set index
      (store_u32 lane (bf_set_grp (load_u32 lane) (Int.land value GROUP_MASK).toNat)) }

/-- `packed_table_get_cell`. -/
def packed_table_get_cell (table : packed_table_t) (row column : Nat) : Int :=
  let n_boolean_cols := table.n_boolean_cols % 256
  let row_size := table.row_size
  let min := table.col_mins.getD column 0
  if column ≥ n_boolean_cols then
    let col_vector := table.col_2_vector.getD column 0
    to_int64 (internal_get_cell table row (column - n_boolean_cols) row_size col_vector + min)
  else
    to_int64 (internal_get_boolean_cell table row column row_size + min)

/-- `packed_table_set_cell`.  The integer branch passes `col` and `value`
themselves to `internal_set_cell`, as the source does. -/
def packed_table_set_cell (table : packed_table_t) (row col : Nat) (value : Int) :
    packed_table_t :=
  let packed_vector_index := table.col_2_vector.getD col 0
  let min := table.col_mins.getD col 0
  if col < table.n_boolean_cols then
    internal_set_boolean_cell table row col (to_int64 (value - min))
  else
    internal_set_cell table row col value packed_vector_index

/-- `packed_table_get_group`. -/
def packed_table_get_group (table : packed_table_t) (row : Nat) : Int :=
  internal_get_group table row table.row_size

/-- `packed_table_set_group`. -/
def packed_table_set_group (table : packed_table_t) (row : Nat) (value : Int) :
    packed_table_t :=
  internal_set_group table row value

/-- `packed_table_batch_set_col`: the sibling of `packed_table_set_cell` for a
list of rows; its integer branch rebases `col` and biases the value. -/
def packed_table_batch_set_col (table : packed_table_t) (row_ids : List Nat)
    (n_row_ids : Nat) (col_vals : List Int) (col : Nat) : packed_table_t :=
  let min := table.col_mins.getD col 0
  let packed_vector_index := table.col_2_vector.getD col 0
  if col < table.n_boolean_cols then
    for_loop (fun i t =>
        internal_set_boolean_cell t (row_ids.getD i 0) col
          (to_int64 (col_vals.getD i 0 - min)))
      n_row_ids 0 table
  else
    for_loop (fun i t =>
        internal_set_cell t (row_ids.getD i 0) (col - table.n_boolean_cols)
          (to_int64 (col_vals.getD i 0 - min)) packed_vector_index)
      n_row_ids 0 table

/-- `packed_table_set_col_range`: the loops run `for (i = start_row; i < count; i++)`
and read `col_vals[i]`, as in the source. -/
def packed_table_set_col_range (table : packed_table_t) (start_row : Nat)
    (col_vals : List Int) (count : Nat) (col : Nat) : packed_table_t :=
  let min := table.col_mins.getD col 0
  let packed_vector_index := table.col_2_vector.getD col 0
  if col < table.n_boolean_cols then
    for_loop (fun i t =>
        internal_set_boolean_cell t i col (to_int64 (col_vals.getD i 0 - min)))
      (count - start_row) start_row table
  else
    for_loop (fun i t =>
        internal_set_cell t i (col - table.n_boolean_cols)
          (to_int64 (col_vals.getD i 0 - min)) packed_vector_index)
      (count - start_row) start_row table

/-- `packed_table_set_group_range`: the loop runs
`for (row = start; row < count; row++)` and reads `group_vals[row]`, as in the
source. -/
def packed_table_set_group_range (table : packed_table_t) (start count : Nat)
    (group_vals : List Int) : packed_table_t :=
  for_loop (fun row t => internal_set_group t row (group_vals.getD row 0))
    (count - start) start table

/-- `get_bit`: `bits_arr[idx >> 6] & (0x1L << (idx & 63))`, a `long`, returned
through the function's return type `int`. -/
def get_bit (bits_arr : List Int) (idx : Nat) : Int :=
  let bits := long_bits (bits_arr.getD (idx / 64) 0)
  let word_idx := idx % 64
  to_int32 ((bits &&& 2 ^ word_idx : Nat) : Int)

/-- One round of the loop of `packed_table_bit_set_regroup`; the store into
the 28-bit field `grp` keeps the low 28 bits of the chosen group. -/
def regroup_step (bits : List Int) (target_group negative_group positive_group : Int)
    (row : Nat) (table : packed_table_t) : packed_table_t :=
  let index := row * table.row_size
  let lane := table.data.getD index zero_vec
  let group : Int := (bf_grp (load_u32 lane) : Nat)
  if group = target_group then
    let chosen := if get_bit bits row ≠ 0 then positive_group else negative_group
    { table with
      data := table.data.set index
        (store_u32 lane (bf_set_grp (load_u32 lane) (chosen % 2 ^ 28).toNat)) }
  else table

/-- `packed_table_bit_set_regroup`. -/
def packed_table_bit_set_regroup (table : packed_table_t) (bits : List Int)
    (target_group negative_group positive_group : Int) : packed_table_t :=
  for_loop (regroup_step bits target_group negative_group positive_group) table.n_rows 0 table

end PackedTable

/-! ## `packed_shard.c` -/

namespace PackedShard

/-- Mask of the group id (`int const GROUP_MASK = 0xFFFFFFF`). -/
def GROUP_MASK : Int := 0xFFFFFFF

/-- The layout record (`struct packed_metric_desc`), with the fields
`packed_shard.c` uses. -/
structure packed_metric_desc where
  n_metrics : Nat
  n_metrics_aux_index : Nat
  n_boolean_metrics : Nat
  n_vectors_per_doc : Nat
  index_metrics : List Nat
  metric_n_vector : List Nat
  n_metrics_per_vector : List Nat
  unpacked_offset : List Nat
  metric_mins : List Int
  shuffle_vecs_get1 : List Vec128
  shuffle_vecs_get2 : List Vec128
  shuffle_vecs_put : List Vec128
  blend_vecs_put : List Vec128
  deriving DecidableEq, Repr

/-- The shard record (`packed_shard_t`), with the fields `packed_shard.c` uses. -/
structure packed_shard_t where
  num_docs : Nat
  shard_id : Nat
  metrics_layout : packed_metric_desc
  n_stat_vecs_per_grp : Nat
  grp_stat_size : Nat
  grp_metrics_len : Nat
  groups_and_metrics : List Vec128
  deriving DecidableEq, Repr

/-- The loop of `packed_shard_lookup_groups`, from position `i` on:
`groups[i] = packed_bf_grp->grp` for the row of `doc_ids[i]`. -/
def packed_shard_lookup_groups (shard : packed_shard_t) (doc_ids : List Nat)
    (n_doc_ids : Nat) (groups : List Int) : List Int :=
  PackedTable.for_loop (fun i g =>
      g.set i (PackedTable.bf_grp (load_u32
        (shard.groups_and_metrics.getD
          (doc_ids.getD i 0 * shard.metrics_layout.n_vectors_per_doc + 0) zero_vec)) : Nat))
    n_doc_ids 0 groups

/-- One store of `packed_shard_update_groups`:
`packed_bf_grp->grp = groups[i] & GROUP_MASK` for the row of `doc_ids[i]`. -/
def update_group_step (doc_ids : List Nat) (groups : List Int) (i : Nat)
    (shard : packed_shard_t) : packed_shard_t :=
  let index := doc_ids.getD i 0 * shard.metrics_layout.n_vectors_per_doc + 0
  let lane := shard.groups_and_metrics.getD index zero_vec
  { shard with
    groups_and_metrics := shard.groups_and_metrics.set index
      (store_u32 lane
        (PackedTable.bf_set_grp (load_u32 lane)
          (Int.land (groups.getD i 0) GROUP_MASK).toNat)) }

/-- `packed_shard_update_groups`. -/
def packed_shard_update_groups (shard : packed_shard_t) (doc_ids : List Nat)
    (n_doc_ids : Nat) (groups : List Int) : packed_shard_t :=
  PackedTable.for_loop (update_group_step doc_ids groups) n_doc_ids 0 shard

/-- Most booleans a row header holds (`#define MAX_BIT_FIELDS 4`). -/
def MAX_BIT_FIELDS : Nat := 4

/-- The number of significant bits of `x` (0 for 0), found by at most `fuel`
halvings. -/
def bit_length : (fuel : Nat) → Nat → Nat
  | 0, _ => 0
  | fuel + 1, x => if x = 0 then 0 else bit_length fuel (x / 2) + 1

/-- `__builtin_clzl` on a 64-bit word: the number of leading zero bits.  C
leaves the result undefined for 0; the count of leading zeros of the zero word,
64, is taken there (what the `lzcnt` instruction gives). -/
def clzl (x : Nat) : Nat := 64 - bit_length 64 x

/-- `metric_size_bytes`: the width in bytes of a column, together with the
layout record, whose `n_boolean_metrics` counts the collapsed columns.  The
division is C's, truncating towards zero. -/
def metric_size_bytes (desc : packed_metric_desc) (max min : Int) :
    Int × packed_metric_desc :=
  let range := long_bits (max - min)
  let bits : Int := 64 - (clzl range : Nat)
  if bits ≤ 1 ∧ desc.n_boolean_metrics = desc.n_metrics_aux_index
      ∧ desc.n_boolean_metrics < MAX_BIT_FIELDS then
    (0, { desc with n_boolean_metrics := desc.n_boolean_metrics + 1 })
  else
    (Int.tdiv (bits - 1) 8 + 1, desc)

/-- The state of the first loop of `createMetricsIndexes`; the two counters
`grp_stats_long_count` and `packed_stats_per_vec`, which nothing reads after the
loop, are left out. -/
structure metrics_index_state where
  desc : packed_metric_desc
  metric_offset : Int
  n_vectors : Nat
  deriving DecidableEq, Repr

/-- One round of the first loop of `createMetricsIndexes` (column `i`);
`index_metrics` holds `uint16_t`, `metric_n_vector` holds `uint8_t`. -/
def createMetricsIndexes_step (metric_maxes metric_mins : List Int) (i : Nat)
    (s : metrics_index_state) : metrics_index_state :=
  let r := metric_size_bytes s.desc (metric_maxes.getD i 0) (metric_mins.getD i 0)
  let metric_size := r.1
  let wraps : Bool := decide (s.metric_offset + metric_size > (s.n_vectors : Int) * 16)
  let metric_offset : Int := if wraps then (s.n_vectors : Int) * 16 else s.metric_offset
  let n_vectors := if wraps then s.n_vectors + 1 else s.n_vectors
  { desc :=
      { r.2 with
        index_metrics :=
          (r.2.index_metrics.set (2 * i) (metric_offset % 65536).toNat).set (2 * i + 1)
            ((metric_offset + metric_size) % 65536).toNat
        metric_n_vector := r.2.metric_n_vector.set i ((n_vectors - 1) % 256)
        n_metrics_aux_index := r.2.n_metrics_aux_index + 1 }
    metric_offset := metric_offset + metric_size
    n_vectors := n_vectors }

/-- `createMetricsIndexes`. -/
def createMetricsIndexes (desc : packed_metric_desc) (n_metrics : Nat)
    (metric_maxes metric_mins : List Int) (first_free_byte : Nat) : packed_metric_desc :=
  let s := PackedTable.for_loop (createMetricsIndexes_step metric_maxes metric_mins)
    n_metrics 0 { desc := desc, metric_offset := first_free_byte, n_vectors := 1 }
  { s.desc with
    n_metrics_per_vector :=
      PackedTable.count_cols_per_vector s.desc.metric_n_vector s.desc.n_boolean_metrics
        n_metrics (List.replicate s.n_vectors 0)
    unpacked_offset := List.replicate s.n_vectors 0
    n_vectors_per_doc := PackedTable.padded_row_size s.n_vectors }

/-- The inner loop `for (j = start; j < start + n; j++) byte_vector[k++] = j % 16`. -/
def gather_fill : (n : Nat) → (j k : Nat) → List Nat → List Nat
  | 0, _, _, bv => bv
  | n + 1, j, k, bv => gather_fill n (j + 1) (k + 1) (bv.set k (j % 16))

/-- The main loop of `createShuffleVecFromIndexes`, from column `i` on; each
round handles one column or a pair of columns of the same lane.  `fuel` bounds
the number of rounds (`n_metrics - i` suffices). -/
def createShuffleVec_loop (index_metrics metric_n_vector : List Nat) (n_metrics : Nat) :
    (fuel : Nat) → (i : Nat) → List Vec128 → List Vec128 → List Vec128 × List Vec128
  | 0, _, get1, get2 => (get1, get2)
  | fuel + 1, i, get1, get2 =>
    if i < n_metrics then
      let bv0 := gather_fill
        (index_metrics.getD (2 * i + 1) 0 - index_metrics.getD (2 * i) 0)
        (index_metrics.getD (2 * i) 0) 0 (List.replicate 16 255)
      let get1a := get1 ++ [_mm_setr_epi8 (bv0.take 8 ++ List.replicate 8 255)]
      if i + 1 < n_metrics ∧ metric_n_vector.getD (i + 1) 0 = metric_n_vector.getD i 0 then
        let bv1 := gather_fill
          (index_metrics.getD (2 * (i + 1) + 1) 0 - index_metrics.getD (2 * (i + 1)) 0)
          (index_metrics.getD (2 * (i + 1)) 0) 8 bv0
        createShuffleVec_loop index_metrics metric_n_vector n_metrics fuel (i + 2)
          (get1a ++ [_mm_setr_epi8 (bv1.drop 8 ++ List.replicate 8 255)])
          (get2 ++ [_mm_setr_epi8 bv1])
      else
        createShuffleVec_loop index_metrics metric_n_vector n_metrics fuel (i + 1)
          get1a (get2 ++ [_mm_setr_epi8 bv0])
    else (get1, get2)

/-- `createShuffleVecFromIndexes`. -/
def createShuffleVecFromIndexes (desc : packed_metric_desc) : packed_metric_desc :=
  let n_boolean_metrics := desc.n_boolean_metrics % 256
  let n_metrics := desc.n_metrics % 256
  let r := createShuffleVec_loop desc.index_metrics desc.metric_n_vector n_metrics
    (n_metrics - n_boolean_metrics) n_boolean_metrics [] []
  { desc with
    shuffle_vecs_get1 := PackedTable.pad_vecs r.1 (n_metrics - n_boolean_metrics)
    shuffle_vecs_get2 := PackedTable.pad_vecs r.2 (n_metrics - n_boolean_metrics) }

/-- The inner loop of `createShuffleBlendFromIndexes`:
`for (j = start; j < start + n; j++) { shuffle[j % 16] = k++; blend[j % 16] = -1; }`. -/
def scatter_fill : (n : Nat) → (j k : Nat) → List Nat × List Nat → List Nat × List Nat
  | 0, _, _, sb => sb
  | n + 1, j, k, sb =>
    scatter_fill n (j + 1) (k + 1) (sb.1.set (j % 16) (k % 256), sb.2.set (j % 16) 255)

/-- The scatter and blend byte vectors of column `i`. -/
def scatter_bytes (index_metrics : List Nat) (i : Nat) : List Nat × List Nat :=
  scatter_fill (index_metrics.getD (2 * i + 1) 0 - index_metrics.getD (2 * i) 0)
    (index_metrics.getD (2 * i) 0) 0 (List.replicate 16 255, List.replicate 16 0)

/-- `createShuffleBlendFromIndexes`. -/
def createShuffleBlendFromIndexes (desc : packed_metric_desc) : packed_metric_desc :=
  let n_boolean_metrics := desc.n_boolean_metrics % 256
  let n_metrics := desc.n_metrics % 256
  { desc with
    shuffle_vecs_put := (List.range (n_metrics - n_boolean_metrics)).map (fun index =>
      _mm_setr_epi8 (scatter_bytes desc.index_metrics (index + n_boolean_metrics)).1)
    blend_vecs_put := (List.range (n_metrics - n_boolean_metrics)).map (fun index =>
      _mm_setr_epi8 (scatter_bytes desc.index_metrics (index + n_boolean_metrics)).2) }

/-- The loop of `packed_shard_init` that lays out the rows of the group stats:
`unpacked_offset[i]` (a `uint8_t`) is the first lane of packed lane `i`. -/
def unpacked_offset_loop (desc : packed_metric_desc) :
    (n : Nat) → (i : Nat) → (grp_stat_row_size : Nat) → List Nat → List Nat × Nat
  | 0, _, size, offs => (offs, size)
  | n + 1, i, size, offs =>
    unpacked_offset_loop desc n (i + 1)
      (size + (desc.n_metrics_per_vector.getD i 0 + 1) / 2) (offs.set i (size % 256))

/-- The state of the loops of `packed_shard_init` that fill `desc->metric_mins`. -/
structure mins_state where
  metric_mins : List Int
  metric_num : Nat
  vector_num : Nat
  deriving DecidableEq, Repr

/-- The inner `for` loop of the fill of `desc->metric_mins`, for one lane. -/
def fill_mins_lane (metric_mins : List Int) :
    (n : Nat) → (j : Nat) → (metric_num : Nat) → List Int → List Int × Nat
  | 0, _, metric_num, mm => (mm, metric_num)
  | n + 1, j, metric_num, mm =>
    fill_mins_lane metric_mins n (j + 1) (metric_num + 1)
      (mm.set j (metric_mins.getD metric_num 0))

/-- The `while (metric_num < desc->n_metrics)` loop of `packed_shard_init`.
Every round moves to the next lane; `fuel` bounds the number of rounds. -/
def fill_mins_loop (desc : packed_metric_desc) (metric_mins : List Int) :
    (fuel : Nat) → mins_state → mins_state
  | 0, s => s
  | fuel + 1, s =>
    if s.metric_num < desc.n_metrics then
      let j := desc.unpacked_offset.getD s.vector_num 0 * 2
      let r := fill_mins_lane metric_mins (desc.n_metrics_per_vector.getD s.vector_num 0)
        j s.metric_num s.metric_mins
      fill_mins_loop desc metric_mins fuel
        { metric_mins := r.1, metric_num := r.2, vector_num := s.vector_num + 1 }
    else s

/-- `packed_shard_init`.  The `while` loop over the lanes is given as many
rounds as the row has lanes. -/
def packed_shard_init (n_docs : Nat) (metric_mins metric_maxes : List Int)
    (n_metrics : Nat) : packed_shard_t :=
  let desc0 : packed_metric_desc :=
    { n_metrics := n_metrics, n_metrics_aux_index := 0, n_boolean_metrics := 0,
      n_vectors_per_doc := 0,
      index_metrics := List.replicate (n_metrics * 2) 0,
      metric_n_vector := List.replicate n_metrics 0,
      n_metrics_per_vector := [], unpacked_offset := [], metric_mins := [],
      shuffle_vecs_get1 := [], shuffle_vecs_get2 := [], shuffle_vecs_put := [],
      blend_vecs_put := [] }
  let desc1 := createShuffleBlendFromIndexes (createShuffleVecFromIndexes
    (createMetricsIndexes desc0 n_metrics metric_maxes metric_mins
      ((PackedTable.GROUP_SIZE + MAX_BIT_FIELDS + 7) / 8)))
  let offs := unpacked_offset_loop desc1 desc1.n_vectors_per_doc 0
    ((desc1.n_boolean_metrics + 1) / 2) desc1.unpacked_offset
  let desc2 := { desc1 with unpacked_offset := offs.1 }
  let grp_stat_row_size := offs.2
  let grp_stat_size := PackedTable.padded_row_size grp_stat_row_size
  let booleans := fill_mins_lane metric_mins desc2.n_boolean_metrics 0 0
    (List.replicate (2 * grp_stat_size) 0)
  let filled := fill_mins_loop desc2 metric_mins desc2.n_vectors_per_doc
    { metric_mins := booleans.1, metric_num := booleans.2, vector_num := 0 }
  { num_docs := n_docs
    shard_id := 0
    metrics_layout := { desc2 with metric_mins := filled.metric_mins }
    n_stat_vecs_per_grp := grp_stat_row_size
    grp_stat_size := grp_stat_size
    grp_metrics_len := n_docs * desc2.n_vectors_per_doc
    groups_and_metrics := List.replicate (n_docs * desc2.n_vectors_per_doc) zero_vec }

/-- `update_boolean_metric`. -/
def update_boolean_metric (shard : packed_shard_t) (doc_ids : List Nat) (n_doc_ids : Nat)
    (metric_vals : List Int) (metric_index : Nat) : packed_shard_t :=
  let desc := shard.metrics_layout
  let min := desc.metric_mins.getD metric_index 0
  PackedTable.for_loop (fun i (s : packed_shard_t) =>
      let index := doc_ids.getD i 0 * desc.n_vectors_per_doc + 0
      let lane := s.groups_and_metrics.getD index zero_vec
      let shifted := long_bits
        (to_int64 (metric_vals.getD i 0 - min) * 2 ^ (PackedTable.GROUP_SIZE + metric_index))
      { s with
        groups_and_metrics := s.groups_and_metrics.set index
          (store_u32 lane ((load_u32 lane ||| shifted) % 2 ^ 32)) })
    n_doc_ids 0 shard

/-- `packed_shard_update_metric`. -/
def packed_shard_update_metric (shard : packed_shard_t) (doc_ids : List Nat)
    (n_doc_ids : Nat) (metric_vals : List Int) (metric_index : Nat) : packed_shard_t :=
  let desc := shard.metrics_layout
  let min := desc.metric_mins.getD metric_index 0
  let packed_vector_index := desc.metric_n_vector.getD metric_index 0
  if metric_index < desc.n_boolean_metrics then
    update_boolean_metric shard doc_ids n_doc_ids metric_vals metric_index
  else
    let metric_index := metric_index - desc.n_boolean_metrics
    PackedTable.for_loop (fun i (s : packed_shard_t) =>
        let index := doc_ids.getD i 0 * desc.n_vectors_per_doc
        let vector_index := packed_vector_index + index
        let shuffled_metric := _mm_shuffle_epi8
          (_mm_cvtsi64_si128 (to_int64 (metric_vals.getD i 0 - min)))
          (desc.shuffle_vecs_put.getD metric_index zero_vec)
        let packed_data := s.groups_and_metrics.getD vector_index zero_vec
        let updated_data := _mm_blendv_epi8 packed_data shuffled_metric
          (desc.blend_vecs_put.getD metric_index zero_vec)
        { s with groups_and_metrics := s.groups_and_metrics.set vector_index updated_data })
      n_doc_ids 0 shard

/-- `packed_shard_lookup_metric_values`: returns `dest`. -/
def packed_shard_lookup_metric_values (shard : packed_shard_t) (doc_ids : List Nat)
    (n_doc_ids : Nat) (dest : List Int) (metric_index : Nat) : List Int :=
  let desc := shard.metrics_layout
  let n_boolean_metrics := desc.n_boolean_metrics % 256
  let n_vecs_per_doc := desc.n_vectors_per_doc
  let min := desc.metric_mins.getD metric_index 0
  if metric_index ≥ n_boolean_metrics then
    let metric_vector := desc.metric_n_vector.getD metric_index 0
    PackedTable.for_loop (fun i (d : List Int) =>
        let doc_number := doc_ids.getD i 0
        let packed := shard.groups_and_metrics.getD
          (doc_number * n_vecs_per_doc + metric_vector) zero_vec
        let shuffle_control_vec :=
          desc.shuffle_vecs_get1.getD (metric_index - n_boolean_metrics) zero_vec
        let unpacked := _mm_shuffle_epi8 packed shuffle_control_vec
        d.set i (to_int64 (_mm_extract_epi64_0 unpacked + min)))
      n_doc_ids 0 dest
  else
    PackedTable.for_loop (fun i (d : List Int) =>
        let index := doc_ids.getD i 0 * n_vecs_per_doc + 0
        let bit := load_u32 (shard.groups_and_metrics.getD index zero_vec) &&&
          (2 ^ (PackedTable.GROUP_SIZE + metric_index) % 2 ^ 32)
        d.set i (to_int64 ((if bit ≠ 0 then 1 else 0) + min)))
      n_doc_ids 0 dest

end PackedShard

/-! ## `groups.c` -/

namespace Groups

open PackedTable

/-- Chunk size of the remap loop (`#define TGS_BUFFER_SIZE 2048` in `groups.c`). -/
def TGS_BUFFER_SIZE : Nat := 2048

/-- The external delta-varint decoder `masked_vbyte_read_loop_delta
(read_addr, doc_id_buf, n_docs, last_value)`: the ids written to `doc_id_buf`
and the number of bytes read. -/
abbrev decoder := List Nat → Nat → Int → List Nat × Nat

/-- The loop of `multi_remap_core` over the doc ids still to visit; returns the
status (0 or -1) and the `results` array. -/
def multi_remap_loop (doc_id_group : packed_table_t) (remappings : List Int)
    (placeholder_group : Int) : List Nat → List Int → Int × List Int
  | [], results => (0, results)
  | doc_id :: rest, results =>
    let old_group := packed_table_get_group doc_id_group doc_id
    if old_group ≠ 0 then
      let current_group := results.getD doc_id 0
      if placeholder_group > 0 ∧ current_group ≠ placeholder_group then
        (-1, results)
      else if current_group < remappings.getD old_group.toNat 0 then
        multi_remap_loop doc_id_group remappings placeholder_group rest
          (results.set doc_id current_group)
      else
        multi_remap_loop doc_id_group remappings placeholder_group rest
          (results.set doc_id (remappings.getD old_group.toNat 0))
    else
      multi_remap_loop doc_id_group remappings placeholder_group rest results

/-- `multi_remap_core`: visits `doc_ids[0 .. n_docs - 1]` in order. -/
def multi_remap_core (doc_id_group : packed_table_t) (results : List Int)
    (doc_ids : List Nat) (n_docs : Nat) (remappings : List Int)
    (placeholder_group : Int) : Int × List Int :=
  multi_remap_loop doc_id_group remappings placeholder_group (doc_ids.take n_docs) results

/-- The `while (n_docs_remaining > 0)` loop of `remap_docs_in_target_groups`.
Every iteration lowers `n_docs_remaining` by at least one, so
`fuel = n_docs_remaining` runs it to its end. -/
def remap_docs_loop (decode : decoder) (doc_id_group : packed_table_t)
    (remappings : List Int) (placeholder_group : Int) :
    (fuel : Nat) → (n_docs_remaining : Nat) → (read_addr : List Nat) →
    (last_value : Int) → (results : List Int) → Int × List Int
  | 0, _, _, _, results => (0, results)
  | fuel + 1, n_docs_remaining, read_addr, last_value, results =>
    if n_docs_remaining > 0 then
      let n_docs :=
        if n_docs_remaining > TGS_BUFFER_SIZE then TGS_BUFFER_SIZE else n_docs_remaining
      let decoded := decode read_addr n_docs last_value
      let doc_id_buf := decoded.1
      let r := multi_remap_core doc_id_group results doc_id_buf n_docs remappings
        placeholder_group
      if r.1 ≠ 0 then (-1, r.2)
      else
        remap_docs_loop decode doc_id_group remappings placeholder_group fuel
          (n_docs_remaining - n_docs) (read_addr.drop decoded.2)
          (doc_id_buf.getD (n_docs - 1) 0) r.2
    else (0, results)

/-- `remap_docs_in_target_groups`: `n_docs_remaining` starts at 0, as in the
source (the function receives no document count). -/
def remap_docs_in_target_groups (decode : decoder) (doc_id_group : packed_table_t)
    (results : List Int) (delta_compressed_doc_ids : List Nat) (remappings : List Int)
    (placeholder_group : Int) : Int × List Int :=
  let n_docs_remaining := 0
  let last_value := 0
  remap_docs_loop decode doc_id_group remappings placeholder_group n_docs_remaining
    n_docs_remaining delta_compressed_doc_ids last_value results

/-- The conflict test of one visit of `multi_remap_core`: the doc has a group,
a placeholder is in force and the doc's current entry is not the placeholder. -/
def remap_conflict (doc_id_group : packed_table_t) (placeholder_group : Int)
    (results : List Int) (doc_id : Nat) : Prop :=
  packed_table_get_group doc_id_group doc_id ≠ 0 ∧ placeholder_group > 0 ∧
    results.getD doc_id 0 ≠ placeholder_group

instance (t : packed_table_t) (p : Int) (res : List Int) (d : Nat) :
    Decidable (remap_conflict t p res d) := by
  unfold remap_conflict; infer_instance

/-- The write of one conflict-free visit of `multi_remap_core`, as the spec
words it: `results[doc_id] = min (current, new)` unless the group is 0. -/
def remap_step (doc_id_group : packed_table_t) (remappings : List Int)
    (results : List Int) (doc_id : Nat) : List Int :=
  if packed_table_get_group doc_id_group doc_id ≠ 0 then
    results.set doc_id (min (results.getD doc_id 0)
      (remappings.getD (packed_table_get_group doc_id_group doc_id).toNat 0))
  else results

end Groups

/-! ## Unpacked tables and the row unpack of `packed_table.c` -/

/-- A `__v2di`: two signed 64-bit halves of a 128-bit lane, low half first. -/
abbrev V2di := Int × Int

/-- Reinterpretation of a 128-bit lane as a `__v2di`. -/
def v2di_of (x : Vec128) : V2di :=
  (to_int64 (le_bytes x 8), to_int64 (le_bytes (x.drop 8) 8))

/-- `_mm_add_epi64`: the two 64-bit halves are added, each wrapping. -/
def _mm_add_epi64 (a b : V2di) : V2di := (to_int64 (a.1 + b.1), to_int64 (a.2 + b.2))

/-- Modelled from the spec: the record `unpacked_table_t`, whose declaration is
not part of the sources.  A row-major table of `n_rows` rows of
`padded_row_len` lanes, two 64-bit accumulators to a lane; `col_offset[c]` is
the 64-bit slot of column `c` inside a row; `non_zero_rows` is the bit-tree of
touched rows, kept as one flag per row. -/
structure unpacked_table_t where
  n_rows : Nat
  n_cols : Nat
  unpadded_row_len : Nat
  padded_row_len : Nat
  col_offset : List Nat
  non_zero_rows : List Bool
  data : List V2di
  deriving DecidableEq, Repr

/-- Modelled from the spec: `bit_tree_set` marks one row in the bit-tree. -/
def bit_tree_set (tree : List Bool) (i : Nat) : List Bool := tree.set i true

/-- The 64-bit accumulator in slot `slot` of row `row` of an unpacked table. -/
def unpacked_slot (u : unpacked_table_t) (row slot : Nat) : Int :=
  if slot % 2 = 0 then (u.data.getD (row * u.padded_row_len + slot / 2) (0, 0)).1
  else (u.data.getD (row * u.padded_row_len + slot / 2) (0, 0)).2

namespace PackedTable

/-- The table `lookup_table` of `unpack_bit_fields`. -/
def lookup_table : List V2di := [(0, 0), (1, 0), (0, 1), (1, 1)]

/-- `unpack_bit_fields`: `for (i = 0; i < n_bit_fields; i += 2)
{ dest_buffer[i / 2] = lookup_table[bit_fields & 3]; bit_fields >>= 2; }`, the
loop counted by `i / 2`.  `dest_buffer` is the row that starts at lane
`dest_row` of the lanes `buf`; `n_bit_fields` is a `uint8_t`. -/
def unpack_bit_fields (buf : List V2di) (dest_row : Nat) (bit_fields n_bit_fields : Nat) :
    List V2di :=
  (for_loop (fun j (s : Nat × List V2di) =>
      (s.1 / 4, s.2.set (dest_row + j) (lookup_table.getD (s.1 % 4) (0, 0))))
    ((n_bit_fields % 256 + 1) / 2) 0 (bit_fields, buf)).2

/-- `unpack_2_metrics`. -/
def unpack_2_metrics (packed_data shuffle_vector : Vec128) : Vec128 :=
  _mm_shuffle_epi8 packed_data shuffle_vector

/-- `unpack_vector`: `for (k = 0; k < n_cols; k += 2)`, counted by
`vector_index = k / 2`; each round gathers two columns of the packed lane with
mask number `dest_vec_num - n_boolean_vecs + vector_index` and stores them in
lane `dest_vec_num + vector_index` of the destination row. -/
def unpack_vector (src_table : packed_table_t) (vector_data : Vec128)
    (vector_num dest_vec_num : Nat) (buf : List V2di) (dest_row : Nat) : List V2di :=
  let n_cols := src_table.n_cols_per_vector.getD vector_num 0
  let n_boolean_vecs := (src_table.n_boolean_cols + 1) / 2
  for_loop (fun vector_index b =>
      b.set (dest_row + (dest_vec_num + vector_index))
        (v2di_of (unpack_2_metrics vector_data
          (src_table.shuffle_vecs_get2.getD (dest_vec_num - n_boolean_vecs + vector_index)
            zero_vec))))
    ((n_cols + 1) / 2) 0 buf

/-- The condition `core` asserts: the slot of the first column of the lane is
even. -/
def core_assertion (dest_table : unpacked_table_t) (from_col : Nat) : Prop :=
  dest_table.col_offset.getD from_col 0 % 2 = 0

/-- `core`: unpack packed lane `vector_num` of the source row (which starts at
lane `src_row` of the table) and return the number of columns of that lane
together with the destination lanes. -/
def core (src_table : packed_table_t) (dest_table : unpacked_table_t)
    (from_col vector_num : Nat) (src_row : Nat) (buf : List V2di) (dest_row : Nat) :
    Nat × List V2di :=
  let offset_in_row := dest_table.col_offset.getD from_col 0
  let vector_offset := offset_in_row / 2
  let vector := src_table.data.getD (src_row + vector_num) zero_vec
  (src_table.n_cols_per_vector.getD vector_num 0,
   unpack_vector src_table vector vector_num vector_offset buf dest_row)

/-- The state of the lane loops of `packed_table_unpack_row_to_table`. -/
structure unpack_state where
  vector_num : Nat
  column_idx : Nat
  buf : List V2di
  deriving DecidableEq, Repr

/-- One call `column_idx += core (…, column_idx, vector_num + k, …)`. -/
def unpack_step (src_table : packed_table_t) (dest_table : unpacked_table_t)
    (src_row dest_row : Nat) (k : Nat) (s : unpack_state) : unpack_state :=
  let r := core src_table dest_table s.column_idx (s.vector_num + k) src_row s.buf dest_row
  { s with column_idx := s.column_idx + r.1, buf := r.2 }

/-- The unrolled loop `for (vector_num = 0; vector_num < n_packed_vecs - 4;
vector_num += 4)` with its four calls of `core`. -/
def unpack_lanes4 (src_table : packed_table_t) (dest_table : unpacked_table_t)
    (src_row dest_row n_packed_vecs : Nat) : (fuel : Nat) → unpack_state → unpack_state
  | 0, s => s
  | fuel + 1, s =>
    if s.vector_num + 4 < n_packed_vecs then
      let s4 := unpack_step src_table dest_table src_row dest_row 3
        (unpack_step src_table dest_table src_row dest_row 2
          (unpack_step src_table dest_table src_row dest_row 1
            (unpack_step src_table dest_table src_row dest_row 0 s)))
      unpack_lanes4 src_table dest_table src_row dest_row n_packed_vecs fuel
        { s4 with vector_num := s.vector_num + 4 }
    else s

/-- The loop `for (; vector_num < n_packed_vecs; vector_num++)` over the
remaining lanes. -/
def unpack_lanes1 (src_table : packed_table_t) (dest_table : unpacked_table_t)
    (src_row dest_row n_packed_vecs : Nat) : (fuel : Nat) → unpack_state → unpack_state
  | 0, s => s
  | fuel + 1, s =>
    if s.vector_num < n_packed_vecs then
      let s1 := unpack_step src_table dest_table src_row dest_row 0 s
      unpack_lanes1 src_table dest_table src_row dest_row n_packed_vecs fuel
        { s1 with vector_num := s.vector_num + 1 }
    else s

/-- `packed_table_unpack_row_to_table`: the boolean columns from the header,
the mark in the destination's bit-tree, then every packed lane.  The
prefetches have no effect on the data and `prefetch_row_id` is not used. -/
def packed_table_unpack_row_to_table (src_table : packed_table_t) (src_row_id : Nat)
    (dest_table : unpacked_table_t) (dest_row_id : Nat) (_prefetch_row_id : Nat) :
    unpacked_table_t :=
  let src_row := src_row_id * src_table.row_size
  let dest_row := dest_row_id * dest_table.padded_row_len
  let cols := bf_cols (load_u32 (src_table.data.getD src_row zero_vec))
  let buf0 := unpack_bit_fields dest_table.data dest_row cols src_table.n_boolean_cols
  let tree := bit_tree_set dest_table.non_zero_rows dest_row_id
  if src_table.n_cols = src_table.n_boolean_cols then
    { dest_table with data := buf0, non_zero_rows := tree }
  else
    let n_packed_vecs := src_table.unpadded_row_size
    let s4 := unpack_lanes4 src_table dest_table src_row dest_row n_packed_vecs n_packed_vecs
      { vector_num := 0, column_idx := src_table.n_boolean_cols, buf := buf0 }
    let s1 := unpack_lanes1 src_table dest_table src_row dest_row n_packed_vecs n_packed_vecs s4
    { dest_table with data := s1.buf, non_zero_rows := tree }

/-- The biased value a table stores for a cell: what `packed_table_get_cell`
reads before it adds the column minimum. -/
def stored_value (table : packed_table_t) (row column : Nat) : Int :=
  if column ≥ table.n_boolean_cols % 256 then
    internal_get_cell table row (column - table.n_boolean_cols % 256) table.row_size
      (table.col_2_vector.getD column 0)
  else internal_get_boolean_cell table row column table.row_size

end PackedTable

/-! ## The accumulator side, modelled from the spec -/

/-- Modelled from the spec: the slot of the integer column number
`n_boolean_cols + d` in an unpacked row.  The booleans take the first
`(n_boolean_cols + 1) / 2` lanes; the columns of one packed lane take
consecutive slots and every packed lane starts at an even slot (the offset
`core` asserts to be even), as `packed_shard_init` lays out `unpacked_offset`. -/
def unpacked_slot_of (col_2_vector : List Nat) (n_boolean_cols : Nat) : Nat → Nat
  | 0 => 2 * ((n_boolean_cols + 1) / 2)
  | d + 1 =>
    if col_2_vector.getD (n_boolean_cols + d + 1) 0 = col_2_vector.getD (n_boolean_cols + d) 0
    then unpacked_slot_of col_2_vector n_boolean_cols d + 1
    else (unpacked_slot_of col_2_vector n_boolean_cols d + 2) / 2 * 2

/-- Modelled from the spec: `unpacked_table_create (layout)`, which is not part
of the sources: a zeroed table of `n_rows` rows whose row mirrors the packed
layout; boolean column `c` has slot `c`, integer columns have the slots of
`unpacked_slot_of`, and the row is padded to one lane or an even number of
lanes.  The call in `tgs.c` names the layout only; the number of rows is the
session's number of groups. -/
def unpacked_table_create (packed_table : PackedTable.packed_table_t) (n_rows : Nat) :
    unpacked_table_t :=
  let nb := packed_table.n_boolean_cols
  let n_cols := packed_table.n_cols
  let unpadded :=
    if n_cols ≤ nb then (nb + 1) / 2
    else unpacked_slot_of packed_table.col_2_vector nb (n_cols - 1 - nb) / 2 + 1
  { n_rows := n_rows
    n_cols := n_cols
    unpadded_row_len := unpadded
    padded_row_len := PackedTable.padded_row_size unpadded
    col_offset := (List.range n_cols).map (fun c =>
      if c < nb then c else unpacked_slot_of packed_table.col_2_vector nb (c - nb))
    non_zero_rows := List.replicate n_rows false
    data := List.replicate (n_rows * PackedTable.padded_row_size unpadded) (0, 0) }

/-- Modelled from the spec: `unpacked_table_copy_layout (src, n_rows)`: a zeroed
table of `n_rows` rows with the row layout of `src`. -/
def unpacked_table_copy_layout (src : unpacked_table_t) (n_rows : Nat) : unpacked_table_t :=
  { src with
    n_rows := n_rows
    non_zero_rows := List.replicate n_rows false
    data := List.replicate (n_rows * src.padded_row_len) (0, 0) }

/-- Modelled from the spec (4.4): `add_row (group_id, staged_row)` adds each
lane of row `src_row` of the staging table into the same lane of row
`group_id` of the accumulator, with 64-bit-lane adds. -/
def unpacked_table_add_row (dest : unpacked_table_t) (group_id : Nat)
    (src : unpacked_table_t) (src_row : Nat) : unpacked_table_t :=
  { dest with
    data := PackedTable.for_loop (fun l d =>
        d.set (group_id * dest.padded_row_len + l)
          (_mm_add_epi64 (d.getD (group_id * dest.padded_row_len + l) (0, 0))
            (src.data.getD (src_row * src.padded_row_len + l) (0, 0))))
      dest.padded_row_len 0 dest.data }

/-! ## `tgs.c` -/

namespace Tgs

open PackedTable

/-- Chunk size of the pass (`#define TGS_BUFFER_SIZE 1024` in `tgs.c`). -/
def TGS_BUFFER_SIZE : Nat := 1024

/-- Rows of the staging ring (`#define N_ROWS_PREFETCH 32`). -/
def N_ROWS_PREFETCH : Nat := 32

/-- The state the two sweeps of `lookup_and_accumulate_grp_stats` work on. -/
structure accumulate_state where
  group_stats : unpacked_table_t
  grp_buf : List Int
  temp_buf : unpacked_table_t
  deriving DecidableEq, Repr

/-- Modelled from the spec (4.5): the first sweep of
`lookup_and_accumulate_grp_stats`, round `i`: unpack row `doc_ids[i]` into
staging slot `i & mask` and record the row's group in `grp_buf[i]`. -/
def lookup_step (src : packed_table_t) (doc_ids : List Nat) (mask : Nat) (i : Nat)
    (s : accumulate_state) : accumulate_state :=
  let slot := i &&& mask
  let row := doc_ids.getD i 0
  let prefetch_row := doc_ids.getD ((i + N_ROWS_PREFETCH / 2) &&& mask) 0
  { s with
    temp_buf := packed_table_unpack_row_to_table src row s.temp_buf slot prefetch_row
    grp_buf := s.grp_buf.set i (packed_table_get_group src row) }

/-- Modelled from the spec (4.5): the second sweep, round `i`:
`accum[grp_buf[i]] += temp[i & mask]`. -/
def accumulate_step (mask : Nat) (i : Nat) (s : accumulate_state) : accumulate_state :=
  { s with
    group_stats := unpacked_table_add_row s.group_stats (s.grp_buf.getD i 0).toNat
      s.temp_buf (i &&& mask) }

/-- Modelled from the spec (4.5): `lookup_and_accumulate_grp_stats`, which is
not part of the sources: the unpack sweep over the whole chunk, then the
accumulate sweep over the whole chunk. -/
def lookup_and_accumulate_grp_stats (src : packed_table_t) (dest : unpacked_table_t)
    (doc_ids : List Nat) (count : Nat) (grp_buf : List Int) (temp_buf : unpacked_table_t)
    (mask : Nat) : accumulate_state :=
  for_loop (accumulate_step mask) count 0
    (for_loop (lookup_step src doc_ids mask) count 0
      { group_stats := dest, grp_buf := grp_buf, temp_buf := temp_buf })

/-- One slice of a pass (`struct index_slice_info`). -/
structure index_slice_info where
  n_docs_in_slice : Nat
  doc_slice : List Nat
  packed_metrics : packed_table_t
  deriving DecidableEq, Repr

/-- The descriptor of a pass (`struct tgs_desc`), with the fields
`tgs_execute_pass` uses. -/
structure tgs_desc where
  n_slices : Int
  slices : List index_slice_info
  grp_buf : List Int
  deriving DecidableEq, Repr

/-- The worker (`struct worker_desc`), with the fields `tgs.c` uses; a null
`grp_stats` is `none`. -/
structure worker_desc where
  buffer_size : Int
  grp_stats : Option unpacked_table_t
  deriving DecidableEq, Repr

/-- The session (`struct session_desc`), with the fields `tgs.c` uses.
`current_group_stats` is `current_tgs_pass->group_stats`, a pointer to the
worker's accumulator; `num_groups` is the count the spec sizes the accumulator
with. -/
structure session_desc where
  num_groups : Nat
  temp_buf : Option unpacked_table_t
  temp_buf_mask : Nat
  current_group_stats : Option unpacked_table_t
  deriving DecidableEq, Repr

/-- A null table pointer's stand-in: a table without rows, whose reads give 0
and whose writes are dropped. -/
def null_table : unpacked_table_t :=
  { n_rows := 0, n_cols := 0, unpadded_row_len := 0, padded_row_len := 0,
    col_offset := [], non_zero_rows := [], data := [] }

/-- `allocate_grp_stats`: returns the accumulator with the updated worker and
session. -/
def allocate_grp_stats (desc : worker_desc) (session : session_desc)
    (metric_desc : packed_table_t) : unpacked_table_t × worker_desc × session_desc :=
  let gs_size : Int := 2048
  match desc.grp_stats with
  | none =>
    let grp_stats := unpacked_table_create metric_desc session.num_groups
    (grp_stats,
     { desc with buffer_size := gs_size, grp_stats := some grp_stats },
     { session with
       temp_buf := some (unpacked_table_copy_layout grp_stats N_ROWS_PREFETCH)
       temp_buf_mask := N_ROWS_PREFETCH - 1 })
  | some old =>
    if desc.buffer_size ≥ gs_size then (old, desc, session)
    else
      let grp_stats := unpacked_table_create metric_desc session.num_groups
      (grp_stats,
       { desc with buffer_size := gs_size, grp_stats := some grp_stats },
       { session with
         temp_buf := some (unpacked_table_copy_layout grp_stats N_ROWS_PREFETCH)
         temp_buf_mask := N_ROWS_PREFETCH - 1 })

/-- A read past the end of `desc->slices`: a slice without docs over a table
without rows. -/
def null_slice : index_slice_info :=
  { n_docs_in_slice := 0, doc_slice := [],
    packed_metrics := packed_table_create 0 [] [] [] [] [] 0 }

/-- The `while (remaining > 0)` loop of `tgs_execute_pass` over one slice.
Every round lowers `remaining` by at least one, so `fuel = remaining` runs it
to its end. -/
def slice_loop (decode : Groups.decoder) (shard_data : packed_table_t) (mask : Nat) :
    (fuel : Nat) → (remaining : Nat) → (read_addr : List Nat) → (last_value : Int) →
    accumulate_state → accumulate_state
  | 0, _, _, _, s => s
  | fuel + 1, remaining, read_addr, last_value, s =>
    if remaining > 0 then
      let count := if remaining > TGS_BUFFER_SIZE then TGS_BUFFER_SIZE else remaining
      let decoded := decode read_addr count last_value
      let doc_id_buf := decoded.1
      let s1 := lookup_and_accumulate_grp_stats shard_data s.group_stats doc_id_buf count
        s.grp_buf s.temp_buf mask
      slice_loop decode shard_data mask fuel (remaining - count) (read_addr.drop decoded.2)
        (doc_id_buf.getD (count - 1) 0) s1
    else s

/-- The body of the `for (i = 0; i < n_slices; i++)` loop of
`tgs_execute_pass`. -/
def slice_step (decode : Groups.decoder) (infos : List index_slice_info) (mask : Nat)
    (i : Nat) (s : accumulate_state) : accumulate_state :=
  let slice := infos.getD i null_slice
  slice_loop decode slice.packed_metrics mask slice.n_docs_in_slice slice.n_docs_in_slice
    slice.doc_slice 0 s

/-- `tgs_execute_pass`: the status with the worker and session as the pass
leaves them.  The worker's accumulator and `current_tgs_pass->group_stats` are
one object, so both hold the final accumulator. -/
def tgs_execute_pass (decode : Groups.decoder) (worker : worker_desc)
    (session : session_desc) (desc : tgs_desc) : Int × worker_desc × session_desc :=
  if desc.n_slices ≤ 0 then (-1, worker, session)
  else
    let infos := desc.slices
    let first := infos.getD 0 null_slice
    let a := allocate_grp_stats worker session first.packed_metrics
    let s := for_loop (slice_step decode infos a.2.2.temp_buf_mask) desc.n_slices.toNat 0
      { group_stats := a.1, grp_buf := desc.grp_buf,
        temp_buf := a.2.2.temp_buf.getD null_table }
    (0,
     { a.2.1 with grp_stats := some s.group_stats },
     { a.2.2 with
       temp_buf := a.2.2.temp_buf.map (fun _ => s.temp_buf)
       current_group_stats := some s.group_stats })

end Tgs

/-! ## Valid layouts -/

/-- The conditions of a valid layout on an integer column `i`: 1 to 8 bytes,
enough for its range, inside one lane, after the 4-byte header in lane 0, in a
lane that exists, not below the lane of the integer columns before it and
after those that share its lane. -/
def valid_int_column (n_cols : Nat) (mins maxes : List Int)
    (sizes vec_nums offsets_in_vecs : List Nat) (i : Nat) : Prop :=
  sizes.getD i 0 ≤ 8 ∧ offsets_in_vecs.getD i 0 + sizes.getD i 0 ≤ 16 ∧
  maxes.getD i 0 - mins.getD i 0 < (256 : Int) ^ sizes.getD i 0 ∧
  (vec_nums.getD i 0 = 0 → 4 ≤ offsets_in_vecs.getD i 0) ∧
  vec_nums.getD i 0 ≤ vec_nums.getD (n_cols - 1) 0 ∧
  ∀ j, j < i → sizes.getD j 0 ≠ 0 →
    vec_nums.getD j 0 ≤ vec_nums.getD i 0 ∧
    (vec_nums.getD j 0 = vec_nums.getD i 0 →
      offsets_in_vecs.getD j 0 + sizes.getD j 0 ≤ offsets_in_vecs.getD i 0)

instance (n_cols : Nat) (mins maxes : List Int) (sizes vec_nums offsets_in_vecs : List Nat)
    (i : Nat) : Decidable (valid_int_column n_cols mins maxes sizes vec_nums offsets_in_vecs i) := by
  unfold valid_int_column; infer_instance

/-- A valid layout for `packed_table_create`, as the data model of the spec
describes it, with `b` boolean columns: the boolean columns (size 0, range at
most 1, at most four of them) come first, the integer columns satisfy
`valid_int_column`, and mins and maxes are `int64_t` with `min <= max`. -/
def valid_layout (b n_cols : Nat) (mins maxes : List Int)
    (sizes vec_nums offsets_in_vecs : List Nat) : Prop :=
  0 < n_cols ∧ n_cols < 256 ∧ b ≤ n_cols ∧ b ≤ 4 ∧
  vec_nums.getD (n_cols - 1) 0 < 256 ∧
  ∀ i, i < n_cols →
    (sizes.getD i 0 = 0 ↔ i < b) ∧
    -(2 : Int) ^ 63 ≤ mins.getD i 0 ∧ mins.getD i 0 ≤ maxes.getD i 0 ∧
    maxes.getD i 0 < (2 : Int) ^ 63 ∧
    (sizes.getD i 0 = 0 → maxes.getD i 0 - mins.getD i 0 ≤ 1) ∧
    (sizes.getD i 0 ≠ 0 →
      valid_int_column n_cols mins maxes sizes vec_nums offsets_in_vecs i)

instance (b n_cols : Nat) (mins maxes : List Int) (sizes vec_nums offsets_in_vecs : List Nat) :
    Decidable (valid_layout b n_cols mins maxes sizes vec_nums offsets_in_vecs) := by
  unfold valid_layout; infer_instance

/-- A table with the layout of `table` and the lanes `data`: the states a table
goes through after its creation differ from it in `data` only. -/
def with_data (table : PackedTable.packed_table_t) (data : List Vec128) :
    PackedTable.packed_table_t :=
  { table with data := data }

/-! ## The masks as the spec describes them -/

/-- The gather mask of a column at bytes `[start, start + size)` of its lane:
it moves the column's bytes to positions `0 .. size - 1`; every other position
is `0xFF`. -/
def gather_mask (start size : Nat) : Vec128 :=
  (List.range 16).map (fun k => if k < size then (start + k) % 256 else 255)

/-- The scatter mask of a column at bytes `[start, start + size)`: position
`start + k` takes byte `k` of the value; every other position is `0xFF`. -/
def scatter_mask (start size : Nat) : Vec128 :=
  (List.range 16).map (fun j =>
    if start ≤ j ∧ j < start + size then (j - start) % 256 else 255)

/-- The blend mask of a column at bytes `[start, start + size)`: `0xFF` on the
column's bytes and 0 elsewhere. -/
def blend_mask (start size : Nat) : Vec128 :=
  (List.range 16).map (fun j => if start ≤ j ∧ j < start + size then 255 else 0)

/-- Half `half` of a gather mask (0: bytes 0..7, 1: bytes 8..15) moves the
column at bytes `[start, start + size)` of the packed lane into that half. -/
def gathers_half (mask : Vec128) (half start size : Nat) : Prop :=
  ∀ k, k < 8 → mask.getD (8 * half + k) 0 = if k < size then (start + k) % 256 else 255

/-- First byte of column `c` in its lane, from `index_cols`. -/
def col_start (index_cols : List Nat) (c : Nat) : Nat := index_cols.getD (2 * c) 0

/-- Number of bytes of column `c`, from `index_cols`. -/
def col_size (index_cols : List Nat) (c : Nat) : Nat :=
  index_cols.getD (2 * c + 1) 0 - index_cols.getD (2 * c) 0

/-- The half of a `__v2di` that holds slot `slot`: the low half for an even
slot, the high half for an odd one. -/
def v2di_half (x : V2di) (slot : Nat) : Int := if slot % 2 = 0 then x.1 else x.2

/-- The lanes of a row unpacked one after the other: `count` calls of `core`,
each followed by `vector_num++`.  The two lane loops of
`packed_table_unpack_row_to_table` together are this loop. -/
def unpack_lanes_seq (src_table : PackedTable.packed_table_t) (dest_table : unpacked_table_t)
    (src_row dest_row : Nat) : (count : Nat) → PackedTable.unpack_state →
    PackedTable.unpack_state
  | 0, s => s
  | count + 1, s =>
    unpack_lanes_seq src_table dest_table src_row dest_row count
      { PackedTable.unpack_step src_table dest_table src_row dest_row 0 s with
        vector_num := s.vector_num + 1 }

/-- What the unpack of a row relies on in a packed table with `b` boolean
columns and `n` columns, whose integer column `c` has the byte range
`[st c, st c + sz c)`: lanes do not decrease along the columns and exist, the
per-lane counters count the columns of each lane, and the gather masks are the
ones the spec describes. -/
structure layout_facts (T : PackedTable.packed_table_t) (b n : Nat) (st sz : Nat → Nat) :
    Prop where
  nb : T.n_boolean_cols = b
  ncols : T.n_cols = n
  b_le : b ≤ n
  b_le4 : b ≤ 4
  mono : ∀ c c', b ≤ c → c ≤ c' → c' < n →
    T.col_2_vector.getD c 0 ≤ T.col_2_vector.getD c' 0
  lane_lt : ∀ c, b ≤ c → c < n → T.col_2_vector.getD c 0 < T.unpadded_row_size
  unpadded_le : T.unpadded_row_size ≤ T.row_size
  row_pos : 0 < T.row_size
  counts : ∀ v, v < T.unpadded_row_size →
    T.n_cols_per_vector.getD v 0
      = List.countP (fun c => decide (T.col_2_vector.getD c 0 = v)) (List.range' b (n - b))
  get1 : ∀ c, b ≤ c → c < n →
    T.shuffle_vecs_get1.getD (c - b) zero_vec = gather_mask (st c) (sz c)
  get2 : ∀ c, b ≤ c → c < n →
    gathers_half
      (T.shuffle_vecs_get2.getD
        (unpacked_slot_of T.col_2_vector b (c - b) / 2 - (b + 1) / 2) zero_vec)
      (unpacked_slot_of T.col_2_vector b (c - b) % 2) (st c) (sz c)

/-- The invariant of the lane loop of the row unpack, for source row `r` of `T`
and the destination row that starts at lane `dest_row`: the columns before
`column_idx` are those of the lanes before `vector_num` and their slots hold
their stored values; lanes outside the integer part of the row are as in
`buf0`. -/
structure unpack_inv (T : PackedTable.packed_table_t) (b n r dest_row : Nat)
    (buf0 : List V2di) (s : PackedTable.unpack_state) : Prop where
  ci_ge : b ≤ s.column_idx
  ci_le : s.column_idx ≤ n
  before : ∀ c, b ≤ c → c < s.column_idx → T.col_2_vector.getD c 0 < s.vector_num
  after : ∀ c, s.column_idx ≤ c → c < n → s.vector_num ≤ T.col_2_vector.getD c 0
  done : ∀ c, b ≤ c → c < s.column_idx →
    v2di_half (s.buf.getD (dest_row + unpacked_slot_of T.col_2_vector b (c - b) / 2) (0, 0))
        (unpacked_slot_of T.col_2_vector b (c - b))
      = PackedTable.internal_get_cell T r (c - b) T.row_size (T.col_2_vector.getD c 0)
  len : s.buf.length = buf0.length
  frame : ∀ idx, (idx < dest_row + (b + 1) / 2 ∨
      dest_row + (unpacked_slot_of T.col_2_vector b (n - 1 - b) / 2 + 1) ≤ idx) →
    s.buf.getD idx (0, 0) = buf0.getD idx (0, 0)

/-- What the unpack of a row relies on in the destination table: boolean
column `c` has slot `c`, integer column `c` has the slot of
`unpacked_slot_of`, and a row has room for the lanes of all columns. -/
structure dest_facts (U : unpacked_table_t) (T : PackedTable.packed_table_t) (b n : Nat) :
    Prop where
  bool_slot : ∀ c, c < b → U.col_offset.getD c 0 = c
  int_slot : ∀ c, b ≤ c → c < n →
    U.col_offset.getD c 0 = unpacked_slot_of T.col_2_vector b (c - b)
  bool_room : (b + 1) / 2 ≤ U.padded_row_len
  int_room : b < n →
    unpacked_slot_of T.col_2_vector b (n - 1 - b) / 2 + 1 ≤ U.padded_row_len

/-! ## The sums the accumulate is compared with -/

/-- The sum of `f i` over the `i < count` with `p i`. -/
def sum_where (p : Nat → Bool) (f : Nat → Int) : Nat → Int
  | 0 => 0
  | k + 1 => sum_where p f k + (if p k then f k else 0)

/-- The doc ids the decoder gives for a slice that is read in one chunk. -/
def slice_docs (decode : Groups.decoder) (slice : Tgs.index_slice_info) : List Nat :=
  (decode slice.doc_slice slice.n_docs_in_slice 0).1

/-- The sum, over the docs of one slice whose group is `g`, of what the slice's
table stores in column `c`. -/
def slice_sum (decode : Groups.decoder) (slice : Tgs.index_slice_info) (g c : Nat) : Int :=
  sum_where
    (fun i => decide ((PackedTable.packed_table_get_group slice.packed_metrics
      ((slice_docs decode slice).getD i 0)).toNat = g))
    (fun i => PackedTable.stored_value slice.packed_metrics
      ((slice_docs decode slice).getD i 0) c)
    slice.n_docs_in_slice

/-- The sum of `slice_sum` over the first `k` slices of a pass. -/
def slices_sum (decode : Groups.decoder) (infos : List Tgs.index_slice_info) (g c : Nat) :
    Nat → Int
  | 0 => 0
  | k + 1 => slices_sum decode infos g c k
      + slice_sum decode (infos.getD k Tgs.null_slice) g c

/-! ## The external decoder and the data of the seed scenarios -/

/-- Modelled from the spec: the external delta decoder
`decode (bytes, last_value) -> (ids[], bytes_read)`, which is not part of the
sources.  The ids are the prefix sums of the deltas, starting from
`last_value`; the byte-level varint format is not specified, so the stream is
taken as one delta per element. -/
def prefix_sums : List Nat → Nat → List Nat
  | [], _ => []
  | delta :: rest, last => (last + delta) :: prefix_sums rest (last + delta)

/-- Modelled from the spec: `masked_vbyte_read_loop_delta (read_addr, doc_id_buf,
n, last_value)` decodes `n` ids and reports `n` elements read. -/
def delta_decode : Groups.decoder :=
  fun read_addr n last_value => (prefix_sums (read_addr.take n) last_value.toNat, n)

/-- The doc-id to group table of scenarios S4 and S5: six docs with groups
`[0, 1, 2, 3, 1, 2]` (one boolean column, never written). -/
def s4_doc_id_group : PackedTable.packed_table_t :=
  [(0, 0), (1, 1), (2, 2), (3, 3), (4, 1), (5, 2)].foldl
    (fun t (dg : Nat × Int) => PackedTable.packed_table_set_group t dg.1 dg.2)
    (PackedTable.packed_table_create 6 [0] [1] [0] [0] [0] 1)

/-- A shard of two docs with one lane per doc and no metric. -/
def two_doc_shard : PackedShard.packed_shard_t :=
  { num_docs := 2, shard_id := 0,
    metrics_layout :=
      { n_metrics := 0, n_metrics_aux_index := 0, n_boolean_metrics := 0,
        n_vectors_per_doc := 1, index_metrics := [], metric_n_vector := [],
        n_metrics_per_vector := [0], unpacked_offset := [0], metric_mins := [0, 0],
        shuffle_vecs_get1 := [], shuffle_vecs_get2 := [], shuffle_vecs_put := [],
        blend_vecs_put := [] },
    n_stat_vecs_per_grp := 0, grp_stat_size := 2, grp_metrics_len := 2,
    groups_and_metrics := [zero_vec, zero_vec] }


/-! ## The data of scenario S1 and of two small passes -/

/-- A worker that holds no accumulator yet. -/
def fresh_worker : Tgs.worker_desc := { buffer_size := 0, grp_stats := none }

/-- A session of `num_groups` groups that holds no staging buffer yet. -/
def fresh_session (num_groups : Nat) : Tgs.session_desc :=
  { num_groups := num_groups, temp_buf := none, temp_buf_mask := 0,
    current_group_stats := none }

/-- The table of scenario S1: 32 docs, 10 one-byte columns of range `[0, 13]`
laid out from byte 4 of lane 0 on, every cell 13, group `doc_id mod 4`. -/
def s1_table : PackedTable.packed_table_t :=
  (List.range 10).foldl
    (fun t c =>
      PackedTable.packed_table_batch_set_col t (List.range 32) 32 (List.replicate 32 13) c)
    ((List.range 32).foldl
      (fun t (d : Nat) => PackedTable.packed_table_set_group t d ((d % 4 : Nat) : Int))
      (PackedTable.packed_table_create 32 (List.replicate 10 0) (List.replicate 10 13)
        (List.replicate 10 1) (List.replicate 10 0) [4, 5, 6, 7, 8, 9, 10, 11, 12, 13] 10))

/-- The pass of scenario S1: one slice with the docs 0..31 as deltas. -/
def s1_desc : Tgs.tgs_desc :=
  { n_slices := 1,
    slices := [{ n_docs_in_slice := 32, doc_slice := 0 :: List.replicate 31 1,
                 packed_metrics := s1_table }],
    grp_buf := List.replicate 32 0 }

/-- A table of one doc with one one-byte column of range `[5, 10]` holding 7;
the doc has group 0. -/
def biased_table : PackedTable.packed_table_t :=
  PackedTable.packed_table_batch_set_col
    (PackedTable.packed_table_create 1 [5] [10] [1] [0] [4] 1) [0] 1 [7] 0

/-- The pass over the one doc of `biased_table`. -/
def biased_desc : Tgs.tgs_desc :=
  { n_slices := 1,
    slices := [{ n_docs_in_slice := 1, doc_slice := [0], packed_metrics := biased_table }],
    grp_buf := [0] }

/-- A pass of one slice over `biased_table` that lists no docs. -/
def empty_slice_desc : Tgs.tgs_desc :=
  { n_slices := 1,
    slices := [{ n_docs_in_slice := 0, doc_slice := [], packed_metrics := biased_table }],
    grp_buf := [] }

/-- A table of 33 docs with one one-byte column of range `[0, 13]`: every doc
holds 1 but doc 32, which holds 5; all docs have group 0. -/
def long_table : PackedTable.packed_table_t :=
  PackedTable.packed_table_batch_set_col
    (PackedTable.packed_table_create 33 [0] [13] [1] [0] [4] 1) (List.range 33) 33
    (List.replicate 32 1 ++ [5]) 0

/-- The pass over the docs 0..32 of `long_table`, one slice read in one chunk. -/
def long_desc : Tgs.tgs_desc :=
  { n_slices := 1,
    slices := [{ n_docs_in_slice := 33, doc_slice := 0 :: List.replicate 32 1,
                 packed_metrics := long_table }],
    grp_buf := List.replicate 33 0 }

/-! ## The data of the regroup, range and shard examples -/

/-- A table of 33 rows with one boolean column, never written, every row in
group 1. -/
def regroup_table : PackedTable.packed_table_t :=
  (List.range 33).foldl (fun t (d : Nat) => PackedTable.packed_table_set_group t d 1)
    (PackedTable.packed_table_create 33 [0] [1] [0] [0] [0] 1)

/-- A fresh table of 4 rows with one one-byte column of range `[0, 255]`. -/
def range_table : PackedTable.packed_table_t :=
  PackedTable.packed_table_create 4 [0] [255] [1] [0] [4] 1

/-- A fresh table of one row with a boolean column and two one-byte columns. -/
def mixed_table : PackedTable.packed_table_t :=
  PackedTable.packed_table_create 1 [0, 0, 0] [1, 255, 255] [0, 1, 1] [0, 0, 0] [0, 4, 5] 3

/-- The loop the spec describes for the batch setter:
`packed_table_set_cell (table, row_ids[i], col, vals[i])` for `i = 0 .. n-1`,
in order. -/
def set_cell_each (table : PackedTable.packed_table_t) (row_ids : List Nat) (n : Nat)
    (col_vals : List Int) (col : Nat) : PackedTable.packed_table_t :=
  PackedTable.for_loop (fun i t =>
      PackedTable.packed_table_set_cell t (row_ids.getD i 0) col (col_vals.getD i 0))
    n 0 table

/-- The shard of scenario S3: two docs, columns of ranges `[0, 1]`, `[0, 255]`,
`[0, 65535]` and `[-1000, 1000000]`. -/
def s3_shard : PackedShard.packed_shard_t :=
  PackedShard.packed_shard_init 2 [0, 0, 0, -1000] [1, 255, 65535, 1000000] 4

/-- A layout record in which four columns were declared and collapsed. -/
def four_booleans : PackedShard.packed_metric_desc :=
  (PackedShard.packed_shard_init 0 [0, 0, 0, 0] [1, 1, 1, 1] 4).metrics_layout

/-! ## What the accessors rely on, and sequences of writes -/

/-- What the cell and group accessors rely on in a table of `n_rows` rows with
`b` boolean columns, whose integer columns are laid out by `sizes`, `vec_nums`
and `offsets`: the recorded minimums and lanes, and the three masks of every
integer column. -/
structure cell_facts (T : PackedTable.packed_table_t) (b n_rows n_cols : Nat)
    (mins : List Int) (sizes vec_nums offsets : List Nat) : Prop where
  nb : T.n_boolean_cols = b
  rows : T.data.length = n_rows * T.row_size
  row_pos : 0 < T.row_size
  mins_eq : ∀ c, c < n_cols → T.col_mins.getD c 0 = mins.getD c 0
  lane : ∀ c, b ≤ c → c < n_cols → T.col_2_vector.getD c 0 = vec_nums.getD c 0
  lane_lt : ∀ c, b ≤ c → c < n_cols → vec_nums.getD c 0 < T.row_size
  put : ∀ c, b ≤ c → c < n_cols →
    T.shuffle_vecs_put.getD (c - b) zero_vec
      = scatter_mask (offsets.getD c 0) (sizes.getD c 0)
  blend : ∀ c, b ≤ c → c < n_cols →
    T.blend_vecs_put.getD (c - b) zero_vec = blend_mask (offsets.getD c 0) (sizes.getD c 0)
  get1 : ∀ c, b ≤ c → c < n_cols →
    T.shuffle_vecs_get1.getD (c - b) zero_vec
      = gather_mask (offsets.getD c 0) (sizes.getD c 0)

/-- A write to a table: a batch write to one column
(`packed_table_batch_set_col`) or a group write (`packed_table_set_group`). -/
inductive table_write where
  | set_col (row_ids : List Nat) (n_row_ids : Nat) (col_vals : List Int) (col : Nat)
  | set_group (row : Nat) (value : Int)
  deriving DecidableEq, Repr

/-- The table after a write. -/
def apply_write (table : PackedTable.packed_table_t) : table_write → PackedTable.packed_table_t
  | table_write.set_col row_ids n_row_ids col_vals col =>
    PackedTable.packed_table_batch_set_col table row_ids n_row_ids col_vals col
  | table_write.set_group row value => PackedTable.packed_table_set_group table row value

/-- A write is in range: its rows and column exist and every value lies
between the minimum and the maximum of the column. -/
def write_in_range (n_rows n_cols : Nat) (mins maxes : List Int) : table_write → Prop
  | table_write.set_col row_ids n_row_ids col_vals col =>
    col < n_cols ∧ ∀ i, i < n_row_ids →
      row_ids.getD i 0 < n_rows ∧ mins.getD col 0 ≤ col_vals.getD i 0 ∧
      col_vals.getD i 0 ≤ maxes.getD col 0
  | table_write.set_group row _ => row < n_rows

instance (n_rows n_cols : Nat) (mins maxes : List Int) (w : table_write) :
    Decidable (write_in_range n_rows n_cols mins maxes w) := by
  cases w <;> unfold write_in_range <;> infer_instance

/-- Two tables read alike: every row has the same group in both, and every
cell of the first `n_cols` columns reads the same in both. -/
def same_reads (n_cols : Nat) (T1 T2 : PackedTable.packed_table_t) : Prop :=
  (∀ r, PackedTable.packed_table_get_group T1 r = PackedTable.packed_table_get_group T2 r) ∧
  ∀ r c, c < n_cols →
    PackedTable.packed_table_get_cell T1 r c = PackedTable.packed_table_get_cell T2 r c

/-! ## The chunks of a slice -/

namespace Tgs

/-- The chunks the `while (remaining > 0)` loop of `tgs_execute_pass` decodes
for one slice, in order: the decoded `doc_id_buf` of every round with its
`count`.  The rounds are those of `slice_loop`. -/
def slice_chunks (decode : Groups.decoder) :
    (fuel : Nat) → (remaining : Nat) → (read_addr : List Nat) → (last_value : Int) →
    List (List Nat × Nat)
  | 0, _, _, _ => []
  | fuel + 1, remaining, read_addr, last_value =>
    if remaining > 0 then
      let count := if remaining > TGS_BUFFER_SIZE then TGS_BUFFER_SIZE else remaining
      let decoded := decode read_addr count last_value
      let doc_id_buf := decoded.1
      (doc_id_buf, count) ::
        slice_chunks decode fuel (remaining - count) (read_addr.drop decoded.2)
          (doc_id_buf.getD (count - 1) 0)
    else []

/-- The call of `lookup_and_accumulate_grp_stats` that `tgs_execute_pass` makes
for one chunk. -/
def chunk_call (shard_data : PackedTable.packed_table_t) (mask : Nat) (s : accumulate_state)
    (chunk : List Nat × Nat) : accumulate_state :=
  lookup_and_accumulate_grp_stats shard_data s.group_stats chunk.1 chunk.2
    s.grp_buf s.temp_buf mask

/-- A pass of one slice of 1025 docs over `long_table` (the docs 1..1025 as
deltas of 1), which the loop of `tgs_execute_pass` reads in two chunks. -/
def two_chunk_slices : List index_slice_info :=
  [{ n_docs_in_slice := 1025, doc_slice := List.replicate 1025 1,
     packed_metrics := long_table }]

end Tgs

/-! ## The layout loop of `packed_shard_init` -/

namespace PackedShard

/-- The layout record as `packed_shard_init` allocates it (`calloc`) for
`n_metrics` columns, before `createMetricsIndexes`. -/
def init_desc (n_metrics : Nat) : packed_metric_desc :=
  { n_metrics := n_metrics, n_metrics_aux_index := 0, n_boolean_metrics := 0,
    n_vectors_per_doc := 0,
    index_metrics := List.replicate (n_metrics * 2) 0,
    metric_n_vector := List.replicate n_metrics 0,
    n_metrics_per_vector := [], unpacked_offset := [], metric_mins := [],
    shuffle_vecs_get1 := [], shuffle_vecs_get2 := [], shuffle_vecs_put := [],
    blend_vecs_put := [] }

/-- The state in which the first loop of `createMetricsIndexes` ends when it is
called from `packed_shard_init`. -/
def init_index_state (n_metrics : Nat) (metric_maxes metric_mins : List Int) :
    metrics_index_state :=
  PackedTable.for_loop (createMetricsIndexes_step metric_maxes metric_mins) n_metrics 0
    { desc := init_desc n_metrics
      metric_offset := ((PackedTable.GROUP_SIZE + MAX_BIT_FIELDS + 7) / 8 : Nat)
      n_vectors := 1 }

/-- What the first loop of `createMetricsIndexes` has established when `k` of
the `n` columns are placed: the counters, the position of the next free byte
inside the last lane, and for every placed column its recorded byte range and
lane. -/
structure metrics_inv (n : Nat) (s : metrics_index_state) (k : Nat) : Prop where
  count : s.desc.n_metrics = n
  len_index : s.desc.index_metrics.length = 2 * n
  len_lane : s.desc.metric_n_vector.length = n
  aux : s.desc.n_metrics_aux_index = k
  nb_le : s.desc.n_boolean_metrics ≤ k
  nb_max : s.desc.n_boolean_metrics ≤ 4
  lanes_pos : 1 ≤ s.n_vectors
  lanes_le : s.n_vectors ≤ k + 1
  start : k = 0 → s.metric_offset = 4 ∧ s.n_vectors = 1
  off_lo : 4 ≤ s.metric_offset
  off_lane : 16 * (s.n_vectors : Int) - 16 ≤ s.metric_offset
  off_hi : s.metric_offset ≤ 16 * (s.n_vectors : Int)
  cols : ∀ i, i < k →
    16 * s.desc.metric_n_vector.getD i 0 ≤ s.desc.index_metrics.getD (2 * i) 0 ∧
    s.desc.index_metrics.getD (2 * i) 0 ≤ s.desc.index_metrics.getD (2 * i + 1) 0 ∧
    s.desc.index_metrics.getD (2 * i + 1) 0 ≤ 16 * (s.desc.metric_n_vector.getD i 0 + 1) ∧
    s.desc.index_metrics.getD (2 * i + 1) 0 ≤ s.desc.index_metrics.getD (2 * i) 0 + 8 ∧
    (s.desc.index_metrics.getD (2 * i + 1) 0 = s.desc.index_metrics.getD (2 * i) 0
      ↔ i < s.desc.n_boolean_metrics)
  first : 0 < k →
    s.desc.index_metrics.getD 0 0 = 4 ∧ s.desc.metric_n_vector.getD 0 0 = 0
  last : 0 < k →
    ((s.desc.index_metrics.getD (2 * (k - 1) + 1) 0 : Nat) : Int) = s.metric_offset ∧
    s.desc.metric_n_vector.getD (k - 1) 0 + 1 = s.n_vectors
  adj : ∀ i, i + 1 < k →
    if s.desc.index_metrics.getD (2 * i + 1) 0
        + (s.desc.index_metrics.getD (2 * (i + 1) + 1) 0
          - s.desc.index_metrics.getD (2 * (i + 1)) 0)
        ≤ 16 * (s.desc.metric_n_vector.getD i 0 + 1)
    then s.desc.index_metrics.getD (2 * (i + 1)) 0 = s.desc.index_metrics.getD (2 * i + 1) 0 ∧
      s.desc.metric_n_vector.getD (i + 1) 0 = s.desc.metric_n_vector.getD i 0
    else s.desc.index_metrics.getD (2 * (i + 1)) 0
        = 16 * (s.desc.metric_n_vector.getD i 0 + 1) ∧
      s.desc.metric_n_vector.getD (i + 1) 0 = s.desc.metric_n_vector.getD i 0 + 1

/-- The layout of three columns of eight bytes each (range `2 ^ 62`): the
first fills bytes 4..11 of lane 0, the second would end past lane 0. -/
def wide_layout : packed_metric_desc :=
  createMetricsIndexes (init_desc 3) 3 [2 ^ 62, 2 ^ 62, 2 ^ 62] [0, 0, 0]
    ((PackedTable.GROUP_SIZE + MAX_BIT_FIELDS + 7) / 8)

end PackedShard

/-! ## The data of scenario S2 -/

/-- The table of scenario S2: 8 docs with 4 boolean columns of range `[0, 1]`;
column `k` of doc `d` holds bit `k` of `d`, and the doc has group `d mod 2`. -/
def s2_table : PackedTable.packed_table_t :=
  (List.range 8).foldl
    (fun t (d : Nat) =>
      (List.range 4).foldl
        (fun t2 (k : Nat) =>
          PackedTable.packed_table_set_cell t2 d k ((d / 2 ^ k % 2 : Nat) : Int))
        (PackedTable.packed_table_set_group t d ((d % 2 : Nat) : Int)))
    (PackedTable.packed_table_create 8 [0, 0, 0, 0] [1, 1, 1, 1] [0, 0, 0, 0] [0, 0, 0, 0]
      [0, 0, 0, 0] 4)

/-! ## Pair masks, lane by lane -/

/-- The pair mask the spec describes for one column of a lane, or for two
columns of it: bytes 0..7 gather the first column from its bytes
`[start, start + size)`, bytes 8..15 gather the second column, and a half
without a column is all `0xFF`.  A column is given as `(start, size)`. -/
def pair_mask (first : Nat × Nat) (second : Option (Nat × Nat)) : Vec128 :=
  (List.range 16).map (fun k =>
    if k < 8 then (if k < first.2 then (first.1 + k) % 256 else 255)
    else
      match second with
      | none => 255
      | some col => if k - 8 < col.2 then (col.1 + (k - 8)) % 256 else 255)

/-- The pair masks of the columns of one lane, taken two by two in column
order: mask number `p` is for the columns number `2 p` and `2 p + 1` of the
lane. -/
def lane_pairs : List (Nat × Nat) → List Vec128
  | [] => []
  | [a] => [pair_mask a none]
  | a :: b :: rest => pair_mask a (some b) :: lane_pairs rest

/-- The integer columns (`b <= c < n`) that `c2v` places in lane `v`, in
column order, each described by `col c`. -/
def lane_cols (c2v : List Nat) (b n v : Nat) (col : Nat → Nat × Nat) : List (Nat × Nat) :=
  ((List.range' b (n - b)).filter (fun c => decide (c2v.getD c 0 = v))).map col

/-- The pair masks of the lanes `0 .. n_lanes - 1`, lane after lane. -/
def all_lane_pairs (c2v : List Nat) (b n n_lanes : Nat) (col : Nat → Nat × Nat) :
    List Vec128 :=
  ((List.range n_lanes).map (fun v => lane_pairs (lane_cols c2v b n v col))).flatten

/-- The number of pair masks of the lanes before lane `v`, from the per-lane
column counts: a lane of `k` columns has `(k + 1) / 2` pair masks. -/
def pairs_before (counts : List Nat) (v : Nat) : Nat :=
  ((List.range v).map (fun u => (counts.getD u 0 + 1) / 2)).sum

/-- The pair masks a walk along the columns gives, each column given with its
lane: a column is paired with the next one when both have the same lane. -/
def pair_walk : List (Nat × (Nat × Nat)) → List Vec128
  | [] => []
  | [a] => [pair_mask a.2 none]
  | a :: b :: rest =>
    if b.1 = a.1 then pair_mask a.2 (some b.2) :: pair_walk rest
    else pair_mask a.2 none :: pair_walk (b :: rest)
termination_by l => l.length

/-! ## The row-size loop of `packed_shard_init` with checked bounds -/

namespace PackedShard

/-- The row-size loop of `packed_shard_init` (`unpacked_offset_loop`) with the
bounds of its two arrays checked: `none` when a round indexes `unpacked_offset`
or `n_metrics_per_vector` at or past its length, else what the loop returns. -/
def unpacked_offset_loop_checked (desc : packed_metric_desc) :
    (n : Nat) → (i : Nat) → (grp_stat_row_size : Nat) → List Nat → Option (List Nat × Nat)
  | 0, _, size, offs => some (offs, size)
  | n + 1, i, size, offs =>
    if i < offs.length ∧ i < desc.n_metrics_per_vector.length then
      unpacked_offset_loop_checked desc n (i + 1)
        (size + (desc.n_metrics_per_vector.getD i 0 + 1) / 2) (offs.set i (size % 256))
    else none

/-- The layout record of four columns of eight bytes each (range `2 ^ 62`) as
`packed_shard_init` holds it when its row-size loop starts: the columns lie in
lanes 0, 1, 1 and 2. -/
def three_lane_layout : packed_metric_desc :=
  createShuffleBlendFromIndexes (createShuffleVecFromIndexes
    (createMetricsIndexes (init_desc 4) 4 [2 ^ 62, 2 ^ 62, 2 ^ 62, 2 ^ 62] [0, 0, 0, 0]
      ((PackedTable.GROUP_SIZE + MAX_BIT_FIELDS + 7) / 8)))

end PackedShard

/-! ## A table of two lanes and a destination for its rows -/

/-- A table of one row and three columns of eight bytes each, the first in
lane 0 and the other two in lane 1, whose row holds the stored values 7, 8
and 9. -/
def two_lane_table : PackedTable.packed_table_t :=
  with_data
    (PackedTable.packed_table_create 1 [0, 0, 0] [9, 9, 9] [8, 8, 8] [0, 1, 1] [4, 0, 8] 3)
    [[0, 0, 0, 0, 7, 0, 0, 0, 0, 0, 0, 0, 0, 0, 0, 0],
     [8, 0, 0, 0, 0, 0, 0, 0, 9, 0, 0, 0, 0, 0, 0, 0]]

/-- An unpacked table of one zeroed row of two lanes for `two_lane_table`: the
column of packed lane 0 has slot 0, the columns of packed lane 1 have slots 2
and 3. -/
def two_lane_dest : unpacked_table_t :=
  { n_rows := 1, n_cols := 3, unpadded_row_len := 2, padded_row_len := 2,
    col_offset := [0, 2, 3], non_zero_rows := [false], data := [(0, 0), (0, 0)] }

/-! ## Helper lemmas: lists, lanes and header words -/


theorem getD_range16_map (f : Nat → Nat) (j : Nat) :
    ((List.range 16).map f).getD j 0 = if j < 16 then f j else 0 := by
  by_cases h : j < 16
  · simp [List.getD_eq_getElem?_getD, List.getElem?_map, List.getElem?_range h, h]
  · have h2 : (List.range 16).length ≤ j := by simp; omega
    simp [List.getD_eq_getElem?_getD, List.getElem?_map, h, List.getElem?_eq_none h2]

theorem land_mask_eq (v : Int) : Int.land v 0xFFFFFFF = v % 2 ^ 28 := by
  cases v with
  | ofNat n =>
    show Int.land (Int.ofNat n) (Int.ofNat 0xFFFFFFF) = _
    simp only [Int.land]
    have h : n &&& 0xFFFFFFF = n % 2 ^ 28 := Nat.and_pow_two_sub_one_eq_mod n 28
    rw [h]
    simp
  | negSucc n =>
    show Int.land (Int.negSucc n) (Int.ofNat 0xFFFFFFF) = _
    simp only [Int.land]
    have h : Nat.ldiff 0xFFFFFFF n = 2 ^ 28 - (n % 2 ^ 28 + 1) := by
      apply Nat.eq_of_testBit_eq
      intro i
      rw [Nat.testBit_ldiff, Nat.testBit_two_pow_sub_succ (Nat.mod_lt _ (by norm_num))]
      have h1 : (0xFFFFFFF : Nat) = 2 ^ 28 - 1 := by norm_num
      rw [h1, Nat.testBit_two_pow_sub_one, Nat.testBit_mod_two_pow]
      by_cases hi : i < 28 <;> simp [hi]
    rw [h]
    have h3 : n % 2 ^ 28 < 2 ^ 28 := Nat.mod_lt _ (by norm_num)
    rw [Int.negSucc_eq]
    omega

theorem getD_set_eq {α : Type} (l : List α) (i : Nat) (x d : α) (h : i < l.length) :
    (l.set i x).getD i d = x := by
  simp [List.getD_eq_getElem?_getD, List.getElem?_set, h]

theorem getD_set_ne {α : Type} (l : List α) (i j : Nat) (x d : α) (h : i ≠ j) :
    (l.set i x).getD j d = l.getD j d := by
  simp [List.getD_eq_getElem?_getD, List.getElem?_set_ne h]

theorem load_store_u32 (a : Vec128) (x : Nat) : load_u32 (store_u32 a x) = x % 2 ^ 32 := by
  simp only [load_u32, le_bytes, store_u32, getD_range16_map]
  norm_num
  omega

theorem bf_grp_set (h g : Nat) : PackedTable.bf_grp (PackedTable.bf_set_grp h g) = g % 2 ^ 28 := by
  simp only [PackedTable.bf_grp, PackedTable.bf_set_grp]
  omega

theorem bf_set_grp_lt (h g : Nat) : PackedTable.bf_set_grp h g < 2 ^ 32 := by
  simp only [PackedTable.bf_set_grp]
  omega

/-- The group stored by a header write is read back masked to 28 bits. -/
theorem grp_roundtrip (lane : Vec128) (v : Int) :
    ((PackedTable.bf_grp (load_u32 (store_u32 lane
      (PackedTable.bf_set_grp (load_u32 lane) (Int.land v 0xFFFFFFF).toNat))) : Nat) : Int)
      = Int.land v 0xFFFFFFF := by
  rw [load_store_u32, Nat.mod_eq_of_lt (bf_set_grp_lt _ _), bf_grp_set, land_mask_eq]
  have h1 : (0 : Int) ≤ v % 2 ^ 28 := Int.emod_nonneg _ (by norm_num)
  have h2 : v % 2 ^ 28 < 2 ^ 28 := Int.emod_lt_of_pos _ (by norm_num)
  omega

theorem set_group_get_group (t : PackedTable.packed_table_t) (r : Nat) (v : Int)
    (hr : r * t.row_size < t.data.length) :
    PackedTable.packed_table_get_group (PackedTable.packed_table_set_group t r v) r
      = Int.land v 0xFFFFFFF := by
  simp only [PackedTable.packed_table_get_group, PackedTable.packed_table_set_group,
    PackedTable.internal_get_group, PackedTable.internal_set_group, PackedTable.GROUP_MASK]
  rw [getD_set_eq _ _ _ _ hr]
  exact grp_roundtrip _ v

/-! ## Counted loops -/

theorem for_loop_succ_last {σ : Type} (body : Nat → σ → σ) (n lo : Nat) (s : σ) :
    PackedTable.for_loop body (n + 1) lo s
      = body (lo + n) (PackedTable.for_loop body n lo s) := by
  induction n generalizing lo s with
  | zero => simp [PackedTable.for_loop]
  | succ k ih =>
    rw [PackedTable.for_loop, ih]
    have h : lo + 1 + k = lo + (k + 1) := by omega
    rw [h]
    rfl

theorem for_loop_set_length {α : Type} (f : Nat → α) (n lo : Nat) (out : List α) :
    (PackedTable.for_loop (fun i g => g.set i (f i)) n lo out).length = out.length := by
  induction n generalizing lo out with
  | zero => simp [PackedTable.for_loop]
  | succ k ih => rw [PackedTable.for_loop, ih]; simp

theorem for_loop_set_getD {α : Type} (f : Nat → α) (n lo : Nat) (out : List α) (d : α)
    (i : Nat) (h1 : lo ≤ i) (h2 : i < lo + n) (h3 : i < out.length) :
    (PackedTable.for_loop (fun i g => g.set i (f i)) n lo out).getD i d = f i := by
  induction n with
  | zero => omega
  | succ k ih =>
    rw [for_loop_succ_last]
    by_cases h : i = lo + k
    · subst h
      rw [getD_set_eq]
      rw [for_loop_set_length]; exact h3
    · rw [getD_set_ne _ _ _ _ _ (Ne.symm h)]
      exact ih (by omega)

/-! ## Group ids of a shard -/

theorem update_group_step_layout (doc_ids : List Nat) (groups : List Int) (i : Nat)
    (s : PackedShard.packed_shard_t) :
    (PackedShard.update_group_step doc_ids groups i s).metrics_layout = s.metrics_layout
    ∧ (PackedShard.update_group_step doc_ids groups i s).groups_and_metrics.length
        = s.groups_and_metrics.length := by
  simp [PackedShard.update_group_step]

theorem update_groups_layout (doc_ids : List Nat) (groups : List Int) (n lo : Nat)
    (s : PackedShard.packed_shard_t) :
    (PackedTable.for_loop (PackedShard.update_group_step doc_ids groups) n lo s).metrics_layout
        = s.metrics_layout
    ∧ (PackedTable.for_loop (PackedShard.update_group_step doc_ids groups) n lo
        s).groups_and_metrics.length = s.groups_and_metrics.length := by
  induction n with
  | zero => simp [PackedTable.for_loop]
  | succ k ih =>
    rw [for_loop_succ_last]
    have h := update_group_step_layout doc_ids groups (lo + k)
      (PackedTable.for_loop (PackedShard.update_group_step doc_ids groups) k lo s)
    exact ⟨h.1.trans ih.1, h.2.trans ih.2⟩

/-- After the update loop over positions `lo .. lo + n - 1`, the header of the
row of `doc_ids[i]` holds `groups[i] & GROUP_MASK`, when no later position
names the same doc. -/
theorem update_groups_grp (doc_ids : List Nat) (groups : List Int) (n lo : Nat)
    (s : PackedShard.packed_shard_t) (i : Nat) (h1 : lo ≤ i) (h2 : i < lo + n)
    (hpos : 0 < s.metrics_layout.n_vectors_per_doc)
    (hrow : doc_ids.getD i 0 * s.metrics_layout.n_vectors_per_doc
      < s.groups_and_metrics.length)
    (hlast : ∀ j, i < j → j < lo + n → doc_ids.getD j 0 ≠ doc_ids.getD i 0) :
    ((PackedTable.bf_grp (load_u32
      ((PackedTable.for_loop (PackedShard.update_group_step doc_ids groups) n lo
        s).groups_and_metrics.getD
        (doc_ids.getD i 0 * s.metrics_layout.n_vectors_per_doc + 0) zero_vec)) : Nat) : Int)
      = Int.land (groups.getD i 0) 0xFFFFFFF := by
  induction n with
  | zero => omega
  | succ k ih =>
    rw [for_loop_succ_last]
    have hl := update_groups_layout doc_ids groups k lo s
    by_cases h : i = lo + k
    · subst h
      simp only [PackedShard.update_group_step, hl.1, PackedShard.GROUP_MASK]
      rw [getD_set_eq]
      · exact grp_roundtrip _ _
      · rw [hl.2]; simpa using hrow
    · have hne : doc_ids.getD (lo + k) 0 ≠ doc_ids.getD i 0 :=
        hlast (lo + k) (by omega) (by omega)
      simp only [PackedShard.update_group_step, hl.1]
      rw [getD_set_ne]
      · exact ih (by omega) (fun j hj1 hj2 => hlast j hj1 (by omega))
      · intro heq
        apply hne
        simp only [Nat.add_zero] at heq
        exact Nat.eq_of_mul_eq_mul_right hpos heq

/-- C4. Group mask: after `packed_table_set_group (table, r, v)`,
`packed_table_get_group (table, r)` returns `v & 0x0FFFFFFF`, for every row of
the table and every integer `v`; and after `packed_shard_update_groups`,
`packed_shard_lookup_groups` returns `groups[i] & 0x0FFFFFFF` for the doc at
every position `i` of the list that no later position overwrites. -/
theorem C4_group_mask_roundtrip :
    (∀ (t : PackedTable.packed_table_t) (r : Nat) (v : Int),
      r * t.row_size < t.data.length →
      PackedTable.packed_table_get_group (PackedTable.packed_table_set_group t r v) r
        = Int.land v 0x0FFFFFFF)
    ∧ (∀ (shard : PackedShard.packed_shard_t) (doc_ids : List Nat) (groups out : List Int)
        (n i : Nat),
      i < n → n ≤ out.length →
      0 < shard.metrics_layout.n_vectors_per_doc →
      doc_ids.getD i 0 * shard.metrics_layout.n_vectors_per_doc
        < shard.groups_and_metrics.length →
      (∀ j, i < j → j < n → doc_ids.getD j 0 ≠ doc_ids.getD i 0) →
      (PackedShard.packed_shard_lookup_groups
        (PackedShard.packed_shard_update_groups shard doc_ids n groups) doc_ids n out).getD i 0
        = Int.land (groups.getD i 0) 0x0FFFFFFF) := by
  refine ⟨fun t r v hr => set_group_get_group t r v hr, ?_⟩
  intro shard doc_ids groups out n i hi hout hpos hrow hlast
  simp only [PackedShard.packed_shard_lookup_groups, PackedShard.packed_shard_update_groups]
  rw [for_loop_set_getD _ _ _ _ _ i (Nat.zero_le _) (by omega) (by omega)]
  have hl := update_groups_layout doc_ids groups n 0 shard
  rw [hl.1]
  exact update_groups_grp doc_ids groups n 0 shard i (Nat.zero_le _) (by omega) hpos hrow
    (fun j hj1 hj2 => hlast j hj1 (by omega))

/-! ## The remap loop -/

namespace Groups

theorem remap_loop_cons (t : PackedTable.packed_table_t) (R : List Int) (p : Int)
    (d : Nat) (rest : List Nat) (res : List Int) :
    multi_remap_loop t R p (d :: rest) res
      = if remap_conflict t p res d then (-1, res)
        else multi_remap_loop t R p rest (remap_step t R res d) := by
  simp only [multi_remap_loop, remap_conflict, remap_step]
  by_cases hg : PackedTable.packed_table_get_group t d ≠ 0
  · by_cases hc : p > 0 ∧ res.getD d 0 ≠ p
    · rw [if_pos hg, if_pos hc, if_pos ⟨hg, hc⟩]
    · have hc3 : ¬ (PackedTable.packed_table_get_group t d ≠ 0 ∧ p > 0 ∧ res.getD d 0 ≠ p) :=
        fun h => hc h.2
      rw [if_pos hg, if_neg hc, if_neg hc3, if_pos hg]
      by_cases hlt : res.getD d 0
          < R.getD (PackedTable.packed_table_get_group t d).toNat 0
      · rw [if_pos hlt, min_eq_left (le_of_lt hlt)]
      · rw [if_neg hlt, min_eq_right (not_lt.mp hlt)]
  · have hc3 : ¬ (PackedTable.packed_table_get_group t d ≠ 0 ∧ p > 0 ∧ res.getD d 0 ≠ p) :=
      fun h => hg h.1
    rw [if_neg hg, if_neg hc3, if_neg hg]


theorem remap_step_length (t : PackedTable.packed_table_t) (R : List Int) (res : List Int)
    (d : Nat) : (remap_step t R res d).length = res.length := by
  unfold remap_step; split <;> simp

theorem remap_step_getD_ne (t : PackedTable.packed_table_t) (R : List Int) (res : List Int)
    (d e : Nat) (h : d ≠ e) : (remap_step t R res d).getD e 0 = res.getD e 0 := by
  unfold remap_step
  split
  · exact getD_set_ne _ _ _ _ _ h
  · rfl

theorem remap_step_getD_eq (t : PackedTable.packed_table_t) (R : List Int) (res : List Int)
    (d : Nat) (h : d < res.length) :
    (remap_step t R res d).getD d 0
      = if PackedTable.packed_table_get_group t d ≠ 0 then
          min (res.getD d 0) (R.getD (PackedTable.packed_table_get_group t d).toNat 0)
        else res.getD d 0 := by
  unfold remap_step
  split
  · exact getD_set_eq _ _ _ _ h
  · rfl

theorem remap_loop_length (t : PackedTable.packed_table_t) (R : List Int) (p : Int)
    (l : List Nat) (res : List Int) :
    (multi_remap_loop t R p l res).2.length = res.length := by
  induction l generalizing res with
  | nil => rfl
  | cons d rest ih =>
    rw [remap_loop_cons]
    split
    · rfl
    · rw [ih, remap_step_length]

theorem remap_loop_status (t : PackedTable.packed_table_t) (R : List Int) (p : Int)
    (l : List Nat) (res : List Int) :
    (multi_remap_loop t R p l res).1 = -1 ∨ (multi_remap_loop t R p l res).1 = 0 := by
  induction l generalizing res with
  | nil => right; rfl
  | cons d rest ih =>
    rw [remap_loop_cons]
    split
    · left; rfl
    · exact ih _

/-- Docs that are not visited keep their entry, whatever the outcome. -/
theorem remap_loop_frame (t : PackedTable.packed_table_t) (R : List Int) (p : Int)
    (l : List Nat) (res : List Int) (e : Nat) (he : e ∉ l) :
    (multi_remap_loop t R p l res).2.getD e 0 = res.getD e 0 := by
  induction l generalizing res with
  | nil => rfl
  | cons d rest ih =>
    rw [remap_loop_cons]
    have h1 : d ≠ e := fun h => he (by simp [h])
    have h2 : e ∉ rest := fun h => he (by simp [h])
    split
    · rfl
    · rw [ih _ h2, remap_step_getD_ne _ _ _ _ _ h1]

/-- With no placeholder in force the loop succeeds and computes the minimum
rule for every visited doc that has a group. -/
theorem remap_loop_nonpos (t : PackedTable.packed_table_t) (R : List Int) (p : Int)
    (hp : p ≤ 0) (l : List Nat) (res : List Int) (hin : ∀ d ∈ l, d < res.length) :
    (multi_remap_loop t R p l res).1 = 0 ∧
    ∀ e, (multi_remap_loop t R p l res).2.getD e 0
      = if e ∈ l ∧ PackedTable.packed_table_get_group t e ≠ 0 then
          min (res.getD e 0) (R.getD (PackedTable.packed_table_get_group t e).toNat 0)
        else res.getD e 0 := by
  induction l generalizing res with
  | nil => exact ⟨rfl, fun e => by simp [multi_remap_loop]⟩
  | cons d rest ih =>
    rw [remap_loop_cons]
    have hnc : ¬ remap_conflict t p res d := fun h => by
      have := h.2.1
      omega
    rw [if_neg hnc]
    have hd : d < res.length := hin d (by simp)
    have hin2 : ∀ x ∈ rest, x < (remap_step t R res d).length := fun x hx => by
      rw [remap_step_length]; exact hin x (by simp [hx])
    obtain ⟨h0, hval⟩ := ih (remap_step t R res d) hin2
    refine ⟨h0, fun e => ?_⟩
    rw [hval e]
    by_cases hed : e = d
    · subst hed
      rw [remap_step_getD_eq _ _ _ _ hd]
      by_cases hg : PackedTable.packed_table_get_group t e ≠ 0
      · by_cases hm : e ∈ rest
        · simp only [hm, hg, List.mem_cons, true_or, and_self, if_true, ne_eq,
            not_false_eq_true]
          rw [min_assoc, min_self]
        · simp [hm, hg]
      · simp [hg]
    · rw [remap_step_getD_ne _ _ _ _ _ (Ne.symm hed)]
      simp [hed]


/-- The first conflict decides the status: the loop fails exactly when some
position is reached without failure and is in conflict there. -/
theorem remap_loop_fails_iff (t : PackedTable.packed_table_t) (R : List Int) (p : Int)
    (l : List Nat) (res : List Int) :
    (multi_remap_loop t R p l res).1 = -1 ↔
      ∃ i, i < l.length ∧ (multi_remap_loop t R p (l.take i) res).1 = 0 ∧
        remap_conflict t p (multi_remap_loop t R p (l.take i) res).2 (l.getD i 0) := by
  induction l generalizing res with
  | nil => simp [multi_remap_loop]
  | cons d rest ih =>
    rw [remap_loop_cons]
    by_cases hc : remap_conflict t p res d
    · rw [if_pos hc]
      refine ⟨fun _ => ⟨0, by simp, by simp [multi_remap_loop], ?_⟩, fun _ => rfl⟩
      simpa [multi_remap_loop] using hc
    · rw [if_neg hc, ih]
      constructor
      · rintro ⟨i, hi, h0, hcf⟩
        refine ⟨i + 1, by simpa using hi, ?_, ?_⟩
        · rw [List.take_succ_cons, remap_loop_cons, if_neg hc]; exact h0
        · rw [List.take_succ_cons, remap_loop_cons, if_neg hc]
          simpa using hcf
      · rintro ⟨i, hi, h0, hcf⟩
        cases i with
        | zero =>
          exfalso; apply hc
          simpa [multi_remap_loop] using hcf
        | succ j =>
          rw [List.take_succ_cons, remap_loop_cons, if_neg hc] at h0 hcf
          refine ⟨j, by simpa using hi, h0, ?_⟩
          simpa using hcf

/-- When the loop fails, its final `results` is the state at the first
conflict. -/
theorem remap_loop_fails_state (t : PackedTable.packed_table_t) (R : List Int) (p : Int)
    (l : List Nat) (res : List Int) (hf : (multi_remap_loop t R p l res).1 = -1) :
    ∃ i, i < l.length ∧ (multi_remap_loop t R p (l.take i) res).1 = 0 ∧
      remap_conflict t p (multi_remap_loop t R p (l.take i) res).2 (l.getD i 0) ∧
      (multi_remap_loop t R p l res).2 = (multi_remap_loop t R p (l.take i) res).2 := by
  induction l generalizing res with
  | nil => simp [multi_remap_loop] at hf
  | cons d rest ih =>
    rw [remap_loop_cons] at hf ⊢
    by_cases hc : remap_conflict t p res d
    · rw [if_pos hc]
      refine ⟨0, by simp, by simp [multi_remap_loop], ?_, by simp [multi_remap_loop]⟩
      simpa [multi_remap_loop] using hc
    · rw [if_neg hc] at hf ⊢
      obtain ⟨i, hi, h0, hcf, hst⟩ := ih _ hf
      refine ⟨i + 1, by simpa using hi, ?_, ?_, ?_⟩
      · rw [List.take_succ_cons, remap_loop_cons, if_neg hc]; exact h0
      · rw [List.take_succ_cons, remap_loop_cons, if_neg hc]
        simpa using hcf
      · rw [List.take_succ_cons, remap_loop_cons, if_neg hc]; exact hst

theorem list_eq_of_getD_eq (l1 l2 : List Int) (hlen : l1.length = l2.length)
    (h : ∀ e, l1.getD e 0 = l2.getD e 0) : l1 = l2 := by
  apply List.ext_getElem hlen
  intro n h1 h2
  have := h n
  simpa [List.getD_eq_getElem?_getD, List.getElem?_eq_getElem h1,
    List.getElem?_eq_getElem h2] using this


theorem take_take_of_le (l : List Nat) (i n : Nat) (h : i ≤ n) :
    (l.take n).take i = l.take i := by
  rw [List.take_take, Nat.min_eq_left h]

theorem getD_take_of_lt (l : List Nat) (i n : Nat) (h : i < n) :
    (l.take n).getD i 0 = l.getD i 0 := by
  simp [List.getD_eq_getElem?_getD, List.getElem?_take, h]

/-- The minimum rule for `multi_remap_core` when no placeholder is in force. -/
theorem remap_core_nonpos (t : PackedTable.packed_table_t) (results : List Int)
    (doc_ids : List Nat) (n_docs : Nat) (remappings : List Int) (placeholder : Int)
    (hp : placeholder ≤ 0) (hin : ∀ d ∈ doc_ids.take n_docs, d < results.length) :
    (multi_remap_core t results doc_ids n_docs remappings placeholder).1 = 0 ∧
    (multi_remap_core t results doc_ids n_docs remappings placeholder).2.length
      = results.length ∧
    ∀ d, (multi_remap_core t results doc_ids n_docs remappings placeholder).2.getD d 0
      = if d ∈ doc_ids.take n_docs ∧ PackedTable.packed_table_get_group t d ≠ 0 then
          min (results.getD d 0)
            (remappings.getD (PackedTable.packed_table_get_group t d).toNat 0)
        else results.getD d 0 := by
  have h := remap_loop_nonpos t remappings placeholder hp (doc_ids.take n_docs) results hin
  exact ⟨h.1, remap_loop_length _ _ _ _ _, h.2⟩

/-- C5. With `placeholder <= 0`, `multi_remap_core` returns 0 and leaves
`results[d] = min (previous results[d], remappings[get_group (d)])` for every
listed doc `d` whose group is non-zero, and every other entry of `results`
(docs of group 0, docs not listed) unchanged. -/
theorem C5_remap_min_rule (t : PackedTable.packed_table_t) (results : List Int)
    (doc_ids : List Nat) (n_docs : Nat) (remappings : List Int) (placeholder : Int)
    (hp : placeholder ≤ 0) (hin : ∀ d ∈ doc_ids.take n_docs, d < results.length) :
    (multi_remap_core t results doc_ids n_docs remappings placeholder).1 = 0 ∧
    (multi_remap_core t results doc_ids n_docs remappings placeholder).2.length
      = results.length ∧
    ∀ d, (multi_remap_core t results doc_ids n_docs remappings placeholder).2.getD d 0
      = if d ∈ doc_ids.take n_docs ∧ PackedTable.packed_table_get_group t d ≠ 0 then
          min (results.getD d 0)
            (remappings.getD (PackedTable.packed_table_get_group t d).toNat 0)
        else results.getD d 0 :=
  remap_core_nonpos t results doc_ids n_docs remappings placeholder hp hin

/-- C5 at the data of scenario S4 with `results` seeded to 100. -/
theorem C5_remap_min_rule_witness :
    (multi_remap_core s4_doc_id_group [100, 100, 100, 100, 100, 100] [0, 1, 2, 3, 4, 5] 6
      [0, 10, 20, 30] 0).1 = 0 ∧
    ((multi_remap_core s4_doc_id_group [100, 100, 100, 100, 100, 100] [0, 1, 2, 3, 4, 5] 6
      [0, 10, 20, 30] 0).2.getD 4 0
      = if 4 ∈ [0, 1, 2, 3, 4, 5].take 6 ∧
            PackedTable.packed_table_get_group s4_doc_id_group 4 ≠ 0 then
          min ([100, 100, 100, 100, 100, 100].getD 4 0)
            ([0, 10, 20, 30].getD (PackedTable.packed_table_get_group s4_doc_id_group 4).toNat 0)
        else [100, 100, 100, 100, 100, 100].getD 4 0) ∧
    multi_remap_core s4_doc_id_group [100, 100, 100, 100, 100, 100] [0, 1, 2, 3, 4, 5] 6
      [0, 10, 20, 30] 0 = (0, [100, 10, 20, 30, 10, 20]) :=
  ⟨(C5_remap_min_rule s4_doc_id_group [100, 100, 100, 100, 100, 100] [0, 1, 2, 3, 4, 5] 6
      [0, 10, 20, 30] 0 (by decide) (by decide)).1,
   (C5_remap_min_rule s4_doc_id_group [100, 100, 100, 100, 100, 100] [0, 1, 2, 3, 4, 5] 6
      [0, 10, 20, 30] 0 (by decide) (by decide)).2.2 4,
   by decide⟩


/-- C7. `multi_remap_core` returns -1 if and only if `placeholder > 0` and the
scan reaches (without failing earlier) a position whose doc has a non-zero
group and whose current `results` entry differs from `placeholder`; in every
other case it returns 0. -/
theorem C7_remap_fails_iff_conflict (t : PackedTable.packed_table_t) (results : List Int)
    (doc_ids : List Nat) (n_docs : Nat) (remappings : List Int) (placeholder : Int) :
    ((multi_remap_core t results doc_ids n_docs remappings placeholder).1 = -1 ↔
      (placeholder > 0 ∧ ∃ i, i < n_docs ∧ i < doc_ids.length ∧
        (multi_remap_core t results doc_ids i remappings placeholder).1 = 0 ∧
        PackedTable.packed_table_get_group t (doc_ids.getD i 0) ≠ 0 ∧
        (multi_remap_core t results doc_ids i remappings placeholder).2.getD
          (doc_ids.getD i 0) 0 ≠ placeholder)) ∧
    ((multi_remap_core t results doc_ids n_docs remappings placeholder).1 ≠ -1 →
      (multi_remap_core t results doc_ids n_docs remappings placeholder).1 = 0) := by
  constructor
  · unfold multi_remap_core
    rw [remap_loop_fails_iff]
    constructor
    · rintro ⟨i, hi, h0, hc⟩
      have hi2 : i < n_docs ∧ i < doc_ids.length := by
        simpa [List.length_take] using hi
      rw [take_take_of_le _ _ _ (le_of_lt hi2.1)] at h0 hc
      rw [getD_take_of_lt _ _ _ hi2.1] at hc
      exact ⟨hc.2.1, i, hi2.1, hi2.2, h0, hc.1, hc.2.2⟩
    · rintro ⟨hp, i, hi1, hi2, h0, hg, hne⟩
      refine ⟨i, by simp [List.length_take]; omega, ?_, ?_⟩
      · rw [take_take_of_le _ _ _ (le_of_lt hi1)]; exact h0
      · rw [take_take_of_le _ _ _ (le_of_lt hi1), getD_take_of_lt _ _ _ hi1]
        exact ⟨hg, hp, hne⟩
  · intro h
    rcases remap_loop_status t remappings placeholder (doc_ids.take n_docs) results with h1 | h1
    · exact absurd h1 h
    · exact h1

/-- C9. When `multi_remap_core` fails with -1, the final `results` is the
state in which the conflicting position was reached (nothing is written at the
conflict or after it), and every doc not visited before the conflict has its
entry unchanged. -/
theorem C9_no_writes_after_conflict (t : PackedTable.packed_table_t) (results : List Int)
    (doc_ids : List Nat) (n_docs : Nat) (remappings : List Int) (placeholder : Int)
    (hf : (multi_remap_core t results doc_ids n_docs remappings placeholder).1 = -1) :
    ∃ i, i < n_docs ∧ i < doc_ids.length ∧
      (multi_remap_core t results doc_ids i remappings placeholder).1 = 0 ∧
      (PackedTable.packed_table_get_group t (doc_ids.getD i 0) ≠ 0 ∧ placeholder > 0 ∧
        (multi_remap_core t results doc_ids i remappings placeholder).2.getD
          (doc_ids.getD i 0) 0 ≠ placeholder) ∧
      (multi_remap_core t results doc_ids n_docs remappings placeholder).2
        = (multi_remap_core t results doc_ids i remappings placeholder).2 ∧
      ∀ d, d ∉ doc_ids.take i →
        (multi_remap_core t results doc_ids n_docs remappings placeholder).2.getD d 0
          = results.getD d 0 := by
  unfold multi_remap_core at hf ⊢
  obtain ⟨i, hi, h0, hc, hst⟩ := remap_loop_fails_state _ _ _ _ _ hf
  have hi2 : i < n_docs ∧ i < doc_ids.length := by
    simpa [List.length_take] using hi
  rw [take_take_of_le _ _ _ (le_of_lt hi2.1)] at h0 hc hst
  rw [getD_take_of_lt _ _ _ hi2.1] at hc
  refine ⟨i, hi2.1, hi2.2, h0, hc, hst, fun d hd => ?_⟩
  rw [hst]
  exact remap_loop_frame _ _ _ _ _ _ hd

/-- C9 at scenario S5: placeholder 99, `results[0] = 99`, `results[1] = 10`; the
call returns -1 and leaves `results` exactly as it was. -/
theorem C9_no_writes_after_conflict_witness :
    (∃ i, i < 6 ∧ i < [0, 1, 2, 3, 4, 5].length ∧
      (multi_remap_core s4_doc_id_group [99, 10, 0, 0, 0, 0] [0, 1, 2, 3, 4, 5] i
        [0, 10, 20, 30] 99).1 = 0 ∧
      (PackedTable.packed_table_get_group s4_doc_id_group ([0, 1, 2, 3, 4, 5].getD i 0) ≠ 0 ∧
        (99 : Int) > 0 ∧
        (multi_remap_core s4_doc_id_group [99, 10, 0, 0, 0, 0] [0, 1, 2, 3, 4, 5] i
          [0, 10, 20, 30] 99).2.getD ([0, 1, 2, 3, 4, 5].getD i 0) 0 ≠ 99) ∧
      (multi_remap_core s4_doc_id_group [99, 10, 0, 0, 0, 0] [0, 1, 2, 3, 4, 5] 6
          [0, 10, 20, 30] 99).2
        = (multi_remap_core s4_doc_id_group [99, 10, 0, 0, 0, 0] [0, 1, 2, 3, 4, 5] i
          [0, 10, 20, 30] 99).2 ∧
      ∀ d, d ∉ [0, 1, 2, 3, 4, 5].take i →
        (multi_remap_core s4_doc_id_group [99, 10, 0, 0, 0, 0] [0, 1, 2, 3, 4, 5] 6
          [0, 10, 20, 30] 99).2.getD d 0 = [99, 10, 0, 0, 0, 0].getD d 0) ∧
    multi_remap_core s4_doc_id_group [99, 10, 0, 0, 0, 0] [0, 1, 2, 3, 4, 5] 6
      [0, 10, 20, 30] 99 = (-1, [99, 10, 0, 0, 0, 0]) :=
  ⟨C9_no_writes_after_conflict s4_doc_id_group [99, 10, 0, 0, 0, 0] [0, 1, 2, 3, 4, 5] 6
    [0, 10, 20, 30] 99 (by decide), by decide⟩

/-- C10. With `placeholder <= 0`, remapping the same docs with `R1` then `R2`
gives the same status and `results` as `R2` then `R1`, namely
`min (initial results[d], R1[g (d)], R2[g (d)])` for every listed doc `d` with
non-zero group `g (d)`. -/
theorem C10_remap_order_irrelevant (t : PackedTable.packed_table_t) (results : List Int)
    (doc_ids : List Nat) (n_docs : Nat) (R1 R2 : List Int) (placeholder : Int)
    (hp : placeholder ≤ 0) (hin : ∀ d ∈ doc_ids.take n_docs, d < results.length) :
    multi_remap_core t (multi_remap_core t results doc_ids n_docs R1 placeholder).2
        doc_ids n_docs R2 placeholder
      = multi_remap_core t (multi_remap_core t results doc_ids n_docs R2 placeholder).2
        doc_ids n_docs R1 placeholder ∧
    ∀ d ∈ doc_ids.take n_docs, PackedTable.packed_table_get_group t d ≠ 0 →
      (multi_remap_core t (multi_remap_core t results doc_ids n_docs R1 placeholder).2
        doc_ids n_docs R2 placeholder).2.getD d 0
        = min (min (results.getD d 0)
            (R1.getD (PackedTable.packed_table_get_group t d).toNat 0))
          (R2.getD (PackedTable.packed_table_get_group t d).toNat 0) := by
  have a1 := remap_core_nonpos t results doc_ids n_docs R1 placeholder hp hin
  have a2 := remap_core_nonpos t results doc_ids n_docs R2 placeholder hp hin
  have b1 := remap_core_nonpos t (multi_remap_core t results doc_ids n_docs R1 placeholder).2
    doc_ids n_docs R2 placeholder hp (by rw [a1.2.1]; exact hin)
  have b2 := remap_core_nonpos t (multi_remap_core t results doc_ids n_docs R2 placeholder).2
    doc_ids n_docs R1 placeholder hp (by rw [a2.2.1]; exact hin)
  constructor
  · apply Prod.ext
    · rw [b1.1, b2.1]
    · apply list_eq_of_getD_eq
      · rw [b1.2.1, b2.2.1, a1.2.1, a2.2.1]
      · intro e
        rw [b1.2.2 e, b2.2.2 e, a1.2.2 e, a2.2.2 e]
        split
        · rw [min_assoc, min_assoc]
          congr 1
          exact min_comm _ _
        · rfl
  · intro d hd hg
    rw [b1.2.2 d, if_pos ⟨hd, hg⟩, a1.2.2 d, if_pos ⟨hd, hg⟩]

/-- C10 at the data of scenario S4: from `[_, 10, 20, 30, 10, 20]`, remappings
`[_, 5, 25, 35]` yield `[_, 5, 20, 30, 5, 20]`, in either order of the two
tables. -/
theorem C10_remap_order_irrelevant_witness :
    (multi_remap_core s4_doc_id_group
        (multi_remap_core s4_doc_id_group [100, 100, 100, 100, 100, 100]
          [0, 1, 2, 3, 4, 5] 6 [0, 10, 20, 30] 0).2
        [0, 1, 2, 3, 4, 5] 6 [0, 5, 25, 35] 0
      = multi_remap_core s4_doc_id_group
        (multi_remap_core s4_doc_id_group [100, 100, 100, 100, 100, 100]
          [0, 1, 2, 3, 4, 5] 6 [0, 5, 25, 35] 0).2
        [0, 1, 2, 3, 4, 5] 6 [0, 10, 20, 30] 0) ∧
    multi_remap_core s4_doc_id_group [0, 10, 20, 30, 10, 20] [0, 1, 2, 3, 4, 5] 6
      [0, 5, 25, 35] 0 = (0, [0, 5, 20, 30, 5, 20]) ∧
    multi_remap_core s4_doc_id_group [0, 5, 20, 30, 5, 20] [0, 1, 2, 3, 4, 5] 6
      [0, 10, 20, 30] 0 = (0, [0, 5, 20, 30, 5, 20]) :=
  ⟨(C10_remap_order_irrelevant s4_doc_id_group [100, 100, 100, 100, 100, 100]
      [0, 1, 2, 3, 4, 5] 6 [0, 10, 20, 30] [0, 5, 25, 35] 0 (by decide) (by decide)).1,
   by decide, by decide⟩

/-- C6 (evaluation). `remap_docs_in_target_groups` starts with
`n_docs_remaining = 0`, so its loop body never runs: for every stream it
returns 0 and leaves `results` untouched.  On the data of scenario S5, where
`multi_remap_core` over the decoded list `[0, 1, 2, 3, 4, 5]` returns -1, it
returns 0; on the data of S4 seeded with 100 it leaves the seed in place. -/
theorem C6_remap_docs_never_decodes :
    (∀ (decode : decoder) (t : PackedTable.packed_table_t) (results : List Int)
        (stream : List Nat) (remappings : List Int) (placeholder : Int),
      remap_docs_in_target_groups decode t results stream remappings placeholder
        = (0, results)) ∧
    (delta_decode [0, 1, 1, 1, 1, 1] 6 0).1 = [0, 1, 2, 3, 4, 5] ∧
    (multi_remap_core s4_doc_id_group [99, 10, 0, 0, 0, 0]
      (delta_decode [0, 1, 1, 1, 1, 1] 6 0).1 6 [0, 10, 20, 30] 99).1 = -1 ∧
    (remap_docs_in_target_groups delta_decode s4_doc_id_group [99, 10, 0, 0, 0, 0]
      [0, 1, 1, 1, 1, 1] [0, 10, 20, 30] 99).1 = 0 ∧
    (multi_remap_core s4_doc_id_group [100, 100, 100, 100, 100, 100]
      (delta_decode [0, 1, 1, 1, 1, 1] 6 0).1 6 [0, 10, 20, 30] 0).2
      = [100, 10, 20, 30, 10, 20] ∧
    (remap_docs_in_target_groups delta_decode s4_doc_id_group
      [100, 100, 100, 100, 100, 100] [0, 1, 1, 1, 1, 1] [0, 10, 20, 30] 0).2
      = [100, 100, 100, 100, 100, 100] :=
  ⟨fun _ _ _ _ _ _ => rfl, by decide, by decide, by decide, by decide, by decide⟩

/-- C8 (as stated, refuted). With groups `[0, 1, 2, 3, 1, 2]`, remappings
`[_, 10, 20, 30]`, placeholder 0 and `results` initialised to 0, entries 1..5
of `results` after the remap are not `10, 20, 30, 10, 20`. -/
theorem C8_zero_seed_counterexample :
    ¬ ((multi_remap_core s4_doc_id_group [0, 0, 0, 0, 0, 0] [0, 1, 2, 3, 4, 5] 6
        [0, 10, 20, 30] 0).2.drop 1 = [10, 20, 30, 10, 20]) := by
  decide

theorem s4_groups :
    PackedTable.packed_table_get_group s4_doc_id_group 0 = 0 ∧
    PackedTable.packed_table_get_group s4_doc_id_group 1 = 1 ∧
    PackedTable.packed_table_get_group s4_doc_id_group 2 = 2 ∧
    PackedTable.packed_table_get_group s4_doc_id_group 3 = 3 ∧
    PackedTable.packed_table_get_group s4_doc_id_group 4 = 1 ∧
    PackedTable.packed_table_get_group s4_doc_id_group 5 = 2 := by
  decide

/-- C8 (amended). On the data of scenario S4 (groups `[0, 1, 2, 3, 1, 2]`,
remappings `[_, 10, 20, 30]`, placeholder 0), `multi_remap_core` over docs 0..5
returns 0; with `results` initialised to 0 it leaves every entry 0, and with
`results` initialised to any `m >= 30` it leaves `[m, 10, 20, 30, 10, 20]`. -/
theorem C8_remap_scenario_s4 (m : Int) (hm : 30 ≤ m) :
    multi_remap_core s4_doc_id_group [0, 0, 0, 0, 0, 0] [0, 1, 2, 3, 4, 5] 6
      [0, 10, 20, 30] 0 = (0, [0, 0, 0, 0, 0, 0]) ∧
    multi_remap_core s4_doc_id_group [m, m, m, m, m, m] [0, 1, 2, 3, 4, 5] 6
      [0, 10, 20, 30] 0 = (0, [m, 10, 20, 30, 10, 20]) := by
  refine ⟨by decide, ?_⟩
  obtain ⟨g0, g1, g2, g3, g4, g5⟩ := s4_groups
  have c : ∀ (res : List Int) (d : Nat), ¬ remap_conflict s4_doc_id_group 0 res d :=
    fun res d h => absurd h.2.1 (by decide)
  have e1 : min m 10 = 10 := min_eq_right (by omega)
  have e2 : min m 20 = 20 := min_eq_right (by omega)
  have e3 : min m 30 = 30 := min_eq_right (by omega)
  have hnil : ∀ res : List Int,
      multi_remap_loop s4_doc_id_group [0, 10, 20, 30] 0 [] res = (0, res) := fun _ => rfl
  simp only [multi_remap_core, List.take, remap_loop_cons, c, if_false, remap_step,
    g0, g1, g2, g3, g4, g5, ne_eq, not_true_eq_false, one_ne_zero, not_false_eq_true,
    if_true, OfNat.ofNat_ne_zero, hnil, List.getD_cons_zero, List.getD_cons_succ,
    List.set_cons_zero, List.set_cons_succ, Int.toNat_one, Int.toNat_ofNat, e1, e2, e3]
  have t2 : Int.toNat 2 = 2 := rfl
  have t3 : Int.toNat 3 = 3 := rfl
  simp only [t2, t3, List.getD_cons_zero, List.getD_cons_succ, e2, e3]

/-- C8 (amended) at `m = 2147483647`, the largest `int`. -/
theorem C8_remap_scenario_s4_witness :
    (30 : Int) ≤ 2147483647 ∧
    multi_remap_core s4_doc_id_group [0, 0, 0, 0, 0, 0] [0, 1, 2, 3, 4, 5] 6
      [0, 10, 20, 30] 0 = (0, [0, 0, 0, 0, 0, 0]) ∧
    multi_remap_core s4_doc_id_group
      [2147483647, 2147483647, 2147483647, 2147483647, 2147483647, 2147483647]
      [0, 1, 2, 3, 4, 5] 6 [0, 10, 20, 30] 0
      = (0, [2147483647, 10, 20, 30, 10, 20]) :=
  ⟨by decide, C8_remap_scenario_s4 2147483647 (by decide)⟩

end Groups

/-- C4 at a row of the scenario table with `v = -7`, and at a two-doc shard
updated with the list `[1, 0]` and the groups `[5, -1]`. -/
theorem C4_group_mask_roundtrip_witness :
    PackedTable.packed_table_get_group
        (PackedTable.packed_table_set_group s4_doc_id_group 3 (-7)) 3
      = Int.land (-7) 0x0FFFFFFF ∧
    (PackedShard.packed_shard_lookup_groups
        (PackedShard.packed_shard_update_groups two_doc_shard [1, 0] 2 [5, -1])
        [1, 0] 2 [0, 0]).getD 1 0
      = Int.land (([5, -1] : List Int).getD 1 0) 0x0FFFFFFF :=
  ⟨C4_group_mask_roundtrip.1 s4_doc_id_group 3 (-7) (by decide),
   C4_group_mask_roundtrip.2 two_doc_shard [1, 0] [5, -1] [0, 0] 2 1 (by decide) (by decide)
     (by decide) (by decide) (fun j h1 h2 => absurd h2 (by omega))⟩



/-! ## Scatter, blend and gather on one lane -/

theorem le_bytes_eq_mod (a : Vec128) (X size n : Nat)
    (h : ∀ k, k < n → a.getD k 0 = if k < size then X / 256 ^ k % 256 else 0) :
    le_bytes a n = X % 256 ^ (min n size) := by
  induction n with
  | zero => simp [le_bytes, Nat.mod_one]
  | succ m ih =>
    have ihm := ih (fun k hk => h k (by omega))
    rw [le_bytes, ihm, h m (by omega)]
    by_cases hm : m < size
    · rw [if_pos hm, Nat.min_eq_left (le_of_lt hm), Nat.min_eq_left (by omega : m + 1 ≤ size),
        Nat.mod_pow_succ]
      ring
    · rw [if_neg hm, Nat.min_eq_right (by omega : size ≤ m),
        Nat.min_eq_right (by omega : size ≤ m + 1)]
      simp

theorem getD_gather_mask (start size k : Nat) (hk : k < 16) :
    (gather_mask start size).getD k 0 = if k < size then (start + k) % 256 else 255 := by
  simp only [gather_mask, getD_range16_map, hk, if_true]

theorem getD_scatter_mask (start size j : Nat) (hj : j < 16) :
    (scatter_mask start size).getD j 0
      = if start ≤ j ∧ j < start + size then (j - start) % 256 else 255 := by
  simp only [scatter_mask, getD_range16_map, hj, if_true]

theorem getD_blend_mask (start size j : Nat) (hj : j < 16) :
    (blend_mask start size).getD j 0 = if start ≤ j ∧ j < start + size then 255 else 0 := by
  simp only [blend_mask, getD_range16_map, hj, if_true]

theorem getD_shuffle (a mask : Vec128) (j : Nat) (hj : j < 16) :
    (_mm_shuffle_epi8 a mask).getD j 0
      = if 128 ≤ mask.getD j 0 then 0 else a.getD (mask.getD j 0 % 16) 0 := by
  simp only [_mm_shuffle_epi8, getD_range16_map, hj, if_true]

theorem getD_blendv (a b mask : Vec128) (j : Nat) (hj : j < 16) :
    (_mm_blendv_epi8 a b mask).getD j 0
      = if 128 ≤ mask.getD j 0 then b.getD j 0 else a.getD j 0 := by
  simp only [_mm_blendv_epi8, getD_range16_map, hj, if_true]

theorem getD_cvtsi64 (x : Int) (j : Nat) :
    (_mm_cvtsi64_si128 x).getD j 0 = if j < 8 then long_bits x / 256 ^ j % 256 else 0 := by
  simp only [_mm_cvtsi64_si128, getD_range16_map]
  by_cases h8 : j < 8
  · have : j < 16 := by omega
    simp [h8, this]
  · simp [h8]

/-- Byte `j` of a lane after a value is scattered and blended into the column
at `[start, start + size)`. -/
theorem getD_scatter_blend (lane : Vec128) (x : Int) (start size j : Nat) (hj : j < 16)
    (hsz : size ≤ 8) :
    (_mm_blendv_epi8 lane
      (_mm_shuffle_epi8 (_mm_cvtsi64_si128 x) (scatter_mask start size))
      (blend_mask start size)).getD j 0
      = if start ≤ j ∧ j < start + size then long_bits x / 256 ^ (j - start) % 256
        else lane.getD j 0 := by
  rw [getD_blendv _ _ _ _ hj, getD_blend_mask _ _ _ hj, getD_shuffle _ _ _ hj,
    getD_scatter_mask _ _ _ hj]
  by_cases hc : start ≤ j ∧ j < start + size
  · have h1 : (j - start) % 256 = j - start := Nat.mod_eq_of_lt (by omega)
    have h2 : (j - start) % 16 = j - start := Nat.mod_eq_of_lt (by omega)
    have h3 : ¬ 128 ≤ j - start := by omega
    have h5 : j - start < 8 := by omega
    rw [if_pos hc, if_pos (by omega : 128 ≤ 255), if_pos hc, h1, if_neg h3, h2, getD_cvtsi64,
      if_pos h5, if_pos hc]
  · rw [if_neg hc, if_neg (by omega : ¬ 128 ≤ 0), if_neg hc]

/-- Gathering the column back out of the lane returns the low `size` bytes of
the value that was scattered into it. -/
theorem gather_scatter_blend (lane : Vec128) (x : Int) (start size : Nat)
    (hsz : size ≤ 8) (hend : start + size ≤ 16) :
    le_bytes (_mm_shuffle_epi8
      (_mm_blendv_epi8 lane
        (_mm_shuffle_epi8 (_mm_cvtsi64_si128 x) (scatter_mask start size))
        (blend_mask start size))
      (gather_mask start size)) 8 = long_bits x % 256 ^ size := by
  rw [le_bytes_eq_mod _ (long_bits x) size 8, Nat.min_eq_right hsz]
  intro k hk
  have hk16 : k < 16 := by omega
  rw [getD_shuffle _ _ _ hk16, getD_gather_mask _ _ _ hk16]
  by_cases hks : k < size
  · have h1 : (start + k) % 256 = start + k := Nat.mod_eq_of_lt (by omega)
    have h2 : (start + k) % 16 = start + k := Nat.mod_eq_of_lt (by omega)
    have h3 : ¬ 128 ≤ start + k := by omega
    rw [if_pos hks, h1, if_neg h3, h2, getD_scatter_blend _ _ _ _ _ (by omega) hsz,
      if_pos ⟨by omega, by omega⟩, if_pos hks]
    congr 3
    omega
  · rw [if_neg hks, if_pos (by omega : 128 ≤ 255), if_neg hks]

/-! ## The mask-building loops of `packed_table_create` -/

namespace PackedTable

theorem getD_replicate (n x j : Nat) (h : j < n) : (List.replicate n x).getD j 0 = x := by
  simp [List.getD_eq_getElem?_getD, List.getElem?_replicate, h]

theorem gather_fill_length (n j k : Nat) (bv : List Nat) :
    (gather_fill n j k bv).length = bv.length := by
  induction n generalizing j k bv with
  | zero => rfl
  | succ m ih => rw [gather_fill, ih]; simp

theorem gather_fill_getD (n j k : Nat) (bv : List Nat) (x : Nat) :
    (gather_fill n j k bv).getD x 0
      = if k ≤ x ∧ x < k + n ∧ x < bv.length then (j + (x - k)) % 256 else bv.getD x 0 := by
  induction n generalizing j k bv with
  | zero =>
    have : ¬ (k ≤ x ∧ x < k + 0 ∧ x < bv.length) := by omega
    rw [gather_fill, if_neg this]
  | succ m ih =>
    rw [gather_fill, ih]
    simp only [List.length_set]
    by_cases hx : x = k
    · subst hx
      by_cases hl : x < bv.length
      · have h1 : ¬ (x + 1 ≤ x ∧ x < x + 1 + m ∧ x < bv.length) := by omega
        rw [if_neg h1, getD_set_eq _ _ _ _ hl, if_pos ⟨le_refl _, by omega, hl⟩]
        simp
      · have h1 : ¬ (x + 1 ≤ x ∧ x < x + 1 + m ∧ x < bv.length) := by omega
        have h2 : ¬ (x ≤ x ∧ x < x + (m + 1) ∧ x < bv.length) := by omega
        rw [if_neg h1, if_neg h2, List.getD_eq_default _ _ (by simp; omega),
          List.getD_eq_default _ _ (by omega)]
    · rw [getD_set_ne _ _ _ _ _ (Ne.symm hx)]
      by_cases hc : k + 1 ≤ x ∧ x < k + 1 + m ∧ x < bv.length
      · rw [if_pos hc, if_pos ⟨by omega, by omega, hc.2.2⟩]
        congr 1
        omega
      · have h2 : ¬ (k ≤ x ∧ x < k + (m + 1) ∧ x < bv.length) := by omega
        rw [if_neg hc, if_neg h2]

theorem scatter_fill_length (n j k : Nat) (sb : List Nat × List Nat) :
    (scatter_fill n j k sb).1.length = sb.1.length ∧
    (scatter_fill n j k sb).2.length = sb.2.length := by
  induction n generalizing j k sb with
  | zero => exact ⟨rfl, rfl⟩
  | succ m ih =>
    rw [scatter_fill]
    have h := ih (j + 1) (k + 1) (sb.1.set j (k % 256), sb.2.set j 255)
    simpa using h

theorem scatter_fill_getD (n j k : Nat) (sb : List Nat × List Nat) (x : Nat) :
    (scatter_fill n j k sb).1.getD x 0
      = (if j ≤ x ∧ x < j + n ∧ x < sb.1.length then (k + (x - j)) % 256
         else sb.1.getD x 0) ∧
    (scatter_fill n j k sb).2.getD x 0
      = (if j ≤ x ∧ x < j + n ∧ x < sb.2.length then 255 else sb.2.getD x 0) := by
  induction n generalizing j k sb with
  | zero =>
    have h1 : ¬ (j ≤ x ∧ x < j + 0 ∧ x < sb.1.length) := by omega
    have h2 : ¬ (j ≤ x ∧ x < j + 0 ∧ x < sb.2.length) := by omega
    rw [scatter_fill, if_neg h1, if_neg h2]
    exact ⟨rfl, rfl⟩
  | succ m ih =>
    rw [scatter_fill]
    obtain ⟨i1, i2⟩ := ih (j + 1) (k + 1) (sb.1.set j (k % 256), sb.2.set j 255)
    rw [i1, i2]
    simp only [List.length_set]
    by_cases hx : x = j
    · subst hx
      have h1 : ∀ L : Nat, ¬ (x + 1 ≤ x ∧ x < x + 1 + m ∧ x < L) := fun L => by omega
      rw [if_neg (h1 _), if_neg (h1 _)]
      constructor
      · by_cases hl : x < sb.1.length
        · rw [getD_set_eq _ _ _ _ hl, if_pos ⟨le_refl _, by omega, hl⟩]
          simp
        · have h2 : ¬ (x ≤ x ∧ x < x + (m + 1) ∧ x < sb.1.length) := by omega
          rw [if_neg h2, List.getD_eq_default _ _ (by simp; omega),
            List.getD_eq_default _ _ (by omega)]
      · by_cases hl : x < sb.2.length
        · rw [getD_set_eq _ _ _ _ hl, if_pos ⟨le_refl _, by omega, hl⟩]
        · have h2 : ¬ (x ≤ x ∧ x < x + (m + 1) ∧ x < sb.2.length) := by omega
          rw [if_neg h2, List.getD_eq_default _ _ (by simp; omega),
            List.getD_eq_default _ _ (by omega)]
    · rw [getD_set_ne _ _ _ _ _ (Ne.symm hx), getD_set_ne _ _ _ _ _ (Ne.symm hx)]
      constructor
      · by_cases hc : j + 1 ≤ x ∧ x < j + 1 + m ∧ x < sb.1.length
        · rw [if_pos hc, if_pos ⟨by omega, by omega, hc.2.2⟩]
          congr 1
          omega
        · have h2 : ¬ (j ≤ x ∧ x < j + (m + 1) ∧ x < sb.1.length) := by omega
          rw [if_neg hc, if_neg h2]
      · by_cases hc : j + 1 ≤ x ∧ x < j + 1 + m ∧ x < sb.2.length
        · rw [if_pos hc, if_pos ⟨by omega, by omega, hc.2.2⟩]
        · have h2 : ¬ (j ≤ x ∧ x < j + (m + 1) ∧ x < sb.2.length) := by omega
          rw [if_neg hc, if_neg h2]

theorem setr_eq_of_getD (bytes : List Nat) (f : Nat → Nat)
    (h : ∀ j, j < 16 → bytes.getD j 0 % 256 = f j) :
    _mm_setr_epi8 bytes = (List.range 16).map f := by
  unfold _mm_setr_epi8
  apply List.map_congr_left
  intro j hj
  exact h j (by simpa using hj)

/-- The scatter and blend masks built for a column are the masks the spec
describes, when the column ends inside the lane. -/
theorem scatter_bytes_masks (index_cols : List Nat) (i : Nat) :
    _mm_setr_epi8 (scatter_bytes index_cols i).1
      = scatter_mask (index_cols.getD (2 * i) 0)
          (index_cols.getD (2 * i + 1) 0 - index_cols.getD (2 * i) 0) ∧
    _mm_setr_epi8 (scatter_bytes index_cols i).2
      = blend_mask (index_cols.getD (2 * i) 0)
          (index_cols.getD (2 * i + 1) 0 - index_cols.getD (2 * i) 0) := by
  constructor
  · apply setr_eq_of_getD
    intro j hj
    rw [scatter_bytes, (scatter_fill_getD _ _ _ _ j).1]
    simp only [List.length_replicate, Nat.zero_add]
    by_cases hc : index_cols.getD (2 * i) 0 ≤ j ∧
        j < index_cols.getD (2 * i) 0
          + (index_cols.getD (2 * i + 1) 0 - index_cols.getD (2 * i) 0)
    · rw [if_pos ⟨hc.1, hc.2, hj⟩, if_pos hc]
      simp
    · have h2 : ¬ (index_cols.getD (2 * i) 0 ≤ j ∧
          j < index_cols.getD (2 * i) 0
            + (index_cols.getD (2 * i + 1) 0 - index_cols.getD (2 * i) 0) ∧ j < 16) :=
        fun h => hc ⟨h.1, h.2.1⟩
      rw [if_neg h2, if_neg hc, getD_replicate _ _ _ hj]
  · apply setr_eq_of_getD
    intro j hj
    rw [scatter_bytes, (scatter_fill_getD _ _ _ _ j).2]
    simp only [List.length_replicate]
    by_cases hc : index_cols.getD (2 * i) 0 ≤ j ∧
        j < index_cols.getD (2 * i) 0
          + (index_cols.getD (2 * i + 1) 0 - index_cols.getD (2 * i) 0)
    · rw [if_pos ⟨hc.1, hc.2, hj⟩, if_pos hc]
    · have h2 : ¬ (index_cols.getD (2 * i) 0 ≤ j ∧
          j < index_cols.getD (2 * i) 0
            + (index_cols.getD (2 * i + 1) 0 - index_cols.getD (2 * i) 0) ∧ j < 16) :=
        fun h => hc ⟨h.1, h.2.1⟩
      rw [if_neg h2, if_neg hc, getD_replicate _ _ _ hj]



theorem getD_take_append (l : List Nat) (pad : List Nat) (j : Nat) (hl : 8 ≤ l.length)
    (hj : j < 8) : (l.take 8 ++ pad).getD j 0 = l.getD j 0 := by
  rw [List.getD_append _ _ _ _ (by simp; omega)]
  simp [List.getD_eq_getElem?_getD, List.getElem?_take, hj]

theorem getD_drop_append (l : List Nat) (pad : List Nat) (j : Nat) (hl : l.length = 16)
    (hj : j < 8) : (l.drop 8 ++ pad).getD j 0 = l.getD (8 + j) 0 := by
  rw [List.getD_append _ _ _ _ (by simp; omega)]
  simp [List.getD_eq_getElem?_getD, List.getElem?_drop]

theorem getD_half_append_pad (l : List Nat) (j : Nat) (hl : l.length = 8) (hj1 : 8 ≤ j)
    (hj2 : j < 16) : (l ++ List.replicate 8 255).getD j 0 = 255 := by
  rw [List.getD_append_right _ _ _ _ (by omega), getD_replicate _ _ _ (by omega)]

/-- The first half-mask emitted for a column is its gather mask. -/
theorem gather_first_mask (start size : Nat) (hsz : size ≤ 8) :
    _mm_setr_epi8 ((gather_fill size start 0 (List.replicate 16 255)).take 8
        ++ List.replicate 8 255)
      = gather_mask start size := by
  apply setr_eq_of_getD
  intro j hj
  by_cases h8 : j < 8
  · rw [getD_take_append _ _ _ (by rw [gather_fill_length]; simp) h8, gather_fill_getD]
    simp only [List.length_replicate, Nat.sub_zero]
    by_cases hs : j < size
    · rw [if_pos ⟨Nat.zero_le _, by omega, hj⟩, if_pos hs]
      simp
    · have h2 : ¬ (0 ≤ j ∧ j < 0 + size ∧ j < 16) := by omega
      rw [if_neg h2, if_neg hs, getD_replicate _ _ _ hj]
  · rw [getD_half_append_pad _ _ (by simp [gather_fill_length]) (by omega) hj,
      if_neg (by omega)]

/-- The second half-mask emitted for the second column of a pair is that
column's gather mask. -/
theorem gather_second_mask (start size start2 size2 : Nat) (hsz : size ≤ 8)
    (hsz2 : size2 ≤ 8) :
    _mm_setr_epi8 ((gather_fill size2 start2 8
        (gather_fill size start 0 (List.replicate 16 255))).drop 8 ++ List.replicate 8 255)
      = gather_mask start2 size2 := by
  apply setr_eq_of_getD
  intro j hj
  by_cases h8 : j < 8
  · rw [getD_drop_append _ _ _ (by simp [gather_fill_length]) h8, gather_fill_getD]
    simp only [gather_fill_length, List.length_replicate]
    by_cases hs : j < size2
    · rw [if_pos ⟨by omega, by omega, by omega⟩, if_pos hs]
      have : 8 + j - 8 = j := by omega
      rw [this]
      simp
    · have h2 : ¬ (8 ≤ 8 + j ∧ 8 + j < 8 + size2 ∧ 8 + j < 16) := by omega
      have h3 : ¬ (0 ≤ 8 + j ∧ 8 + j < 0 + size ∧ 8 + j < 16) := by omega
      rw [if_neg h2, if_neg hs, gather_fill_getD]
      simp only [List.length_replicate]
      rw [if_neg h3, getD_replicate _ _ _ (by omega)]
  · rw [getD_half_append_pad _ _ (by simp [gather_fill_length]) (by omega) hj,
      if_neg (by omega)]

/-- The gather mask of column `c`, from `index_cols`. -/
theorem createShuffleVec_loop_get1 (index_cols col_n_vector : List Nat) (n_cols : Nat)
    (fuel i : Nat) (get1 get2 : List Vec128) (hfuel : n_cols - i ≤ fuel)
    (hsz : ∀ c, i ≤ c → c < n_cols →
      index_cols.getD (2 * c + 1) 0 - index_cols.getD (2 * c) 0 ≤ 8) :
    (createShuffleVec_loop index_cols col_n_vector n_cols fuel i get1 get2).1
      = get1 ++ (List.range' i (n_cols - i)).map (fun c =>
          gather_mask (index_cols.getD (2 * c) 0)
            (index_cols.getD (2 * c + 1) 0 - index_cols.getD (2 * c) 0)) := by
  induction fuel generalizing i get1 get2 with
  | zero =>
    have h0 : n_cols - i = 0 := by omega
    simp [createShuffleVec_loop, h0]
  | succ f ih =>
    rw [createShuffleVec_loop]
    by_cases hi : i < n_cols
    · rw [if_pos hi]
      have hstep : n_cols - i = (n_cols - (i + 1)) + 1 := by omega
      simp only []
      by_cases hp : i + 1 < n_cols ∧ col_n_vector.getD (i + 1) 0 = col_n_vector.getD i 0
      · rw [if_pos hp, ih (i + 2) _ _ (by omega) (fun c h1 h2 => hsz c (by omega) h2)]
        have hstep2 : n_cols - (i + 1) = (n_cols - (i + 2)) + 1 := by omega
        rw [hstep, List.range'_succ, hstep2, List.range'_succ,
          gather_first_mask _ _ (hsz i (le_refl _) hi),
          gather_second_mask _ _ _ _ (hsz i (le_refl _) hi) (hsz (i + 1) (by omega) hp.1)]
        simp [List.append_assoc]
      · rw [if_neg hp, ih (i + 1) _ _ (by omega) (fun c h1 h2 => hsz c (by omega) h2)]
        rw [hstep, List.range'_succ, gather_first_mask _ _ (hsz i (le_refl _) hi)]
        simp [List.append_assoc]
    · rw [if_neg hi]
      have h0 : n_cols - i = 0 := by omega
      simp [h0]

/-- The first loop of `createColumnIndexes` keeps the lengths of its arrays. -/
theorem col_index_loop_length (sizes vec_nums offsets : List Nat) (n : Nat)
    (s0 : col_index_state) :
    (for_loop (createColumnIndexes_step sizes vec_nums offsets) n 0 s0).index_cols.length
      = s0.index_cols.length ∧
    (for_loop (createColumnIndexes_step sizes vec_nums offsets) n 0 s0).col_2_vector.length
      = s0.col_2_vector.length := by
  induction n with
  | zero => exact ⟨rfl, rfl⟩
  | succ k ih =>
    rw [for_loop_succ_last]
    simp only [createColumnIndexes_step, List.length_set]
    exact ih

/-- What the first loop of `createColumnIndexes` records for column `i`. -/
theorem col_index_loop_entries (sizes vec_nums offsets : List Nat) (n : Nat)
    (s0 : col_index_state) (i : Nat) (hi : i < n)
    (h1 : 2 * i + 1 < s0.index_cols.length) (h2 : i < s0.col_2_vector.length) :
    (for_loop (createColumnIndexes_step sizes vec_nums offsets) n 0 s0).index_cols.getD
        (2 * i) 0 = offsets.getD i 0 % 65536 ∧
    (for_loop (createColumnIndexes_step sizes vec_nums offsets) n 0 s0).index_cols.getD
        (2 * i + 1) 0 = (offsets.getD i 0 + sizes.getD i 0) % 65536 ∧
    (for_loop (createColumnIndexes_step sizes vec_nums offsets) n 0 s0).col_2_vector.getD
        i 0 = vec_nums.getD i 0 % 256 := by
  induction n with
  | zero => omega
  | succ k ih =>
    rw [for_loop_succ_last]
    have hl := col_index_loop_length sizes vec_nums offsets k s0
    simp only [createColumnIndexes_step, Nat.zero_add]
    by_cases hk : i = k
    · subst hk
      refine ⟨?_, ?_, ?_⟩
      · rw [getD_set_ne _ _ _ _ _ (by omega), getD_set_eq _ _ _ _ (by rw [hl.1]; omega)]
      · rw [getD_set_eq _ _ _ _ (by simp only [List.length_set]; rw [hl.1]; omega)]
      · rw [getD_set_eq _ _ _ _ (by rw [hl.2]; omega)]
    · obtain ⟨a1, a2, a3⟩ := ih (by omega)
      refine ⟨?_, ?_, ?_⟩
      · rw [getD_set_ne _ _ _ _ _ (by omega), getD_set_ne _ _ _ _ _ (by omega)]; exact a1
      · rw [getD_set_ne _ _ _ _ _ (by omega), getD_set_ne _ _ _ _ _ (by omega)]; exact a2
      · rw [getD_set_ne _ _ _ _ _ (by omega)]; exact a3

/-- The first loop of `createColumnIndexes` counts the size-0 columns. -/
theorem col_index_loop_booleans (sizes vec_nums offsets : List Nat) (b n : Nat)
    (s0 : col_index_state) (hb : ∀ i, i < n → (sizes.getD i 0 = 0 ↔ i < b)) :
    (for_loop (createColumnIndexes_step sizes vec_nums offsets) n 0 s0).n_boolean_cols
      = s0.n_boolean_cols + min n b := by
  induction n with
  | zero => simp [for_loop]
  | succ k ih =>
    rw [for_loop_succ_last]
    have ihk := ih (fun i hi => hb i (by omega))
    simp only [createColumnIndexes_step, Nat.zero_add]
    rw [ihk]
    by_cases hk : k < b
    · rw [if_pos ((hb k (by omega)).2 hk)]
      omega
    · rw [if_neg (fun h => hk ((hb k (by omega)).1 h))]
      omega

/-- The fields of a created table, in terms of the state of the column-index
loop. -/
theorem create_fields (n_rows : Nat) (mins maxes : List Int)
    (sizes vec_nums offsets : List Nat) (n_cols : Nat) :
    (packed_table_create n_rows mins maxes sizes vec_nums offsets n_cols).n_boolean_cols
      = (create_index_state n_cols sizes vec_nums offsets).n_boolean_cols ∧
    (packed_table_create n_rows mins maxes sizes vec_nums offsets n_cols).col_2_vector
      = (create_index_state n_cols sizes vec_nums offsets).col_2_vector ∧
    (packed_table_create n_rows mins maxes sizes vec_nums offsets n_cols).col_mins
      = (List.range n_cols).map (fun i => mins.getD i 0) ∧
    (packed_table_create n_rows mins maxes sizes vec_nums offsets n_cols).row_size
      = padded_row_size (vec_nums.getD (n_cols - 1) 0 + 1) ∧
    (packed_table_create n_rows mins maxes sizes vec_nums offsets n_cols).data
      = List.replicate
          (n_rows * padded_row_size (vec_nums.getD (n_cols - 1) 0 + 1)) zero_vec := by
  unfold packed_table_create createColumnIndexes create_index_state
  simp only []
  split <;> simp [createShuffleBlendFromIndexes, createShuffleVecFromIndexes]

/-- The mask arrays of a created table that has an integer column. -/
theorem create_masks (n_rows : Nat) (mins maxes : List Int)
    (sizes vec_nums offsets : List Nat) (n_cols : Nat)
    (hint : n_cols - (create_index_state n_cols sizes vec_nums offsets).n_boolean_cols ≠ 0) :
    (packed_table_create n_rows mins maxes sizes vec_nums offsets n_cols).shuffle_vecs_put
      = (List.range (n_cols % 256
          - (create_index_state n_cols sizes vec_nums offsets).n_boolean_cols % 256)).map
          (fun index => _mm_setr_epi8
            (scatter_bytes (create_index_state n_cols sizes vec_nums offsets).index_cols
              (index
                + (create_index_state n_cols sizes vec_nums offsets).n_boolean_cols % 256)).1) ∧
    (packed_table_create n_rows mins maxes sizes vec_nums offsets n_cols).blend_vecs_put
      = (List.range (n_cols % 256
          - (create_index_state n_cols sizes vec_nums offsets).n_boolean_cols % 256)).map
          (fun index => _mm_setr_epi8
            (scatter_bytes (create_index_state n_cols sizes vec_nums offsets).index_cols
              (index
                + (create_index_state n_cols sizes vec_nums offsets).n_boolean_cols % 256)).2) ∧
    (packed_table_create n_rows mins maxes sizes vec_nums offsets n_cols).shuffle_vecs_get1
      = pad_vecs
          (createShuffleVec_loop (create_index_state n_cols sizes vec_nums offsets).index_cols
            (create_index_state n_cols sizes vec_nums offsets).col_2_vector (n_cols % 256)
            (n_cols % 256
              - (create_index_state n_cols sizes vec_nums offsets).n_boolean_cols % 256)
            ((create_index_state n_cols sizes vec_nums offsets).n_boolean_cols % 256) [] []).1
          (n_cols % 256
            - (create_index_state n_cols sizes vec_nums offsets).n_boolean_cols % 256) := by
  unfold create_index_state at hint
  unfold packed_table_create createColumnIndexes create_index_state
  simp only []
  rw [if_pos hint]
  simp [createShuffleBlendFromIndexes, createShuffleVecFromIndexes]

theorem getD_range_map {α : Type} (f : Nat → α) (n k : Nat) (d : α) (hk : k < n) :
    ((List.range n).map f).getD k d = f k := by
  simp [List.getD_eq_getElem?_getD, List.getElem?_map, List.getElem?_range hk]

theorem getD_range'_map {α : Type} (f : Nat → α) (s n k : Nat) (d : α) (hk : k < n) :
    ((List.range' s n).map f).getD k d = f (s + k) := by
  simp [List.getD_eq_getElem?_getD, List.getElem?_map, List.getElem?_range', hk]

/-- What the column-index loop records under a valid layout. -/
theorem valid_index_state (b n_cols : Nat) (mins maxes : List Int)
    (sizes vec_nums offsets : List Nat)
    (hv : valid_layout b n_cols mins maxes sizes vec_nums offsets) :
    (create_index_state n_cols sizes vec_nums offsets).n_boolean_cols = b ∧
    ∀ c, c < n_cols →
      (create_index_state n_cols sizes vec_nums offsets).col_2_vector.getD c 0
        = vec_nums.getD c 0 % 256 ∧
      (sizes.getD c 0 ≠ 0 →
        (create_index_state n_cols sizes vec_nums offsets).index_cols.getD (2 * c) 0
          = offsets.getD c 0 ∧
        (create_index_state n_cols sizes vec_nums offsets).index_cols.getD (2 * c + 1) 0
          - (create_index_state n_cols sizes vec_nums offsets).index_cols.getD (2 * c) 0
          = sizes.getD c 0 ∧
        (create_index_state n_cols sizes vec_nums offsets).col_2_vector.getD c 0
          = vec_nums.getD c 0) := by
  obtain ⟨h0, h256, hbn, hb4, hlast, hcol⟩ := hv
  constructor
  · unfold create_index_state
    rw [col_index_loop_booleans sizes vec_nums offsets b n_cols _ (fun i hi => (hcol i hi).1)]
    simp only [Nat.zero_add]
    omega
  · intro c hc
    obtain ⟨e1, e2, e3⟩ := col_index_loop_entries sizes vec_nums offsets n_cols
      { n_boolean_cols := 0, index_cols := List.replicate (n_cols * 2) 0,
        col_2_vector := List.replicate n_cols 0 } c hc
      (by simp only [List.length_replicate]; omega) (by simp only [List.length_replicate]; exact hc)
    refine ⟨e3, fun hs => ?_⟩
    obtain ⟨v1, v2, _, _, v5, _⟩ := (hcol c hc).2.2.2.2.2 hs
    unfold create_index_state
    rw [e1, e2, e3]
    refine ⟨?_, ?_, ?_⟩
    · omega
    · omega
    · omega

/-- The masks a created table holds for an integer column `c` are the masks
the spec describes for the column's byte range. -/
theorem create_column_masks (b n_cols : Nat) (mins maxes : List Int)
    (sizes vec_nums offsets : List Nat) (n_rows : Nat)
    (hv : valid_layout b n_cols mins maxes sizes vec_nums offsets)
    (c : Nat) (hc : c < n_cols) (hcb : b ≤ c) :
    (packed_table_create n_rows mins maxes sizes vec_nums offsets n_cols).shuffle_vecs_put.getD
        (c - b) zero_vec = scatter_mask (offsets.getD c 0) (sizes.getD c 0) ∧
    (packed_table_create n_rows mins maxes sizes vec_nums offsets n_cols).blend_vecs_put.getD
        (c - b) zero_vec = blend_mask (offsets.getD c 0) (sizes.getD c 0) ∧
    (packed_table_create n_rows mins maxes sizes vec_nums offsets n_cols).shuffle_vecs_get1.getD
        (c - b) zero_vec = gather_mask (offsets.getD c 0) (sizes.getD c 0) := by
  obtain ⟨hnb, hent⟩ := valid_index_state b n_cols mins maxes sizes vec_nums offsets hv
  have hv' := hv
  obtain ⟨h0, h256, hbn, hb4, hlast, hcol⟩ := hv'
  have hsz : ∀ x, x < n_cols → b ≤ x → sizes.getD x 0 ≠ 0 := fun x hx hbx h =>
    absurd ((hcol x hx).1.1 h) (by omega)
  have hint : n_cols - (create_index_state n_cols sizes vec_nums offsets).n_boolean_cols ≠ 0 := by
    rw [hnb]; omega
  obtain ⟨m1, m2, m3⟩ := create_masks n_rows mins maxes sizes vec_nums offsets n_cols hint
  have hn : n_cols % 256 = n_cols := Nat.mod_eq_of_lt h256
  have hb : b % 256 = b := Nat.mod_eq_of_lt (by omega)
  obtain ⟨i1, i2, i3⟩ := (hent c hc).2 (hsz c hc hcb)
  have hcc : c - b + b = c := by omega
  refine ⟨?_, ?_, ?_⟩
  · rw [m1, hnb, hn, hb, getD_range_map _ _ _ _ (by omega), hcc,
      (scatter_bytes_masks _ c).1, i2, i1]
  · rw [m2, hnb, hn, hb, getD_range_map _ _ _ _ (by omega), hcc,
      (scatter_bytes_masks _ c).2, i2, i1]
  · rw [m3, hnb, hn, hb, createShuffleVec_loop_get1 _ _ _ _ _ _ _ (le_refl _)
      (fun x hx1 hx2 => by
        rw [((hent x hx2).2 (hsz x hx2 hx1)).2.1]
        exact ((hcol x hx2).2.2.2.2.2 (hsz x hx2 hx1)).1)]
    simp only [List.nil_append, pad_vecs, List.length_map, List.length_range', Nat.sub_self,
      List.replicate_zero, List.append_nil]
    rw [getD_range'_map _ _ _ _ _ (by omega)]
    have hbc : b + (c - b) = c := by omega
    rw [hbc, i2, i1]

/-! ## Cells -/

theorem row_lane_lt (r n s v : Nat) (hr : r < n) (hv : v < s) : r * s + v < n * s := by
  have h1 : (r + 1) * s ≤ n * s := Nat.mul_le_mul_right s hr
  have h2 : (r + 1) * s = r * s + s := by ring
  omega

theorem le_padded_row_size (n : Nat) : n ≤ padded_row_size n := by
  unfold padded_row_size
  split <;> omega

/-- An integer cell written through masks for the byte range
`[start, start + size)` reads back as the low `size` bytes of the value. -/
theorem int_cell_roundtrip (T : packed_table_t) (r ci vec : Nat) (x : Int)
    (start size : Nat)
    (hput : T.shuffle_vecs_put.getD ci zero_vec = scatter_mask start size)
    (hblend : T.blend_vecs_put.getD ci zero_vec = blend_mask start size)
    (hget : T.shuffle_vecs_get1.getD ci zero_vec = gather_mask start size)
    (hsz : size ≤ 8) (hend : start + size ≤ 16)
    (hlane : r * T.row_size + vec < T.data.length) :
    internal_get_cell (internal_set_cell T r ci x vec) r ci T.row_size vec
      = to_int64 ((long_bits x % 256 ^ size : Nat) : Int) := by
  simp only [internal_get_cell, internal_set_cell, _mm_extract_epi64_0]
  have hidx : vec + r * T.row_size = r * T.row_size + vec := Nat.add_comm _ _
  rw [hidx, getD_set_eq _ _ _ _ hlane, hput, hblend, hget,
    gather_scatter_blend _ _ _ _ hsz hend]

theorem testBit_of_and_two_pow (n k : Nat) : n &&& 2 ^ k ≠ 0 ↔ n.testBit k = true := by
  rw [Nat.and_two_pow]
  cases h : n.testBit k
  · simp
  · simp

/-- The header bit of a boolean column after `|=`: set when it was set before
or the biased value is 1. -/
theorem header_bit_after_or (h k x : Nat) (hh : h < 2 ^ 32) (hk : k < 32) (hx : x ≤ 1) :
    ((h ||| x * 2 ^ k) % 2 ^ 32 % 2 ^ 32 &&& 2 ^ k % 2 ^ 32 ≠ 0) ↔
      (h &&& 2 ^ k % 2 ^ 32 ≠ 0 ∨ x = 1) := by
  have hk2 : 2 ^ k < 2 ^ 32 := Nat.pow_lt_pow_right (by norm_num) hk
  have hs : x * 2 ^ k < 2 ^ 32 := by
    rcases Nat.le_one_iff_eq_zero_or_eq_one.mp hx with h0 | h1
    · subst h0; simp
    · subst h1; simpa using hk2
  rw [Nat.mod_mod, Nat.mod_eq_of_lt (Nat.or_lt_two_pow hh hs), Nat.mod_eq_of_lt hk2,
    testBit_of_and_two_pow, testBit_of_and_two_pow, Nat.testBit_or]
  rcases Nat.le_one_iff_eq_zero_or_eq_one.mp hx with h0 | h1
  · subst h0; simp
  · subst h1; simp [Nat.testBit_two_pow_self]

theorem to_int64_of_range (x : Int) (h1 : -(2 : Int) ^ 63 ≤ x) (h2 : x < (2 : Int) ^ 63) :
    to_int64 x = x := by
  unfold to_int64
  have e63 : (2 : Int) ^ 63 = 9223372036854775808 := by norm_num
  have e64 : (2 : Int) ^ 64 = 18446744073709551616 := by norm_num
  rw [e63] at h1 h2 ⊢
  rw [e64]
  omega

theorem long_bits_bit (x k : Nat) (hx : x ≤ 1) (hk : k < 32) :
    long_bits ((x : Int) * 2 ^ k) = x * 2 ^ k := by
  unfold long_bits
  have hk2 : 2 ^ k < 2 ^ 32 := Nat.pow_lt_pow_right (by norm_num) hk
  have hs : x * 2 ^ k < 2 ^ 64 := by
    have : x * 2 ^ k ≤ 1 * 2 ^ k := Nat.mul_le_mul_right _ hx
    omega
  have hc : ((x : Int) * 2 ^ k) = ((x * 2 ^ k : Nat) : Int) := by push_cast; ring
  rw [hc]
  have h64 : ((2 : Int) ^ 64) = ((2 ^ 64 : Nat) : Int) := by norm_num
  rw [h64, ← Int.ofNat_emod, Nat.mod_eq_of_lt hs]
  exact Int.toNat_ofNat _

/-- A boolean cell after `packed_table_set_cell`: the header bit is OR-ed with
the biased value. -/
theorem bool_cell_after_set (T : packed_table_t) (r c : Nat) (v : Int) (x : Nat)
    (hb : c < T.n_boolean_cols) (hb4 : T.n_boolean_cols ≤ 4)
    (hrow : r * T.row_size < T.data.length) (hx : x ≤ 1)
    (hvx : to_int64 (v - T.col_mins.getD c 0) = (x : Int)) :
    packed_table_get_cell (packed_table_set_cell T r c v) r c
      = if x = 0 then packed_table_get_cell T r c
        else to_int64 (1 + T.col_mins.getD c 0) := by
  have hnb : T.n_boolean_cols % 256 = T.n_boolean_cols := Nat.mod_eq_of_lt (by omega)
  have hge : ¬ (c ≥ T.n_boolean_cols) := by omega
  simp only [packed_table_get_cell, packed_table_set_cell, if_pos hb,
    internal_set_boolean_cell, hnb, if_neg hge, internal_get_boolean_cell, Nat.add_zero, hvx,
    GROUP_SIZE]
  rw [getD_set_eq _ _ _ _ hrow, load_store_u32, long_bits_bit _ _ hx (by omega)]
  have key := header_bit_after_or (load_u32 (T.data.getD (r * T.row_size) zero_vec)) (28 + c) x
    (by unfold load_u32; exact Nat.mod_lt _ (by norm_num)) (by omega) hx
  by_cases h0 : x = 0
  · rw [if_pos h0]
    by_cases hold : load_u32 (T.data.getD (r * T.row_size) zero_vec) &&& 2 ^ (28 + c) % 2 ^ 32 ≠ 0
    · rw [if_pos (key.2 (Or.inl hold)), if_pos hold]
    · have hnew : ¬ ((load_u32 (T.data.getD (r * T.row_size) zero_vec) ||| x * 2 ^ (28 + c))
          % 2 ^ 32 % 2 ^ 32 &&& 2 ^ (28 + c) % 2 ^ 32 ≠ 0) := fun h => by
        rcases key.1 h with h1 | h1
        · exact hold h1
        · omega
      rw [if_neg hnew, if_neg hold]
  · rw [if_neg h0, if_pos (key.2 (Or.inr (by omega)))]

theorem long_bits_of_nonneg (v : Int) (h0 : 0 ≤ v) (h1 : v < (2 : Int) ^ 63) :
    long_bits v = v.toNat := by
  unfold long_bits
  have e63 : (2 : Int) ^ 63 = 9223372036854775808 := by norm_num
  have e64 : (2 : Int) ^ 64 = 18446744073709551616 := by norm_num
  rw [e63] at h1
  rw [e64]
  congr 1
  omega

theorem set_cell_int (T : packed_table_t) (r c : Nat) (v : Int)
    (h : ¬ c < T.n_boolean_cols) :
    packed_table_set_cell T r c v = internal_set_cell T r c v (T.col_2_vector.getD c 0) := by
  simp only [packed_table_set_cell, if_neg h]

theorem get_cell_int (T : packed_table_t) (r c : Nat) (h : c ≥ T.n_boolean_cols % 256) :
    packed_table_get_cell T r c
      = to_int64 (internal_get_cell T r (c - T.n_boolean_cols % 256) T.row_size
          (T.col_2_vector.getD c 0) + T.col_mins.getD c 0) := by
  simp only [packed_table_get_cell, if_pos h]

theorem internal_set_cell_layout (T : packed_table_t) (r ci vec : Nat) (x : Int) :
    (internal_set_cell T r ci x vec).n_boolean_cols = T.n_boolean_cols ∧
    (internal_set_cell T r ci x vec).row_size = T.row_size ∧
    (internal_set_cell T r ci x vec).col_2_vector = T.col_2_vector ∧
    (internal_set_cell T r ci x vec).col_mins = T.col_mins :=
  ⟨rfl, rfl, rfl, rfl⟩

/-- An integer cell of a table without boolean columns, whose column has
minimum 0, reads back the in-range value `packed_table_set_cell` wrote. -/
theorem int_cell_set_get (n_rows n_cols : Nat) (mins maxes : List Int)
    (sizes vec_nums offsets : List Nat) (data : List Vec128) (r c : Nat) (v : Int)
    (hv : valid_layout 0 n_cols mins maxes sizes vec_nums offsets)
    (hdata : data.length
      = n_rows * (packed_table_create n_rows mins maxes sizes vec_nums offsets n_cols).row_size)
    (hr : r < n_rows) (hc : c < n_cols)
    (hmin : mins.getD c 0 ≤ v) (hmax : v ≤ maxes.getD c 0) (hzero : mins.getD c 0 = 0) :
    packed_table_get_cell
      (packed_table_set_cell
        (with_data (packed_table_create n_rows mins maxes sizes vec_nums offsets n_cols) data)
        r c v) r c = v := by
  obtain ⟨f1, f2, f3, f4, _⟩ := create_fields n_rows mins maxes sizes vec_nums offsets n_cols
  obtain ⟨hnb, hent⟩ := valid_index_state 0 n_cols mins maxes sizes vec_nums offsets hv
  obtain ⟨m1, m2, m3⟩ := create_column_masks 0 n_cols mins maxes sizes vec_nums offsets n_rows
    hv c hc (Nat.zero_le _)
  have hv' := hv
  obtain ⟨h0, h256, hbn, hb4, hlast, hcol⟩ := hv'
  obtain ⟨c1, c2, c3, c4, c5, c6⟩ := hcol c hc
  have hs : sizes.getD c 0 ≠ 0 := fun h => absurd (c1.1 h) (by omega)
  obtain ⟨v1, v2, v3, v4, v5, v6⟩ := c6 hs
  have hvec : (packed_table_create n_rows mins maxes sizes vec_nums offsets
      n_cols).col_2_vector.getD c 0 = vec_nums.getD c 0 := by
    rw [f2]; exact ((hent c hc).2 hs).2.2
  have hmn : (packed_table_create n_rows mins maxes sizes vec_nums offsets
      n_cols).col_mins.getD c 0 = 0 := by
    rw [f3, getD_range_map _ _ _ _ hc]; exact hzero
  have hnb0 : (packed_table_create n_rows mins maxes sizes vec_nums offsets
      n_cols).n_boolean_cols = 0 := by rw [f1]; exact hnb
  have hlane : r * (packed_table_create n_rows mins maxes sizes vec_nums offsets n_cols).row_size
      + vec_nums.getD c 0 < data.length := by
    rw [hdata]
    apply row_lane_lt _ _ _ _ hr
    rw [f4]
    have := le_padded_row_size (vec_nums.getD (n_cols - 1) 0 + 1)
    omega
  have hrt := int_cell_roundtrip
    (with_data (packed_table_create n_rows mins maxes sizes vec_nums offsets n_cols) data)
    r c (vec_nums.getD c 0) v (offsets.getD c 0) (sizes.getD c 0) m1 m2 m3 v1 v2 hlane
  have hTnb : (with_data (packed_table_create n_rows mins maxes sizes vec_nums offsets n_cols)
      data).n_boolean_cols = 0 := hnb0
  have hTvec : (with_data (packed_table_create n_rows mins maxes sizes vec_nums offsets n_cols)
      data).col_2_vector.getD c 0 = vec_nums.getD c 0 := hvec
  have hTmn : (with_data (packed_table_create n_rows mins maxes sizes vec_nums offsets n_cols)
      data).col_mins.getD c 0 = 0 := hmn
  rw [set_cell_int _ _ _ _ (by rw [hTnb]; omega), hTvec,
    get_cell_int _ _ _ (by rw [(internal_set_cell_layout _ _ _ _ _).1, hTnb]; simp),
    (internal_set_cell_layout _ _ _ _ _).1, (internal_set_cell_layout _ _ _ _ _).2.1,
    (internal_set_cell_layout _ _ _ _ _).2.2.1, (internal_set_cell_layout _ _ _ _ _).2.2.2,
    hTnb, hTvec, hTmn, Nat.zero_mod, Nat.sub_zero, hrt, add_zero]
  have hv0 : 0 ≤ v := by omega
  have hv63 : v < (2 : Int) ^ 63 := by omega
  have hfit : v.toNat < 256 ^ sizes.getD c 0 := by
    have h1 : v < (256 : Int) ^ sizes.getD c 0 := by omega
    have h2 : ((v.toNat : Nat) : Int) = v := Int.toNat_of_nonneg hv0
    have h3 : ((v.toNat : Nat) : Int) < ((256 ^ sizes.getD c 0 : Nat) : Int) := by
      rw [h2]; push_cast; exact h1
    exact_mod_cast h3
  rw [long_bits_of_nonneg v hv0 hv63, Nat.mod_eq_of_lt hfit, Int.toNat_of_nonneg hv0,
    to_int64_of_range v (by omega) hv63, to_int64_of_range v (by omega) hv63]

/-- A boolean cell of a created table after `packed_table_set_cell` with an
in-range value: the value itself when it is `col_min + 1`, the previous
content when it is `col_min`. -/
theorem bool_cell_set_get (b n_rows n_cols : Nat) (mins maxes : List Int)
    (sizes vec_nums offsets : List Nat) (data : List Vec128) (r c : Nat) (v : Int)
    (hv : valid_layout b n_cols mins maxes sizes vec_nums offsets)
    (hdata : data.length
      = n_rows * (packed_table_create n_rows mins maxes sizes vec_nums offsets n_cols).row_size)
    (hr : r < n_rows) (hc : c < n_cols) (hcb : c < b)
    (hmin : mins.getD c 0 ≤ v) (hmax : v ≤ maxes.getD c 0) :
    packed_table_get_cell
      (packed_table_set_cell
        (with_data (packed_table_create n_rows mins maxes sizes vec_nums offsets n_cols) data)
        r c v) r c
      = if v = mins.getD c 0 then
          packed_table_get_cell
            (with_data (packed_table_create n_rows mins maxes sizes vec_nums offsets n_cols)
              data) r c
        else v := by
  obtain ⟨f1, f2, f3, f4, _⟩ := create_fields n_rows mins maxes sizes vec_nums offsets n_cols
  obtain ⟨hnb, hent⟩ := valid_index_state b n_cols mins maxes sizes vec_nums offsets hv
  obtain ⟨h0, h256, hbn, hb4, hlast, hcol⟩ := hv
  obtain ⟨c1, c2, c3, c4, c5, c6⟩ := hcol c hc
  have hrange := c5 (c1.2 hcb)
  have hTnb : (with_data (packed_table_create n_rows mins maxes sizes vec_nums offsets n_cols)
      data).n_boolean_cols = b := by rw [← hnb, ← f1]; rfl
  have hTmn : (with_data (packed_table_create n_rows mins maxes sizes vec_nums offsets n_cols)
      data).col_mins.getD c 0 = mins.getD c 0 := by
    show (packed_table_create n_rows mins maxes sizes vec_nums offsets n_cols).col_mins.getD c 0
      = mins.getD c 0
    rw [f3, getD_range_map _ _ _ _ hc]
  have hrow : r * (with_data (packed_table_create n_rows mins maxes sizes vec_nums offsets
      n_cols) data).row_size < (with_data (packed_table_create n_rows mins maxes sizes vec_nums
      offsets n_cols) data).data.length := by
    show r * (packed_table_create n_rows mins maxes sizes vec_nums offsets n_cols).row_size
      < data.length
    rw [hdata]
    have h := row_lane_lt r n_rows
      (packed_table_create n_rows mins maxes sizes vec_nums offsets n_cols).row_size 0 hr
      (by rw [f4]; have := le_padded_row_size (vec_nums.getD (n_cols - 1) 0 + 1); omega)
    simpa using h
  have hx : (v - mins.getD c 0).toNat ≤ 1 := by omega
  have hvx : to_int64 (v - (with_data (packed_table_create n_rows mins maxes sizes vec_nums
      offsets n_cols) data).col_mins.getD c 0) = (((v - mins.getD c 0).toNat : Nat) : Int) := by
    rw [hTmn, to_int64_of_range _ (by omega) (by omega), Int.toNat_of_nonneg (by omega)]
  rw [bool_cell_after_set _ r c v _ (by rw [hTnb]; exact hcb) (by rw [hTnb]; exact hb4) hrow hx
    hvx, hTmn]
  by_cases hvm : v = mins.getD c 0
  · rw [if_pos hvm, if_pos (by omega)]
  · rw [if_neg hvm, if_neg (by omega), to_int64_of_range _ (by omega) (by omega)]
    omega

/-- C1 (as stated, refuted). A boolean cell that holds 1 still reads 1 after
`packed_table_set_cell` writes 0 to it; and on a freshly created table with
one integer column of range `[5, 300]`, `packed_table_get_cell` returns 12
after `packed_table_set_cell` writes 7. -/
theorem C1_roundtrip_counterexample :
    valid_layout 1 1 [0] [1] [0] [0] [0] ∧
    packed_table_get_cell (packed_table_set_cell
      (packed_table_set_cell (packed_table_create 1 [0] [1] [0] [0] [0] 1) 0 0 1) 0 0 0) 0 0
      = 1 ∧
    valid_layout 0 1 [5] [300] [2] [0] [4] ∧
    packed_table_get_cell (packed_table_set_cell
      (packed_table_create 1 [5] [300] [2] [0] [4] 1) 0 0 7) 0 0 = 12 ∧
    ¬ (packed_table_get_cell (packed_table_set_cell
      (packed_table_set_cell (packed_table_create 1 [0] [1] [0] [0] [0] 1) 0 0 1) 0 0 0) 0 0
      = 0) ∧
    ¬ (packed_table_get_cell (packed_table_set_cell
      (packed_table_create 1 [5] [300] [2] [0] [4] 1) 0 0 7) 0 0 = 7) := by
  decide

/-- C1 (amended). For a table built by `packed_table_create` from a valid
layout, whatever its contents, every row `r < n_rows`, column `c < n_cols` and
in-range `v`: for a boolean column, `packed_table_get_cell` after
`packed_table_set_cell (table, r, c, v)` returns `v` when `v = col_min[c] + 1`
and what the cell held before when `v = col_min[c]`; for an integer column of
a table without boolean columns whose `col_min[c]` is 0, it returns `v`. -/
theorem C1_set_get_cell (b n_rows n_cols : Nat) (mins maxes : List Int)
    (sizes vec_nums offsets : List Nat) (data : List Vec128) (r c : Nat) (v : Int)
    (hv : valid_layout b n_cols mins maxes sizes vec_nums offsets)
    (hdata : data.length
      = n_rows * (packed_table_create n_rows mins maxes sizes vec_nums offsets n_cols).row_size)
    (hr : r < n_rows) (hc : c < n_cols)
    (hmin : mins.getD c 0 ≤ v) (hmax : v ≤ maxes.getD c 0) :
    (c < b →
      packed_table_get_cell
        (packed_table_set_cell
          (with_data (packed_table_create n_rows mins maxes sizes vec_nums offsets n_cols) data)
          r c v) r c
        = if v = mins.getD c 0 then
            packed_table_get_cell
              (with_data (packed_table_create n_rows mins maxes sizes vec_nums offsets n_cols)
                data) r c
          else v) ∧
    (b = 0 → mins.getD c 0 = 0 →
      packed_table_get_cell
        (packed_table_set_cell
          (with_data (packed_table_create n_rows mins maxes sizes vec_nums offsets n_cols) data)
          r c v) r c = v) := by
  constructor
  · intro hcb
    exact bool_cell_set_get b n_rows n_cols mins maxes sizes vec_nums offsets data r c v hv
      hdata hr hc hcb hmin hmax
  · intro hb hzero
    subst hb
    exact int_cell_set_get n_rows n_cols mins maxes sizes vec_nums offsets data r c v hv
      hdata hr hc hmin hmax hzero

/-- C1 (amended) at a boolean column of a fresh one-column table (write 1, read
1) and at the 3-byte column of a two-column integer table (write 65536 to row
1, read 65536). -/
theorem C1_set_get_cell_witness :
    packed_table_get_cell
      (packed_table_set_cell
        (with_data (packed_table_create 1 [0] [1] [0] [0] [0] 1) [zero_vec]) 0 0 1) 0 0 = 1 ∧
    packed_table_get_cell
      (packed_table_set_cell
        (with_data (packed_table_create 2 [0, 0] [255, 70000] [1, 3] [0, 0] [4, 5] 2)
          [zero_vec, zero_vec]) 1 1 65536) 1 1 = 65536 :=
  ⟨((C1_set_get_cell 1 1 1 [0] [1] [0] [0] [0] [zero_vec] 0 0 1 (by decide) (by decide)
      (by decide) (by decide) (by decide) (by decide)).1 (by decide)).trans
      (if_neg (by decide)),
   (C1_set_get_cell 0 2 2 [0, 0] [255, 70000] [1, 3] [0, 0] [4, 5] [zero_vec, zero_vec] 1 1
      65536 (by decide) (by decide) (by decide) (by decide) (by decide) (by decide)).2 rfl
      (by decide)⟩

/-- C3 (evaluation). On a fresh table with one boolean column and two one-byte
integer columns, `packed_table_set_cell (table, 0, 1, 7)` changes what
`packed_table_get_cell (table, 0, 2)` returns from 0 to 7 and leaves column 1
at 0: it uses mask number `col` where `packed_table_batch_set_col`, which
leaves column 2 alone and sets column 1, uses mask number
`col - n_boolean_cols`. -/
theorem C3_set_cell_writes_next_column :
    valid_layout 1 3 [0, 0, 0] [1, 255, 255] [0, 1, 1] [0, 0, 0] [0, 4, 5] ∧
    packed_table_get_cell
      (packed_table_create 1 [0, 0, 0] [1, 255, 255] [0, 1, 1] [0, 0, 0] [0, 4, 5] 3) 0 2 = 0 ∧
    packed_table_get_cell (packed_table_set_cell
      (packed_table_create 1 [0, 0, 0] [1, 255, 255] [0, 1, 1] [0, 0, 0] [0, 4, 5] 3) 0 1 7)
      0 2 = 7 ∧
    packed_table_get_cell (packed_table_set_cell
      (packed_table_create 1 [0, 0, 0] [1, 255, 255] [0, 1, 1] [0, 0, 0] [0, 4, 5] 3) 0 1 7)
      0 1 = 0 ∧
    packed_table_get_cell (packed_table_batch_set_col
      (packed_table_create 1 [0, 0, 0] [1, 255, 255] [0, 1, 1] [0, 0, 0] [0, 4, 5] 3)
      [0] 1 [7] 1) 0 2 = 0 ∧
    packed_table_get_cell (packed_table_batch_set_col
      (packed_table_create 1 [0, 0, 0] [1, 255, 255] [0, 1, 1] [0, 0, 0] [0, 4, 5] 3)
      [0] 1 [7] 1) 0 1 = 7 := by
  decide

end PackedTable

/-! ## The slots of an unpacked row -/

theorem slot_of_succ_same (c2v : List Nat) (b d : Nat)
    (h : c2v.getD (b + d + 1) 0 = c2v.getD (b + d) 0) :
    unpacked_slot_of c2v b (d + 1) = unpacked_slot_of c2v b d + 1 := by
  rw [unpacked_slot_of, if_pos h]

theorem slot_of_succ_diff (c2v : List Nat) (b d : Nat)
    (h : c2v.getD (b + d + 1) 0 ≠ c2v.getD (b + d) 0) :
    unpacked_slot_of c2v b (d + 1) = (unpacked_slot_of c2v b d + 2) / 2 * 2 := by
  rw [unpacked_slot_of, if_neg h]

theorem slot_of_succ_bounds (c2v : List Nat) (b d : Nat) :
    unpacked_slot_of c2v b d < unpacked_slot_of c2v b (d + 1) ∧
    unpacked_slot_of c2v b (d + 1) ≤ unpacked_slot_of c2v b d + 2 := by
  by_cases h : c2v.getD (b + d + 1) 0 = c2v.getD (b + d) 0
  · rw [slot_of_succ_same _ _ _ h]; omega
  · rw [slot_of_succ_diff _ _ _ h]; omega

theorem slot_of_lt (c2v : List Nat) (b d e : Nat) (h : d < e) :
    unpacked_slot_of c2v b d < unpacked_slot_of c2v b e := by
  induction e with
  | zero => omega
  | succ k ih =>
    have hs := (slot_of_succ_bounds c2v b k).1
    by_cases hk : d = k
    · subst hk; exact hs
    · exact lt_trans (ih (by omega)) hs

theorem slot_of_ge (c2v : List Nat) (b d : Nat) :
    2 * ((b + 1) / 2) ≤ unpacked_slot_of c2v b d := by
  induction d with
  | zero => rw [unpacked_slot_of]
  | succ k ih => have := (slot_of_succ_bounds c2v b k).1; omega

/-- The slot of a column that starts a packed lane is even. -/
theorem slot_of_even_of_diff (c2v : List Nat) (b d : Nat)
    (h : d = 0 ∨ c2v.getD (b + d) 0 ≠ c2v.getD (b + d - 1) 0) :
    unpacked_slot_of c2v b d % 2 = 0 := by
  cases d with
  | zero => rw [unpacked_slot_of]; omega
  | succ k =>
    rcases h with h | h
    · omega
    · rw [slot_of_succ_diff _ _ _ (by simpa using h)]
      omega

/-- Inside one packed lane the slots are consecutive. -/
theorem slot_of_add_same (c2v : List Nat) (b d p : Nat)
    (h : ∀ q, q < p → c2v.getD (b + d + q + 1) 0 = c2v.getD (b + d + q) 0) :
    unpacked_slot_of c2v b (d + p) = unpacked_slot_of c2v b d + p := by
  induction p with
  | zero => rfl
  | succ k ih =>
    have h1 := ih (fun q hq => h q (by omega))
    have h2 := slot_of_succ_same c2v b (d + k) (by
      have := h k (by omega)
      simpa [Nat.add_assoc] using this)
    rw [show d + (k + 1) = d + k + 1 by omega, h2, h1]
    omega

namespace PackedTable

theorem getD_setr (bytes : List Nat) (j : Nat) (hj : j < 16) :
    (_mm_setr_epi8 bytes).getD j 0 = bytes.getD j 0 % 256 := by
  simp only [_mm_setr_epi8, getD_range16_map, hj, if_true]

/-- The pair mask emitted for a column gathers it into the low half. -/
theorem pair_mask_low (start size : Nat) (bv : List Nat)
    (hbv : bv = gather_fill size start 0 (List.replicate 16 255) ∨
      ∃ start2 size2, bv = gather_fill size2 start2 8
        (gather_fill size start 0 (List.replicate 16 255))) :
    gathers_half (_mm_setr_epi8 bv) 0 start size := by
  intro k hk
  rw [getD_setr _ _ (by omega)]
  have h0 : (gather_fill size start 0 (List.replicate 16 255)).getD (8 * 0 + k) 0
      = if k < size then (start + k) % 256 else 255 := by
    rw [gather_fill_getD]
    simp only [List.length_replicate, Nat.mul_zero, Nat.zero_add, Nat.sub_zero]
    by_cases hs : k < size
    · rw [if_pos ⟨Nat.zero_le _, hs, by omega⟩, if_pos hs]
    · have h2 : ¬ (0 ≤ k ∧ k < size ∧ k < 16) := fun h => hs h.2.1
      rw [if_neg h2, if_neg hs, getD_replicate _ _ _ (by omega)]
  rcases hbv with h | ⟨start2, size2, h⟩
  · rw [h, h0]
    split <;> omega
  · rw [h, gather_fill_getD]
    have h2 : ¬ (8 ≤ 8 * 0 + k ∧ 8 * 0 + k < 8 + size2 ∧
        8 * 0 + k < (gather_fill size start 0 (List.replicate 16 255)).length) := by omega
    rw [if_neg h2, h0]
    split <;> omega

/-- The pair mask emitted for two columns gathers the second into the high
half. -/
theorem pair_mask_high (start size start2 size2 : Nat) (hsz : size ≤ 8) :
    gathers_half (_mm_setr_epi8 (gather_fill size2 start2 8
      (gather_fill size start 0 (List.replicate 16 255)))) 1 start2 size2 := by
  intro k hk
  rw [getD_setr _ _ (by omega), gather_fill_getD]
  simp only [gather_fill_length, List.length_replicate]
  by_cases hs : k < size2
  · rw [if_pos ⟨by omega, by omega, by omega⟩, if_pos hs]
    have : 8 * 1 + k - 8 = k := by omega
    rw [this]
    simp
  · have h2 : ¬ (8 ≤ 8 * 1 + k ∧ 8 * 1 + k < 8 + size2 ∧ 8 * 1 + k < 16) := by omega
    have h3 : ¬ (0 ≤ 8 * 1 + k ∧ 8 * 1 + k < 0 + size ∧ 8 * 1 + k < 16) := by omega
    rw [if_neg h2, if_neg hs, gather_fill_getD]
    simp only [List.length_replicate]
    rw [if_neg h3, getD_replicate _ _ _ (by omega)]

/-- Every integer column is gathered by the pair mask that its slot selects:
mask number `slot / 2 - n_boolean_vecs`, half `slot % 2`. -/
theorem createShuffleVec_loop_get2 (ic c2v : List Nat) (n b : Nat)
    (hsz : ∀ c, b ≤ c → c < n → col_size ic c ≤ 8)
    (fuel i : Nat) (g1 g2 : List Vec128) (hfuel : n - i ≤ fuel) (hbi : b ≤ i)
    (hinv1 : i < n → unpacked_slot_of c2v b (i - b) % 2 = 0 ∧
      g2.length = unpacked_slot_of c2v b (i - b) / 2 - (b + 1) / 2)
    (hinv2 : ∀ c, b ≤ c → c < i → c < n →
      gathers_half (g2.getD (unpacked_slot_of c2v b (c - b) / 2 - (b + 1) / 2) zero_vec)
        (unpacked_slot_of c2v b (c - b) % 2) (col_start ic c) (col_size ic c)) :
    ∀ c, b ≤ c → c < n →
      gathers_half
        ((createShuffleVec_loop ic c2v n fuel i g1 g2).2.getD
          (unpacked_slot_of c2v b (c - b) / 2 - (b + 1) / 2) zero_vec)
        (unpacked_slot_of c2v b (c - b) % 2) (col_start ic c) (col_size ic c) := by
  induction fuel generalizing i g1 g2 with
  | zero =>
    intro c hc1 hc2
    rw [createShuffleVec_loop]
    exact hinv2 c hc1 (by omega) hc2
  | succ f ih =>
    rw [createShuffleVec_loop]
    by_cases hi : i < n
    · rw [if_pos hi]
      simp only []
      obtain ⟨hev, hlen⟩ := hinv1 hi
      have hge := slot_of_ge c2v b (i - b)
      have hib : b + (i - b) = i := by omega
      -- columns before `i` keep their masks when a mask is appended
      have hkeep : ∀ (m : Vec128) c, b ≤ c → c < i → c < n →
          gathers_half ((g2 ++ [m]).getD (unpacked_slot_of c2v b (c - b) / 2 - (b + 1) / 2)
            zero_vec) (unpacked_slot_of c2v b (c - b) % 2) (col_start ic c) (col_size ic c) := by
        intro m c hc1 hc2 hc3
        have hlt := slot_of_lt c2v b (c - b) (i - b) (by omega)
        have hgec := slot_of_ge c2v b (c - b)
        rw [List.getD_append _ _ _ _ (by omega)]
        exact hinv2 c hc1 hc2 hc3
      by_cases hp : i + 1 < n ∧ c2v.getD (i + 1) 0 = c2v.getD i 0
      · rw [if_pos hp]
        have hs1 : unpacked_slot_of c2v b (i - b + 1) = unpacked_slot_of c2v b (i - b) + 1 :=
          slot_of_succ_same c2v b (i - b) (by rw [hib]; exact hp.2)
        have hs2 : unpacked_slot_of c2v b (i - b + 2) = unpacked_slot_of c2v b (i - b) + 2 := by
          have hb := slot_of_succ_bounds c2v b (i - b + 1)
          by_cases h2 : c2v.getD (b + (i - b + 1) + 1) 0 = c2v.getD (b + (i - b + 1)) 0
          · rw [show i - b + 2 = i - b + 1 + 1 by omega, slot_of_succ_same _ _ _ h2, hs1]
          · rw [show i - b + 2 = i - b + 1 + 1 by omega, slot_of_succ_diff _ _ _ h2, hs1]
            omega
        apply ih (i + 2) _ _ (by omega) (by omega)
        · intro _
          rw [show i + 2 - b = i - b + 2 by omega, hs2]
          simp only [List.length_append, List.length_singleton]
          omega
        · intro c hc1 hc2 hc3
          by_cases hci : c < i
          · exact hkeep _ c hc1 hci hc3
          · by_cases hce : c = i
            · subst hce
              rw [List.getD_append_right _ _ _ _ (by omega), hlen, Nat.sub_self, hev]
              exact pair_mask_low _ _ _ (Or.inr ⟨_, _, rfl⟩)
            · have hce2 : c = i + 1 := by omega
              subst hce2
              rw [show i + 1 - b = i - b + 1 by omega, hs1]
              have h1 : (unpacked_slot_of c2v b (i - b) + 1) / 2
                  = unpacked_slot_of c2v b (i - b) / 2 := by omega
              have h2 : (unpacked_slot_of c2v b (i - b) + 1) % 2 = 1 := by omega
              rw [h1, h2, List.getD_append_right _ _ _ _ (by omega), hlen, Nat.sub_self]
              exact pair_mask_high _ _ _ _ (hsz i hbi hi)
      · rw [if_neg hp]
        apply ih (i + 1) _ _ (by omega) (by omega)
        · intro hi1
          have hne : c2v.getD (b + (i - b) + 1) 0 ≠ c2v.getD (b + (i - b)) 0 := by
            rw [hib]; exact fun h => hp ⟨hi1, h⟩
          rw [show i + 1 - b = i - b + 1 by omega, slot_of_succ_diff _ _ _ hne]
          simp only [List.length_append, List.length_singleton]
          omega
        · intro c hc1 hc2 hc3
          by_cases hci : c < i
          · exact hkeep _ c hc1 hci hc3
          · have hce : c = i := by omega
            subst hce
            rw [List.getD_append_right _ _ _ _ (by omega), hlen, Nat.sub_self, hev]
            exact pair_mask_low _ _ _ (Or.inl rfl)
    · rw [if_neg hi]
      intro c hc1 hc2
      exact hinv2 c hc1 (by omega) hc2

/-! ## Columns per lane -/

theorem count_loop_length (c2v : List Nat) (m lo : Nat) (counts : List Nat) :
    (for_loop (fun i c =>
        c.set (c2v.getD i 0) ((c.getD (c2v.getD i 0) 0 + 1) % 256)) m lo counts).length
      = counts.length := by
  induction m generalizing lo counts with
  | zero => rfl
  | succ k ih => rw [for_loop, ih]; simp

/-- The counting loop of `createColumnIndexes` counts, for every lane, the
columns it visits that lie in that lane. -/
theorem count_loop_getD (c2v : List Nat) (m lo : Nat) (counts : List Nat) (v : Nat)
    (hv : v < counts.length) (hsmall : counts.getD v 0 + m < 256) :
    (for_loop (fun i c =>
        c.set (c2v.getD i 0) ((c.getD (c2v.getD i 0) 0 + 1) % 256)) m lo counts).getD v 0
      = counts.getD v 0
        + List.countP (fun c => decide (c2v.getD c 0 = v)) (List.range' lo m) := by
  induction m generalizing lo counts with
  | zero => simp [for_loop]
  | succ k ih =>
    rw [for_loop, List.range'_succ, List.countP_cons]
    by_cases hlane : c2v.getD lo 0 = v
    · have hstep : (counts.set (c2v.getD lo 0) ((counts.getD (c2v.getD lo 0) 0 + 1) % 256)).getD
          v 0 = counts.getD v 0 + 1 := by
        rw [hlane, getD_set_eq _ _ _ _ hv, Nat.mod_eq_of_lt (by omega)]
      rw [ih (lo + 1) _ (by simpa using hv) (by rw [hstep]; omega), hstep]
      simp only [hlane, decide_True, if_true]
      omega
    · have hstep : (counts.set (c2v.getD lo 0) ((counts.getD (c2v.getD lo 0) 0 + 1) % 256)).getD
          v 0 = counts.getD v 0 := getD_set_ne _ _ _ _ _ hlane
      rw [ih (lo + 1) _ (by simpa using hv) (by rw [hstep]; omega), hstep]
      simp only [hlane, decide_False, Bool.false_eq_true, if_false, Nat.add_zero]

/-- In a non-decreasing run of lanes that are all at least `v`, the columns of
lane `v` are the first ones, as many as the count says. -/
theorem lane_initial_segment (f : Nat → Nat) (v m a : Nat)
    (hmono : ∀ j j', j ≤ j' → j' < m → f (a + j) ≤ f (a + j'))
    (hge : ∀ j, j < m → v ≤ f (a + j)) :
    ∀ j, j < m →
      (f (a + j) = v ↔ j < List.countP (fun c => decide (f c = v)) (List.range' a m)) := by
  induction m generalizing a with
  | zero => intro j hj; omega
  | succ k ih =>
    intro j hj
    rw [List.range'_succ, List.countP_cons]
    have ih' := ih (a + 1)
      (fun j j' h1 h2 => by
        have := hmono (j + 1) (j' + 1) (by omega) (by omega)
        simpa [Nat.add_assoc, Nat.add_comm 1] using this)
      (fun j h => by
        have := hge (j + 1) (by omega)
        simpa [Nat.add_assoc, Nat.add_comm 1] using this)
    by_cases h0 : f a = v
    · simp only [h0, decide_True, if_true]
      cases j with
      | zero => simp [h0]
      | succ j' =>
        have := ih' j' (by omega)
        rw [show a + (j' + 1) = a + 1 + j' by omega, this]
        omega
    · simp only [h0, decide_False, if_false, Bool.false_eq_true, Nat.add_zero]
      have hgt : v < f a := by
        have := hge 0 (by omega)
        simp only [Nat.add_zero] at this
        omega
      have hzero : List.countP (fun c => decide (f c = v)) (List.range' (a + 1) k) = 0 := by
        rw [List.countP_eq_zero]
        intro c hc
        simp only [List.mem_range'_1] at hc
        have := hmono 0 (c - a) (by omega) (by omega)
        simp only [Nat.add_zero] at this
        rw [show a + (c - a) = c by omega] at this
        simp only [decide_eq_true_eq]
        omega
      rw [hzero]
      have := hmono 0 j (by omega) hj
      simp only [Nat.add_zero] at this
      constructor
      · intro h; omega
      · intro h; omega

theorem for_loop_set_at_length {α : Type} (f : Nat → α) (base n lo : Nat) (buf : List α) :
    (for_loop (fun i b => b.set (base + i) (f i)) n lo buf).length = buf.length := by
  induction n generalizing lo buf with
  | zero => rfl
  | succ k ih => rw [for_loop, ih]; simp

/-- A loop that stores `f i` at position `base + i` for `i < n`. -/
theorem for_loop_set_at_getD {α : Type} (f : Nat → α) (base n : Nat) (buf : List α) (d : α)
    (idx : Nat) :
    (for_loop (fun i b => b.set (base + i) (f i)) n 0 buf).getD idx d
      = if base ≤ idx ∧ idx < base + n ∧ idx < buf.length then f (idx - base)
        else buf.getD idx d := by
  induction n with
  | zero =>
    have : ¬ (base ≤ idx ∧ idx < base + 0 ∧ idx < buf.length) := by omega
    rw [for_loop, if_neg this]
  | succ k ih =>
    rw [for_loop_succ_last, Nat.zero_add]
    by_cases hk : idx = base + k
    · by_cases hl : idx < buf.length
      · rw [hk, getD_set_eq _ _ _ _ (by rw [for_loop_set_at_length]; omega),
          if_pos ⟨by omega, by omega, by omega⟩]
        congr 1
        omega
      · rw [if_neg (by omega), ← hk,
          List.getD_eq_default _ _ (by simp only [List.length_set]
                                       rw [for_loop_set_at_length]; omega),
          List.getD_eq_default _ _ (by omega)]
    · rw [getD_set_ne _ _ _ _ _ (Ne.symm hk), ih]
      by_cases hc : base ≤ idx ∧ idx < base + k ∧ idx < buf.length
      · rw [if_pos hc, if_pos ⟨hc.1, by omega, hc.2.2⟩]
      · rw [if_neg hc, if_neg (by omega)]

/-! ## Unpacking one packed lane -/

theorem le_bytes_congr (a a' : Vec128) (n : Nat)
    (h : ∀ k, k < n → a.getD k 0 = a'.getD k 0) : le_bytes a n = le_bytes a' n := by
  induction n with
  | zero => rfl
  | succ m ih =>
    rw [le_bytes, le_bytes, ih (fun k hk => h k (by omega)), h m (by omega)]

theorem getD_drop8 (x : Vec128) (k : Nat) : (x.drop 8).getD k 0 = x.getD (8 + k) 0 := by
  simp [List.getD_eq_getElem?_getD, List.getElem?_drop]

/-- The half of an unpacked pair that a mask half gathers is the value the
column's own gather mask reads. -/
theorem half_of_pair (lane mask : Vec128) (slot start size : Nat)
    (hm : gathers_half mask (slot % 2) start size) :
    v2di_half (v2di_of (unpack_2_metrics lane mask)) slot
      = _mm_extract_epi64_0 (_mm_shuffle_epi8 lane (gather_mask start size)) := by
  have key : ∀ k, k < 8 →
      (_mm_shuffle_epi8 lane mask).getD (8 * (slot % 2) + k) 0
        = (_mm_shuffle_epi8 lane (gather_mask start size)).getD k 0 := by
    intro k hk
    have h2 : slot % 2 < 2 := Nat.mod_lt _ (by norm_num)
    rw [getD_shuffle _ _ _ (by omega), getD_shuffle _ _ _ (by omega), hm k hk,
      getD_gather_mask _ _ _ (by omega)]
  unfold v2di_half v2di_of unpack_2_metrics _mm_extract_epi64_0
  by_cases h0 : slot % 2 = 0
  · rw [if_pos h0]
    simp only []
    congr 2
    apply le_bytes_congr
    intro k hk
    have := key k hk
    rw [h0] at this
    simpa using this
  · rw [if_neg h0]
    simp only []
    congr 2
    apply le_bytes_congr
    intro k hk
    have h1 : slot % 2 = 1 := by omega
    have := key k hk
    rw [h1] at this
    rw [getD_drop8]
    simpa using this

theorem unpack_vector_length (T : packed_table_t) (lane : Vec128) (v dvn : Nat)
    (buf : List V2di) (dest_row : Nat) :
    (unpack_vector T lane v dvn buf dest_row).length = buf.length := by
  unfold unpack_vector
  simp only []
  have hf : (fun vector_index (b : List V2di) =>
      b.set (dest_row + (dvn + vector_index))
        (v2di_of (unpack_2_metrics lane
          (T.shuffle_vecs_get2.getD (dvn - (T.n_boolean_cols + 1) / 2 + vector_index)
            zero_vec))))
      = (fun vector_index (b : List V2di) =>
      b.set (dest_row + dvn + vector_index)
        (v2di_of (unpack_2_metrics lane
          (T.shuffle_vecs_get2.getD (dvn - (T.n_boolean_cols + 1) / 2 + vector_index)
            zero_vec)))) := by
    funext vi b; rw [Nat.add_assoc]
  rw [hf, for_loop_set_at_length]

/-- The lanes `unpack_vector` stores: lane `dest_vec_num + vi` of the
destination row gets the pair gathered by mask
`dest_vec_num - n_boolean_vecs + vi`, for `vi < (n_cols + 1) / 2`. -/
theorem unpack_vector_getD (T : packed_table_t) (lane : Vec128) (v dvn : Nat)
    (buf : List V2di) (dest_row : Nat) (idx : Nat) :
    (unpack_vector T lane v dvn buf dest_row).getD idx (0, 0)
      = if dest_row + dvn ≤ idx ∧
            idx < dest_row + dvn + (T.n_cols_per_vector.getD v 0 + 1) / 2 ∧
            idx < buf.length then
          v2di_of (unpack_2_metrics lane
            (T.shuffle_vecs_get2.getD
              (dvn - (T.n_boolean_cols + 1) / 2 + (idx - (dest_row + dvn))) zero_vec))
        else buf.getD idx (0, 0) := by
  unfold unpack_vector
  simp only []
  have hf : (fun vector_index (b : List V2di) =>
      b.set (dest_row + (dvn + vector_index))
        (v2di_of (unpack_2_metrics lane
          (T.shuffle_vecs_get2.getD (dvn - (T.n_boolean_cols + 1) / 2 + vector_index)
            zero_vec))))
      = (fun vector_index (b : List V2di) =>
      b.set (dest_row + dvn + vector_index)
        (v2di_of (unpack_2_metrics lane
          (T.shuffle_vecs_get2.getD (dvn - (T.n_boolean_cols + 1) / 2 + vector_index)
            zero_vec)))) := by
    funext vi b; rw [Nat.add_assoc]
  rw [hf, for_loop_set_at_getD]

theorem slot_of_le (c2v : List Nat) (b d e : Nat) (h : d ≤ e) :
    unpacked_slot_of c2v b d ≤ unpacked_slot_of c2v b e := by
  rcases Nat.lt_or_ge d e with h1 | h1
  · exact le_of_lt (slot_of_lt c2v b d e h1)
  · have : d = e := by omega
    rw [this]

/-- The columns of lane `vector_num` are the `n_cols_per_vector[vector_num]`
columns from `column_idx` on. -/
theorem lane_columns (T : packed_table_t) (b n r dest_row : Nat) (st sz : Nat → Nat)
    (buf0 : List V2di) (s : unpack_state)
    (hL : layout_facts T b n st sz) (hinv : unpack_inv T b n r dest_row buf0 s)
    (hv : s.vector_num < T.unpadded_row_size) :
    s.column_idx + T.n_cols_per_vector.getD s.vector_num 0 ≤ n ∧
    ∀ j, j < n - s.column_idx →
      (T.col_2_vector.getD (s.column_idx + j) 0 = s.vector_num ↔
        j < T.n_cols_per_vector.getD s.vector_num 0) := by
  have hk := hL.counts s.vector_num hv
  have hsplit : List.range' b (n - b)
      = List.range' b (s.column_idx - b) ++ List.range' s.column_idx (n - s.column_idx) := by
    have := List.range'_append_1 b (s.column_idx - b) (n - s.column_idx)
    rw [show b + (s.column_idx - b) = s.column_idx by have := hinv.ci_ge; omega,
      show n - s.column_idx + (s.column_idx - b) = n - b by
        have := hinv.ci_ge; have := hinv.ci_le; omega] at this
    exact this.symm
  have hzero : List.countP (fun c => decide (T.col_2_vector.getD c 0 = s.vector_num))
      (List.range' b (s.column_idx - b)) = 0 := by
    rw [List.countP_eq_zero]
    intro c hc
    simp only [List.mem_range'_1] at hc
    have := hinv.before c hc.1 (by omega)
    simp only [decide_eq_true_eq]
    omega
  rw [hsplit, List.countP_append, hzero, Nat.zero_add] at hk
  have hseg := lane_initial_segment (fun c => T.col_2_vector.getD c 0) s.vector_num
    (n - s.column_idx) s.column_idx
    (fun j j' h1 h2 => hL.mono _ _ (by have := hinv.ci_ge; omega) (by omega) (by omega))
    (fun j hj => hinv.after _ (by omega) (by omega))
  constructor
  · rw [hk]
    have := @List.countP_le_length _ (fun c => decide (T.col_2_vector.getD c 0 = s.vector_num))
      (List.range' s.column_idx (n - s.column_idx))
    simp only [List.length_range'] at this
    have := hinv.ci_le
    omega
  · intro j hj
    rw [hk]
    exact hseg j hj

/-- One round of the lane loop keeps the invariant. -/
theorem unpack_inv_step (T : packed_table_t) (U : unpacked_table_t) (b n r dest_row : Nat)
    (st sz : Nat → Nat) (buf0 : List V2di) (s : unpack_state)
    (hL : layout_facts T b n st sz)
    (hU : ∀ c, b ≤ c → c < n →
      (c = b ∨ T.col_2_vector.getD (c - 1) 0 ≠ T.col_2_vector.getD c 0) →
      U.col_offset.getD c 0 / 2 = unpacked_slot_of T.col_2_vector b (c - b) / 2)
    (hinv : unpack_inv T b n r dest_row buf0 s)
    (hv : s.vector_num < T.unpadded_row_size)
    (hroom : dest_row + (unpacked_slot_of T.col_2_vector b (n - 1 - b) / 2 + 1)
      ≤ buf0.length) :
    unpack_inv T b n r dest_row buf0
      { unpack_step T U (r * T.row_size) dest_row 0 s with
        vector_num := s.vector_num + 1 } := by
  obtain ⟨hkn, hseg⟩ := lane_columns T b n r dest_row st sz buf0 s hL hinv hv
  have hci1 := hinv.ci_ge
  have hci2 := hinv.ci_le
  -- the lanes after the round, position by position
  have hbuf : ∀ idx,
      (unpack_step T U (r * T.row_size) dest_row 0 s).buf.getD idx (0, 0)
        = if dest_row + U.col_offset.getD s.column_idx 0 / 2 ≤ idx ∧
              idx < dest_row + U.col_offset.getD s.column_idx 0 / 2
                + (T.n_cols_per_vector.getD s.vector_num 0 + 1) / 2 ∧
              idx < s.buf.length then
            v2di_of (unpack_2_metrics (T.data.getD (r * T.row_size + s.vector_num) zero_vec)
              (T.shuffle_vecs_get2.getD
                (U.col_offset.getD s.column_idx 0 / 2 - (T.n_boolean_cols + 1) / 2
                  + (idx - (dest_row + U.col_offset.getD s.column_idx 0 / 2))) zero_vec))
          else s.buf.getD idx (0, 0) := by
    intro idx
    simp only [unpack_step, core, Nat.add_zero]
    rw [unpack_vector_getD]
  by_cases hk0 : T.n_cols_per_vector.getD s.vector_num 0 = 0
  · -- an empty lane: nothing is stored
    have hsame : ∀ idx, (unpack_step T U (r * T.row_size) dest_row 0 s).buf.getD idx (0, 0)
        = s.buf.getD idx (0, 0) := by
      intro idx
      rw [hbuf idx, hk0, if_neg (by omega)]
    refine ⟨?_, ?_, ?_, ?_, ?_, ?_, ?_⟩
    · simp only [unpack_step, core]; omega
    · simp only [unpack_step, core, Nat.add_zero]; omega
    · intro c hc1 hc2
      simp only [unpack_step, core, Nat.add_zero, hk0] at hc2
      have := hinv.before c hc1 hc2
      simp only []
      omega
    · intro c hc1 hc2
      simp only [unpack_step, core, Nat.add_zero, hk0] at hc1
      have h1 := hinv.after c hc1 hc2
      have h2 := (hseg (c - s.column_idx) (by omega)).1
      rw [show s.column_idx + (c - s.column_idx) = c by omega, hk0] at h2
      simp only []
      by_contra hcon
      have : T.col_2_vector.getD c 0 = s.vector_num := by omega
      have := h2 this
      omega
    · intro c hc1 hc2
      simp only [unpack_step, core, Nat.add_zero, hk0] at hc2
      have := hsame (dest_row + unpacked_slot_of T.col_2_vector b (c - b) / 2)
      simp only [] at this ⊢
      rw [this]
      exact hinv.done c hc1 hc2
    · simp only [unpack_step, core, Nat.add_zero]
      rw [unpack_vector_length]
      exact hinv.len
    · intro idx hidx
      have := hsame idx
      simp only [] at this ⊢
      rw [this]
      exact hinv.frame idx hidx
  · -- a lane with columns
    have hcin : s.column_idx < n := by omega
    have hlane0 : T.col_2_vector.getD s.column_idx 0 = s.vector_num := by
      have := (hseg 0 (by omega)).2 (by omega)
      simpa using this
    have hcol := hU s.column_idx hci1 hcin (by
      by_cases hb : s.column_idx = b
      · left; exact hb
      · right
        have hprev := hinv.before (s.column_idx - 1) (by omega) (by omega)
        omega)
    have heven : unpacked_slot_of T.col_2_vector b (s.column_idx - b) % 2 = 0 := by
      apply slot_of_even_of_diff
      by_cases hb : s.column_idx = b
      · left; omega
      · right
        have hprev := hinv.before (s.column_idx - 1) (by omega) (by omega)
        rw [show b + (s.column_idx - b) = s.column_idx by omega,
          show s.column_idx - 1 = s.column_idx - 1 from rfl]
        omega
    have hge := slot_of_ge T.col_2_vector b (s.column_idx - b)
    -- the slots of the columns of this lane
    have hslot : ∀ p, p < T.n_cols_per_vector.getD s.vector_num 0 →
        unpacked_slot_of T.col_2_vector b (s.column_idx + p - b)
          = unpacked_slot_of T.col_2_vector b (s.column_idx - b) + p := by
      intro p hp
      rw [show s.column_idx + p - b = s.column_idx - b + p by omega]
      apply slot_of_add_same
      intro q hq
      rw [show b + (s.column_idx - b) + q + 1 = s.column_idx + (q + 1) by omega,
        show b + (s.column_idx - b) + q = s.column_idx + q by omega,
        (hseg (q + 1) (by omega)).2 (by omega), (hseg q (by omega)).2 (by omega)]
    have hlast := hslot (T.n_cols_per_vector.getD s.vector_num 0 - 1) (by omega)
    have hlastle := slot_of_le T.col_2_vector b
      (s.column_idx + (T.n_cols_per_vector.getD s.vector_num 0 - 1) - b) (n - 1 - b) (by omega)
    refine ⟨?_, ?_, ?_, ?_, ?_, ?_, ?_⟩
    · simp only [unpack_step, core]; omega
    · simp only [unpack_step, core, Nat.add_zero]; omega
    · intro c hc1 hc2
      simp only [unpack_step, core, Nat.add_zero] at hc2
      simp only []
      by_cases hc : c < s.column_idx
      · have := hinv.before c hc1 hc; omega
      · have := (hseg (c - s.column_idx) (by omega)).2 (by omega)
        rw [show s.column_idx + (c - s.column_idx) = c by omega] at this
        omega
    · intro c hc1 hc2
      simp only [unpack_step, core, Nat.add_zero] at hc1
      have h1 := hinv.after c (by omega) hc2
      have h2 := (hseg (c - s.column_idx) (by omega)).1
      rw [show s.column_idx + (c - s.column_idx) = c by omega] at h2
      simp only []
      by_contra hcon
      have : T.col_2_vector.getD c 0 = s.vector_num := by omega
      have := h2 this
      omega
    · intro c hc1 hc2
      simp only [unpack_step, core, Nat.add_zero] at hc2
      have hb := hbuf (dest_row + unpacked_slot_of T.col_2_vector b (c - b) / 2)
      simp only [] at hb ⊢
      rw [hb, hcol]
      by_cases hc : c < s.column_idx
      · have hlt := slot_of_lt T.col_2_vector b (c - b) (s.column_idx - b) (by omega)
        rw [if_neg (by omega)]
        exact hinv.done c hc1 hc
      · have hp : c - s.column_idx < T.n_cols_per_vector.getD s.vector_num 0 := by omega
        have hs := hslot (c - s.column_idx) hp
        rw [show s.column_idx + (c - s.column_idx) - b = c - b by omega] at hs
        have hcl : c - b ≤ n - 1 - b := by omega
        have hle := slot_of_le T.col_2_vector b (c - b) (n - 1 - b) hcl
        have hlen := hinv.len
        rw [if_pos ⟨by omega, by omega, by omega⟩]
        have hidx : unpacked_slot_of T.col_2_vector b (s.column_idx - b) / 2 - (T.n_boolean_cols + 1) / 2
            + (dest_row + unpacked_slot_of T.col_2_vector b (c - b) / 2
              - (dest_row + unpacked_slot_of T.col_2_vector b (s.column_idx - b) / 2))
            = unpacked_slot_of T.col_2_vector b (c - b) / 2 - (b + 1) / 2 := by
          rw [hL.nb]; omega
        rw [hidx, half_of_pair _ _ _ _ _ (hL.get2 c hc1 (by omega))]
        have hlane : T.col_2_vector.getD c 0 = s.vector_num := by
          have := (hseg (c - s.column_idx) (by omega)).2 hp
          rw [show s.column_idx + (c - s.column_idx) = c by omega] at this
          exact this
        simp only [internal_get_cell]
        rw [hL.get1 c hc1 (by omega), hlane]
    · simp only [unpack_step, core, Nat.add_zero]
      rw [unpack_vector_length]
      exact hinv.len
    · intro idx hidx
      have hb := hbuf idx
      simp only [] at hb ⊢
      rw [hb, hcol, if_neg (by omega)]
      exact hinv.frame idx hidx

/-- The lane loop keeps the invariant for as many rounds as there are lanes
left. -/
theorem unpack_inv_seq (T : packed_table_t) (U : unpacked_table_t) (b n r dest_row : Nat)
    (st sz : Nat → Nat) (buf0 : List V2di)
    (hL : layout_facts T b n st sz)
    (hU : ∀ c, b ≤ c → c < n →
      (c = b ∨ T.col_2_vector.getD (c - 1) 0 ≠ T.col_2_vector.getD c 0) →
      U.col_offset.getD c 0 / 2 = unpacked_slot_of T.col_2_vector b (c - b) / 2)
    (hroom : dest_row + (unpacked_slot_of T.col_2_vector b (n - 1 - b) / 2 + 1)
      ≤ buf0.length)
    (count : Nat) (s : unpack_state)
    (hinv : unpack_inv T b n r dest_row buf0 s)
    (hv : s.vector_num + count ≤ T.unpadded_row_size) :
    unpack_inv T b n r dest_row buf0
        (unpack_lanes_seq T U (r * T.row_size) dest_row count s) ∧
    (unpack_lanes_seq T U (r * T.row_size) dest_row count s).vector_num
      = s.vector_num + count := by
  induction count generalizing s with
  | zero => exact ⟨hinv, rfl⟩
  | succ k ih =>
    rw [unpack_lanes_seq]
    have hstep := unpack_inv_step T U b n r dest_row st sz buf0 s hL hU hinv (by omega) hroom
    obtain ⟨h1, h2⟩ := ih _ hstep (by simp only []; omega)
    refine ⟨h1, ?_⟩
    rw [h2]
    simp only []
    omega

theorem unpack_lanes_seq_add (T : packed_table_t) (U : unpacked_table_t)
    (src_row dest_row : Nat) (m k : Nat) (s : unpack_state) :
    unpack_lanes_seq T U src_row dest_row (m + k) s
      = unpack_lanes_seq T U src_row dest_row k (unpack_lanes_seq T U src_row dest_row m s) := by
  induction m generalizing s with
  | zero => simp [unpack_lanes_seq]
  | succ j ih =>
    rw [show j + 1 + k = (j + k) + 1 by omega, unpack_lanes_seq, unpack_lanes_seq, ih]

theorem unpack_lanes_seq_vector_num (T : packed_table_t) (U : unpacked_table_t)
    (src_row dest_row : Nat) (m : Nat) (s : unpack_state) :
    (unpack_lanes_seq T U src_row dest_row m s).vector_num = s.vector_num + m := by
  induction m generalizing s with
  | zero => rfl
  | succ j ih =>
    rw [unpack_lanes_seq, ih]
    simp only []
    omega

/-- The loop over the remaining lanes is the sequential loop. -/
theorem unpack_lanes1_eq_seq (T : packed_table_t) (U : unpacked_table_t)
    (src_row dest_row npv : Nat) (fuel : Nat) (s : unpack_state)
    (hfuel : npv - s.vector_num ≤ fuel) :
    unpack_lanes1 T U src_row dest_row npv fuel s
      = unpack_lanes_seq T U src_row dest_row (npv - s.vector_num) s := by
  induction fuel generalizing s with
  | zero =>
    have : npv - s.vector_num = 0 := by omega
    rw [this]; rfl
  | succ f ih =>
    rw [unpack_lanes1]
    by_cases h : s.vector_num < npv
    · rw [if_pos h]
      simp only []
      rw [ih _ (by simp only []; omega)]
      simp only []
      rw [show npv - s.vector_num = (npv - (s.vector_num + 1)) + 1 by omega, unpack_lanes_seq]
    · rw [if_neg h]
      have : npv - s.vector_num = 0 := by omega
      rw [this]; rfl

/-- The four calls of one round of the unrolled loop are four rounds of the
sequential loop. -/
theorem unpack_four_steps (T : packed_table_t) (U : unpacked_table_t)
    (src_row dest_row : Nat) (s : unpack_state) :
    { unpack_step T U src_row dest_row 3
        (unpack_step T U src_row dest_row 2
          (unpack_step T U src_row dest_row 1
            (unpack_step T U src_row dest_row 0 s))) with
      vector_num := s.vector_num + 4 }
      = unpack_lanes_seq T U src_row dest_row 4 s := by
  simp only [unpack_lanes_seq, unpack_step, Nat.add_zero]

/-- The unrolled loop followed by the loop over the remaining lanes visits
every lane once, in order. -/
theorem unpack_lanes_eq_seq (T : packed_table_t) (U : unpacked_table_t)
    (src_row dest_row npv : Nat) (fuel fuel1 : Nat) (s : unpack_state)
    (hfuel1 : npv - s.vector_num ≤ fuel1) :
    unpack_lanes1 T U src_row dest_row npv fuel1
        (unpack_lanes4 T U src_row dest_row npv fuel s)
      = unpack_lanes_seq T U src_row dest_row (npv - s.vector_num) s := by
  induction fuel generalizing s with
  | zero =>
    rw [unpack_lanes4]
    exact unpack_lanes1_eq_seq T U src_row dest_row npv fuel1 s hfuel1
  | succ f ih =>
    rw [unpack_lanes4]
    by_cases h : s.vector_num + 4 < npv
    · rw [if_pos h]
      simp only []
      rw [unpack_four_steps, ih _ (by rw [unpack_lanes_seq_vector_num]; omega),
        unpack_lanes_seq_vector_num,
        show npv - s.vector_num = 4 + (npv - (s.vector_num + 4)) by omega,
        unpack_lanes_seq_add]
    · rw [if_neg h]
      exact unpack_lanes1_eq_seq T U src_row dest_row npv fuel1 s hfuel1

/-! ## Unpacking the boolean columns -/

theorem unpack_bits_state (dest_row : Nat) (k : Nat) (bits : Nat) (buf : List V2di) :
    (for_loop (fun j (s : Nat × List V2di) =>
        (s.1 / 4, s.2.set (dest_row + j) (lookup_table.getD (s.1 % 4) (0, 0))))
      k 0 (bits, buf)).1 = bits / 4 ^ k ∧
    (for_loop (fun j (s : Nat × List V2di) =>
        (s.1 / 4, s.2.set (dest_row + j) (lookup_table.getD (s.1 % 4) (0, 0))))
      k 0 (bits, buf)).2.length = buf.length := by
  induction k with
  | zero => simp [for_loop]
  | succ m ih =>
    rw [for_loop_succ_last]
    simp only [Nat.zero_add, List.length_set]
    refine ⟨?_, ih.2⟩
    rw [ih.1, Nat.div_div_eq_div_mul, pow_succ]

/-- The lanes `unpack_bit_fields` stores: lane `j` of the destination row gets
the pair for bits `2 j` and `2 j + 1` of the header field. -/
theorem unpack_bits_getD (dest_row : Nat) (k : Nat) (bits : Nat) (buf : List V2di)
    (idx : Nat) :
    (for_loop (fun j (s : Nat × List V2di) =>
        (s.1 / 4, s.2.set (dest_row + j) (lookup_table.getD (s.1 % 4) (0, 0))))
      k 0 (bits, buf)).2.getD idx (0, 0)
      = if dest_row ≤ idx ∧ idx < dest_row + k ∧ idx < buf.length then
          lookup_table.getD (bits / 4 ^ (idx - dest_row) % 4) (0, 0)
        else buf.getD idx (0, 0) := by
  induction k with
  | zero =>
    have : ¬ (dest_row ≤ idx ∧ idx < dest_row + 0 ∧ idx < buf.length) := by omega
    rw [for_loop, if_neg this]
  | succ m ih =>
    rw [for_loop_succ_last]
    simp only [Nat.zero_add]
    have hst := unpack_bits_state dest_row m bits buf
    by_cases hk : idx = dest_row + m
    · by_cases hl : idx < buf.length
      · rw [hk, getD_set_eq _ _ _ _ (by rw [hst.2]; omega), if_pos ⟨by omega, by omega, by omega⟩,
          hst.1, show dest_row + m - dest_row = m by omega]
      · rw [if_neg (by omega), ← hk,
          List.getD_eq_default _ _ (by simp only [List.length_set]; rw [hst.2]; omega),
          List.getD_eq_default _ _ (by omega)]
    · rw [getD_set_ne _ _ _ _ _ (Ne.symm hk), ih]
      by_cases hc : dest_row ≤ idx ∧ idx < dest_row + m ∧ idx < buf.length
      · rw [if_pos hc, if_pos ⟨hc.1, by omega, hc.2.2⟩]
      · rw [if_neg hc, if_neg (by omega)]

theorem lookup_table_halves (x : Nat) :
    (lookup_table.getD (x % 4) (0, 0)).1 = ((x % 2 : Nat) : Int) ∧
    (lookup_table.getD (x % 4) (0, 0)).2 = ((x / 2 % 2 : Nat) : Int) := by
  have h : x % 4 = 0 ∨ x % 4 = 1 ∨ x % 4 = 2 ∨ x % 4 = 3 := by omega
  rcases h with h | h | h | h
  · rw [h, show x % 2 = 0 by omega, show x / 2 % 2 = 0 by omega]; exact ⟨rfl, rfl⟩
  · rw [h, show x % 2 = 1 by omega, show x / 2 % 2 = 0 by omega]; exact ⟨rfl, rfl⟩
  · rw [h, show x % 2 = 0 by omega, show x / 2 % 2 = 1 by omega]; exact ⟨rfl, rfl⟩
  · rw [h, show x % 2 = 1 by omega, show x / 2 % 2 = 1 by omega]; exact ⟨rfl, rfl⟩

/-- The bit `internal_get_boolean_cell` tests is the bit of the header field
`cols` that `unpack_bit_fields` unpacks. -/
theorem boolean_cell_bit (header c : Nat) (hc : c < 4) :
    (if header % 2 ^ 32 &&& 2 ^ (28 + c) % 2 ^ 32 ≠ 0 then (1 : Int) else 0)
      = ((bf_cols (header % 2 ^ 32) / 2 ^ c % 2 : Nat) : Int) := by
  have hk2 : 2 ^ (28 + c) < 2 ^ 32 := Nat.pow_lt_pow_right (by norm_num) (by omega)
  rw [Nat.mod_eq_of_lt hk2]
  have hiff := testBit_of_and_two_pow (header % 2 ^ 32) (28 + c)
  have hdm : (header % 2 ^ 32).testBit (28 + c)
      = decide ((header % 2 ^ 32) / 2 ^ (28 + c) % 2 = 1) := Nat.testBit_to_div_mod
  have harith : bf_cols (header % 2 ^ 32) / 2 ^ c % 2
      = (header % 2 ^ 32) / 2 ^ (28 + c) % 2 := by
    unfold bf_cols
    interval_cases c <;> norm_num <;> omega
  rw [harith]
  by_cases hb : (header % 2 ^ 32) / 2 ^ (28 + c) % 2 = 1
  · have : (header % 2 ^ 32) &&& 2 ^ (28 + c) ≠ 0 := hiff.2 (by rw [hdm]; simpa using hb)
    rw [if_pos this, hb]
    rfl
  · have : ¬ ((header % 2 ^ 32) &&& 2 ^ (28 + c) ≠ 0) := fun h => by
      have := hiff.1 h
      rw [hdm] at this
      exact hb (by simpa using this)
    rw [if_neg this, show (header % 2 ^ 32) / 2 ^ (28 + c) % 2 = 0 by omega]
    rfl

/-! ## Unpacking a row -/

theorem unpack_bit_fields_length (buf : List V2di) (dest_row bits nb : Nat) :
    (unpack_bit_fields buf dest_row bits nb).length = buf.length :=
  (unpack_bits_state dest_row _ bits buf).2

theorem unpack_row_layout (T : packed_table_t) (r : Nat) (U : unpacked_table_t) (d pf : Nat) :
    (packed_table_unpack_row_to_table T r U d pf).col_offset = U.col_offset ∧
    (packed_table_unpack_row_to_table T r U d pf).padded_row_len = U.padded_row_len ∧
    (packed_table_unpack_row_to_table T r U d pf).n_rows = U.n_rows ∧
    (packed_table_unpack_row_to_table T r U d pf).n_cols = U.n_cols ∧
    (packed_table_unpack_row_to_table T r U d pf).unpadded_row_len = U.unpadded_row_len := by
  unfold packed_table_unpack_row_to_table
  simp only []
  split <;> exact ⟨rfl, rfl, rfl, rfl, rfl⟩

/-- The lanes of the destination after a row is unpacked into it, when the
lane offsets of the columns that start a packed lane are those of the row
layout. -/
theorem unpack_row_data_first (T : packed_table_t) (U : unpacked_table_t) (b n r d pf : Nat)
    (st sz : Nat → Nat) (hL : layout_facts T b n st sz)
    (hU : ∀ c, b ≤ c → c < n →
      (c = b ∨ T.col_2_vector.getD (c - 1) 0 ≠ T.col_2_vector.getD c 0) →
      U.col_offset.getD c 0 / 2 = unpacked_slot_of T.col_2_vector b (c - b) / 2)
    (hbool : (b + 1) / 2 ≤ U.padded_row_len)
    (hint : b < n →
      unpacked_slot_of T.col_2_vector b (n - 1 - b) / 2 + 1 ≤ U.padded_row_len)
    (hroom : d * U.padded_row_len + U.padded_row_len ≤ U.data.length) :
    (packed_table_unpack_row_to_table T r U d pf).data.length = U.data.length ∧
    (∀ idx, idx < d * U.padded_row_len + (b + 1) / 2 →
      (packed_table_unpack_row_to_table T r U d pf).data.getD idx (0, 0)
        = (unpack_bit_fields U.data (d * U.padded_row_len)
            (bf_cols (load_u32 (T.data.getD (r * T.row_size) zero_vec))) b).getD idx (0, 0)) ∧
    (∀ idx, d * U.padded_row_len + U.padded_row_len ≤ idx →
      (packed_table_unpack_row_to_table T r U d pf).data.getD idx (0, 0)
        = U.data.getD idx (0, 0)) ∧
    (∀ c, b ≤ c → c < n →
      v2di_half ((packed_table_unpack_row_to_table T r U d pf).data.getD
          (d * U.padded_row_len + unpacked_slot_of T.col_2_vector b (c - b) / 2) (0, 0))
        (unpacked_slot_of T.col_2_vector b (c - b))
        = internal_get_cell T r (c - b) T.row_size (T.col_2_vector.getD c 0)) := by
  have hb256 : b % 256 = b := Nat.mod_eq_of_lt (by have := hL.b_le4; omega)
  have hbits : ∀ idx, d * U.padded_row_len + (b + 1) / 2 ≤ idx →
      (unpack_bit_fields U.data (d * U.padded_row_len)
        (bf_cols (load_u32 (T.data.getD (r * T.row_size) zero_vec))) b).getD idx (0, 0)
        = U.data.getD idx (0, 0) := by
    intro idx hidx
    unfold unpack_bit_fields
    rw [unpack_bits_getD, hb256, if_neg (by omega)]
  unfold packed_table_unpack_row_to_table
  simp only []
  rw [hL.nb, hL.ncols]
  by_cases hnb : n = b
  · rw [if_pos hnb]
    simp only []
    refine ⟨unpack_bit_fields_length _ _ _ _, fun _ _ => trivial, ?_, ?_⟩
    · intro idx hidx
      exact hbits idx (by omega)
    · intro c hc1 hc2; omega
  · rw [if_neg hnb]
    simp only []
    have hbn : b < n := by have := hL.b_le; omega
    have hroomU := hint hbn
    rw [unpack_lanes_eq_seq T U (r * T.row_size) (d * U.padded_row_len) T.unpadded_row_size
      T.unpadded_row_size T.unpadded_row_size _ (by simp only []; omega)]
    simp only [Nat.sub_zero]
    have hinv0 : unpack_inv T b n r (d * U.padded_row_len)
        (unpack_bit_fields U.data (d * U.padded_row_len)
          (bf_cols (load_u32 (T.data.getD (r * T.row_size) zero_vec))) b)
        { vector_num := 0, column_idx := b,
          buf := unpack_bit_fields U.data (d * U.padded_row_len)
            (bf_cols (load_u32 (T.data.getD (r * T.row_size) zero_vec))) b } := by
      refine ⟨le_refl _, hL.b_le, ?_, ?_, ?_, rfl, fun _ _ => rfl⟩
      · intro c h1 h2; simp only [] at h2; omega
      · intro c _ _; exact Nat.zero_le _
      · intro c h1 h2; simp only [] at h2; omega
    obtain ⟨hinv, hvn⟩ := unpack_inv_seq T U b n r (d * U.padded_row_len) st sz _ hL hU
      (by rw [unpack_bit_fields_length]; omega) T.unpadded_row_size _ hinv0
      (by simp only []; omega)
    have hci : (unpack_lanes_seq T U (r * T.row_size) (d * U.padded_row_len)
        T.unpadded_row_size
        { vector_num := 0, column_idx := b,
          buf := unpack_bit_fields U.data (d * U.padded_row_len)
            (bf_cols (load_u32 (T.data.getD (r * T.row_size) zero_vec))) b }).column_idx = n := by
      by_contra hne
      have h1 := hinv.ci_le
      have h2 := hinv.after _ (le_refl _) (by omega)
      have h3 := hL.lane_lt _ hinv.ci_ge (by omega)
      rw [hvn] at h2
      simp only [] at h2
      omega
    refine ⟨?_, ?_, ?_, ?_⟩
    · rw [hinv.len, unpack_bit_fields_length]
    · intro idx hidx
      exact hinv.frame idx (Or.inl hidx)
    · intro idx hidx
      rw [hinv.frame idx (Or.inr (by omega))]
      exact hbits idx (by omega)
    · intro c hc1 hc2
      exact hinv.done c hc1 (by rw [hci]; exact hc2)

/-- The lanes of the destination after a row is unpacked into it. -/
theorem unpack_row_data (T : packed_table_t) (U : unpacked_table_t) (b n r d pf : Nat)
    (st sz : Nat → Nat) (hL : layout_facts T b n st sz) (hD : dest_facts U T b n)
    (hroom : d * U.padded_row_len + U.padded_row_len ≤ U.data.length) :
    (packed_table_unpack_row_to_table T r U d pf).data.length = U.data.length ∧
    (∀ idx, idx < d * U.padded_row_len + (b + 1) / 2 →
      (packed_table_unpack_row_to_table T r U d pf).data.getD idx (0, 0)
        = (unpack_bit_fields U.data (d * U.padded_row_len)
            (bf_cols (load_u32 (T.data.getD (r * T.row_size) zero_vec))) b).getD idx (0, 0)) ∧
    (∀ idx, d * U.padded_row_len + U.padded_row_len ≤ idx →
      (packed_table_unpack_row_to_table T r U d pf).data.getD idx (0, 0)
        = U.data.getD idx (0, 0)) ∧
    (∀ c, b ≤ c → c < n →
      v2di_half ((packed_table_unpack_row_to_table T r U d pf).data.getD
          (d * U.padded_row_len + unpacked_slot_of T.col_2_vector b (c - b) / 2) (0, 0))
        (unpacked_slot_of T.col_2_vector b (c - b))
        = internal_get_cell T r (c - b) T.row_size (T.col_2_vector.getD c 0)) :=
  unpack_row_data_first T U b n r d pf st sz hL
    (fun c h1 h2 _ => by rw [hD.int_slot c h1 h2]) hD.bool_room hD.int_room hroom

theorem unpacked_slot_eq_half (u : unpacked_table_t) (row slot : Nat) :
    unpacked_slot u row slot
      = v2di_half (u.data.getD (row * u.padded_row_len + slot / 2) (0, 0)) slot := by
  unfold unpacked_slot v2di_half
  split <;> rfl

theorem stored_value_int (T : packed_table_t) (b r c : Nat) (hnb : T.n_boolean_cols = b)
    (hb4 : b ≤ 4) (hc : b ≤ c) :
    stored_value T r c = internal_get_cell T r (c - b) T.row_size (T.col_2_vector.getD c 0) := by
  unfold stored_value
  rw [hnb, Nat.mod_eq_of_lt (by omega : b < 256), if_pos hc]

theorem stored_value_bool (T : packed_table_t) (b r c : Nat) (hnb : T.n_boolean_cols = b)
    (hb4 : b ≤ 4) (hc : c < b) :
    stored_value T r c
      = ((bf_cols (load_u32 (T.data.getD (r * T.row_size) zero_vec)) / 2 ^ c % 2 : Nat) : Int) := by
  unfold stored_value
  rw [hnb, Nat.mod_eq_of_lt (by omega : b < 256), if_neg (by omega)]
  unfold internal_get_boolean_cell load_u32 GROUP_SIZE
  simp only [Nat.add_zero]
  exact boolean_cell_bit _ c (by omega)

/-- Unpacking row `r` of a packed table into row `d` of an unpacked table puts
the stored value of every column into the column's slot, and leaves the other
rows of the unpacked table as they were. -/
theorem unpack_row_slots (T : packed_table_t) (U : unpacked_table_t) (b n r d pf : Nat)
    (st sz : Nat → Nat) (hL : layout_facts T b n st sz) (hD : dest_facts U T b n)
    (hroom : d * U.padded_row_len + U.padded_row_len ≤ U.data.length) :
    (∀ c, c < n →
      unpacked_slot (packed_table_unpack_row_to_table T r U d pf) d (U.col_offset.getD c 0)
        = stored_value T r c) ∧
    (∀ d' slot, d' ≠ d → slot / 2 < U.padded_row_len →
      unpacked_slot (packed_table_unpack_row_to_table T r U d pf) d' slot
        = unpacked_slot U d' slot) ∧
    (packed_table_unpack_row_to_table T r U d pf).data.length = U.data.length := by
  obtain ⟨hlen, hlow, hhigh, hint⟩ := unpack_row_data T U b n r d pf st sz hL hD hroom
  have hprl := (unpack_row_layout T r U d pf).2.1
  have hb256 : b % 256 = b := Nat.mod_eq_of_lt (by have := hL.b_le4; omega)
  refine ⟨?_, ?_, hlen⟩
  · intro c hc
    rw [unpacked_slot_eq_half, hprl]
    by_cases hcb : c < b
    · rw [hD.bool_slot c hcb, hlow _ (by omega),
        stored_value_bool T b r c hL.nb hL.b_le4 hcb]
      unfold unpack_bit_fields
      have hroomb := hD.bool_room
      rw [unpack_bits_getD, hb256, if_pos ⟨by omega, by omega, by omega⟩,
        show d * U.padded_row_len + c / 2 - d * U.padded_row_len = c / 2 by omega]
      have hl := lookup_table_halves
        (bf_cols (load_u32 (T.data.getD (r * T.row_size) zero_vec)) / 4 ^ (c / 2))
      unfold v2di_half
      have hb4 := hL.b_le4
      have hc4 : c < 4 := by omega
      by_cases hev : c % 2 = 0
      · rw [if_pos hev, hl.1]
        congr 1
        interval_cases c <;> simp_all
      · rw [if_neg hev, hl.2]
        congr 1
        interval_cases c <;> simp_all
        omega
    · rw [hD.int_slot c (by omega) hc, hint c (by omega) hc,
        stored_value_int T b r c hL.nb hL.b_le4 (by omega)]
  · intro d' slot hd' hslot
    rw [unpacked_slot_eq_half, unpacked_slot_eq_half, hprl]
    congr 1
    rcases Nat.lt_or_gt_of_ne hd' with h | h
    · have h1 : (d' + 1) * U.padded_row_len ≤ d * U.padded_row_len :=
        Nat.mul_le_mul_right _ h
      have h2 : (d' + 1) * U.padded_row_len = d' * U.padded_row_len + U.padded_row_len := by
        ring
      rw [hlow _ (by omega)]
      unfold unpack_bit_fields
      rw [unpack_bits_getD, if_neg (by omega)]
    · have h1 : (d + 1) * U.padded_row_len ≤ d' * U.padded_row_len :=
        Nat.mul_le_mul_right _ h
      have h2 : (d + 1) * U.padded_row_len = d * U.padded_row_len + U.padded_row_len := by
        ring
      exact hhigh _ (by omega)

/-! ## The facts the unpack relies on hold for created tables -/

/-- More fields of a created table. -/
theorem create_fields_lanes (n_rows : Nat) (mins maxes : List Int)
    (sizes vec_nums offsets : List Nat) (n_cols : Nat) :
    (packed_table_create n_rows mins maxes sizes vec_nums offsets n_cols).n_cols = n_cols ∧
    (packed_table_create n_rows mins maxes sizes vec_nums offsets n_cols).unpadded_row_size
      = vec_nums.getD (n_cols - 1) 0 + 1 ∧
    (packed_table_create n_rows mins maxes sizes vec_nums offsets n_cols).n_cols_per_vector
      = count_cols_per_vector (create_index_state n_cols sizes vec_nums offsets).col_2_vector
          (create_index_state n_cols sizes vec_nums offsets).n_boolean_cols n_cols
          (List.replicate (vec_nums.getD (n_cols - 1) 0 + 1) 0) := by
  unfold packed_table_create createColumnIndexes create_index_state
  simp only []
  split <;> simp [createShuffleBlendFromIndexes, createShuffleVecFromIndexes]

/-- The pair masks of a created table that has an integer column. -/
theorem create_get2 (n_rows : Nat) (mins maxes : List Int)
    (sizes vec_nums offsets : List Nat) (n_cols : Nat)
    (hint : n_cols - (create_index_state n_cols sizes vec_nums offsets).n_boolean_cols ≠ 0) :
    (packed_table_create n_rows mins maxes sizes vec_nums offsets n_cols).shuffle_vecs_get2
      = pad_vecs
          (createShuffleVec_loop (create_index_state n_cols sizes vec_nums offsets).index_cols
            (create_index_state n_cols sizes vec_nums offsets).col_2_vector (n_cols % 256)
            (n_cols % 256
              - (create_index_state n_cols sizes vec_nums offsets).n_boolean_cols % 256)
            ((create_index_state n_cols sizes vec_nums offsets).n_boolean_cols % 256) [] []).2
          (n_cols % 256
            - (create_index_state n_cols sizes vec_nums offsets).n_boolean_cols % 256) := by
  unfold create_index_state at hint
  unfold packed_table_create createColumnIndexes create_index_state
  simp only []
  rw [if_pos hint]
  simp [createShuffleBlendFromIndexes, createShuffleVecFromIndexes]

theorem getD_pad_vecs (l : List Vec128) (n idx : Nat) :
    (pad_vecs l n).getD idx zero_vec = l.getD idx zero_vec := by
  unfold pad_vecs
  by_cases h : idx < l.length
  · rw [List.getD_append _ _ _ _ h]
  · rw [List.getD_append_right _ _ _ _ (by omega), List.getD_eq_default l _ (by omega)]
    by_cases h2 : idx - l.length < n - l.length
    · simp [List.getD_eq_getElem?_getD, List.getElem?_replicate, h2]
    · rw [List.getD_eq_default _ _ (by simp; omega)]

/-- A table built by `packed_table_create` from a valid layout, with any
contents, has the facts the row unpack relies on. -/
theorem create_layout_facts (b n_cols : Nat) (mins maxes : List Int)
    (sizes vec_nums offsets : List Nat) (n_rows : Nat) (data : List Vec128)
    (hv : valid_layout b n_cols mins maxes sizes vec_nums offsets) :
    layout_facts
      (with_data (packed_table_create n_rows mins maxes sizes vec_nums offsets n_cols) data)
      b n_cols (fun c => offsets.getD c 0) (fun c => sizes.getD c 0) := by
  obtain ⟨f1, f2, f3, f4, _⟩ := create_fields n_rows mins maxes sizes vec_nums offsets n_cols
  obtain ⟨l1, l2, l3⟩ := create_fields_lanes n_rows mins maxes sizes vec_nums offsets n_cols
  obtain ⟨hnb, hent⟩ := valid_index_state b n_cols mins maxes sizes vec_nums offsets hv
  have hv' := hv
  obtain ⟨h0, h256, hbn, hb4, hlast, hcol⟩ := hv'
  have hsz : ∀ x, x < n_cols → b ≤ x → sizes.getD x 0 ≠ 0 := fun x hx hbx h =>
    absurd ((hcol x hx).1.1 h) (by omega)
  have hlane : ∀ c, b ≤ c → c < n_cols →
      (packed_table_create n_rows mins maxes sizes vec_nums offsets n_cols).col_2_vector.getD c 0
        = vec_nums.getD c 0 := by
    intro c hc1 hc2
    rw [f2]
    exact ((hent c hc2).2 (hsz c hc2 hc1)).2.2
  have hn : n_cols % 256 = n_cols := Nat.mod_eq_of_lt h256
  have hb : b % 256 = b := Nat.mod_eq_of_lt (by omega)
  refine ⟨?_, l1, hbn, hb4, ?_, ?_, ?_, ?_, ?_, ?_, ?_⟩
  · show (packed_table_create n_rows mins maxes sizes vec_nums offsets n_cols).n_boolean_cols = b
    rw [f1, hnb]
  · intro c c' hc1 hc2 hc3
    show (packed_table_create n_rows mins maxes sizes vec_nums offsets n_cols).col_2_vector.getD
      c 0 ≤ (packed_table_create n_rows mins maxes sizes vec_nums offsets
        n_cols).col_2_vector.getD c' 0
    rw [hlane c hc1 (by omega), hlane c' (by omega) hc3]
    rcases Nat.lt_or_ge c c' with h | h
    · obtain ⟨_, _, _, _, _, v6⟩ := (hcol c' hc3).2.2.2.2.2 (hsz c' hc3 (by omega))
      exact (v6 c h (hsz c (by omega) hc1)).1
    · have : c = c' := by omega
      rw [this]
  · intro c hc1 hc2
    show (packed_table_create n_rows mins maxes sizes vec_nums offsets n_cols).col_2_vector.getD
      c 0 < (packed_table_create n_rows mins maxes sizes vec_nums offsets
        n_cols).unpadded_row_size
    rw [hlane c hc1 hc2, l2]
    obtain ⟨_, _, _, _, v5, _⟩ := (hcol c hc2).2.2.2.2.2 (hsz c hc2 hc1)
    omega
  · show (packed_table_create n_rows mins maxes sizes vec_nums offsets n_cols).unpadded_row_size
      ≤ (packed_table_create n_rows mins maxes sizes vec_nums offsets n_cols).row_size
    rw [l2, f4]
    exact le_padded_row_size _
  · show 0 < (packed_table_create n_rows mins maxes sizes vec_nums offsets n_cols).row_size
    rw [f4]
    have := le_padded_row_size (vec_nums.getD (n_cols - 1) 0 + 1)
    omega
  · intro v hvv
    show (packed_table_create n_rows mins maxes sizes vec_nums offsets
      n_cols).n_cols_per_vector.getD v 0
      = List.countP (fun c => decide ((packed_table_create n_rows mins maxes sizes vec_nums
          offsets n_cols).col_2_vector.getD c 0 = v)) (List.range' b (n_cols - b))
    have hvv' : v < vec_nums.getD (n_cols - 1) 0 + 1 := by
      have : v < (packed_table_create n_rows mins maxes sizes vec_nums offsets
        n_cols).unpadded_row_size := hvv
      rw [l2] at this
      exact this
    rw [l3, f2, hnb]
    unfold count_cols_per_vector
    rw [count_loop_getD _ _ _ _ _ (by simpa using hvv')
      (by rw [getD_replicate _ _ _ hvv']; omega), getD_replicate _ _ _ hvv', Nat.zero_add]
  · intro c hc1 hc2
    exact (create_column_masks b n_cols mins maxes sizes vec_nums offsets n_rows hv c hc2 hc1).2.2
  · intro c hc1 hc2
    show gathers_half
      ((packed_table_create n_rows mins maxes sizes vec_nums offsets
        n_cols).shuffle_vecs_get2.getD
        (unpacked_slot_of (packed_table_create n_rows mins maxes sizes vec_nums offsets
          n_cols).col_2_vector b (c - b) / 2 - (b + 1) / 2) zero_vec)
      (unpacked_slot_of (packed_table_create n_rows mins maxes sizes vec_nums offsets
        n_cols).col_2_vector b (c - b) % 2) (offsets.getD c 0) (sizes.getD c 0)
    have hint : n_cols - (create_index_state n_cols sizes vec_nums offsets).n_boolean_cols ≠ 0 := by
      rw [hnb]; omega
    rw [create_get2 n_rows mins maxes sizes vec_nums offsets n_cols hint, getD_pad_vecs, f2,
      hnb, hn, hb]
    have hcs : ∀ x, b ≤ x → x < n_cols →
        col_start (create_index_state n_cols sizes vec_nums offsets).index_cols x
          = offsets.getD x 0 ∧
        col_size (create_index_state n_cols sizes vec_nums offsets).index_cols x
          = sizes.getD x 0 := fun x hx1 hx2 =>
      ⟨((hent x hx2).2 (hsz x hx2 hx1)).1, ((hent x hx2).2 (hsz x hx2 hx1)).2.1⟩
    have key := createShuffleVec_loop_get2
      (create_index_state n_cols sizes vec_nums offsets).index_cols
      (create_index_state n_cols sizes vec_nums offsets).col_2_vector n_cols b
      (fun x hx1 hx2 => by
        rw [(hcs x hx1 hx2).2]
        exact ((hcol x hx2).2.2.2.2.2 (hsz x hx2 hx1)).1)
      (n_cols - b) b [] [] (le_refl _) (le_refl _)
      (fun _ => by
        rw [Nat.sub_self, unpacked_slot_of]
        simp only [List.length_nil]
        omega)
      (fun x hx1 hx2 _ => by omega) c hc1 hc2
    rw [(hcs c hc1 hc2).1, (hcs c hc1 hc2).2] at key
    exact key

end PackedTable

/-! ## The accumulate of `tgs.c` -/

namespace Tgs

open PackedTable

theorem for_loop_length {α : Type} (body : Nat → List α → List α)
    (hbody : ∀ i b, (body i b).length = b.length) (n lo : Nat) (buf : List α) :
    (for_loop body n lo buf).length = buf.length := by
  induction n generalizing lo buf with
  | zero => rfl
  | succ k ih => rw [for_loop, ih, hbody]

/-- A loop that replaces the element at `base + i` by `g i` of it, for `i < n`. -/
theorem for_loop_update_getD {α : Type} (g : Nat → α → α) (base n : Nat) (buf : List α) (d : α)
    (idx : Nat) :
    (for_loop (fun i b => b.set (base + i) (g i (b.getD (base + i) d))) n 0 buf).getD idx d
      = if base ≤ idx ∧ idx < base + n ∧ idx < buf.length then g (idx - base) (buf.getD idx d)
        else buf.getD idx d := by
  have hlen : ∀ m, (for_loop (fun i b => b.set (base + i) (g i (b.getD (base + i) d)))
      m 0 buf).length = buf.length := by
    intro m
    exact for_loop_length _ (fun i b => List.length_set _ _ _) m 0 buf
  induction n with
  | zero =>
    have : ¬ (base ≤ idx ∧ idx < base + 0 ∧ idx < buf.length) := by omega
    rw [for_loop, if_neg this]
  | succ k ih =>
    rw [for_loop_succ_last, Nat.zero_add]
    by_cases hk : idx = base + k
    · by_cases hl : idx < buf.length
      · rw [hk, getD_set_eq _ _ _ _ (by rw [hlen]; omega),
          if_pos ⟨by omega, by omega, by omega⟩]
        rw [hk] at ih
        rw [ih, if_neg (by omega), Nat.add_sub_cancel_left]
      · rw [List.getD_eq_default _ _ (by rw [List.length_set, hlen]; omega), if_neg (by omega),
          List.getD_eq_default _ _ (by omega)]
    · rw [getD_set_ne _ _ _ _ _ (Ne.symm hk), ih]
      by_cases hc : base ≤ idx ∧ idx < base + k ∧ idx < buf.length
      · rw [if_pos hc, if_pos ⟨hc.1, by omega, hc.2.2⟩]
      · rw [if_neg hc, if_neg (by omega)]

theorem add_row_layout (dest src : unpacked_table_t) (g j : Nat) :
    (unpacked_table_add_row dest g src j).col_offset = dest.col_offset ∧
    (unpacked_table_add_row dest g src j).padded_row_len = dest.padded_row_len ∧
    (unpacked_table_add_row dest g src j).data.length = dest.data.length := by
  refine ⟨rfl, rfl, ?_⟩
  exact for_loop_length _ (fun i b => List.length_set _ _ _) _ 0 dest.data

theorem row_index_ne (g g2 p a : Nat) (h : g2 ≠ g) (ha : a < p) :
    ¬ (g * p ≤ g2 * p + a ∧ g2 * p + a < g * p + p) := by
  intro ⟨h1, h2⟩
  rcases Nat.lt_or_gt_of_ne h with hlt | hgt
  · have := Nat.mul_le_mul_right p (show g2 + 1 ≤ g from hlt)
    rw [Nat.add_mul, Nat.one_mul] at this
    omega
  · have := Nat.mul_le_mul_right p (show g + 1 ≤ g2 from hgt)
    rw [Nat.add_mul, Nat.one_mul] at this
    omega

/-- The slots of the accumulator after `add_row`: the slots of the row
`group_id` are the wrapped sums with the staged row, the other rows keep
theirs. -/
theorem add_row_slot (dest src : unpacked_table_t) (g j g2 slot : Nat)
    (hlen : src.padded_row_len = dest.padded_row_len)
    (hroom : g * dest.padded_row_len + dest.padded_row_len ≤ dest.data.length)
    (hs : slot / 2 < dest.padded_row_len) :
    unpacked_slot (unpacked_table_add_row dest g src j) g2 slot
      = if g2 = g then to_int64 (unpacked_slot dest g slot + unpacked_slot src j slot)
        else unpacked_slot dest g2 slot := by
  have hp : (unpacked_table_add_row dest g src j).padded_row_len = dest.padded_row_len := rfl
  have key : (unpacked_table_add_row dest g src j).data.getD
        (g2 * dest.padded_row_len + slot / 2) (0, 0)
      = if g * dest.padded_row_len ≤ g2 * dest.padded_row_len + slot / 2 ∧
          g2 * dest.padded_row_len + slot / 2 < g * dest.padded_row_len + dest.padded_row_len ∧
          g2 * dest.padded_row_len + slot / 2 < dest.data.length
        then _mm_add_epi64 (dest.data.getD (g2 * dest.padded_row_len + slot / 2) (0, 0))
          (src.data.getD (j * src.padded_row_len
            + (g2 * dest.padded_row_len + slot / 2 - g * dest.padded_row_len)) (0, 0))
        else dest.data.getD (g2 * dest.padded_row_len + slot / 2) (0, 0) :=
    for_loop_update_getD
      (fun l x => _mm_add_epi64 x (src.data.getD (j * src.padded_row_len + l) (0, 0)))
      (g * dest.padded_row_len) dest.padded_row_len dest.data (0, 0)
      (g2 * dest.padded_row_len + slot / 2)
  by_cases hg : g2 = g
  · subst hg
    rw [if_pos ⟨by omega, by omega, by omega⟩, Nat.add_sub_cancel_left] at key
    rw [if_pos rfl]
    unfold unpacked_slot
    rw [hp, key, hlen]
    unfold _mm_add_epi64
    by_cases hpar : slot % 2 = 0
    · rw [if_pos hpar, if_pos hpar, if_pos hpar]
    · rw [if_neg hpar, if_neg hpar, if_neg hpar]
  · rw [if_neg (fun h => row_index_ne g g2 dest.padded_row_len (slot / 2) hg hs
      ⟨h.1, h.2.1⟩)] at key
    rw [if_neg hg]
    unfold unpacked_slot
    rw [hp, key]

theorem to_int64_add_left (x y : Int) : to_int64 (to_int64 x + y) = to_int64 (x + y) := by
  unfold to_int64
  have e63 : (2 : Int) ^ 63 = 9223372036854775808 := by norm_num
  have e64 : (2 : Int) ^ 64 = 18446744073709551616 := by norm_num
  rw [e63, e64]
  omega

theorem to_int64_idem (x : Int) : to_int64 (to_int64 x) = to_int64 x := by
  have := to_int64_add_left x 0
  simpa using this

/-- The facts of `dest_facts` depend on the row layout only. -/
theorem dest_facts_congr (U V : unpacked_table_t) (T : packed_table_t) (b n : Nat)
    (h : dest_facts U T b n) (h1 : V.col_offset = U.col_offset)
    (h2 : V.padded_row_len = U.padded_row_len) : dest_facts V T b n :=
  ⟨fun c hc => by rw [h1]; exact h.bool_slot c hc,
   fun c hc1 hc2 => by rw [h1]; exact h.int_slot c hc1 hc2,
   by rw [h2]; exact h.bool_room,
   fun hbn => by rw [h2]; exact h.int_room hbn⟩

/-- The slot of every column lies inside the row. -/
theorem dest_slot_lt (U : unpacked_table_t) (T : packed_table_t) (b n c : Nat)
    (h : dest_facts U T b n) (hc : c < n) : U.col_offset.getD c 0 / 2 < U.padded_row_len := by
  by_cases hb : c < b
  · rw [h.bool_slot c hb]
    have := h.bool_room
    omega
  · rw [h.int_slot c (by omega) hc]
    have h1 := h.int_room (by omega)
    have h2 := slot_of_le T.col_2_vector b (c - b) (n - 1 - b) (by omega)
    omega

theorem and_31 (i : Nat) (h : i < 32) : i &&& 31 = i := by
  have := Nat.and_pow_two_sub_one_eq_mod i 5
  simp only [show (2 : Nat) ^ 5 - 1 = 31 by norm_num, show (2 : Nat) ^ 5 = 32 by norm_num] at this
  rw [this, Nat.mod_eq_of_lt h]

theorem row_room (i p len : Nat) (h : i < 32) (hlen : 32 * p ≤ len) : i * p + p ≤ len := by
  have := Nat.mul_le_mul_right p (show i + 1 ≤ 32 from h)
  rw [Nat.add_mul, Nat.one_mul] at this
  omega

/-- The first sweep of a chunk of at most 32 docs: staging row `i` holds what
the table stores for doc `i` of the chunk in every column, and `grp_buf[i]`
holds the doc's group. -/
theorem lookup_sweep (T : packed_table_t) (b n : Nat) (st sz : Nat → Nat)
    (hL : layout_facts T b n st sz) (docs : List Nat) (s : accumulate_state)
    (hD : dest_facts s.temp_buf T b n)
    (hroom : 32 * s.temp_buf.padded_row_len ≤ s.temp_buf.data.length)
    (count : Nat) (hc : count ≤ 32) (hg : count ≤ s.grp_buf.length) :
    (for_loop (lookup_step T docs 31) count 0 s).group_stats = s.group_stats ∧
    (for_loop (lookup_step T docs 31) count 0 s).temp_buf.col_offset = s.temp_buf.col_offset ∧
    (for_loop (lookup_step T docs 31) count 0 s).temp_buf.padded_row_len
      = s.temp_buf.padded_row_len ∧
    (for_loop (lookup_step T docs 31) count 0 s).temp_buf.data.length
      = s.temp_buf.data.length ∧
    (for_loop (lookup_step T docs 31) count 0 s).grp_buf.length = s.grp_buf.length ∧
    (∀ i c, i < count → c < n →
      unpacked_slot (for_loop (lookup_step T docs 31) count 0 s).temp_buf i
          (s.temp_buf.col_offset.getD c 0) = stored_value T (docs.getD i 0) c) ∧
    (∀ i, i < count →
      (for_loop (lookup_step T docs 31) count 0 s).grp_buf.getD i 0
        = packed_table_get_group T (docs.getD i 0)) := by
  induction count with
  | zero =>
    exact ⟨rfl, rfl, rfl, rfl, rfl, fun i c hi => absurd hi (by omega),
      fun i hi => absurd hi (by omega)⟩
  | succ k ih =>
    obtain ⟨i1, i2, i3, i4, i5, i6, i7⟩ := ih (by omega) (by omega)
    rw [for_loop_succ_last, Nat.zero_add]
    generalize for_loop (lookup_step T docs 31) k 0 s = s1 at i1 i2 i3 i4 i5 i6 i7
    have hD1 : dest_facts s1.temp_buf T b n := dest_facts_congr _ _ T b n hD i2 i3
    have hr1 : k * s1.temp_buf.padded_row_len + s1.temp_buf.padded_row_len
        ≤ s1.temp_buf.data.length := by
      rw [i3, i4]
      exact row_room k _ _ (by omega) hroom
    obtain ⟨u1, u2, u3⟩ := unpack_row_slots T s1.temp_buf b n (docs.getD k 0) k
      (docs.getD ((k + N_ROWS_PREFETCH / 2) &&& 31) 0) st sz hL hD1 hr1
    obtain ⟨y1, y2, _, _, _⟩ := unpack_row_layout T (docs.getD k 0) s1.temp_buf k
      (docs.getD ((k + N_ROWS_PREFETCH / 2) &&& 31) 0)
    unfold lookup_step
    simp only [and_31 k (by omega)]
    refine ⟨i1, y1.trans i2, y2.trans i3, u3.trans i4, ?_, ?_, ?_⟩
    · rw [List.length_set, i5]
    · intro i c hi hcn
      by_cases hik : i = k
      · rw [hik, ← i2]
        exact u1 c hcn
      · rw [u2 i _ hik (by rw [← i2]; exact dest_slot_lt _ T b n c hD1 hcn)]
        exact i6 i c (by omega) hcn
    · intro i hi
      by_cases hik : i = k
      · rw [hik, getD_set_eq _ _ _ _ (by omega)]
      · rw [getD_set_ne _ _ _ _ _ (Ne.symm hik)]
        exact i7 i (by omega)

/-- The second sweep of a chunk of at most 32 docs: every accumulator slot
grows by the staged values of the rounds whose group is its row. -/
theorem accumulate_sweep (s : accumulate_state)
    (hlen : s.temp_buf.padded_row_len = s.group_stats.padded_row_len)
    (count : Nat) (hc : count ≤ 32)
    (hrows : ∀ i, i < count →
      (s.grp_buf.getD i 0).toNat * s.group_stats.padded_row_len
        + s.group_stats.padded_row_len ≤ s.group_stats.data.length) :
    (for_loop (accumulate_step 31) count 0 s).temp_buf = s.temp_buf ∧
    (for_loop (accumulate_step 31) count 0 s).grp_buf = s.grp_buf ∧
    (for_loop (accumulate_step 31) count 0 s).group_stats.col_offset
      = s.group_stats.col_offset ∧
    (for_loop (accumulate_step 31) count 0 s).group_stats.padded_row_len
      = s.group_stats.padded_row_len ∧
    (for_loop (accumulate_step 31) count 0 s).group_stats.data.length
      = s.group_stats.data.length ∧
    (∀ g slot, slot / 2 < s.group_stats.padded_row_len →
      to_int64 (unpacked_slot s.group_stats g slot) = unpacked_slot s.group_stats g slot →
      unpacked_slot (for_loop (accumulate_step 31) count 0 s).group_stats g slot
        = to_int64 (unpacked_slot s.group_stats g slot
            + sum_where (fun i => decide ((s.grp_buf.getD i 0).toNat = g))
                (fun i => unpacked_slot s.temp_buf i slot) count)) := by
  induction count with
  | zero =>
    refine ⟨rfl, rfl, rfl, rfl, rfl, fun g slot _ h0 => ?_⟩
    show unpacked_slot s.group_stats g slot = to_int64 (unpacked_slot s.group_stats g slot + 0)
    rw [Int.add_zero, h0]
  | succ k ih =>
    obtain ⟨i1, i2, i3, i4, i5, i6⟩ := ih (by omega) (fun i hi => hrows i (by omega))
    rw [for_loop_succ_last, Nat.zero_add]
    generalize for_loop (accumulate_step 31) k 0 s = s1 at i1 i2 i3 i4 i5 i6
    unfold accumulate_step
    simp only [and_31 k (by omega)]
    obtain ⟨a1, a2, a3⟩ := add_row_layout s1.group_stats s1.temp_buf
      (s1.grp_buf.getD k 0).toNat k
    refine ⟨i1, i2, a1.trans i3, a2.trans i4, a3.trans i5, fun g slot hs h0 => ?_⟩
    rw [add_row_slot s1.group_stats s1.temp_buf _ k g slot (by rw [i1, i4, hlen])
      (by rw [i2, i4, i5]; exact hrows k (by omega)) (by rw [i4]; exact hs), i2, i1]
    show _ = to_int64 (unpacked_slot s.group_stats g slot
      + (sum_where (fun i => decide ((s.grp_buf.getD i 0).toNat = g))
          (fun i => unpacked_slot s.temp_buf i slot) k
        + if decide ((s.grp_buf.getD k 0).toNat = g) = true
          then unpacked_slot s.temp_buf k slot else 0))
    by_cases hgk : (s.grp_buf.getD k 0).toNat = g
    · rw [if_pos hgk.symm, if_pos (by simpa using hgk), hgk, i6 g slot hs h0,
        to_int64_add_left, Int.add_assoc]
    · rw [if_neg (fun h => hgk h.symm), if_neg (by simpa using hgk), Int.add_zero]
      exact i6 g slot hs h0

theorem sum_where_congr (p q : Nat → Bool) (f h : Nat → Int) (k : Nat)
    (hp : ∀ i, i < k → p i = q i) (hf : ∀ i, i < k → f i = h i) :
    sum_where p f k = sum_where q h k := by
  induction k with
  | zero => rfl
  | succ m ih =>
    rw [sum_where, sum_where, ih (fun i hi => hp i (by omega)) (fun i hi => hf i (by omega)),
      hp m (by omega), hf m (by omega)]

/-- One chunk of at most 32 docs: every accumulator slot of a column grows by
the sum, over the docs of the chunk whose group is the slot's row, of what the
table stores for the doc in the column. -/
theorem chunk_accumulate (T : packed_table_t) (b n : Nat) (st sz : Nat → Nat)
    (hL : layout_facts T b n st sz) (docs : List Nat) (count : Nat) (hc : count ≤ 32)
    (s : accumulate_state) (hD : dest_facts s.temp_buf T b n)
    (hoff : s.group_stats.col_offset = s.temp_buf.col_offset)
    (hprl : s.temp_buf.padded_row_len = s.group_stats.padded_row_len)
    (htmp : 32 * s.temp_buf.padded_row_len ≤ s.temp_buf.data.length)
    (hg : count ≤ s.grp_buf.length) (rows : Nat)
    (hacc : rows * s.group_stats.padded_row_len ≤ s.group_stats.data.length)
    (hgrp : ∀ i, i < count → (packed_table_get_group T (docs.getD i 0)).toNat < rows) :
    (lookup_and_accumulate_grp_stats T s.group_stats docs count s.grp_buf s.temp_buf
      31).group_stats.col_offset = s.group_stats.col_offset ∧
    (lookup_and_accumulate_grp_stats T s.group_stats docs count s.grp_buf s.temp_buf
      31).group_stats.padded_row_len = s.group_stats.padded_row_len ∧
    (lookup_and_accumulate_grp_stats T s.group_stats docs count s.grp_buf s.temp_buf
      31).group_stats.data.length = s.group_stats.data.length ∧
    (lookup_and_accumulate_grp_stats T s.group_stats docs count s.grp_buf s.temp_buf
      31).temp_buf.col_offset = s.temp_buf.col_offset ∧
    (lookup_and_accumulate_grp_stats T s.group_stats docs count s.grp_buf s.temp_buf
      31).temp_buf.padded_row_len = s.temp_buf.padded_row_len ∧
    (lookup_and_accumulate_grp_stats T s.group_stats docs count s.grp_buf s.temp_buf
      31).temp_buf.data.length = s.temp_buf.data.length ∧
    (lookup_and_accumulate_grp_stats T s.group_stats docs count s.grp_buf s.temp_buf
      31).grp_buf.length = s.grp_buf.length ∧
    (∀ g c, c < n →
      to_int64 (unpacked_slot s.group_stats g (s.group_stats.col_offset.getD c 0))
        = unpacked_slot s.group_stats g (s.group_stats.col_offset.getD c 0) →
      unpacked_slot (lookup_and_accumulate_grp_stats T s.group_stats docs count s.grp_buf
          s.temp_buf 31).group_stats g (s.group_stats.col_offset.getD c 0)
        = to_int64 (unpacked_slot s.group_stats g (s.group_stats.col_offset.getD c 0)
            + sum_where
                (fun i => decide ((packed_table_get_group T (docs.getD i 0)).toNat = g))
                (fun i => stored_value T (docs.getD i 0) c) count)) := by
  have he : lookup_and_accumulate_grp_stats T s.group_stats docs count s.grp_buf s.temp_buf 31
      = for_loop (accumulate_step 31) count 0 (for_loop (lookup_step T docs 31) count 0 s) := rfl
  rw [he]
  obtain ⟨l1, l2, l3, l4, l5, l6, l7⟩ := lookup_sweep T b n st sz hL docs s hD htmp count hc hg
  generalize for_loop (lookup_step T docs 31) count 0 s = s1 at l1 l2 l3 l4 l5 l6 l7
  have hr : ∀ i, i < count →
      (s1.grp_buf.getD i 0).toNat * s1.group_stats.padded_row_len
        + s1.group_stats.padded_row_len ≤ s1.group_stats.data.length := by
    intro i hi
    rw [l7 i hi, l1]
    have h1 := hgrp i hi
    have h2 := Nat.mul_le_mul_right s.group_stats.padded_row_len
      (show (packed_table_get_group T (docs.getD i 0)).toNat + 1 ≤ rows from h1)
    rw [Nat.add_mul, Nat.one_mul] at h2
    omega
  obtain ⟨a1, a2, a3, a4, a5, a6⟩ := accumulate_sweep s1 (by rw [l3, l1, hprl]) count hc hr
  generalize for_loop (accumulate_step 31) count 0 s1 = s2 at a1 a2 a3 a4 a5 a6
  rw [l1] at a3 a4 a5 a6
  refine ⟨a3, a4, a5, by rw [a1]; exact l2, by rw [a1]; exact l3, by rw [a1]; exact l4,
    by rw [a2]; exact l5, fun g c hcn h0 => ?_⟩
  have hslot : s.group_stats.col_offset.getD c 0 / 2 < s.group_stats.padded_row_len := by
    rw [hoff, ← hprl]
    exact dest_slot_lt _ T b n c hD hcn
  rw [a6 g _ hslot h0]
  congr 2
  apply sum_where_congr
  · intro i hi
    rw [l7 i hi]
  · intro i hi
    rw [hoff]
    exact l6 i c hi hcn

theorem slice_loop_done (decode : Groups.decoder) (T : packed_table_t) (mask fuel : Nat)
    (read_addr : List Nat) (last_value : Int) (s : accumulate_state) :
    slice_loop decode T mask fuel 0 read_addr last_value s = s := by
  cases fuel with
  | zero => rfl
  | succ k => rw [slice_loop, if_neg (by omega)]

/-- A slice of at most 32 docs is read in one chunk. -/
theorem slice_loop_one_chunk (decode : Groups.decoder) (T : packed_table_t) (mask n : Nat)
    (hn : n ≤ 32) (read_addr : List Nat) (s : accumulate_state) :
    slice_loop decode T mask n n read_addr 0 s
      = lookup_and_accumulate_grp_stats T s.group_stats (decode read_addr n 0).1 n
          s.grp_buf s.temp_buf mask := by
  cases n with
  | zero => rfl
  | succ k =>
    rw [slice_loop, if_pos (by omega)]
    have hcount : (if k + 1 > TGS_BUFFER_SIZE then TGS_BUFFER_SIZE else k + 1) = k + 1 := by
      rw [if_neg (by unfold TGS_BUFFER_SIZE; omega)]
    simp only [hcount, Nat.sub_self]
    exact slice_loop_done _ _ _ _ _ _ _

theorem dest_facts_table (U : unpacked_table_t) (T T2 : packed_table_t) (b n : Nat)
    (h : dest_facts U T b n) (hc : T2.col_2_vector = T.col_2_vector) : dest_facts U T2 b n :=
  ⟨h.bool_slot, fun c hc1 hc2 => by rw [hc]; exact h.int_slot c hc1 hc2, h.bool_room,
   fun hbn => by rw [hc]; exact h.int_room hbn⟩

/-- The accumulator `unpacked_table_create` makes for a table has the row
layout the unpack of the table's rows relies on. -/
theorem create_dest_facts (T : packed_table_t) (b n rows : Nat) (hnb : T.n_boolean_cols = b)
    (hn : T.n_cols = n) (hbn : b ≤ n) : dest_facts (unpacked_table_create T rows) T b n := by
  have hoff : ∀ c, c < n → (unpacked_table_create T rows).col_offset.getD c 0
      = if c < b then c else unpacked_slot_of T.col_2_vector b (c - b) := by
    intro c hc
    unfold unpacked_table_create
    simp only [hnb, hn]
    rw [getD_range_map _ _ _ _ hc]
  have hprl : (unpacked_table_create T rows).padded_row_len
      = padded_row_size (if n ≤ b then (b + 1) / 2
          else unpacked_slot_of T.col_2_vector b (n - 1 - b) / 2 + 1) := by
    unfold unpacked_table_create
    simp only [hnb, hn]
  refine ⟨fun c hc => ?_, fun c hc1 hc2 => ?_, ?_, fun hlt => ?_⟩
  · rw [hoff c (by omega), if_pos hc]
  · rw [hoff c hc2, if_neg (by omega)]
  · rw [hprl]
    by_cases hle : n ≤ b
    · rw [if_pos hle]
      exact le_padded_row_size _
    · rw [if_neg hle]
      have h1 := le_padded_row_size (unpacked_slot_of T.col_2_vector b (n - 1 - b) / 2 + 1)
      have h2 := slot_of_ge T.col_2_vector b (n - 1 - b)
      omega
  · rw [hprl, if_neg (by omega)]
    exact le_padded_row_size _

theorem slot_zero_table (n : Nat) (U : unpacked_table_t)
    (hU : U.data = List.replicate n (0, 0)) (g slot : Nat) : unpacked_slot U g slot = 0 := by
  have h : ∀ idx, U.data.getD idx (0, 0) = ((0 : Int), (0 : Int)) := by
    intro idx
    rw [hU]
    by_cases hi : idx < n
    · simp [List.getD_eq_getElem?_getD, List.getElem?_replicate, hi]
    · exact List.getD_eq_default _ _ (by simp; omega)
  unfold unpacked_slot
  rw [h]
  split <;> rfl

/-- The slices of a pass, each read in one chunk of at most 32 docs: every
accumulator slot of a column grows by the sum over the slices. -/
theorem slices_accumulate (decode : Groups.decoder) (infos : List index_slice_info)
    (b n : Nat) (st sz : Nat → Nat) (c2v : List Nat) (rows : Nat) (s : accumulate_state)
    (T : packed_table_t) (hT : T.col_2_vector = c2v) (hD : dest_facts s.temp_buf T b n)
    (hoff : s.group_stats.col_offset = s.temp_buf.col_offset)
    (hprl : s.temp_buf.padded_row_len = s.group_stats.padded_row_len)
    (htmp : 32 * s.temp_buf.padded_row_len ≤ s.temp_buf.data.length)
    (hacc : rows * s.group_stats.padded_row_len ≤ s.group_stats.data.length)
    (ns : Nat)
    (hsl : ∀ k, k < ns →
      layout_facts (infos.getD k null_slice).packed_metrics b n st sz ∧
      (infos.getD k null_slice).packed_metrics.col_2_vector = c2v ∧
      (infos.getD k null_slice).n_docs_in_slice ≤ 32 ∧
      (infos.getD k null_slice).n_docs_in_slice ≤ s.grp_buf.length ∧
      ∀ i, i < (infos.getD k null_slice).n_docs_in_slice →
        (packed_table_get_group (infos.getD k null_slice).packed_metrics
          ((slice_docs decode (infos.getD k null_slice)).getD i 0)).toNat < rows) :
    (for_loop (slice_step decode infos 31) ns 0 s).group_stats.col_offset
      = s.group_stats.col_offset ∧
    (for_loop (slice_step decode infos 31) ns 0 s).group_stats.padded_row_len
      = s.group_stats.padded_row_len ∧
    (for_loop (slice_step decode infos 31) ns 0 s).group_stats.data.length
      = s.group_stats.data.length ∧
    (for_loop (slice_step decode infos 31) ns 0 s).temp_buf.col_offset
      = s.temp_buf.col_offset ∧
    (for_loop (slice_step decode infos 31) ns 0 s).temp_buf.padded_row_len
      = s.temp_buf.padded_row_len ∧
    (for_loop (slice_step decode infos 31) ns 0 s).temp_buf.data.length
      = s.temp_buf.data.length ∧
    (for_loop (slice_step decode infos 31) ns 0 s).grp_buf.length = s.grp_buf.length ∧
    (∀ g c, c < n →
      to_int64 (unpacked_slot s.group_stats g (s.group_stats.col_offset.getD c 0))
        = unpacked_slot s.group_stats g (s.group_stats.col_offset.getD c 0) →
      unpacked_slot (for_loop (slice_step decode infos 31) ns 0 s).group_stats g
          (s.group_stats.col_offset.getD c 0)
        = to_int64 (unpacked_slot s.group_stats g (s.group_stats.col_offset.getD c 0)
            + slices_sum decode infos g c ns)) := by
  induction ns with
  | zero =>
    refine ⟨rfl, rfl, rfl, rfl, rfl, rfl, rfl, fun g c _ h0 => ?_⟩
    show unpacked_slot s.group_stats g _ = to_int64 (unpacked_slot s.group_stats g _ + 0)
    rw [Int.add_zero, h0]
  | succ k ih =>
    obtain ⟨i1, i2, i3, i4, i5, i6, i7, i8⟩ := ih (fun j hj => hsl j (by omega))
    obtain ⟨hL, hcv, h32, hgl, hgr⟩ := hsl k (by omega)
    rw [for_loop_succ_last, Nat.zero_add]
    generalize for_loop (slice_step decode infos 31) k 0 s = s1 at i1 i2 i3 i4 i5 i6 i7 i8
    have he : slice_step decode infos 31 k s1
        = lookup_and_accumulate_grp_stats (infos.getD k null_slice).packed_metrics
            s1.group_stats (slice_docs decode (infos.getD k null_slice))
            (infos.getD k null_slice).n_docs_in_slice s1.grp_buf s1.temp_buf 31 :=
      slice_loop_one_chunk decode _ 31 _ h32 _ s1
    rw [he]
    have hD1 : dest_facts s1.temp_buf (infos.getD k null_slice).packed_metrics b n :=
      dest_facts_table _ T _ b n (dest_facts_congr _ _ T b n hD i4 i5) (by rw [hcv, hT])
    obtain ⟨c1, c2, c3, c4, c5, c6, c7, c8⟩ := chunk_accumulate
      (infos.getD k null_slice).packed_metrics b n st sz hL
      (slice_docs decode (infos.getD k null_slice))
      (infos.getD k null_slice).n_docs_in_slice h32 s1 hD1 (by rw [i1, i4, hoff])
      (by rw [i5, i2, hprl]) (by rw [i5, i6]; exact htmp) (by rw [i7]; exact hgl) rows
      (by rw [i2, i3]; exact hacc) hgr
    refine ⟨c1.trans i1, c2.trans i2, c3.trans i3, c4.trans i4, c5.trans i5, c6.trans i6,
      c7.trans i7, fun g c hcn h0 => ?_⟩
    have h8 := i8 g c hcn h0
    have c8g := c8 g c hcn
    rw [i1] at c8g
    rw [c8g (by rw [h8, to_int64_idem]), h8, to_int64_add_left, Int.add_assoc]
    rfl

/-- What `packed_table_get_cell` returns is the stored value plus the column
minimum, wrapped to 64 bits. -/
theorem get_cell_eq_stored (T : packed_table_t) (r c : Nat) :
    packed_table_get_cell T r c = to_int64 (stored_value T r c + T.col_mins.getD c 0) := by
  unfold packed_table_get_cell stored_value
  simp only []
  split <;> rfl

/-- A worker without an accumulator, or with one recorded as too small, gets a
zeroed accumulator for the session's groups and a staging ring of 32 rows. -/
theorem allocate_fresh (worker : worker_desc) (session : session_desc) (T : packed_table_t)
    (hfresh : worker.grp_stats = none ∨ worker.buffer_size < 2048) :
    allocate_grp_stats worker session T
      = (unpacked_table_create T session.num_groups,
         { worker with
           buffer_size := 2048
           grp_stats := some (unpacked_table_create T session.num_groups) },
         { session with
           temp_buf := some (unpacked_table_copy_layout
             (unpacked_table_create T session.num_groups) 32)
           temp_buf_mask := 31 }) := by
  unfold allocate_grp_stats
  cases hw : worker.grp_stats with
  | none => rfl
  | some old =>
    rcases hfresh with h | h
    · rw [hw] at h
      exact absurd h (by simp)
    · simp only []
      rw [if_neg (by omega)]
      rfl

/-- Claim C2, as the pass computes it: after one `tgs_execute_pass` with a
freshly allocated accumulator, over slices whose tables share one valid layout
and which hold at most 32 docs each (one round of the staging ring), with
every doc's group below the session's number of groups, the pass returns 0
and the accumulator slot of every group `g` and column `c` holds, wrapped to
64 bits, the sum over the docs of group `g` of the biased value the table
stores for the doc in column `c` (`packed_table_get_cell` minus the column
minimum). -/
theorem C2_pass_accumulates (decode : Groups.decoder) (worker : worker_desc)
    (session : session_desc) (desc : tgs_desc) (b n_cols : Nat) (mins maxes : List Int)
    (sizes vec_nums offsets : List Nat)
    (hv : valid_layout b n_cols mins maxes sizes vec_nums offsets)
    (hfresh : worker.grp_stats = none ∨ worker.buffer_size < 2048)
    (hns : 0 < desc.n_slices)
    (hsl : ∀ k, k < desc.n_slices.toNat →
      (∃ n_rows data, (desc.slices.getD k null_slice).packed_metrics
        = with_data (packed_table_create n_rows mins maxes sizes vec_nums offsets n_cols) data) ∧
      (desc.slices.getD k null_slice).n_docs_in_slice ≤ 32 ∧
      (desc.slices.getD k null_slice).n_docs_in_slice ≤ desc.grp_buf.length ∧
      ∀ i, i < (desc.slices.getD k null_slice).n_docs_in_slice →
        (packed_table_get_group (desc.slices.getD k null_slice).packed_metrics
          ((slice_docs decode (desc.slices.getD k null_slice)).getD i 0)).toNat
            < session.num_groups) :
    (tgs_execute_pass decode worker session desc).1 = 0 ∧
    ∃ accum,
      (tgs_execute_pass decode worker session desc).2.1.grp_stats = some accum ∧
      (tgs_execute_pass decode worker session desc).2.2.current_group_stats = some accum ∧
      ∀ g c, c < n_cols →
        unpacked_slot accum g (accum.col_offset.getD c 0)
          = to_int64 (slices_sum decode desc.slices g c desc.n_slices.toNat) := by
  have hfacts : ∀ k, k < desc.n_slices.toNat →
      layout_facts (desc.slices.getD k null_slice).packed_metrics b n_cols
        (fun c => offsets.getD c 0) (fun c => sizes.getD c 0) ∧
      (desc.slices.getD k null_slice).packed_metrics.col_2_vector
        = (create_index_state n_cols sizes vec_nums offsets).col_2_vector := by
    intro k hk
    obtain ⟨⟨n_rows, data, he⟩, _⟩ := hsl k hk
    rw [he]
    exact ⟨create_layout_facts b n_cols mins maxes sizes vec_nums offsets n_rows data hv,
      (create_fields n_rows mins maxes sizes vec_nums offsets n_cols).2.1⟩
  have h0 : 0 < desc.n_slices.toNat := by omega
  obtain ⟨hL0, hc0⟩ := hfacts 0 h0
  have hrun : tgs_execute_pass decode worker session desc
      = (0,
         { (allocate_grp_stats worker session
              (desc.slices.getD 0 null_slice).packed_metrics).2.1 with
           grp_stats := some (for_loop (slice_step decode desc.slices
             (allocate_grp_stats worker session
               (desc.slices.getD 0 null_slice).packed_metrics).2.2.temp_buf_mask)
             desc.n_slices.toNat 0
             { group_stats := (allocate_grp_stats worker session
                 (desc.slices.getD 0 null_slice).packed_metrics).1,
               grp_buf := desc.grp_buf,
               temp_buf := (allocate_grp_stats worker session
                 (desc.slices.getD 0 null_slice).packed_metrics).2.2.temp_buf.getD
                   null_table }).group_stats },
         { (allocate_grp_stats worker session
              (desc.slices.getD 0 null_slice).packed_metrics).2.2 with
           temp_buf := (allocate_grp_stats worker session
             (desc.slices.getD 0 null_slice).packed_metrics).2.2.temp_buf.map
               (fun _ => (for_loop (slice_step decode desc.slices
                 (allocate_grp_stats worker session
                   (desc.slices.getD 0 null_slice).packed_metrics).2.2.temp_buf_mask)
                 desc.n_slices.toNat 0
                 { group_stats := (allocate_grp_stats worker session
                     (desc.slices.getD 0 null_slice).packed_metrics).1,
                   grp_buf := desc.grp_buf,
                   temp_buf := (allocate_grp_stats worker session
                     (desc.slices.getD 0 null_slice).packed_metrics).2.2.temp_buf.getD
                       null_table }).temp_buf)
           current_group_stats := some (for_loop (slice_step decode desc.slices
             (allocate_grp_stats worker session
               (desc.slices.getD 0 null_slice).packed_metrics).2.2.temp_buf_mask)
             desc.n_slices.toNat 0
             { group_stats := (allocate_grp_stats worker session
                 (desc.slices.getD 0 null_slice).packed_metrics).1,
               grp_buf := desc.grp_buf,
               temp_buf := (allocate_grp_stats worker session
                 (desc.slices.getD 0 null_slice).packed_metrics).2.2.temp_buf.getD
                   null_table }).group_stats }) := by
    unfold tgs_execute_pass
    rw [if_neg (by omega)]
  rw [hrun, allocate_fresh worker session _ hfresh]
  refine ⟨rfl, _, rfl, rfl, fun g c hc => ?_⟩
  have hD := create_dest_facts (desc.slices.getD 0 null_slice).packed_metrics b n_cols
    session.num_groups hL0.nb hL0.ncols hL0.b_le
  obtain ⟨hco, _, _, _, _, _, _, key⟩ := slices_accumulate decode desc.slices b n_cols
    (fun c => offsets.getD c 0) (fun c => sizes.getD c 0)
    (create_index_state n_cols sizes vec_nums offsets).col_2_vector session.num_groups
    { group_stats := unpacked_table_create (desc.slices.getD 0 null_slice).packed_metrics
        session.num_groups,
      grp_buf := desc.grp_buf,
      temp_buf := unpacked_table_copy_layout
        (unpacked_table_create (desc.slices.getD 0 null_slice).packed_metrics
          session.num_groups) 32 }
    (desc.slices.getD 0 null_slice).packed_metrics hc0
    (dest_facts_congr _ _ _ b n_cols hD rfl rfl) rfl rfl
    (by
      show _ ≤ (List.replicate _ _).length
      rw [List.length_replicate]
      exact le_refl _)
    (by
      show _ ≤ (List.replicate _ _).length
      rw [List.length_replicate]
      exact le_refl _)
    desc.n_slices.toNat
    (fun k hk => ⟨(hfacts k hk).1, (hfacts k hk).2, (hsl k hk).2.1, (hsl k hk).2.2.1,
      (hsl k hk).2.2.2⟩)
  have hz := slot_zero_table _
    (unpacked_table_create (desc.slices.getD 0 null_slice).packed_metrics session.num_groups)
    rfl g ((unpacked_table_create (desc.slices.getD 0 null_slice).packed_metrics
      session.num_groups).col_offset.getD c 0)
  have := key g c hc (by
    show to_int64 (unpacked_slot (unpacked_table_create _ _) g _)
      = unpacked_slot (unpacked_table_create _ _) g _
    rw [hz]
    rfl)
  rw [hz, Int.zero_add] at this
  show unpacked_slot
      (for_loop (slice_step decode desc.slices 31) desc.n_slices.toNat 0
        { group_stats := unpacked_table_create (desc.slices.getD 0 null_slice).packed_metrics
            session.num_groups,
          grp_buf := desc.grp_buf,
          temp_buf := unpacked_table_copy_layout
            (unpacked_table_create (desc.slices.getD 0 null_slice).packed_metrics
              session.num_groups) 32 }).group_stats g
      ((for_loop (slice_step decode desc.slices 31) desc.n_slices.toNat 0
        { group_stats := unpacked_table_create (desc.slices.getD 0 null_slice).packed_metrics
            session.num_groups,
          grp_buf := desc.grp_buf,
          temp_buf := unpacked_table_copy_layout
            (unpacked_table_create (desc.slices.getD 0 null_slice).packed_metrics
              session.num_groups) 32 }).group_stats.col_offset.getD c 0) = _
  rw [hco]
  exact this

set_option maxRecDepth 100000 in
/-- Claim C2 as stated fails in two ways.  The accumulator holds biased
values: a doc of group 0 whose column reads 7 under a column minimum of 5
leaves 2 in the accumulator.  And a chunk longer than the staging ring loses
rows: 33 docs of group 0 whose column reads 1 for docs 0..31 and 5 for doc 32
sum to 37, and the pass leaves 41, since the unpack of doc 32 overwrites the
staged row of doc 0 before the accumulate sweep reads it. -/
theorem C2_sum_counterexample :
    packed_table_get_cell biased_table 0 0 = 7 ∧
    packed_table_get_group biased_table 0 = 0 ∧
    (tgs_execute_pass delta_decode fresh_worker (fresh_session 1)
      biased_desc).2.1.grp_stats.map (fun u => unpacked_slot u 0 (u.col_offset.getD 0 0))
      = some 2 ∧
    (∀ d, d < 33 → packed_table_get_group long_table d = 0 ∧
      packed_table_get_cell long_table d 0 = if d = 32 then 5 else 1) ∧
    (tgs_execute_pass delta_decode fresh_worker (fresh_session 1)
      long_desc).2.1.grp_stats.map (fun u => unpacked_slot u 0 (u.col_offset.getD 0 0))
      = some 41 := by
  decide

set_option maxRecDepth 100000 in
/-- Claim C2 at scenario S1: the pass over 32 docs with 10 columns that all
hold 13 (minimum 0) and group `doc_id mod 4` returns 0 and leaves 104 in
every column of each of the 4 groups. -/
theorem C2_pass_accumulates_witness :
    (tgs_execute_pass delta_decode fresh_worker (fresh_session 4) s1_desc).1 = 0 ∧
    ∃ accum,
      (tgs_execute_pass delta_decode fresh_worker (fresh_session 4) s1_desc).2.1.grp_stats
        = some accum ∧
      ∀ g c, g < 4 → c < 10 → unpacked_slot accum g (accum.col_offset.getD c 0) = 104 := by
  obtain ⟨h1, accum, h2, _, h4⟩ := C2_pass_accumulates delta_decode fresh_worker
    (fresh_session 4) s1_desc 0 10 (List.replicate 10 0) (List.replicate 10 13)
    (List.replicate 10 1) (List.replicate 10 0) [4, 5, 6, 7, 8, 9, 10, 11, 12, 13]
    (by decide) (Or.inl rfl) (by decide)
    (fun k hk => by
      have hk0 : k = 0 := by
        have : s1_desc.n_slices.toNat = 1 := rfl
        omega
      subst hk0
      exact ⟨⟨32, s1_table.data, by decide⟩, by decide, by decide, by decide⟩)
  refine ⟨h1, accum, h2, fun g c hg hc => ?_⟩
  rw [h4 g c hc]
  exact (by decide : ∀ g, g < 4 → ∀ c, c < 10 →
    to_int64 (slices_sum delta_decode s1_desc.slices g c s1_desc.n_slices.toNat) = 104)
    g hg c hc

/-! ## The status and the frame of an empty pass -/

/-- Claim C12: with `desc->n_slices <= 0`, `tgs_execute_pass` returns -1 and
leaves the worker (its accumulator `grp_stats` and `buffer_size`) and the
session (its staging buffer, the mask and the current pass's `group_stats`)
as they were. -/
theorem C12_empty_pass_frame (decode : Groups.decoder) (worker : worker_desc)
    (session : session_desc) (desc : tgs_desc) (h : desc.n_slices ≤ 0) :
    tgs_execute_pass decode worker session desc = (-1, worker, session) := by
  unfold tgs_execute_pass
  rw [if_pos h]

/-- Claim C12 at scenario S6: a pass with `n_slices = 0` over a worker that
holds an accumulator leaves the worker and the session untouched. -/
theorem C12_empty_pass_frame_witness :
    tgs_execute_pass delta_decode
      { buffer_size := 2048, grp_stats := some (unpacked_table_create s1_table 4) }
      { num_groups := 4,
        temp_buf := some (unpacked_table_copy_layout (unpacked_table_create s1_table 4) 32),
        temp_buf_mask := 31,
        current_group_stats := some (unpacked_table_create s1_table 4) }
      { n_slices := 0, slices := [], grp_buf := [] }
    = (-1,
      { buffer_size := 2048, grp_stats := some (unpacked_table_create s1_table 4) },
      { num_groups := 4,
        temp_buf := some (unpacked_table_copy_layout (unpacked_table_create s1_table 4) 32),
        temp_buf_mask := 31,
        current_group_stats := some (unpacked_table_create s1_table 4) }) :=
  C12_empty_pass_frame delta_decode _ _ _ (by decide)

end Tgs

/-! ## Regroup, range and batch setters of `packed_table.c` -/

namespace PackedTable

set_option maxRecDepth 100000 in
/-- Claim C13 fails on the code for the rows whose bit lies in the upper half
of its word: `get_bit` returns the masked `long` through an `int`, which drops
bits 32..63.  Row 32 of a table whose rows all have the target group 1, with
bit 32 of the bit set on, ends in the negative group 2 and not in the positive
group 3; row 31, with bit 31 on, ends in group 3. -/
theorem C13_regroup_drops_high_bits :
    long_bits 4294967296 / 2 ^ 32 % 2 = 1 ∧
    get_bit [4294967296] 32 = 0 ∧
    packed_table_get_group regroup_table 32 = 1 ∧
    packed_table_get_group
      (packed_table_bit_set_regroup regroup_table [4294967296] 1 2 3) 32 = 2 ∧
    packed_table_get_group
      (packed_table_bit_set_regroup regroup_table [2147483648] 1 2 3) 31 = 3 := by
  decide

set_option maxRecDepth 100000 in
/-- Claim C17 fails on the code when `start > 0`: both range setters loop over
the rows `start .. count - 1` and read `vals[row]`.  With `start = 1`,
`count = 2` and `vals = [7, 8, 9]` only row 1 is written, with `vals[1] = 8`,
where the claim has rows 1 and 2 receive 7 and 8. -/
theorem C17_range_uses_count_as_end :
    (List.range 4).map (fun r =>
      packed_table_get_group (packed_table_set_group_range range_table 1 2 [7, 8, 9]) r)
      = [0, 8, 0, 0] ∧
    (List.range 4).map (fun r =>
      packed_table_get_cell (packed_table_set_col_range range_table 1 [7, 8, 9] 2 0) r 0)
      = [0, 8, 0, 0] ∧
    (List.range 4).map (fun r =>
      packed_table_get_group (packed_table_set_group_range range_table 0 2 [7, 8, 9]) r)
      = [7, 8, 0, 0] := by
  decide

theorem for_loop_invariant {σ : Type} (P : σ → Prop) (body : Nat → σ → σ)
    (hbody : ∀ i s, P s → P (body i s)) (n lo : Nat) (s : σ) (hs : P s) :
    P (for_loop body n lo s) := by
  induction n generalizing lo s with
  | zero => exact hs
  | succ k ih => exact ih (lo + 1) (body lo s) (hbody lo s hs)

/-- On a boolean column the batch setter does what the single-cell setter
does row after row. -/
theorem batch_boolean_eq_each (T : packed_table_t) (row_ids : List Nat) (n : Nat)
    (col_vals : List Int) (col : Nat) (hcol : col < T.n_boolean_cols) :
    packed_table_batch_set_col T row_ids n col_vals col
      = set_cell_each T row_ids n col_vals col := by
  unfold packed_table_batch_set_col set_cell_each
  simp only []
  rw [if_pos hcol]
  induction n with
  | zero => rfl
  | succ k ih =>
    rw [for_loop_succ_last, for_loop_succ_last, ← ih, Nat.zero_add]
    have hinv := for_loop_invariant
      (fun t : packed_table_t => t.n_boolean_cols = T.n_boolean_cols ∧ t.col_mins = T.col_mins)
      (fun i t => internal_set_boolean_cell t (row_ids.getD i 0) col
        (to_int64 (col_vals.getD i 0 - T.col_mins.getD col 0)))
      (fun i s hs => hs) k 0 T ⟨rfl, rfl⟩
    unfold packed_table_set_cell
    simp only []
    rw [if_pos (by rw [hinv.1]; exact hcol), hinv.2]

set_option maxRecDepth 100000 in
/-- Claim C16 on the code.  On a boolean column `packed_table_batch_set_col`
leaves the table that the calls of `packed_table_set_cell` leave.  On an
integer column it does not: in a table with one boolean column and two
one-byte columns, the batch write of 7 to column 1 of row 0 makes column 1
read 7, and the single-cell write makes column 1 read 0 and column 2 read 7,
since `packed_table_set_cell` passes `col` where the batch setter passes
`col - n_boolean_cols` (and `value` where it passes `value - min`). -/
theorem C16_batch_and_single_setters :
    (∀ (T : packed_table_t) (row_ids : List Nat) (n : Nat) (col_vals : List Int) (col : Nat),
      col < T.n_boolean_cols →
      packed_table_batch_set_col T row_ids n col_vals col
        = set_cell_each T row_ids n col_vals col) ∧
    packed_table_batch_set_col mixed_table [0] 1 [7] 1
      ≠ set_cell_each mixed_table [0] 1 [7] 1 ∧
    (List.range 3).map (fun c =>
      packed_table_get_cell (packed_table_batch_set_col mixed_table [0] 1 [7] 1) 0 c)
      = [0, 7, 0] ∧
    (List.range 3).map (fun c =>
      packed_table_get_cell (set_cell_each mixed_table [0] 1 [7] 1) 0 c) = [0, 0, 7] :=
  ⟨batch_boolean_eq_each, by decide, by decide, by decide⟩

theorem set_cell_data_length (T : packed_table_t) (r c : Nat) (v : Int) :
    (packed_table_set_cell T r c v).data.length = T.data.length := by
  unfold packed_table_set_cell internal_set_boolean_cell internal_set_cell
  simp only []
  split <;> simp

theorem set_cell_with_data (T : packed_table_t) (data : List Vec128) (r c : Nat) (v : Int) :
    packed_table_set_cell (with_data T data) r c v
      = with_data T (packed_table_set_cell (with_data T data) r c v).data := by
  unfold packed_table_set_cell internal_set_boolean_cell internal_set_cell with_data
  simp only []
  split <;> rfl

/-- Claim C15: on a boolean column `packed_table_set_cell` ORs the biased
value into the header bit and never clears it.  After in-range writes of `v1`
and then `v2` the cell reads what it read before when both are the column
minimum, and the minimum plus 1 otherwise; for a cell that read the minimum
before, this is `col_min + ((v1 - col_min) OR (v2 - col_min))`; and after a
write of `col_min + 1` no write of `col_min` brings the minimum back. -/
theorem C15_boolean_set_ors (b n_rows n_cols : Nat) (mins maxes : List Int)
    (sizes vec_nums offsets : List Nat) (data : List Vec128) (r c : Nat) (v1 v2 : Int)
    (hv : valid_layout b n_cols mins maxes sizes vec_nums offsets)
    (hdata : data.length
      = n_rows * (packed_table_create n_rows mins maxes sizes vec_nums offsets n_cols).row_size)
    (hr : r < n_rows) (hc : c < n_cols) (hcb : c < b)
    (hmin1 : mins.getD c 0 ≤ v1) (hmax1 : v1 ≤ maxes.getD c 0)
    (hmin2 : mins.getD c 0 ≤ v2) (hmax2 : v2 ≤ maxes.getD c 0) :
    packed_table_get_cell
      (packed_table_set_cell
        (packed_table_set_cell
          (with_data (packed_table_create n_rows mins maxes sizes vec_nums offsets n_cols) data)
          r c v1) r c v2) r c
      = (if v1 = mins.getD c 0 ∧ v2 = mins.getD c 0 then
          packed_table_get_cell
            (with_data (packed_table_create n_rows mins maxes sizes vec_nums offsets n_cols)
              data) r c
        else mins.getD c 0 + 1) ∧
    (packed_table_get_cell
        (with_data (packed_table_create n_rows mins maxes sizes vec_nums offsets n_cols) data)
        r c = mins.getD c 0 →
      packed_table_get_cell
        (packed_table_set_cell
          (packed_table_set_cell
            (with_data (packed_table_create n_rows mins maxes sizes vec_nums offsets n_cols)
              data) r c v1) r c v2) r c
        = mins.getD c 0
          + (((v1 - mins.getD c 0).toNat ||| (v2 - mins.getD c 0).toNat : Nat) : Int)) ∧
    (v1 = mins.getD c 0 + 1 → v2 = mins.getD c 0 →
      packed_table_get_cell
        (packed_table_set_cell
          (packed_table_set_cell
            (with_data (packed_table_create n_rows mins maxes sizes vec_nums offsets n_cols)
              data) r c v1) r c v2) r c = mins.getD c 0 + 1) := by
  have hrange : maxes.getD c 0 - mins.getD c 0 ≤ 1 :=
    (hv.2.2.2.2.2 c hc).2.2.2.2.1 (((hv.2.2.2.2.2 c hc).1).2 hcb)
  have h1 := bool_cell_set_get b n_rows n_cols mins maxes sizes vec_nums offsets data r c v1
    hv hdata hr hc hcb hmin1 hmax1
  have h2 := bool_cell_set_get b n_rows n_cols mins maxes sizes vec_nums offsets
    (packed_table_set_cell
      (with_data (packed_table_create n_rows mins maxes sizes vec_nums offsets n_cols) data)
      r c v1).data r c v2 hv
    (by rw [set_cell_data_length]; exact hdata) hr hc hcb hmin2 hmax2
  rw [← set_cell_with_data] at h2
  have key : packed_table_get_cell
      (packed_table_set_cell
        (packed_table_set_cell
          (with_data (packed_table_create n_rows mins maxes sizes vec_nums offsets n_cols) data)
          r c v1) r c v2) r c
      = (if v1 = mins.getD c 0 ∧ v2 = mins.getD c 0 then
          packed_table_get_cell
            (with_data (packed_table_create n_rows mins maxes sizes vec_nums offsets n_cols)
              data) r c
        else mins.getD c 0 + 1) := by
    rw [h2, h1]
    by_cases e1 : v1 = mins.getD c 0 <;> by_cases e2 : v2 = mins.getD c 0
    · rw [if_pos e2, if_pos e1, if_pos ⟨e1, e2⟩]
    · rw [if_neg e2, if_neg (fun h => e2 h.2)]
      omega
    · rw [if_pos e2, if_neg e1, if_neg (fun h => e1 h.1)]
      omega
    · rw [if_neg e2, if_neg (fun h => e1 h.1)]
      omega
  refine ⟨key, fun hold => ?_, fun e1 e2 => ?_⟩
  · rw [key, hold]
    by_cases e1 : v1 = mins.getD c 0 <;> by_cases e2 : v2 = mins.getD c 0
    · rw [if_pos ⟨e1, e2⟩, e1, e2]
      simp
    · have e2' : v2 = mins.getD c 0 + 1 := by omega
      rw [if_neg (fun h => e2 h.2), e1, e2']
      simp
    · have e1' : v1 = mins.getD c 0 + 1 := by omega
      rw [if_neg (fun h => e1 h.1), e1', e2]
      simp
    · have e1' : v1 = mins.getD c 0 + 1 := by omega
      have e2' : v2 = mins.getD c 0 + 1 := by omega
      rw [if_neg (fun h => e1 h.1), e1', e2']
      simp
  · rw [key, if_neg (fun h => by omega)]

set_option maxRecDepth 100000 in
/-- Claim C15 on a fresh table with one boolean column of range `[0, 1]`:
after the writes of 1 and then 0 the cell reads 1. -/
theorem C15_boolean_set_ors_witness :
    packed_table_get_cell
      (packed_table_set_cell (packed_table_set_cell mixed_table 0 0 1) 0 0 0) 0 0 = 1 :=
  (C15_boolean_set_ors 1 1 3 [0, 0, 0] [1, 255, 255] [0, 1, 1] [0, 0, 0] [0, 4, 5]
    mixed_table.data 0 0 1 0 (by decide) (by decide) (by decide) (by decide) (by decide)
    (by decide) (by decide) (by decide) (by decide)).2.2 rfl rfl

end PackedTable

/-! ## Column widths and metric minimums of `packed_shard.c` -/

namespace PackedShard

theorem bit_length_le (fuel x : Nat) : bit_length fuel x ≤ fuel := by
  induction fuel generalizing x with
  | zero => simp [bit_length]
  | succ k ih =>
    rw [bit_length]
    split
    · omega
    · have := ih (x / 2)
      omega

theorem bit_length_pos (fuel x : Nat) (hx : x ≠ 0) : 1 ≤ bit_length (fuel + 1) x := by
  rw [bit_length, if_neg hx]
  omega

theorem bit_length_le_one_iff (fuel x : Nat) : bit_length (fuel + 2) x ≤ 1 ↔ x ≤ 1 := by
  rw [bit_length]
  by_cases h0 : x = 0
  · rw [if_pos h0]
    omega
  · rw [if_neg h0, bit_length]
    by_cases h1 : x / 2 = 0
    · rw [if_pos h1]
      omega
    · rw [if_neg h1]
      omega

/-- The width `metric_size_bytes` computes for a column it does not collapse,
for a number of bits between 1 and 64: the bits rounded up to whole bytes. -/
theorem size_formula (bits : Nat) (h1 : 1 ≤ bits) :
    Int.tdiv ((bits : Int) - 1) 8 + 1 = (((bits + 7) / 8 : Nat) : Int) := by
  rw [Int.tdiv_eq_ediv (by omega) (by omega)]
  omega

/-- Claim C19 on the code.  For every column of range at least 1 that is not
collapsed, `metric_size_bytes` returns the bits `64 - clz (max - min)` rounded
up to whole bytes; the ranges of S3, declared in order, get the widths 0, 1,
2 and 3.  For a column of range 0 that is not collapsed (here the fifth column
after four booleans) the source calls `__builtin_clzl (0)`; with 64 leading
zeros the code returns 1 byte where the rounded-up bits are 0. -/
theorem C19_metric_width :
    (∀ (desc : packed_metric_desc) (max min : Int),
      long_bits (max - min) ≠ 0 →
      ¬ (long_bits (max - min) ≤ 1 ∧ desc.n_boolean_metrics = desc.n_metrics_aux_index
          ∧ desc.n_boolean_metrics < MAX_BIT_FIELDS) →
      (metric_size_bytes desc max min).1
        = (((64 - clzl (long_bits (max - min)) + 7) / 8 : Nat) : Int)) ∧
    (List.range 4).map (fun i =>
        s3_shard.metrics_layout.index_metrics.getD (2 * i + 1) 0
          - s3_shard.metrics_layout.index_metrics.getD (2 * i) 0) = [0, 1, 2, 3] ∧
    (metric_size_bytes four_booleans 5 5).1 = 1 ∧
    (64 - clzl (long_bits (5 - 5)) + 7) / 8 = 0 := by
  refine ⟨fun desc max min hr hnc => ?_, by decide, by decide, by decide⟩
  have hb1 : 1 ≤ bit_length 64 (long_bits (max - min)) := bit_length_pos 63 _ hr
  have hb2 := bit_length_le 64 (long_bits (max - min))
  have hbits : ((64 : Int) - ((clzl (long_bits (max - min)) : Nat) : Int))
      = ((bit_length 64 (long_bits (max - min)) : Nat) : Int) := by
    unfold clzl
    omega
  have hclz : 64 - clzl (long_bits (max - min)) = bit_length 64 (long_bits (max - min)) := by
    unfold clzl
    omega
  have hcond : ¬ (((64 : Int) - ((clzl (long_bits (max - min)) : Nat) : Int)) ≤ 1
      ∧ desc.n_boolean_metrics = desc.n_metrics_aux_index
      ∧ desc.n_boolean_metrics < MAX_BIT_FIELDS) := by
    intro ⟨c1, c2, c3⟩
    apply hnc
    refine ⟨?_, c2, c3⟩
    rw [hbits] at c1
    have hle : bit_length 64 (long_bits (max - min)) ≤ 1 := by omega
    exact (bit_length_le_one_iff 62 _).1 hle
  unfold metric_size_bytes
  simp only []
  rw [if_neg hcond, hbits, hclz]
  exact size_formula _ hb1

/-- Claim C20 as stated fails: a column of range 1 declared after a column
that was not collapsed is not collapsed either; it gets one byte and
`n_boolean_metrics` stays 0. -/
theorem C20_boolean_after_integer_counterexample :
    (packed_shard_init 1 [0, 0] [255, 1] 2).metrics_layout.n_boolean_metrics = 0 ∧
    (packed_shard_init 1 [0, 0] [255, 1] 2).metrics_layout.index_metrics = [4, 5, 5, 6] := by
  decide

/-- Claim C20, as the code has it: `metric_size_bytes` collapses a column
(returns width 0 and counts it in `n_boolean_metrics`) exactly when its range
`max - min`, as an unsigned 64-bit number, is at most 1, every column declared
so far was collapsed (`n_boolean_metrics = n_metrics_aux_index`) and fewer
than 4 columns were; in every other case the record is unchanged and the width
is at least one byte. -/
theorem C20_collapse_rule (desc : packed_metric_desc) (max min : Int) :
    ((long_bits (max - min) ≤ 1 ∧ desc.n_boolean_metrics = desc.n_metrics_aux_index
        ∧ desc.n_boolean_metrics < 4) →
      metric_size_bytes desc max min
        = (0, { desc with n_boolean_metrics := desc.n_boolean_metrics + 1 })) ∧
    (¬ (long_bits (max - min) ≤ 1 ∧ desc.n_boolean_metrics = desc.n_metrics_aux_index
        ∧ desc.n_boolean_metrics < 4) →
      (metric_size_bytes desc max min).2 = desc ∧ 1 ≤ (metric_size_bytes desc max min).1) ∧
    (min ≤ max → max - min < 2 ^ 64 → (long_bits (max - min) ≤ 1 ↔ max - min ≤ 1)) := by
  have hb2 := bit_length_le 64 (long_bits (max - min))
  have hbits : ((64 : Int) - ((clzl (long_bits (max - min)) : Nat) : Int))
      = ((bit_length 64 (long_bits (max - min)) : Nat) : Int) := by
    unfold clzl
    omega
  have hiff : ((64 : Int) - ((clzl (long_bits (max - min)) : Nat) : Int)) ≤ 1
      ↔ long_bits (max - min) ≤ 1 := by
    rw [hbits]
    have : bit_length 64 (long_bits (max - min)) ≤ 1 ↔ long_bits (max - min) ≤ 1 :=
      bit_length_le_one_iff 62 (long_bits (max - min))
    omega
  refine ⟨fun h => ?_, fun h => ?_, fun h1 h2 => ?_⟩
  · unfold metric_size_bytes
    simp only []
    rw [if_pos ⟨hiff.2 h.1, h.2.1, h.2.2⟩]
  · unfold metric_size_bytes
    simp only []
    rw [if_neg (fun c => h ⟨hiff.1 c.1, c.2.1, c.2.2⟩)]
    refine ⟨rfl, ?_⟩
    show 1 ≤ Int.tdiv ((64 : Int) - ((clzl (long_bits (max - min)) : Nat) : Int) - 1) 8 + 1
    rw [hbits]
    by_cases hz : bit_length 64 (long_bits (max - min)) = 0
    · rw [hz]
      decide
    · rw [Int.tdiv_eq_ediv (by omega) (by omega)]
      omega
  · unfold long_bits
    have e64 : (2 : Int) ^ 64 = 18446744073709551616 := by norm_num
    rw [e64] at h2 ⊢
    rw [Int.emod_eq_of_lt (by omega) h2]
    omega

set_option maxRecDepth 100000 in
/-- Claim C14 fails on the code: `desc->metric_mins` is laid out like a row of
group stats, and `packed_shard_update_metric` and
`packed_shard_lookup_metric_values` index it with the metric number.  In the
shard of S3 the minimum of metric 3, -1000, sits in slot 4, and slot 3 holds 0:
the lower bound -1000 of metric 3 is stored unbiased, cut to three bytes, and
read back as 16776216. -/
theorem C14_metric_min_slot :
    s3_shard.metrics_layout.metric_mins = [0, 0, 0, 0, -1000, 0, 0, 0] ∧
    s3_shard.metrics_layout.metric_mins.getD 3 0 = 0 ∧
    packed_shard_lookup_metric_values
      (packed_shard_update_metric s3_shard [1] 1 [-1000] 3) [1] 1 [0] 3 = [16776216] ∧
    packed_shard_lookup_metric_values
      (packed_shard_update_metric s3_shard [1] 1 [1000000] 3) [1] 1 [0] 3 = [1000000] := by
  decide

end PackedShard

/-! ## Two layouts of one schema -/

namespace PackedTable

/-! ## What a write leaves alone -/

theorem load_u32_congr (a a2 : Vec128) (h : ∀ j, j < 4 → a.getD j 0 = a2.getD j 0) :
    load_u32 a = load_u32 a2 := by
  unfold load_u32
  rw [le_bytes_congr a a2 4 h]

theorem getD_store_u32 (a : Vec128) (x j : Nat) (h4 : 4 ≤ j) (hj : j < 16) :
    (store_u32 a x).getD j 0 = a.getD j 0 := by
  simp only [store_u32, getD_range16_map, hj, if_true]
  rw [if_neg (by omega)]

/-- What the gather mask of a column reads depends on the column's bytes only. -/
theorem gather_read_congr (lane lane2 : Vec128) (start size : Nat) (hend : start + size ≤ 16)
    (h : ∀ j, start ≤ j → j < start + size → lane.getD j 0 = lane2.getD j 0) :
    _mm_extract_epi64_0 (_mm_shuffle_epi8 lane (gather_mask start size))
      = _mm_extract_epi64_0 (_mm_shuffle_epi8 lane2 (gather_mask start size)) := by
  unfold _mm_extract_epi64_0
  congr 2
  apply le_bytes_congr
  intro k hk
  have hk16 : k < 16 := by omega
  rw [getD_shuffle _ _ _ hk16, getD_shuffle _ _ _ hk16, getD_gather_mask _ _ _ hk16]
  by_cases hks : k < size
  · have h1 : (start + k) % 256 = start + k := Nat.mod_eq_of_lt (by omega)
    have h2 : (start + k) % 16 = start + k := Nat.mod_eq_of_lt (by omega)
    rw [if_pos hks, h1, if_neg (by omega), if_neg (by omega), h2]
    exact h _ (by omega) (by omega)
  · rw [if_neg hks, if_pos (by omega), if_pos (by omega)]

/-- The group field after a boolean bit is OR-ed into the header. -/
theorem bf_grp_or_bit (h x k : Nat) (hk : 28 ≤ k) :
    bf_grp ((h ||| x * 2 ^ k) % 2 ^ 32) = bf_grp h := by
  unfold bf_grp
  have e : (2 : Nat) ^ 32 = 2 ^ 28 * 2 ^ 4 := by norm_num
  rw [e, Nat.mod_mul_right_mod]
  apply Nat.eq_of_testBit_eq
  intro i
  rw [Nat.testBit_mod_two_pow, Nat.testBit_mod_two_pow, Nat.testBit_or]
  by_cases hi : i < 28
  · have hx : (x * 2 ^ k).testBit i = false := by
      rw [Nat.mul_comm, Nat.testBit_mul_pow_two]
      have : ¬ i ≥ k := by omega
      simp [this]
    simp [hi, hx]
  · simp [hi]

/-- The other boolean bits after a boolean bit is OR-ed into the header. -/
theorem header_bit_other (h x k k2 : Nat) (hx : x ≤ 1) (hk2 : k2 < 32) (hne : k2 ≠ k) :
    ((h ||| x * 2 ^ k) % 2 ^ 32 &&& 2 ^ k2 % 2 ^ 32 ≠ 0) ↔ (h &&& 2 ^ k2 % 2 ^ 32 ≠ 0) := by
  have hp : 2 ^ k2 < 2 ^ 32 := Nat.pow_lt_pow_right (by norm_num) hk2
  rw [Nat.mod_eq_of_lt hp, testBit_of_and_two_pow, testBit_of_and_two_pow,
    Nat.testBit_mod_two_pow, Nat.testBit_or]
  have hxb : (x * 2 ^ k).testBit k2 = false := by
    rcases Nat.le_one_iff_eq_zero_or_eq_one.mp hx with h0 | h1
    · subst h0; simp
    · subst h1
      rw [Nat.one_mul, Nat.testBit_two_pow]
      simp
      omega
  simp [hk2, hxb]

/-- The boolean bits after a store to the group field. -/
theorem header_bit_set_grp (h g k : Nat) (hh : h < 2 ^ 32) (hk : 28 ≤ k) (hk2 : k < 32) :
    (bf_set_grp h g % 2 ^ 32 &&& 2 ^ k % 2 ^ 32 ≠ 0) ↔ (h &&& 2 ^ k % 2 ^ 32 ≠ 0) := by
  have hp : 2 ^ k < 2 ^ 32 := Nat.pow_lt_pow_right (by norm_num) hk2
  rw [Nat.mod_eq_of_lt hp, Nat.mod_eq_of_lt (bf_set_grp_lt h g), testBit_of_and_two_pow,
    testBit_of_and_two_pow]
  unfold bf_set_grp
  have e1 : h / 2 ^ 28 % 2 ^ 4 = h / 2 ^ 28 := Nat.mod_eq_of_lt (by omega)
  rw [e1, Nat.mul_comm, Nat.testBit_mul_pow_two_add _ (Nat.mod_lt _ (by norm_num))]
  rw [if_neg (by omega), ← Nat.shiftRight_eq_div_pow, Nat.testBit_shiftRight]
  have e2 : 28 + (k - 28) = k := by omega
  rw [e2]

theorem row_lane_inj (r r2 l l2 s : Nat) (hl : l < s) (hl2 : l2 < s) :
    r2 * s + l2 = r * s + l ↔ r2 = r ∧ l2 = l := by
  constructor
  · intro h
    rcases Nat.lt_trichotomy r2 r with hlt | heq | hgt
    · have := Nat.mul_le_mul_right s (show r2 + 1 ≤ r from hlt)
      rw [Nat.add_mul, Nat.one_mul] at this
      omega
    · subst heq
      exact ⟨rfl, by omega⟩
    · have := Nat.mul_le_mul_right s (show r + 1 ≤ r2 from hgt)
      rw [Nat.add_mul, Nat.one_mul] at this
      omega
  · rintro ⟨h1, h2⟩
    rw [h1, h2]

/-- A lane of the table after one lane was replaced. -/
theorem lane_after_set (data : List Vec128) (r r2 l l2 s n : Nat) (lane : Vec128)
    (hl : l < s) (hl2 : l2 < s) (hr : r < n) (hlen : data.length = n * s) :
    (data.set (r * s + l) lane).getD (r2 * s + l2) zero_vec
      = if r2 = r ∧ l2 = l then lane else data.getD (r2 * s + l2) zero_vec := by
  by_cases h : r2 = r ∧ l2 = l
  · rw [if_pos h, h.1, h.2, getD_set_eq _ _ _ _ (by rw [hlen]; exact row_lane_lt r n s l hr hl)]
  · rw [if_neg h, getD_set_ne _ _ _ _ _ (fun e => h ((row_lane_inj r r2 l l2 s hl hl2).1 e.symm))]

/-- The facts of `cell_facts` hold for a table built from a valid layout,
whatever its rows hold. -/
theorem create_cell_facts (b n_rows n_cols : Nat) (mins maxes : List Int)
    (sizes vec_nums offsets : List Nat) (data : List Vec128)
    (hv : valid_layout b n_cols mins maxes sizes vec_nums offsets)
    (hdata : data.length
      = n_rows * (packed_table_create n_rows mins maxes sizes vec_nums offsets n_cols).row_size) :
    cell_facts
      (with_data (packed_table_create n_rows mins maxes sizes vec_nums offsets n_cols) data)
      b n_rows n_cols mins sizes vec_nums offsets := by
  obtain ⟨f1, f2, f3, f4, _⟩ := create_fields n_rows mins maxes sizes vec_nums offsets n_cols
  obtain ⟨hnb, hent⟩ := valid_index_state b n_cols mins maxes sizes vec_nums offsets hv
  have hL := create_layout_facts b n_cols mins maxes sizes vec_nums offsets n_rows data hv
  have hv2 := hv
  obtain ⟨h0, h256, hbn, hb4, hlast, hcol⟩ := hv2
  have hsz : ∀ x, x < n_cols → b ≤ x → sizes.getD x 0 ≠ 0 := fun x hx hbx h =>
    absurd ((hcol x hx).1.1 h) (by omega)
  have hlane : ∀ c, b ≤ c → c < n_cols →
      (packed_table_create n_rows mins maxes sizes vec_nums offsets n_cols).col_2_vector.getD c 0
        = vec_nums.getD c 0 := by
    intro c hc1 hc2
    rw [f2]
    exact ((hent c hc2).2 (hsz c hc2 hc1)).2.2
  refine ⟨hL.nb, hdata, hL.row_pos, fun c hc => ?_, hlane, fun c hc1 hc2 => ?_,
    fun c hc1 hc2 => ?_, fun c hc1 hc2 => ?_, fun c hc1 hc2 => ?_⟩
  · show (packed_table_create n_rows mins maxes sizes vec_nums offsets n_cols).col_mins.getD c 0
      = mins.getD c 0
    rw [f3, getD_range_map _ _ _ _ hc]
  · have h1 := hL.lane_lt c hc1 hc2
    have h2 := hL.unpadded_le
    have h3 : (with_data (packed_table_create n_rows mins maxes sizes vec_nums offsets n_cols)
        data).col_2_vector.getD c 0 = vec_nums.getD c 0 := hlane c hc1 hc2
    rw [h3] at h1
    omega
  · exact (create_column_masks b n_cols mins maxes sizes vec_nums offsets n_rows hv c hc2 hc1).1
  · exact (create_column_masks b n_cols mins maxes sizes vec_nums offsets n_rows hv c hc2
      hc1).2.1
  · exact (create_column_masks b n_cols mins maxes sizes vec_nums offsets n_rows hv c hc2
      hc1).2.2

/-- The facts of `cell_facts` depend on the layout and the number of lanes
only. -/
theorem cell_facts_data (T : packed_table_t) (b n_rows n_cols : Nat) (mins : List Int)
    (sizes vec_nums offsets : List Nat) (data : List Vec128)
    (hF : cell_facts T b n_rows n_cols mins sizes vec_nums offsets)
    (hlen : data.length = T.data.length) :
    cell_facts (with_data T data) b n_rows n_cols mins sizes vec_nums offsets :=
  ⟨hF.nb, hlen.trans hF.rows, hF.row_pos, hF.mins_eq, hF.lane, hF.lane_lt, hF.put,
    hF.blend, hF.get1⟩

/-- An integer cell, read from the lane of its column. -/
theorem get_cell_int_lane (T : packed_table_t) (b n_rows n_cols : Nat) (mins : List Int)
    (sizes vec_nums offsets : List Nat)
    (hF : cell_facts T b n_rows n_cols mins sizes vec_nums offsets) (hb4 : b ≤ 4)
    (r c : Nat) (hc1 : b ≤ c) (hc2 : c < n_cols) :
    packed_table_get_cell T r c
      = to_int64 (_mm_extract_epi64_0 (_mm_shuffle_epi8
          (T.data.getD (r * T.row_size + vec_nums.getD c 0) zero_vec)
          (gather_mask (offsets.getD c 0) (sizes.getD c 0))) + mins.getD c 0) := by
  have hnb : T.n_boolean_cols % 256 = b := by rw [hF.nb]; exact Nat.mod_eq_of_lt (by omega)
  rw [get_cell_int T r c (by rw [hnb]; exact hc1), hnb, hF.mins_eq c hc2, hF.lane c hc1 hc2]
  unfold internal_get_cell
  simp only []
  rw [hF.get1 c hc1 hc2]

/-- A boolean cell, read from the header of its row. -/
theorem get_cell_bool_lane (T : packed_table_t) (b n_rows n_cols : Nat) (mins : List Int)
    (sizes vec_nums offsets : List Nat)
    (hF : cell_facts T b n_rows n_cols mins sizes vec_nums offsets) (hb4 : b ≤ 4)
    (r c : Nat) (hc1 : c < b) (hc2 : c < n_cols) :
    packed_table_get_cell T r c
      = to_int64 ((if load_u32 (T.data.getD (r * T.row_size + 0) zero_vec)
            &&& (2 ^ (28 + c) % 2 ^ 32) ≠ 0 then 1 else 0) + mins.getD c 0) := by
  have hnb : T.n_boolean_cols % 256 = b := by rw [hF.nb]; exact Nat.mod_eq_of_lt (by omega)
  unfold packed_table_get_cell
  simp only []
  rw [hnb, if_neg (by omega), hF.mins_eq c hc2]
  rfl

theorem get_group_lane (T : packed_table_t) (r : Nat) :
    packed_table_get_group T r
      = ((bf_grp (load_u32 (T.data.getD (r * T.row_size + 0) zero_vec)) : Nat) : Int) := rfl

/-- What the accessors read after one lane of a row was replaced: the reads
of the other rows and of the other lanes of the row are as before, and the
reads of the lane are taken from the new lane. -/
theorem reads_after_lane (T : packed_table_t) (b n_rows n_cols : Nat) (mins : List Int)
    (sizes vec_nums offsets : List Nat)
    (hF : cell_facts T b n_rows n_cols mins sizes vec_nums offsets) (hb4 : b ≤ 4)
    (r l : Nat) (lane : Vec128) (hr : r < n_rows) (hl : l < T.row_size) :
    cell_facts (with_data T (T.data.set (r * T.row_size + l) lane)) b n_rows n_cols mins sizes
      vec_nums offsets ∧
    (∀ r2, packed_table_get_group (with_data T (T.data.set (r * T.row_size + l) lane)) r2
      = if r2 = r ∧ l = 0 then ((bf_grp (load_u32 lane) : Nat) : Int)
        else packed_table_get_group T r2) ∧
    (∀ r2 c, c < b → c < n_cols →
      packed_table_get_cell (with_data T (T.data.set (r * T.row_size + l) lane)) r2 c
        = if r2 = r ∧ l = 0 then
            to_int64 ((if load_u32 lane &&& (2 ^ (28 + c) % 2 ^ 32) ≠ 0 then 1 else 0)
              + mins.getD c 0)
          else packed_table_get_cell T r2 c) ∧
    (∀ r2 c, b ≤ c → c < n_cols →
      packed_table_get_cell (with_data T (T.data.set (r * T.row_size + l) lane)) r2 c
        = if r2 = r ∧ vec_nums.getD c 0 = l then
            to_int64 (_mm_extract_epi64_0 (_mm_shuffle_epi8 lane
              (gather_mask (offsets.getD c 0) (sizes.getD c 0))) + mins.getD c 0)
          else packed_table_get_cell T r2 c) := by
  have hF2 := cell_facts_data T b n_rows n_cols mins sizes vec_nums offsets
    (T.data.set (r * T.row_size + l) lane) hF (List.length_set _ _ _)
  have hlane : ∀ r2 l2, l2 < T.row_size →
      (with_data T (T.data.set (r * T.row_size + l) lane)).data.getD
          (r2 * (with_data T (T.data.set (r * T.row_size + l) lane)).row_size + l2) zero_vec
        = if r2 = r ∧ l2 = l then lane else T.data.getD (r2 * T.row_size + l2) zero_vec :=
    fun r2 l2 hl2 => lane_after_set T.data r r2 l l2 T.row_size n_rows lane hl hl2 hr hF.rows
  refine ⟨hF2, fun r2 => ?_, fun r2 c hc1 hc2 => ?_, fun r2 c hc1 hc2 => ?_⟩
  · have hl0 := hlane r2 0 hF.row_pos
    rw [get_group_lane, hl0, get_group_lane]
    by_cases h : r2 = r ∧ l = 0
    · rw [if_pos h, if_pos ⟨h.1, h.2.symm⟩]
    · rw [if_neg h, if_neg (fun e => h ⟨e.1, e.2.symm⟩)]
  · have hl0 := hlane r2 0 hF.row_pos
    rw [get_cell_bool_lane _ b n_rows n_cols mins sizes vec_nums offsets hF2 hb4 r2 c hc1 hc2,
      get_cell_bool_lane T b n_rows n_cols mins sizes vec_nums offsets hF hb4 r2 c hc1 hc2]
    by_cases h : r2 = r ∧ l = 0
    · rw [if_pos ⟨h.1, h.2.symm⟩] at hl0
      rw [hl0, if_pos h]
    · rw [if_neg (fun e => h ⟨e.1, e.2.symm⟩)] at hl0
      rw [hl0, if_neg h]
  · have hl0 := hlane r2 _ (hF.lane_lt c hc1 hc2)
    rw [get_cell_int_lane _ b n_rows n_cols mins sizes vec_nums offsets hF2 hb4 r2 c hc1 hc2,
      get_cell_int_lane T b n_rows n_cols mins sizes vec_nums offsets hF hb4 r2 c hc1 hc2]
    by_cases h : r2 = r ∧ vec_nums.getD c 0 = l
    · rw [if_pos h] at hl0
      rw [hl0, if_pos h]
    · rw [if_neg h] at hl0
      rw [hl0, if_neg h]

theorem bool_read_congr (h h2 : Nat) (k : Nat) (m : Int)
    (hiff : (h &&& 2 ^ k % 2 ^ 32 ≠ 0) ↔ (h2 &&& 2 ^ k % 2 ^ 32 ≠ 0)) :
    to_int64 ((if h &&& (2 ^ k % 2 ^ 32) ≠ 0 then 1 else 0) + m)
      = to_int64 ((if h2 &&& (2 ^ k % 2 ^ 32) ≠ 0 then 1 else 0) + m) := by
  by_cases hc : h2 &&& 2 ^ k % 2 ^ 32 ≠ 0
  · rw [if_pos (hiff.2 hc), if_pos hc]
  · rw [if_neg (fun e => hc (hiff.1 e)), if_neg hc]

theorem load_u32_lt (a : Vec128) : load_u32 a < 2 ^ 32 := by
  unfold load_u32
  exact Nat.mod_lt _ (by norm_num)

/-- What the accessors read after `packed_table_set_group`: the group of the
row is the masked value, every other group and every cell is as before. -/
theorem reads_after_set_group (T : packed_table_t) (b n_rows n_cols : Nat)
    (mins maxes : List Int) (sizes vec_nums offsets : List Nat)
    (hF : cell_facts T b n_rows n_cols mins sizes vec_nums offsets)
    (hv : valid_layout b n_cols mins maxes sizes vec_nums offsets)
    (r : Nat) (v : Int) (hr : r < n_rows) :
    cell_facts (packed_table_set_group T r v) b n_rows n_cols mins sizes vec_nums offsets ∧
    (∀ r2, packed_table_get_group (packed_table_set_group T r v) r2
      = if r2 = r then Int.land v 0xFFFFFFF else packed_table_get_group T r2) ∧
    (∀ r2 c, c < n_cols →
      packed_table_get_cell (packed_table_set_group T r v) r2 c = packed_table_get_cell T r2 c) := by
  obtain ⟨h0, h256, hbn, hb4, hlast, hcol⟩ := hv
  have he : packed_table_set_group T r v
      = with_data T (T.data.set (r * T.row_size + 0)
          (store_u32 (T.data.getD (r * T.row_size + 0) zero_vec)
            (bf_set_grp (load_u32 (T.data.getD (r * T.row_size + 0) zero_vec))
              (Int.land v GROUP_MASK).toNat))) := rfl
  obtain ⟨g1, g2, g3, g4⟩ := reads_after_lane T b n_rows n_cols mins sizes vec_nums offsets hF hb4
    r 0 (store_u32 (T.data.getD (r * T.row_size + 0) zero_vec)
      (bf_set_grp (load_u32 (T.data.getD (r * T.row_size + 0) zero_vec))
        (Int.land v GROUP_MASK).toNat)) hr hF.row_pos
  rw [he]
  refine ⟨g1, fun r2 => ?_, fun r2 c hc => ?_⟩
  · rw [g2 r2]
    by_cases h : r2 = r
    · rw [if_pos ⟨h, rfl⟩, if_pos h]
      exact grp_roundtrip _ v
    · rw [if_neg (fun e => h e.1), if_neg h]
  · by_cases hcb : c < b
    · rw [g3 r2 c hcb hc]
      by_cases h : r2 = r
      · rw [if_pos ⟨h, rfl⟩, h,
          get_cell_bool_lane T b n_rows n_cols mins sizes vec_nums offsets hF hb4 r c hcb hc,
          load_store_u32]
        exact bool_read_congr _ _ _ _
          (header_bit_set_grp _ _ _ (load_u32_lt _) (by omega) (by omega))
      · rw [if_neg (fun e => h e.1)]
    · rw [g4 r2 c (by omega) hc]
      by_cases h : r2 = r ∧ vec_nums.getD c 0 = 0
      · rw [if_pos h, h.1,
          get_cell_int_lane T b n_rows n_cols mins sizes vec_nums offsets hF hb4 r c (by omega)
            hc, h.2]
        have hs : sizes.getD c 0 ≠ 0 := fun e => hcb ((hcol c hc).1.1 e)
        obtain ⟨v1, v2, v3, v4, v5, v6⟩ := (hcol c hc).2.2.2.2.2 hs
        rw [gather_read_congr _ (T.data.getD (r * T.row_size + 0) zero_vec) _ _ v2
          (fun j hj1 hj2 => getD_store_u32 _ _ j (by have := v4 h.2; omega) (by omega))]
      · rw [if_neg h]

/-- What the accessors read after an in-range write to a boolean cell: the
cell reads what it read before when the value is the column minimum and the
minimum plus 1 otherwise; every group and every other cell is as before. -/
theorem reads_after_set_boolean (T : packed_table_t) (b n_rows n_cols : Nat)
    (mins maxes : List Int) (sizes vec_nums offsets : List Nat)
    (hF : cell_facts T b n_rows n_cols mins sizes vec_nums offsets)
    (hv : valid_layout b n_cols mins maxes sizes vec_nums offsets)
    (r col : Nat) (v : Int) (hr : r < n_rows) (hcol1 : col < b) (hcol2 : col < n_cols)
    (hmin : mins.getD col 0 ≤ v) (hmax : v ≤ maxes.getD col 0) :
    cell_facts (internal_set_boolean_cell T r col (to_int64 (v - mins.getD col 0)))
      b n_rows n_cols mins sizes vec_nums offsets ∧
    (∀ r2, packed_table_get_group
        (internal_set_boolean_cell T r col (to_int64 (v - mins.getD col 0))) r2
      = packed_table_get_group T r2) ∧
    (∀ r2 c, c < n_cols →
      packed_table_get_cell
          (internal_set_boolean_cell T r col (to_int64 (v - mins.getD col 0))) r2 c
        = if r2 = r ∧ c = col then
            (if v = mins.getD col 0 then packed_table_get_cell T r col
              else mins.getD col 0 + 1)
          else packed_table_get_cell T r2 c) := by
  obtain ⟨h0, h256, hbn, hb4, hlast, hcol⟩ := hv
  obtain ⟨c1, c2, c3, c4, c5, c6⟩ := hcol col hcol2
  have hrange := c5 (c1.2 hcol1)
  have hx : (v - mins.getD col 0).toNat ≤ 1 := by omega
  have hvx : to_int64 (v - mins.getD col 0) = (((v - mins.getD col 0).toNat : Nat) : Int) := by
    rw [to_int64_of_range _ (by omega) (by omega), Int.toNat_of_nonneg (by omega)]
  have hsh : long_bits (to_int64 (v - mins.getD col 0) * 2 ^ (GROUP_SIZE + col))
      = (v - mins.getD col 0).toNat * 2 ^ (28 + col) := by
    rw [hvx]
    show long_bits ((((v - mins.getD col 0).toNat : Nat) : Int) * 2 ^ (28 + col)) = _
    exact long_bits_bit _ _ hx (by omega)
  have he : internal_set_boolean_cell T r col (to_int64 (v - mins.getD col 0))
      = with_data T (T.data.set (r * T.row_size + 0)
          (store_u32 (T.data.getD (r * T.row_size + 0) zero_vec)
            ((load_u32 (T.data.getD (r * T.row_size + 0) zero_vec)
              ||| (v - mins.getD col 0).toNat * 2 ^ (28 + col)) % 2 ^ 32))) := by
    unfold internal_set_boolean_cell
    simp only []
    rw [hsh]
    rfl
  obtain ⟨g1, g2, g3, g4⟩ := reads_after_lane T b n_rows n_cols mins sizes vec_nums offsets hF hb4
    r 0 (store_u32 (T.data.getD (r * T.row_size + 0) zero_vec)
      ((load_u32 (T.data.getD (r * T.row_size + 0) zero_vec)
        ||| (v - mins.getD col 0).toNat * 2 ^ (28 + col)) % 2 ^ 32)) hr hF.row_pos
  rw [he]
  refine ⟨g1, fun r2 => ?_, fun r2 c hc => ?_⟩
  · rw [g2 r2]
    by_cases h : r2 = r
    · rw [if_pos (show r2 = r ∧ 0 = 0 from ⟨h, rfl⟩), h, get_group_lane, load_store_u32,
        Nat.mod_mod,
        bf_grp_or_bit _ _ _ (by omega)]
    · rw [if_neg (show ¬ (r2 = r ∧ 0 = 0) from fun e => h e.1)]
  · by_cases hcb : c < b
    · rw [g3 r2 c hcb hc]
      by_cases h : r2 = r
      · rw [if_pos (show r2 = r ∧ 0 = 0 from ⟨h, rfl⟩), h, load_store_u32]
        by_cases hcc : c = col
        · rw [if_pos (show r = r ∧ c = col from ⟨rfl, hcc⟩), hcc,
            get_cell_bool_lane T b n_rows n_cols mins sizes vec_nums offsets hF hb4 r col hcol1
              hcol2]
          have key := header_bit_after_or
            (load_u32 (T.data.getD (r * T.row_size + 0) zero_vec)) (28 + col)
            (v - mins.getD col 0).toNat (load_u32_lt _) (by omega) hx
          by_cases hvm : v = mins.getD col 0
          · rw [if_pos hvm]
            have hx0 : ¬ (v - mins.getD col 0).toNat = 1 := by omega
            exact bool_read_congr _ _ _ _
              ⟨fun e => (key.1 e).resolve_right hx0, fun e => key.2 (Or.inl e)⟩
          · have hx1 : (v - mins.getD col 0).toNat = 1 := by omega
            rw [if_neg hvm, if_pos (key.2 (Or.inr hx1)),
              to_int64_of_range _ (by omega) (by omega)]
            omega
        · rw [if_neg (show ¬ (r = r ∧ c = col) from fun e => hcc e.2),
            get_cell_bool_lane T b n_rows n_cols mins sizes vec_nums offsets hF hb4 r c hcb hc]
          have key := header_bit_other
            (load_u32 (T.data.getD (r * T.row_size + 0) zero_vec)) (v - mins.getD col 0).toNat
            (28 + col) (28 + c) hx (by omega) (by omega)
          rw [Nat.mod_mod]
          exact bool_read_congr _ _ _ _ key
      · rw [if_neg (show ¬ (r2 = r ∧ 0 = 0) from fun e => h e.1),
          if_neg (show ¬ (r2 = r ∧ c = col) from fun e => h e.1)]
    · rw [g4 r2 c (by omega) hc,
        if_neg (show ¬ (r2 = r ∧ c = col) from fun e => hcb (by rw [e.2]; exact hcol1))]
      by_cases h : r2 = r ∧ vec_nums.getD c 0 = 0
      · rw [if_pos h, h.1,
          get_cell_int_lane T b n_rows n_cols mins sizes vec_nums offsets hF hb4 r c (by omega)
            hc, h.2]
        have hs : sizes.getD c 0 ≠ 0 := fun e => hcb ((hcol c hc).1.1 e)
        obtain ⟨v1, v2, v3, v4, v5, v6⟩ := (hcol c hc).2.2.2.2.2 hs
        rw [gather_read_congr _ (T.data.getD (r * T.row_size + 0) zero_vec) _ _ v2
          (fun j hj1 hj2 => getD_store_u32 _ _ j (by have := v4 h.2; omega) (by omega))]
      · rw [if_neg h]

/-- A value between the minimum and the maximum of a column comes back from
the column's bytes: biased, cut to `size` bytes, read and unbiased. -/
theorem biased_roundtrip (v min : Int) (size : Nat) (hsz : size ≤ 8) (h0 : min ≤ v)
    (h1 : v - min < (256 : Int) ^ size) (hlo : -(2 : Int) ^ 63 ≤ v) (hhi : v < (2 : Int) ^ 63) :
    to_int64 (to_int64 ((long_bits (to_int64 (v - min)) % 256 ^ size : Nat) : Int) + min)
      = v := by
  have hN : (v - min).toNat < 256 ^ size := by
    have : ((v - min).toNat : Int) < ((256 ^ size : Nat) : Int) := by
      rw [Int.toNat_of_nonneg (by omega)]
      push_cast
      exact h1
    exact_mod_cast this
  have h8 : (256 : Nat) ^ size ≤ 256 ^ 8 := Nat.pow_le_pow_right (by norm_num) hsz
  have e8 : (256 : Nat) ^ 8 = 18446744073709551616 := by norm_num
  have hlb : long_bits (to_int64 (v - min)) = (v - min).toNat := by
    unfold long_bits to_int64
    have e63 : (2 : Int) ^ 63 = 9223372036854775808 := by norm_num
    have e64 : (2 : Int) ^ 64 = 18446744073709551616 := by norm_num
    rw [e63, e64]
    omega
  rw [hlb, Nat.mod_eq_of_lt hN, Int.toNat_of_nonneg (by omega), Tgs.to_int64_add_left,
    Int.sub_add_cancel, to_int64_of_range _ hlo hhi]

/-- What the accessors read after an in-range write to an integer cell: the
cell reads the value; every group and every other cell is as before. -/
theorem reads_after_set_int (T : packed_table_t) (b n_rows n_cols : Nat)
    (mins maxes : List Int) (sizes vec_nums offsets : List Nat)
    (hF : cell_facts T b n_rows n_cols mins sizes vec_nums offsets)
    (hv : valid_layout b n_cols mins maxes sizes vec_nums offsets)
    (r col : Nat) (v : Int) (hr : r < n_rows) (hcol1 : b ≤ col) (hcol2 : col < n_cols)
    (hmin : mins.getD col 0 ≤ v) (hmax : v ≤ maxes.getD col 0) :
    cell_facts (internal_set_cell T r (col - b) (to_int64 (v - mins.getD col 0))
        (vec_nums.getD col 0)) b n_rows n_cols mins sizes vec_nums offsets ∧
    (∀ r2, packed_table_get_group
        (internal_set_cell T r (col - b) (to_int64 (v - mins.getD col 0))
          (vec_nums.getD col 0)) r2 = packed_table_get_group T r2) ∧
    (∀ r2 c, c < n_cols →
      packed_table_get_cell
          (internal_set_cell T r (col - b) (to_int64 (v - mins.getD col 0))
            (vec_nums.getD col 0)) r2 c
        = if r2 = r ∧ c = col then v else packed_table_get_cell T r2 c) := by
  obtain ⟨h0, h256, hbn, hb4, hlast, hcol⟩ := hv
  obtain ⟨c1, c2, c3, c4, c5, c6⟩ := hcol col hcol2
  have hs : sizes.getD col 0 ≠ 0 := fun e => absurd (c1.1 e) (by omega)
  obtain ⟨v1, v2, v3, v4, v5, v6⟩ := c6 hs
  have he : internal_set_cell T r (col - b) (to_int64 (v - mins.getD col 0))
        (vec_nums.getD col 0)
      = with_data T (T.data.set (r * T.row_size + vec_nums.getD col 0)
          (_mm_blendv_epi8 (T.data.getD (r * T.row_size + vec_nums.getD col 0) zero_vec)
            (_mm_shuffle_epi8 (_mm_cvtsi64_si128 (to_int64 (v - mins.getD col 0)))
              (scatter_mask (offsets.getD col 0) (sizes.getD col 0)))
            (blend_mask (offsets.getD col 0) (sizes.getD col 0)))) := by
    unfold internal_set_cell
    simp only []
    rw [Nat.add_comm (vec_nums.getD col 0) (r * T.row_size), hF.put col hcol1 hcol2,
      hF.blend col hcol1 hcol2]
    rfl
  obtain ⟨g1, g2, g3, g4⟩ := reads_after_lane T b n_rows n_cols mins sizes vec_nums offsets hF hb4
    r (vec_nums.getD col 0)
    (_mm_blendv_epi8 (T.data.getD (r * T.row_size + vec_nums.getD col 0) zero_vec)
      (_mm_shuffle_epi8 (_mm_cvtsi64_si128 (to_int64 (v - mins.getD col 0)))
        (scatter_mask (offsets.getD col 0) (sizes.getD col 0)))
      (blend_mask (offsets.getD col 0) (sizes.getD col 0))) hr (hF.lane_lt col hcol1 hcol2)
  have hhead : vec_nums.getD col 0 = 0 →
      load_u32 (_mm_blendv_epi8 (T.data.getD (r * T.row_size + vec_nums.getD col 0) zero_vec)
        (_mm_shuffle_epi8 (_mm_cvtsi64_si128 (to_int64 (v - mins.getD col 0)))
          (scatter_mask (offsets.getD col 0) (sizes.getD col 0)))
        (blend_mask (offsets.getD col 0) (sizes.getD col 0)))
      = load_u32 (T.data.getD (r * T.row_size + 0) zero_vec) := by
    intro hz
    have h4 := v4 hz
    rw [hz]
    apply load_u32_congr
    intro j hj
    rw [getD_scatter_blend _ _ _ _ _ (by omega) v1, if_neg (by omega)]
  rw [he]
  refine ⟨g1, fun r2 => ?_, fun r2 c hc => ?_⟩
  · rw [g2 r2]
    by_cases h : r2 = r ∧ vec_nums.getD col 0 = 0
    · rw [if_pos h, hhead h.2, h.1, get_group_lane]
    · rw [if_neg h]
  · by_cases hcb : c < b
    · rw [g3 r2 c hcb hc, if_neg (show ¬ (r2 = r ∧ c = col) from fun e => by omega)]
      by_cases h : r2 = r ∧ vec_nums.getD col 0 = 0
      · rw [if_pos h, hhead h.2, h.1,
          get_cell_bool_lane T b n_rows n_cols mins sizes vec_nums offsets hF hb4 r c hcb hc]
      · rw [if_neg h]
    · rw [g4 r2 c (by omega) hc]
      by_cases h : r2 = r ∧ vec_nums.getD c 0 = vec_nums.getD col 0
      · rw [if_pos h]
        by_cases hcc : c = col
        · rw [if_pos (show r2 = r ∧ c = col from ⟨h.1, hcc⟩), hcc]
          unfold _mm_extract_epi64_0
          rw [gather_scatter_blend _ _ _ _ v1 v2]
          exact biased_roundtrip v (mins.getD col 0) (sizes.getD col 0) v1 hmin (by omega)
            (by omega) (by omega)
        · rw [if_neg (show ¬ (r2 = r ∧ c = col) from fun e => hcc e.2), h.1,
            get_cell_int_lane T b n_rows n_cols mins sizes vec_nums offsets hF hb4 r c (by omega)
              hc, h.2]
          have hsc : sizes.getD c 0 ≠ 0 := fun e => hcb ((hcol c hc).1.1 e)
          obtain ⟨w1, w2, w3, w4, w5, w6⟩ := (hcol c hc).2.2.2.2.2 hsc
          have hdis : offsets.getD c 0 + sizes.getD c 0 ≤ offsets.getD col 0 ∨
              offsets.getD col 0 + sizes.getD col 0 ≤ offsets.getD c 0 := by
            rcases Nat.lt_or_gt_of_ne hcc with hlt | hgt
            · exact Or.inl ((v6 c hlt hsc).2 h.2)
            · exact Or.inr ((w6 col hgt hs).2 h.2.symm)
          rw [gather_read_congr _
            (T.data.getD (r * T.row_size + vec_nums.getD col 0) zero_vec) _ _ w2
            (fun j hj1 hj2 => by
              rw [getD_scatter_blend _ _ _ _ _ (by omega) v1, if_neg (by omega)])]
      · rw [if_neg h, if_neg (show ¬ (r2 = r ∧ c = col) from fun e => h ⟨e.1, by rw [e.2]⟩)]

theorem zero_vec_getD (j : Nat) : zero_vec.getD j 0 = 0 := by
  unfold zero_vec
  by_cases h : j < 16
  · exact getD_replicate 16 0 j h
  · exact List.getD_eq_default _ _ (by simp; omega)

theorem getD_zero_lanes (n idx : Nat) : (List.replicate n zero_vec).getD idx zero_vec = zero_vec := by
  by_cases h : idx < n
  · simp [List.getD_eq_getElem?_getD, List.getElem?_replicate, h]
  · exact List.getD_eq_default _ _ (by simp; omega)

theorem gather_zero (mask : Vec128) : _mm_extract_epi64_0 (_mm_shuffle_epi8 zero_vec mask) = 0 := by
  unfold _mm_extract_epi64_0
  rw [le_bytes_congr _ zero_vec 8 (fun k hk => by
    rw [getD_shuffle _ _ _ (by omega), zero_vec_getD, zero_vec_getD]
    split <;> rfl)]
  decide

/-- A freshly created table of a valid layout: every group reads 0 and every
cell reads the minimum of its column. -/
theorem fresh_reads (b n_rows n_cols : Nat) (mins maxes : List Int)
    (sizes vec_nums offsets : List Nat)
    (hv : valid_layout b n_cols mins maxes sizes vec_nums offsets) :
    cell_facts (packed_table_create n_rows mins maxes sizes vec_nums offsets n_cols)
      b n_rows n_cols mins sizes vec_nums offsets ∧
    (∀ r, packed_table_get_group
      (packed_table_create n_rows mins maxes sizes vec_nums offsets n_cols) r = 0) ∧
    (∀ r c, c < n_cols →
      packed_table_get_cell (packed_table_create n_rows mins maxes sizes vec_nums offsets n_cols)
        r c = mins.getD c 0) := by
  obtain ⟨f1, f2, f3, f4, f5⟩ := create_fields n_rows mins maxes sizes vec_nums offsets n_cols
  have hF : cell_facts (packed_table_create n_rows mins maxes sizes vec_nums offsets n_cols)
      b n_rows n_cols mins sizes vec_nums offsets :=
    create_cell_facts b n_rows n_cols mins maxes sizes vec_nums offsets
      (packed_table_create n_rows mins maxes sizes vec_nums offsets n_cols).data hv
      (by rw [f5, f4, List.length_replicate])
  obtain ⟨h0, h256, hbn, hb4, hlast, hcol⟩ := hv
  refine ⟨hF, fun r => ?_, fun r c hc => ?_⟩
  · rw [get_group_lane, f5, getD_zero_lanes]
    decide
  · obtain ⟨c1, c2, c3, c4, c5, c6⟩ := hcol c hc
    by_cases hcb : c < b
    · rw [get_cell_bool_lane _ b n_rows n_cols mins sizes vec_nums offsets hF hb4 r c hcb hc, f5,
        getD_zero_lanes]
      have hz : load_u32 zero_vec = 0 := by decide
      rw [hz, Nat.zero_and, if_neg (by simp), Int.zero_add, to_int64_of_range _ c2 (by omega)]
    · rw [get_cell_int_lane _ b n_rows n_cols mins sizes vec_nums offsets hF hb4 r c (by omega)
        hc, f5, getD_zero_lanes, gather_zero, Int.zero_add,
        to_int64_of_range _ c2 (by omega)]

/-- One round of `packed_table_batch_set_col`, on two tables of two valid
layouts with the same boolean columns that read alike: they read alike
afterwards. -/
theorem step_reads_alike (b n_rows n_cols : Nat) (mins maxes : List Int)
    (sizes1 vec_nums1 offsets1 sizes2 vec_nums2 offsets2 : List Nat)
    (hv1 : valid_layout b n_cols mins maxes sizes1 vec_nums1 offsets1)
    (hv2 : valid_layout b n_cols mins maxes sizes2 vec_nums2 offsets2)
    (T1 T2 : packed_table_t)
    (hF1 : cell_facts T1 b n_rows n_cols mins sizes1 vec_nums1 offsets1)
    (hF2 : cell_facts T2 b n_rows n_cols mins sizes2 vec_nums2 offsets2)
    (hR : same_reads n_cols T1 T2)
    (r col : Nat) (v : Int) (hr : r < n_rows) (hcol : col < n_cols)
    (hmin : mins.getD col 0 ≤ v) (hmax : v ≤ maxes.getD col 0) :
    (col < b →
      cell_facts (internal_set_boolean_cell T1 r col (to_int64 (v - mins.getD col 0)))
        b n_rows n_cols mins sizes1 vec_nums1 offsets1 ∧
      cell_facts (internal_set_boolean_cell T2 r col (to_int64 (v - mins.getD col 0)))
        b n_rows n_cols mins sizes2 vec_nums2 offsets2 ∧
      same_reads n_cols
        (internal_set_boolean_cell T1 r col (to_int64 (v - mins.getD col 0)))
        (internal_set_boolean_cell T2 r col (to_int64 (v - mins.getD col 0)))) ∧
    (b ≤ col →
      cell_facts (internal_set_cell T1 r (col - b) (to_int64 (v - mins.getD col 0))
        (vec_nums1.getD col 0)) b n_rows n_cols mins sizes1 vec_nums1 offsets1 ∧
      cell_facts (internal_set_cell T2 r (col - b) (to_int64 (v - mins.getD col 0))
        (vec_nums2.getD col 0)) b n_rows n_cols mins sizes2 vec_nums2 offsets2 ∧
      same_reads n_cols
        (internal_set_cell T1 r (col - b) (to_int64 (v - mins.getD col 0))
          (vec_nums1.getD col 0))
        (internal_set_cell T2 r (col - b) (to_int64 (v - mins.getD col 0))
          (vec_nums2.getD col 0))) := by
  constructor
  · intro hb
    obtain ⟨a1, a2, a3⟩ := reads_after_set_boolean T1 b n_rows n_cols mins maxes sizes1 vec_nums1
      offsets1 hF1 hv1 r col v hr hb hcol hmin hmax
    obtain ⟨b1, b2, b3⟩ := reads_after_set_boolean T2 b n_rows n_cols mins maxes sizes2 vec_nums2
      offsets2 hF2 hv2 r col v hr hb hcol hmin hmax
    refine ⟨a1, b1, fun r2 => ?_, fun r2 c hc => ?_⟩
    · rw [a2, b2, hR.1]
    · rw [a3 r2 c hc, b3 r2 c hc, hR.2 r col hcol, hR.2 r2 c hc]
  · intro hb
    obtain ⟨a1, a2, a3⟩ := reads_after_set_int T1 b n_rows n_cols mins maxes sizes1 vec_nums1
      offsets1 hF1 hv1 r col v hr hb hcol hmin hmax
    obtain ⟨b1, b2, b3⟩ := reads_after_set_int T2 b n_rows n_cols mins maxes sizes2 vec_nums2
      offsets2 hF2 hv2 r col v hr hb hcol hmin hmax
    refine ⟨a1, b1, fun r2 => ?_, fun r2 c hc => ?_⟩
    · rw [a2, b2, hR.1]
    · rw [a3 r2 c hc, b3 r2 c hc, hR.2 r2 c hc]

theorem for_loop_pair {σ τ : Type} (P : σ → τ → Prop) (f : Nat → σ → σ) (g : Nat → τ → τ)
    (n : Nat) (hstep : ∀ i s t, i < n → P s t → P (f i s) (g i t)) (s : σ) (t : τ)
    (h0 : P s t) : P (for_loop f n 0 s) (for_loop g n 0 t) := by
  induction n with
  | zero => exact h0
  | succ k ih =>
    rw [for_loop_succ_last, for_loop_succ_last, Nat.zero_add]
    exact hstep k _ _ (by omega) (ih (fun i s t hi => hstep i s t (by omega)))

/-- An in-range write, on two tables of two valid layouts with the same
boolean columns that read alike: they read alike afterwards. -/
theorem write_reads_alike (b n_rows n_cols : Nat) (mins maxes : List Int)
    (sizes1 vec_nums1 offsets1 sizes2 vec_nums2 offsets2 : List Nat)
    (hv1 : valid_layout b n_cols mins maxes sizes1 vec_nums1 offsets1)
    (hv2 : valid_layout b n_cols mins maxes sizes2 vec_nums2 offsets2)
    (T1 T2 : packed_table_t)
    (hF1 : cell_facts T1 b n_rows n_cols mins sizes1 vec_nums1 offsets1)
    (hF2 : cell_facts T2 b n_rows n_cols mins sizes2 vec_nums2 offsets2)
    (hR : same_reads n_cols T1 T2) (w : table_write)
    (hw : write_in_range n_rows n_cols mins maxes w) :
    cell_facts (apply_write T1 w) b n_rows n_cols mins sizes1 vec_nums1 offsets1 ∧
    cell_facts (apply_write T2 w) b n_rows n_cols mins sizes2 vec_nums2 offsets2 ∧
    same_reads n_cols (apply_write T1 w) (apply_write T2 w) := by
  cases w with
  | set_group row value =>
    have hr : row < n_rows := hw
    obtain ⟨a1, a2, a3⟩ := reads_after_set_group T1 b n_rows n_cols mins maxes sizes1 vec_nums1
      offsets1 hF1 hv1 row value hr
    obtain ⟨b1, b2, b3⟩ := reads_after_set_group T2 b n_rows n_cols mins maxes sizes2 vec_nums2
      offsets2 hF2 hv2 row value hr
    refine ⟨a1, b1, fun r2 => ?_, fun r2 c hc => ?_⟩
    · show packed_table_get_group (packed_table_set_group T1 row value) r2
        = packed_table_get_group (packed_table_set_group T2 row value) r2
      rw [a2, b2, hR.1]
    · show packed_table_get_cell (packed_table_set_group T1 row value) r2 c
        = packed_table_get_cell (packed_table_set_group T2 row value) r2 c
      rw [a3 r2 c hc, b3 r2 c hc, hR.2 r2 c hc]
  | set_col row_ids n col_vals col =>
    obtain ⟨hcol, hin⟩ : col < n_cols ∧ ∀ i, i < n →
        row_ids.getD i 0 < n_rows ∧ mins.getD col 0 ≤ col_vals.getD i 0 ∧
        col_vals.getD i 0 ≤ maxes.getD col 0 := hw
    show cell_facts (packed_table_batch_set_col T1 row_ids n col_vals col) b n_rows n_cols mins
        sizes1 vec_nums1 offsets1 ∧
      cell_facts (packed_table_batch_set_col T2 row_ids n col_vals col) b n_rows n_cols mins
        sizes2 vec_nums2 offsets2 ∧
      same_reads n_cols (packed_table_batch_set_col T1 row_ids n col_vals col)
        (packed_table_batch_set_col T2 row_ids n col_vals col)
    unfold packed_table_batch_set_col
    simp only []
    rw [hF1.nb, hF2.nb, hF1.mins_eq col hcol, hF2.mins_eq col hcol]
    by_cases hb : col < b
    · rw [if_pos hb, if_pos hb]
      exact for_loop_pair
        (fun t1 t2 => cell_facts t1 b n_rows n_cols mins sizes1 vec_nums1 offsets1 ∧
          cell_facts t2 b n_rows n_cols mins sizes2 vec_nums2 offsets2 ∧
          same_reads n_cols t1 t2) _ _ n
        (fun i s t hi hP => (step_reads_alike b n_rows n_cols mins maxes sizes1 vec_nums1
          offsets1 sizes2 vec_nums2 offsets2 hv1 hv2 s t hP.1 hP.2.1 hP.2.2 (row_ids.getD i 0)
          col (col_vals.getD i 0) (hin i hi).1 hcol (hin i hi).2.1 (hin i hi).2.2).1 hb)
        T1 T2 ⟨hF1, hF2, hR⟩
    · rw [if_neg hb, if_neg hb, hF1.lane col (by omega) hcol, hF2.lane col (by omega) hcol]
      exact for_loop_pair
        (fun t1 t2 => cell_facts t1 b n_rows n_cols mins sizes1 vec_nums1 offsets1 ∧
          cell_facts t2 b n_rows n_cols mins sizes2 vec_nums2 offsets2 ∧
          same_reads n_cols t1 t2) _ _ n
        (fun i s t hi hP => (step_reads_alike b n_rows n_cols mins maxes sizes1 vec_nums1
          offsets1 sizes2 vec_nums2 offsets2 hv1 hv2 s t hP.1 hP.2.1 hP.2.2 (row_ids.getD i 0)
          col (col_vals.getD i 0) (hin i hi).1 hcol (hin i hi).2.1 (hin i hi).2.2).2
          (by omega))
        T1 T2 ⟨hF1, hF2, hR⟩

/-- A sequence of in-range writes keeps two tables reading alike. -/
theorem writes_read_alike (b n_rows n_cols : Nat) (mins maxes : List Int)
    (sizes1 vec_nums1 offsets1 sizes2 vec_nums2 offsets2 : List Nat)
    (hv1 : valid_layout b n_cols mins maxes sizes1 vec_nums1 offsets1)
    (hv2 : valid_layout b n_cols mins maxes sizes2 vec_nums2 offsets2)
    (writes : List table_write)
    (hw : ∀ w, w ∈ writes → write_in_range n_rows n_cols mins maxes w)
    (T1 T2 : packed_table_t)
    (hF1 : cell_facts T1 b n_rows n_cols mins sizes1 vec_nums1 offsets1)
    (hF2 : cell_facts T2 b n_rows n_cols mins sizes2 vec_nums2 offsets2)
    (hR : same_reads n_cols T1 T2) :
    same_reads n_cols (writes.foldl apply_write T1) (writes.foldl apply_write T2) := by
  induction writes generalizing T1 T2 with
  | nil => exact hR
  | cons w rest ih =>
    obtain ⟨a1, a2, a3⟩ := write_reads_alike b n_rows n_cols mins maxes sizes1 vec_nums1 offsets1
      sizes2 vec_nums2 offsets2 hv1 hv2 T1 T2 hF1 hF2 hR w (hw w (List.mem_cons_self _ _))
    exact ih (fun x hx => hw x (List.mem_cons_of_mem _ hx)) _ _ a1 a2 a3

set_option maxRecDepth 100000 in
/-- Claim C18 as stated fails: a column of range `[0, 1]` is a boolean in one
valid layout and a one-byte integer in another; after the writes of 1 and then
0 to its cell the first table reads 1 (the bit is OR-ed in and stays) and the
second reads 0. -/
theorem C18_boolean_or_counterexample :
    valid_layout 1 1 [0] [1] [0] [0] [0] ∧ valid_layout 0 1 [0] [1] [1] [0] [4] ∧
    write_in_range 1 1 [0] [1] (table_write.set_col [0] 1 [1] 0) ∧
    write_in_range 1 1 [0] [1] (table_write.set_col [0] 1 [0] 0) ∧
    packed_table_get_cell
      ([table_write.set_col [0] 1 [1] 0, table_write.set_col [0] 1 [0] 0].foldl apply_write
        (packed_table_create 1 [0] [1] [0] [0] [0] 1)) 0 0 = 1 ∧
    packed_table_get_cell
      ([table_write.set_col [0] 1 [1] 0, table_write.set_col [0] 1 [0] 0].foldl apply_write
        (packed_table_create 1 [0] [1] [1] [0] [4] 1)) 0 0 = 0 := by
  decide

/-- Claim C18 for layouts that collapse the same columns into booleans: two
tables created with the same number of rows and the same column minimums from
two valid layouts with the same `b` boolean columns read alike after the same
sequence of in-range writes: `packed_table_get_cell` agrees on every row and
column and `packed_table_get_group` on every row. -/
theorem C18_layouts_read_alike (b n_rows n_cols : Nat) (mins maxes : List Int)
    (sizes1 vec_nums1 offsets1 sizes2 vec_nums2 offsets2 : List Nat)
    (writes : List table_write)
    (hv1 : valid_layout b n_cols mins maxes sizes1 vec_nums1 offsets1)
    (hv2 : valid_layout b n_cols mins maxes sizes2 vec_nums2 offsets2)
    (hw : ∀ w, w ∈ writes → write_in_range n_rows n_cols mins maxes w)
    (r c : Nat) (hc : c < n_cols) :
    packed_table_get_cell
        (writes.foldl apply_write
          (packed_table_create n_rows mins maxes sizes1 vec_nums1 offsets1 n_cols)) r c
      = packed_table_get_cell
        (writes.foldl apply_write
          (packed_table_create n_rows mins maxes sizes2 vec_nums2 offsets2 n_cols)) r c ∧
    packed_table_get_group
        (writes.foldl apply_write
          (packed_table_create n_rows mins maxes sizes1 vec_nums1 offsets1 n_cols)) r
      = packed_table_get_group
        (writes.foldl apply_write
          (packed_table_create n_rows mins maxes sizes2 vec_nums2 offsets2 n_cols)) r := by
  obtain ⟨a1, a2, a3⟩ := fresh_reads b n_rows n_cols mins maxes sizes1 vec_nums1 offsets1 hv1
  obtain ⟨b1, b2, b3⟩ := fresh_reads b n_rows n_cols mins maxes sizes2 vec_nums2 offsets2 hv2
  have key := writes_read_alike b n_rows n_cols mins maxes sizes1 vec_nums1 offsets1 sizes2
    vec_nums2 offsets2 hv1 hv2 writes hw _ _ a1 b1
    ⟨fun r => by rw [a2, b2], fun r c hc => by rw [a3 r c hc, b3 r c hc]⟩
  exact ⟨key.2 r c hc, key.1 r⟩

set_option maxRecDepth 100000 in
/-- Claim C18 on the columns of S3, packed into one lane and spread over two
lanes: after a batch write to column 1, a group write and a write of -1000 to
column 3, both tables read 255 in column 1 of row 0, -1000 in column 3 of
row 0 and group 5 in row 1. -/
theorem C18_layouts_read_alike_witness :
    (packed_table_get_cell
        ([table_write.set_col [0, 1] 2 [255, 3] 1, table_write.set_group 1 5,
          table_write.set_col [0] 1 [-1000] 3].foldl apply_write
          (packed_table_create 2 [0, 0, 0, -1000] [1, 255, 65535, 1000000] [0, 1, 2, 3]
            [0, 0, 0, 0] [0, 4, 5, 7] 4)) 0 3
      = packed_table_get_cell
        ([table_write.set_col [0, 1] 2 [255, 3] 1, table_write.set_group 1 5,
          table_write.set_col [0] 1 [-1000] 3].foldl apply_write
          (packed_table_create 2 [0, 0, 0, -1000] [1, 255, 65535, 1000000] [0, 2, 4, 8]
            [0, 0, 0, 1] [0, 4, 6, 0] 4)) 0 3 ∧
      packed_table_get_group
        ([table_write.set_col [0, 1] 2 [255, 3] 1, table_write.set_group 1 5,
          table_write.set_col [0] 1 [-1000] 3].foldl apply_write
          (packed_table_create 2 [0, 0, 0, -1000] [1, 255, 65535, 1000000] [0, 1, 2, 3]
            [0, 0, 0, 0] [0, 4, 5, 7] 4)) 0
      = packed_table_get_group
        ([table_write.set_col [0, 1] 2 [255, 3] 1, table_write.set_group 1 5,
          table_write.set_col [0] 1 [-1000] 3].foldl apply_write
          (packed_table_create 2 [0, 0, 0, -1000] [1, 255, 65535, 1000000] [0, 2, 4, 8]
            [0, 0, 0, 1] [0, 4, 6, 0] 4)) 0) ∧
    packed_table_get_cell
      ([table_write.set_col [0, 1] 2 [255, 3] 1, table_write.set_group 1 5,
        table_write.set_col [0] 1 [-1000] 3].foldl apply_write
        (packed_table_create 2 [0, 0, 0, -1000] [1, 255, 65535, 1000000] [0, 2, 4, 8]
          [0, 0, 0, 1] [0, 4, 6, 0] 4)) 0 3 = -1000 :=
  ⟨C18_layouts_read_alike 1 2 4 [0, 0, 0, -1000] [1, 255, 65535, 1000000] [0, 1, 2, 3]
      [0, 0, 0, 0] [0, 4, 5, 7] [0, 2, 4, 8] [0, 0, 0, 1] [0, 4, 6, 0]
      [table_write.set_col [0, 1] 2 [255, 3] 1, table_write.set_group 1 5,
        table_write.set_col [0] 1 [-1000] 3]
      (by decide) (by decide) (by decide) 0 3 (by decide),
    by decide⟩

end PackedTable

/-! ## Row padding and the layout of a shard -/

namespace PackedShard

open PackedTable

/-- The padding rule: the padded size is 1 or even, and is the number of lanes
or one more. -/
theorem padded_row_size_facts (n : Nat) :
    (padded_row_size n = 1 ∨ padded_row_size n % 2 = 0) ∧
    n ≤ padded_row_size n ∧ padded_row_size n ≤ n + 1 := by
  unfold padded_row_size
  split <;> omega

/-- C21: the padded row size that `createColumnIndexes` gives a table and the
one `createMetricsIndexes` gives a shard layout are 1 or even, at least the
unpadded number of lanes and at most one more. -/
theorem C21_padded_row_sizes (table : packed_table_t) (n_cols : Nat)
    (sizes vec_nums offsets index_cols : List Nat) (desc : packed_metric_desc)
    (n_metrics : Nat) (metric_maxes metric_mins : List Int) (first_free_byte : Nat) :
    ((createColumnIndexes table n_cols sizes vec_nums offsets index_cols).1.row_size = 1 ∨
      (createColumnIndexes table n_cols sizes vec_nums offsets index_cols).1.row_size % 2 = 0) ∧
    (createColumnIndexes table n_cols sizes vec_nums offsets index_cols).1.unpadded_row_size
      ≤ (createColumnIndexes table n_cols sizes vec_nums offsets index_cols).1.row_size ∧
    (createColumnIndexes table n_cols sizes vec_nums offsets index_cols).1.row_size
      ≤ (createColumnIndexes table n_cols sizes vec_nums offsets index_cols).1.unpadded_row_size
        + 1 ∧
    ((createMetricsIndexes desc n_metrics metric_maxes metric_mins
        first_free_byte).n_vectors_per_doc = 1 ∨
      (createMetricsIndexes desc n_metrics metric_maxes metric_mins
        first_free_byte).n_vectors_per_doc % 2 = 0) ∧
    (for_loop (createMetricsIndexes_step metric_maxes metric_mins) n_metrics 0
        { desc := desc, metric_offset := first_free_byte, n_vectors := 1 }).n_vectors
      ≤ (createMetricsIndexes desc n_metrics metric_maxes metric_mins
          first_free_byte).n_vectors_per_doc ∧
    (createMetricsIndexes desc n_metrics metric_maxes metric_mins
        first_free_byte).n_vectors_per_doc
      ≤ (for_loop (createMetricsIndexes_step metric_maxes metric_mins) n_metrics 0
          { desc := desc, metric_offset := first_free_byte, n_vectors := 1 }).n_vectors + 1 := by
  have h1 := padded_row_size_facts (vec_nums.getD (n_cols - 1) 0 + 1)
  have h2 := padded_row_size_facts
    (for_loop (createMetricsIndexes_step metric_maxes metric_mins) n_metrics 0
      { desc := desc, metric_offset := first_free_byte, n_vectors := 1 }).n_vectors
  exact ⟨h1.1, h1.2.1, h1.2.2, h2.1, h2.2.1, h2.2.2⟩

/-- The two outcomes of `metric_size_bytes`: the column is collapsed into a
header bit (width 0, one more boolean, which is the column after the booleans
so far, fewer than four of them), or it gets 1 to 8 bytes and the record stays
as it is. -/
theorem metric_size_cases (desc : packed_metric_desc) (max min : Int) :
    ((metric_size_bytes desc max min).1 = 0 ∧
      (metric_size_bytes desc max min).2
        = { desc with n_boolean_metrics := desc.n_boolean_metrics + 1 } ∧
      desc.n_boolean_metrics = desc.n_metrics_aux_index ∧ desc.n_boolean_metrics < 4) ∨
    (1 ≤ (metric_size_bytes desc max min).1 ∧ (metric_size_bytes desc max min).1 ≤ 8 ∧
      (metric_size_bytes desc max min).2 = desc) := by
  unfold metric_size_bytes
  simp only []
  split
  · rename_i h
    exact Or.inl ⟨rfl, rfl, h.2.1, h.2.2⟩
  · right
    refine ⟨?_, ?_, rfl⟩
    · have hb : (clzl (long_bits (max - min)) : Nat) ≤ 64 := by unfold clzl; omega
      by_cases h0 : clzl (long_bits (max - min)) = 64
      · rw [h0]
        show (1 : Int) ≤ Int.tdiv (64 - ((64 : Nat) : Int) - 1) 8 + 1
        decide
      · show (1 : Int) ≤ Int.tdiv (64 - (clzl (long_bits (max - min)) : Nat) - 1) 8 + 1
        rw [Int.tdiv_eq_ediv (by omega) (by omega)]
        omega
    · have hb : (clzl (long_bits (max - min)) : Nat) ≤ 64 := by unfold clzl; omega
      by_cases h0 : clzl (long_bits (max - min)) = 64
      · rw [h0]
        show Int.tdiv (64 - ((64 : Nat) : Int) - 1) 8 + 1 ≤ 8
        decide
      · show Int.tdiv (64 - (clzl (long_bits (max - min)) : Nat) - 1) 8 + 1 ≤ 8
        rw [Int.tdiv_eq_ediv (by omega) (by omega)]
        omega

/-- One round of the layout loop, column `k`: the entries it records and the
counters it leaves, in terms of the byte `start` the column is placed at. -/
theorem metrics_step_fields (metric_maxes metric_mins : List Int) (n k : Nat)
    (s : metrics_index_state) (h : metrics_inv n s k) (hk : k < n) (hn : n < 256) :
    ∃ size start lane : Nat,
      size ≤ 8 ∧
      ((size = 0 ∧ s.desc.n_boolean_metrics = k ∧ s.desc.n_boolean_metrics < 4 ∧
          (createMetricsIndexes_step metric_maxes metric_mins k s).desc.n_boolean_metrics
            = s.desc.n_boolean_metrics + 1) ∨
        (1 ≤ size ∧
          (createMetricsIndexes_step metric_maxes metric_mins k s).desc.n_boolean_metrics
            = s.desc.n_boolean_metrics)) ∧
      ((s.metric_offset + size ≤ 16 * (s.n_vectors : Int) ∧ (start : Int) = s.metric_offset ∧
          lane + 1 = s.n_vectors) ∨
        (16 * (s.n_vectors : Int) < s.metric_offset + size ∧ start = 16 * s.n_vectors ∧
          lane = s.n_vectors)) ∧
      (createMetricsIndexes_step metric_maxes metric_mins k s).metric_offset
        = ((start + size : Nat) : Int) ∧
      (createMetricsIndexes_step metric_maxes metric_mins k s).n_vectors = lane + 1 ∧
      (createMetricsIndexes_step metric_maxes metric_mins k s).desc.n_metrics_aux_index
        = k + 1 ∧
      (createMetricsIndexes_step metric_maxes metric_mins k s).desc.n_metrics
        = s.desc.n_metrics ∧
      (createMetricsIndexes_step metric_maxes metric_mins k s).desc.index_metrics
        = (s.desc.index_metrics.set (2 * k) start).set (2 * k + 1) (start + size) ∧
      (createMetricsIndexes_step metric_maxes metric_mins k s).desc.metric_n_vector
        = s.desc.metric_n_vector.set k lane := by
  have hcases := metric_size_cases s.desc (metric_maxes.getD k 0) (metric_mins.getD k 0)
  have hstep : createMetricsIndexes_step metric_maxes metric_mins k s
      = { desc :=
            { (metric_size_bytes s.desc (metric_maxes.getD k 0) (metric_mins.getD k 0)).2 with
              index_metrics :=
                ((metric_size_bytes s.desc (metric_maxes.getD k 0)
                    (metric_mins.getD k 0)).2.index_metrics.set (2 * k)
                  ((if decide (s.metric_offset
                      + (metric_size_bytes s.desc (metric_maxes.getD k 0)
                          (metric_mins.getD k 0)).1 > (s.n_vectors : Int) * 16) = true
                    then (s.n_vectors : Int) * 16 else s.metric_offset) % 65536).toNat).set
                  (2 * k + 1)
                  (((if decide (s.metric_offset
                      + (metric_size_bytes s.desc (metric_maxes.getD k 0)
                          (metric_mins.getD k 0)).1 > (s.n_vectors : Int) * 16) = true
                    then (s.n_vectors : Int) * 16 else s.metric_offset)
                    + (metric_size_bytes s.desc (metric_maxes.getD k 0)
                        (metric_mins.getD k 0)).1) % 65536).toNat
              metric_n_vector :=
                (metric_size_bytes s.desc (metric_maxes.getD k 0)
                    (metric_mins.getD k 0)).2.metric_n_vector.set k
                  (((if decide (s.metric_offset
                      + (metric_size_bytes s.desc (metric_maxes.getD k 0)
                          (metric_mins.getD k 0)).1 > (s.n_vectors : Int) * 16) = true
                    then s.n_vectors + 1 else s.n_vectors) - 1) % 256)
              n_metrics_aux_index :=
                (metric_size_bytes s.desc (metric_maxes.getD k 0)
                  (metric_mins.getD k 0)).2.n_metrics_aux_index + 1 }
          metric_offset :=
            (if decide (s.metric_offset
                + (metric_size_bytes s.desc (metric_maxes.getD k 0)
                    (metric_mins.getD k 0)).1 > (s.n_vectors : Int) * 16) = true
              then (s.n_vectors : Int) * 16 else s.metric_offset)
              + (metric_size_bytes s.desc (metric_maxes.getD k 0) (metric_mins.getD k 0)).1
          n_vectors :=
            if decide (s.metric_offset
                + (metric_size_bytes s.desc (metric_maxes.getD k 0)
                    (metric_mins.getD k 0)).1 > (s.n_vectors : Int) * 16) = true
              then s.n_vectors + 1 else s.n_vectors } := rfl
  rw [hstep]
  generalize metric_size_bytes s.desc (metric_maxes.getD k 0) (metric_mins.getD k 0) = r
    at hcases
  have hr : 0 ≤ r.1 ∧ r.1 ≤ 8 ∧ r.2.index_metrics = s.desc.index_metrics ∧
      r.2.metric_n_vector = s.desc.metric_n_vector ∧
      r.2.n_metrics_aux_index = s.desc.n_metrics_aux_index ∧
      r.2.n_metrics = s.desc.n_metrics := by
    rcases hcases with ⟨h1, h2, _, _⟩ | ⟨h1, h2, h3⟩
    · rw [h1, h2]; exact ⟨by omega, by omega, rfl, rfl, rfl, rfl⟩
    · rw [h3]; exact ⟨by omega, h2, rfl, rfl, rfl, rfl⟩
  obtain ⟨hr0, hr8, hri, hrl, hra, hrn⟩ := hr
  have hlo := h.off_lo
  have hhi := h.off_hi
  have hl1 := h.lanes_pos
  have hl2 := h.lanes_le
  have haux := h.aux
  have hnb : (r.1.toNat = 0 ∧ s.desc.n_boolean_metrics = k ∧ s.desc.n_boolean_metrics < 4 ∧
        r.2.n_boolean_metrics = s.desc.n_boolean_metrics + 1) ∨
      (1 ≤ r.1.toNat ∧ r.2.n_boolean_metrics = s.desc.n_boolean_metrics) := by
    rcases hcases with ⟨h1, h2, h3, h4⟩ | ⟨h1, h2, h3⟩
    · left
      refine ⟨by omega, by omega, h4, ?_⟩
      rw [h2]
    · right
      refine ⟨by omega, ?_⟩
      rw [h3]
  by_cases hw : s.metric_offset + r.1 > (s.n_vectors : Int) * 16
  · have hd : decide (s.metric_offset + r.1 > (s.n_vectors : Int) * 16) = true :=
      decide_eq_true hw
    simp only [hd, if_true]
    refine ⟨r.1.toNat, 16 * s.n_vectors, s.n_vectors, by omega, hnb,
      Or.inr ⟨by omega, rfl, rfl⟩, by omega, rfl, by rw [hra, haux], hrn, ?_, ?_⟩
    · rw [hri]
      congr 2
      · omega
      · omega
    · rw [hrl]
      congr 1
      omega
  · have hd : decide (s.metric_offset + r.1 > (s.n_vectors : Int) * 16) = false :=
      decide_eq_false hw
    simp only [hd, Bool.false_eq_true, if_false]
    refine ⟨r.1.toNat, s.metric_offset.toNat, s.n_vectors - 1, by omega, hnb,
      Or.inl ⟨by omega, by omega, by omega⟩, by omega, by omega, by rw [hra, haux], hrn,
      ?_, ?_⟩
    · rw [hri]
      congr 2
      · omega
      · omega
    · rw [hrl]
      congr 1
      omega

/-- One round of the layout loop keeps what the loop has established. -/
theorem metrics_step_inv (metric_maxes metric_mins : List Int) (n k : Nat)
    (s : metrics_index_state) (h : metrics_inv n s k) (hk : k < n) (hn : n < 256) :
    metrics_inv n (createMetricsIndexes_step metric_maxes metric_mins k s) (k + 1) := by
  obtain ⟨size, start, lane, hsz, hnb, hpos, f_off, f_nv, f_aux, f_cnt, f_idx, f_lane⟩ :=
    metrics_step_fields metric_maxes metric_mins n k s h hk hn
  generalize createMetricsIndexes_step metric_maxes metric_mins k s = s2
    at hnb f_off f_nv f_aux f_cnt f_idx f_lane
  have hli := h.len_index
  have hll := h.len_lane
  have hlo := h.off_lo
  have hhi := h.off_hi
  have hol := h.off_lane
  have hl1 := h.lanes_pos
  have hl2 := h.lanes_le
  have hnl := h.nb_le
  have hnm := h.nb_max
  have hidx_old : ∀ j, j < 2 * k →
      s2.desc.index_metrics.getD j 0 = s.desc.index_metrics.getD j 0 := by
    intro j hj
    rw [f_idx, getD_set_ne _ _ _ _ _ (by omega), getD_set_ne _ _ _ _ _ (by omega)]
  have hidx_s : s2.desc.index_metrics.getD (2 * k) 0 = start := by
    rw [f_idx, getD_set_ne _ _ _ _ _ (by omega), getD_set_eq _ _ _ _ (by omega)]
  have hidx_e : s2.desc.index_metrics.getD (2 * k + 1) 0 = start + size := by
    rw [f_idx, getD_set_eq _ _ _ _ (by rw [List.length_set]; omega)]
  have hlane_old : ∀ j, j < k →
      s2.desc.metric_n_vector.getD j 0 = s.desc.metric_n_vector.getD j 0 := by
    intro j hj
    rw [f_lane, getD_set_ne _ _ _ _ _ (by omega)]
  have hlane_k : s2.desc.metric_n_vector.getD k 0 = lane := by
    rw [f_lane, getD_set_eq _ _ _ _ (by omega)]
  refine ⟨f_cnt.trans h.count, ?_, ?_, f_aux, ?_, ?_, ?_, ?_, ?_, ?_, ?_, ?_, ?_, ?_, ?_, ?_⟩
  · rw [f_idx, List.length_set, List.length_set]; exact hli
  · rw [f_lane, List.length_set]; exact hll
  · omega
  · omega
  · omega
  · omega
  · intro h0; omega
  · omega
  · omega
  · omega
  · intro i hi
    by_cases hik : i < k
    · have hc := h.cols i hik
      rw [hidx_old (2 * i) (by omega), hidx_old (2 * i + 1) (by omega), hlane_old i hik]
      refine ⟨hc.1, hc.2.1, hc.2.2.1, hc.2.2.2.1, ?_⟩
      rw [hc.2.2.2.2]
      omega
    · have hik2 : i = k := by omega
      subst hik2
      rw [hidx_s, hidx_e, hlane_k]
      omega
  · intro _
    by_cases hk0 : k = 0
    · subst hk0
      have h0 := h.start rfl
      rw [hidx_s, hlane_k]
      omega
    · have hf := h.first (by omega)
      rw [hidx_old 0 (by omega), hlane_old 0 (by omega)]
      exact hf
  · intro _
    rw [show 2 * (k + 1 - 1) + 1 = 2 * k + 1 by omega, show k + 1 - 1 = k by omega,
      hidx_e, hlane_k]
    exact ⟨f_off.symm, f_nv.symm⟩
  · intro i hi
    by_cases hik : i + 1 < k
    · have ha := h.adj i hik
      rw [hidx_old (2 * i + 1) (by omega), hidx_old (2 * (i + 1) + 1) (by omega),
        hidx_old (2 * (i + 1)) (by omega), hlane_old i (by omega), hlane_old (i + 1) hik]
      exact ha
    · have hik2 : k = i + 1 := by omega
      have hla := h.last (by omega)
      rw [show 2 * (k - 1) + 1 = 2 * i + 1 by omega, show k - 1 = i by omega] at hla
      rw [hidx_old (2 * i + 1) (by omega), ← hik2, hidx_e, hidx_s, hlane_old i (by omega),
        hlane_k]
      split <;> omega

/-- The layout loop from its initial state: after `k` columns the established
facts hold. -/
theorem metrics_loop_inv (metric_maxes metric_mins : List Int) (n : Nat) (hn : n < 256)
    (desc : packed_metric_desc) (hc : desc.n_metrics = n)
    (hd : desc.n_metrics_aux_index = 0)
    (hb : desc.n_boolean_metrics = 0) (hi : desc.index_metrics.length = 2 * n)
    (hl : desc.metric_n_vector.length = n) (k : Nat) (hk : k ≤ n) :
    metrics_inv n
      (for_loop (createMetricsIndexes_step metric_maxes metric_mins) k 0
        { desc := desc, metric_offset := 4, n_vectors := 1 }) k := by
  induction k with
  | zero =>
    show metrics_inv n { desc := desc, metric_offset := 4, n_vectors := 1 } 0
    exact ⟨hc, hi, hl, hd, by rw [hb], by rw [hb]; omega, le_refl _, le_refl _,
      fun _ => ⟨rfl, rfl⟩, by show (4 : Int) ≤ 4; omega,
      by show 16 * ((1 : Nat) : Int) - 16 ≤ 4; omega,
      by show (4 : Int) ≤ 16 * ((1 : Nat) : Int); omega,
      fun i hi => absurd hi (by omega),
      fun h => absurd h (by omega), fun h => absurd h (by omega),
      fun i hi => absurd hi (by omega)⟩
  | succ m ih =>
    rw [for_loop_succ_last, Nat.zero_add]
    exact metrics_step_inv metric_maxes metric_mins n m _ (ih (by omega)) (by omega) hn

/-- The layout loop of `packed_shard_init` establishes the facts for all the
columns of a schema of fewer than 256 columns. -/
theorem init_index_inv (n_metrics : Nat) (metric_maxes metric_mins : List Int)
    (hn : n_metrics < 256) :
    metrics_inv n_metrics (init_index_state n_metrics metric_maxes metric_mins) n_metrics :=
  metrics_loop_inv metric_maxes metric_mins n_metrics hn (init_desc n_metrics) rfl rfl rfl
    (by simp [init_desc, Nat.mul_comm]) (by simp [init_desc]) n_metrics (le_refl _)

/-- The layout fields of an initialised shard are those the layout loop left. -/
theorem init_layout_fields (n_docs : Nat) (metric_mins metric_maxes : List Int)
    (n_metrics : Nat) :
    (packed_shard_init n_docs metric_mins metric_maxes n_metrics).metrics_layout.index_metrics
      = (init_index_state n_metrics metric_maxes metric_mins).desc.index_metrics ∧
    (packed_shard_init n_docs metric_mins metric_maxes n_metrics).metrics_layout.metric_n_vector
      = (init_index_state n_metrics metric_maxes metric_mins).desc.metric_n_vector ∧
    (packed_shard_init n_docs metric_mins metric_maxes
        n_metrics).metrics_layout.n_boolean_metrics
      = (init_index_state n_metrics metric_maxes metric_mins).desc.n_boolean_metrics ∧
    (packed_shard_init n_docs metric_mins metric_maxes n_metrics).metrics_layout.n_metrics
      = (init_index_state n_metrics metric_maxes metric_mins).desc.n_metrics ∧
    (packed_shard_init n_docs metric_mins metric_maxes
        n_metrics).metrics_layout.n_vectors_per_doc
      = padded_row_size (init_index_state n_metrics metric_maxes metric_mins).n_vectors ∧
    (packed_shard_init n_docs metric_mins metric_maxes
        n_metrics).metrics_layout.shuffle_vecs_get1
      = (createShuffleVecFromIndexes
          (init_index_state n_metrics metric_maxes metric_mins).desc).shuffle_vecs_get1 :=
  ⟨rfl, rfl, rfl, rfl, rfl, rfl⟩

/-- The record `createMetricsIndexes` returns for `packed_shard_init` keeps the
entries the layout loop recorded. -/
theorem create_metrics_fields (n_metrics : Nat) (metric_maxes metric_mins : List Int) :
    (createMetricsIndexes (init_desc n_metrics) n_metrics metric_maxes metric_mins
        ((GROUP_SIZE + MAX_BIT_FIELDS + 7) / 8)).index_metrics
      = (init_index_state n_metrics metric_maxes metric_mins).desc.index_metrics ∧
    (createMetricsIndexes (init_desc n_metrics) n_metrics metric_maxes metric_mins
        ((GROUP_SIZE + MAX_BIT_FIELDS + 7) / 8)).metric_n_vector
      = (init_index_state n_metrics metric_maxes metric_mins).desc.metric_n_vector ∧
    (createMetricsIndexes (init_desc n_metrics) n_metrics metric_maxes metric_mins
        ((GROUP_SIZE + MAX_BIT_FIELDS + 7) / 8)).n_boolean_metrics
      = (init_index_state n_metrics metric_maxes metric_mins).desc.n_boolean_metrics :=
  ⟨rfl, rfl, rfl⟩

/-- C22: in the layout `packed_shard_init` makes for a schema of fewer than 256
columns (the column count is kept in a byte), every integer column, that is
every column from `n_boolean_metrics` on, has its recorded byte range
`[start, end)` inside the lane recorded for it, and holds 1 to 8 bytes. -/
theorem C22_columns_inside_lane (n_docs : Nat) (metric_mins metric_maxes : List Int)
    (n_metrics : Nat) (hn : n_metrics < 256) (c : Nat) (hc : c < n_metrics)
    (hint : (packed_shard_init n_docs metric_mins metric_maxes
      n_metrics).metrics_layout.n_boolean_metrics ≤ c) :
    16 * (packed_shard_init n_docs metric_mins metric_maxes
        n_metrics).metrics_layout.metric_n_vector.getD c 0
      ≤ (packed_shard_init n_docs metric_mins metric_maxes
        n_metrics).metrics_layout.index_metrics.getD (2 * c) 0 ∧
    (packed_shard_init n_docs metric_mins metric_maxes
        n_metrics).metrics_layout.index_metrics.getD (2 * c) 0
      < (packed_shard_init n_docs metric_mins metric_maxes
        n_metrics).metrics_layout.index_metrics.getD (2 * c + 1) 0 ∧
    (packed_shard_init n_docs metric_mins metric_maxes
        n_metrics).metrics_layout.index_metrics.getD (2 * c + 1) 0
      ≤ 16 * ((packed_shard_init n_docs metric_mins metric_maxes
        n_metrics).metrics_layout.metric_n_vector.getD c 0 + 1) ∧
    1 ≤ (packed_shard_init n_docs metric_mins metric_maxes
        n_metrics).metrics_layout.index_metrics.getD (2 * c + 1) 0
      - (packed_shard_init n_docs metric_mins metric_maxes
        n_metrics).metrics_layout.index_metrics.getD (2 * c) 0 ∧
    (packed_shard_init n_docs metric_mins metric_maxes
        n_metrics).metrics_layout.index_metrics.getD (2 * c + 1) 0
      - (packed_shard_init n_docs metric_mins metric_maxes
        n_metrics).metrics_layout.index_metrics.getD (2 * c) 0 ≤ 8 := by
  obtain ⟨f1, f2, f3, _⟩ := init_layout_fields n_docs metric_mins metric_maxes n_metrics
  rw [f3] at hint
  rw [f1, f2]
  have hcol := (init_index_inv n_metrics metric_maxes metric_mins hn).cols c hc
  omega

/-- C22 at the shard of scenario S3, column 3 (range 1001000, three bytes). -/
theorem C22_columns_inside_lane_witness :
    16 * s3_shard.metrics_layout.metric_n_vector.getD 3 0
      ≤ s3_shard.metrics_layout.index_metrics.getD (2 * 3) 0 ∧
    s3_shard.metrics_layout.index_metrics.getD (2 * 3) 0
      < s3_shard.metrics_layout.index_metrics.getD (2 * 3 + 1) 0 ∧
    s3_shard.metrics_layout.index_metrics.getD (2 * 3 + 1) 0
      ≤ 16 * (s3_shard.metrics_layout.metric_n_vector.getD 3 0 + 1) ∧
    1 ≤ s3_shard.metrics_layout.index_metrics.getD (2 * 3 + 1) 0
      - s3_shard.metrics_layout.index_metrics.getD (2 * 3) 0 ∧
    s3_shard.metrics_layout.index_metrics.getD (2 * 3 + 1) 0
      - s3_shard.metrics_layout.index_metrics.getD (2 * 3) 0 ≤ 8 :=
  C22_columns_inside_lane 2 [0, 0, 0, -1000] [1, 255, 65535, 1000000] 4 (by decide) 3
    (by decide) (by decide)

/-- C27: for a schema of fewer than 256 columns, `createMetricsIndexes`, called
as `packed_shard_init` calls it, records the first column at byte 4 of lane 0;
a later column whose end, placed right after the previous column, does not pass
the end of the previous column's lane starts where the previous column ends, in
the same lane (also when it ends exactly on the lane's last byte); any other
column starts at the first byte of the next lane. -/
theorem C27_placement (n_metrics : Nat) (metric_maxes metric_mins : List Int)
    (hn : n_metrics < 256) :
    (0 < n_metrics →
      (createMetricsIndexes (init_desc n_metrics) n_metrics metric_maxes metric_mins
        ((GROUP_SIZE + MAX_BIT_FIELDS + 7) / 8)).index_metrics.getD 0 0 = 4 ∧
      (createMetricsIndexes (init_desc n_metrics) n_metrics metric_maxes metric_mins
        ((GROUP_SIZE + MAX_BIT_FIELDS + 7) / 8)).metric_n_vector.getD 0 0 = 0) ∧
    ∀ c, c + 1 < n_metrics →
      if (createMetricsIndexes (init_desc n_metrics) n_metrics metric_maxes metric_mins
            ((GROUP_SIZE + MAX_BIT_FIELDS + 7) / 8)).index_metrics.getD (2 * c + 1) 0
          + ((createMetricsIndexes (init_desc n_metrics) n_metrics metric_maxes metric_mins
              ((GROUP_SIZE + MAX_BIT_FIELDS + 7) / 8)).index_metrics.getD (2 * (c + 1) + 1) 0
            - (createMetricsIndexes (init_desc n_metrics) n_metrics metric_maxes metric_mins
              ((GROUP_SIZE + MAX_BIT_FIELDS + 7) / 8)).index_metrics.getD (2 * (c + 1)) 0)
          ≤ 16 * ((createMetricsIndexes (init_desc n_metrics) n_metrics metric_maxes
              metric_mins ((GROUP_SIZE + MAX_BIT_FIELDS + 7) / 8)).metric_n_vector.getD c 0
            + 1)
      then
        (createMetricsIndexes (init_desc n_metrics) n_metrics metric_maxes metric_mins
            ((GROUP_SIZE + MAX_BIT_FIELDS + 7) / 8)).index_metrics.getD (2 * (c + 1)) 0
          = (createMetricsIndexes (init_desc n_metrics) n_metrics metric_maxes metric_mins
            ((GROUP_SIZE + MAX_BIT_FIELDS + 7) / 8)).index_metrics.getD (2 * c + 1) 0 ∧
        (createMetricsIndexes (init_desc n_metrics) n_metrics metric_maxes metric_mins
            ((GROUP_SIZE + MAX_BIT_FIELDS + 7) / 8)).metric_n_vector.getD (c + 1) 0
          = (createMetricsIndexes (init_desc n_metrics) n_metrics metric_maxes metric_mins
            ((GROUP_SIZE + MAX_BIT_FIELDS + 7) / 8)).metric_n_vector.getD c 0
      else
        (createMetricsIndexes (init_desc n_metrics) n_metrics metric_maxes metric_mins
            ((GROUP_SIZE + MAX_BIT_FIELDS + 7) / 8)).index_metrics.getD (2 * (c + 1)) 0
          = 16 * ((createMetricsIndexes (init_desc n_metrics) n_metrics metric_maxes
              metric_mins ((GROUP_SIZE + MAX_BIT_FIELDS + 7) / 8)).metric_n_vector.getD c 0
            + 1) ∧
        (createMetricsIndexes (init_desc n_metrics) n_metrics metric_maxes metric_mins
            ((GROUP_SIZE + MAX_BIT_FIELDS + 7) / 8)).metric_n_vector.getD (c + 1) 0
          = (createMetricsIndexes (init_desc n_metrics) n_metrics metric_maxes metric_mins
            ((GROUP_SIZE + MAX_BIT_FIELDS + 7) / 8)).metric_n_vector.getD c 0 + 1 := by
  obtain ⟨f1, f2, _⟩ := create_metrics_fields n_metrics metric_maxes metric_mins
  rw [f1, f2]
  have hinv := init_index_inv n_metrics metric_maxes metric_mins hn
  exact ⟨hinv.first, hinv.adj⟩

/-- C28: in the layout `packed_shard_init` makes for a schema of fewer than 256
columns, the columns whose recorded width `end - start` is 0 are exactly the
columns below `n_boolean_metrics`, and `n_boolean_metrics` is at most 4. -/
theorem C28_booleans_prefix (n_docs : Nat) (metric_mins metric_maxes : List Int)
    (n_metrics : Nat) (hn : n_metrics < 256) :
    (∀ c, c < n_metrics →
      ((packed_shard_init n_docs metric_mins metric_maxes
          n_metrics).metrics_layout.index_metrics.getD (2 * c + 1) 0
        - (packed_shard_init n_docs metric_mins metric_maxes
          n_metrics).metrics_layout.index_metrics.getD (2 * c) 0 = 0
        ↔ c < (packed_shard_init n_docs metric_mins metric_maxes
          n_metrics).metrics_layout.n_boolean_metrics)) ∧
    (packed_shard_init n_docs metric_mins metric_maxes
      n_metrics).metrics_layout.n_boolean_metrics ≤ 4 ∧
    (packed_shard_init n_docs metric_mins metric_maxes
      n_metrics).metrics_layout.n_boolean_metrics ≤ n_metrics := by
  obtain ⟨f1, _, f3, _⟩ := init_layout_fields n_docs metric_mins metric_maxes n_metrics
  rw [f1, f3]
  have hinv := init_index_inv n_metrics metric_maxes metric_mins hn
  refine ⟨fun c hc => ?_, hinv.nb_max, hinv.nb_le⟩
  have hcol := hinv.cols c hc
  omega

/-- C29: for a schema of fewer than 256 columns, the lanes
`createMetricsIndexes`, called as `packed_shard_init` calls it, records in
`metric_n_vector` start at lane 0 and, from one column to the next, stay or
rise by 1. -/
theorem C29_lanes_monotone (n_metrics : Nat) (metric_maxes metric_mins : List Int)
    (hn : n_metrics < 256) :
    (0 < n_metrics →
      (createMetricsIndexes (init_desc n_metrics) n_metrics metric_maxes metric_mins
        ((GROUP_SIZE + MAX_BIT_FIELDS + 7) / 8)).metric_n_vector.getD 0 0 = 0) ∧
    ∀ c, c + 1 < n_metrics →
      (createMetricsIndexes (init_desc n_metrics) n_metrics metric_maxes metric_mins
          ((GROUP_SIZE + MAX_BIT_FIELDS + 7) / 8)).metric_n_vector.getD c 0
        ≤ (createMetricsIndexes (init_desc n_metrics) n_metrics metric_maxes metric_mins
          ((GROUP_SIZE + MAX_BIT_FIELDS + 7) / 8)).metric_n_vector.getD (c + 1) 0 ∧
      (createMetricsIndexes (init_desc n_metrics) n_metrics metric_maxes metric_mins
          ((GROUP_SIZE + MAX_BIT_FIELDS + 7) / 8)).metric_n_vector.getD (c + 1) 0
        ≤ (createMetricsIndexes (init_desc n_metrics) n_metrics metric_maxes metric_mins
          ((GROUP_SIZE + MAX_BIT_FIELDS + 7) / 8)).metric_n_vector.getD c 0 + 1 := by
  obtain ⟨_, f2, _⟩ := create_metrics_fields n_metrics metric_maxes metric_mins
  rw [f2]
  have hinv := init_index_inv n_metrics metric_maxes metric_mins hn
  refine ⟨fun h0 => (hinv.first h0).2, fun c hc => ?_⟩
  have ha := hinv.adj c hc
  split at ha <;> omega

/-- C27 at three columns of eight bytes: the first is at byte 4 of lane 0, the
second, which would end at byte 20, starts at byte 16, the first byte of lane
1, and the third, which ends exactly at byte 32, follows it in lane 1. -/
theorem C27_placement_witness :
    wide_layout.index_metrics.getD 0 0 = 4 ∧ wide_layout.metric_n_vector.getD 0 0 = 0 ∧
    wide_layout.index_metrics.getD (2 * (0 + 1)) 0
      = 16 * (wide_layout.metric_n_vector.getD 0 0 + 1) ∧
    wide_layout.metric_n_vector.getD (0 + 1) 0 = wide_layout.metric_n_vector.getD 0 0 + 1 ∧
    wide_layout.index_metrics.getD (2 * (1 + 1)) 0
      = wide_layout.index_metrics.getD (2 * 1 + 1) 0 ∧
    wide_layout.metric_n_vector.getD (1 + 1) 0 = wide_layout.metric_n_vector.getD 1 0 ∧
    wide_layout.index_metrics.getD (2 * (1 + 1) + 1) 0 = 32 := by
  obtain ⟨h1, h2⟩ := C27_placement 3 [2 ^ 62, 2 ^ 62, 2 ^ 62] [0, 0, 0] (by decide)
  have a := h2 0 (by decide)
  have b := h2 1 (by decide)
  rw [if_neg (by decide)] at a
  rw [if_pos (by decide)] at b
  exact ⟨(h1 (by decide)).1, (h1 (by decide)).2, a.1, a.2, b.1, b.2, by decide⟩

/-- C28 at the shard of scenario S3: one boolean column, the first. -/
theorem C28_booleans_prefix_witness :
    (∀ c, c < 4 →
      (s3_shard.metrics_layout.index_metrics.getD (2 * c + 1) 0
        - s3_shard.metrics_layout.index_metrics.getD (2 * c) 0 = 0
        ↔ c < s3_shard.metrics_layout.n_boolean_metrics)) ∧
    s3_shard.metrics_layout.n_boolean_metrics ≤ 4 ∧
    s3_shard.metrics_layout.n_boolean_metrics ≤ 4 :=
  C28_booleans_prefix 2 [0, 0, 0, -1000] [1, 255, 65535, 1000000] 4 (by decide)

/-- C29 at three columns of eight bytes: the lanes are 0, 1, 1. -/
theorem C29_lanes_monotone_witness :
    (0 < 3 → wide_layout.metric_n_vector.getD 0 0 = 0) ∧
    ∀ c, c + 1 < 3 →
      wide_layout.metric_n_vector.getD c 0 ≤ wide_layout.metric_n_vector.getD (c + 1) 0 ∧
      wide_layout.metric_n_vector.getD (c + 1) 0 ≤ wide_layout.metric_n_vector.getD c 0 + 1 :=
  C29_lanes_monotone 3 [2 ^ 62, 2 ^ 62, 2 ^ 62] [0, 0, 0] (by decide)

/-! ## The gather masks of a shard layout -/

theorem shard_gather_fill_length (n j k : Nat) (bv : List Nat) :
    (gather_fill n j k bv).length = bv.length := by
  induction n generalizing j k bv with
  | zero => rfl
  | succ m ih => rw [gather_fill, ih]; simp

theorem shard_gather_fill_getD (n j k : Nat) (bv : List Nat) (x : Nat) :
    (gather_fill n j k bv).getD x 0
      = if k ≤ x ∧ x < k + n ∧ x < bv.length then (j + (x - k)) % 16 else bv.getD x 0 := by
  induction n generalizing j k bv with
  | zero =>
    have : ¬ (k ≤ x ∧ x < k + 0 ∧ x < bv.length) := by omega
    rw [gather_fill, if_neg this]
  | succ m ih =>
    rw [gather_fill, ih]
    simp only [List.length_set]
    by_cases hx : x = k
    · subst hx
      by_cases hl : x < bv.length
      · have h1 : ¬ (x + 1 ≤ x ∧ x < x + 1 + m ∧ x < bv.length) := by omega
        rw [if_neg h1, getD_set_eq _ _ _ _ hl, if_pos ⟨le_refl _, by omega, hl⟩]
        simp
      · have h1 : ¬ (x + 1 ≤ x ∧ x < x + 1 + m ∧ x < bv.length) := by omega
        have h2 : ¬ (x ≤ x ∧ x < x + (m + 1) ∧ x < bv.length) := by omega
        rw [if_neg h1, if_neg h2, List.getD_eq_default _ _ (by simp; omega),
          List.getD_eq_default _ _ (by omega)]
    · rw [getD_set_ne _ _ _ _ _ (Ne.symm hx)]
      by_cases hc : k + 1 ≤ x ∧ x < k + 1 + m ∧ x < bv.length
      · rw [if_pos hc, if_pos ⟨by omega, by omega, hc.2.2⟩]
        congr 1
        omega
      · have h2 : ¬ (k ≤ x ∧ x < k + (m + 1) ∧ x < bv.length) := by omega
        rw [if_neg hc, if_neg h2]

/-- The first half-mask a shard layout emits for a column that lies inside one
lane is the gather mask of the column's position in the lane. -/
theorem shard_gather_first_mask (start size : Nat) (hsz : size ≤ 8)
    (hin : start % 16 + size ≤ 16) :
    _mm_setr_epi8 ((gather_fill size start 0 (List.replicate 16 255)).take 8
        ++ List.replicate 8 255)
      = gather_mask (start % 16) size := by
  apply setr_eq_of_getD
  intro j hj
  by_cases h8 : j < 8
  · rw [getD_take_append _ _ _ (by rw [shard_gather_fill_length]; simp) h8,
      shard_gather_fill_getD]
    simp only [List.length_replicate, Nat.sub_zero]
    by_cases hs : j < size
    · rw [if_pos ⟨Nat.zero_le _, by omega, hj⟩, if_pos hs]
      omega
    · have h2 : ¬ (0 ≤ j ∧ j < 0 + size ∧ j < 16) := by omega
      rw [if_neg h2, if_neg hs, getD_replicate _ _ _ hj]
  · rw [getD_half_append_pad _ _ (by simp [shard_gather_fill_length]) (by omega) hj,
      if_neg (by omega)]

/-- The second half-mask a shard layout emits for the second column of a pair. -/
theorem shard_gather_second_mask (start size start2 size2 : Nat) (hsz : size ≤ 8)
    (hsz2 : size2 ≤ 8) (hin : start2 % 16 + size2 ≤ 16) :
    _mm_setr_epi8 ((gather_fill size2 start2 8
        (gather_fill size start 0 (List.replicate 16 255))).drop 8 ++ List.replicate 8 255)
      = gather_mask (start2 % 16) size2 := by
  apply setr_eq_of_getD
  intro j hj
  by_cases h8 : j < 8
  · rw [getD_drop_append _ _ _ (by simp [shard_gather_fill_length]) h8, shard_gather_fill_getD]
    simp only [shard_gather_fill_length, List.length_replicate]
    by_cases hs : j < size2
    · rw [if_pos ⟨by omega, by omega, by omega⟩, if_pos hs]
      omega
    · have h2 : ¬ (8 ≤ 8 + j ∧ 8 + j < 8 + size2 ∧ 8 + j < 16) := by omega
      have h3 : ¬ (0 ≤ 8 + j ∧ 8 + j < 0 + size ∧ 8 + j < 16) := by omega
      rw [if_neg h2, if_neg hs, shard_gather_fill_getD]
      simp only [List.length_replicate]
      rw [if_neg h3, getD_replicate _ _ _ (by omega)]
  · rw [getD_half_append_pad _ _ (by simp [shard_gather_fill_length]) (by omega) hj,
      if_neg (by omega)]

/-- The gather masks the main loop of the shard's `createShuffleVecFromIndexes`
emits, one per column from `i` on, in column order. -/
theorem shard_loop_get1 (index_metrics metric_n_vector : List Nat) (n_metrics : Nat)
    (fuel i : Nat) (get1 get2 : List Vec128) (hfuel : n_metrics - i ≤ fuel)
    (hsz : ∀ c, i ≤ c → c < n_metrics →
      index_metrics.getD (2 * c + 1) 0 - index_metrics.getD (2 * c) 0 ≤ 8 ∧
      index_metrics.getD (2 * c) 0 % 16
        + (index_metrics.getD (2 * c + 1) 0 - index_metrics.getD (2 * c) 0) ≤ 16) :
    (createShuffleVec_loop index_metrics metric_n_vector n_metrics fuel i get1 get2).1
      = get1 ++ (List.range' i (n_metrics - i)).map (fun c =>
          gather_mask (index_metrics.getD (2 * c) 0 % 16)
            (index_metrics.getD (2 * c + 1) 0 - index_metrics.getD (2 * c) 0)) := by
  induction fuel generalizing i get1 get2 with
  | zero =>
    have h0 : n_metrics - i = 0 := by omega
    simp [createShuffleVec_loop, h0]
  | succ f ih =>
    rw [createShuffleVec_loop]
    by_cases hi : i < n_metrics
    · rw [if_pos hi]
      have hstep : n_metrics - i = (n_metrics - (i + 1)) + 1 := by omega
      simp only []
      by_cases hp : i + 1 < n_metrics ∧ metric_n_vector.getD (i + 1) 0 = metric_n_vector.getD i 0
      · rw [if_pos hp, ih (i + 2) _ _ (by omega) (fun c h1 h2 => hsz c (by omega) h2)]
        have hstep2 : n_metrics - (i + 1) = (n_metrics - (i + 2)) + 1 := by omega
        rw [hstep, List.range'_succ, hstep2, List.range'_succ,
          shard_gather_first_mask _ _ (hsz i (le_refl _) hi).1 (hsz i (le_refl _) hi).2,
          shard_gather_second_mask _ _ _ _ (hsz i (le_refl _) hi).1
            (hsz (i + 1) (by omega) hp.1).1 (hsz (i + 1) (by omega) hp.1).2]
        simp [List.append_assoc]
      · rw [if_neg hp, ih (i + 1) _ _ (by omega) (fun c h1 h2 => hsz c (by omega) h2)]
        rw [hstep, List.range'_succ,
          shard_gather_first_mask _ _ (hsz i (le_refl _) hi).1 (hsz i (le_refl _) hi).2]
        simp [List.append_assoc]
    · rw [if_neg hi]
      have h0 : n_metrics - i = 0 := by omega
      simp [h0]

/-- The gather masks of an initialised shard of fewer than 256 columns: one per
integer column, in column order. -/
theorem init_get1_list (n_docs : Nat) (metric_mins metric_maxes : List Int)
    (n_metrics : Nat) (hn : n_metrics < 256) :
    (packed_shard_init n_docs metric_mins metric_maxes
        n_metrics).metrics_layout.shuffle_vecs_get1
      = (List.range' (init_index_state n_metrics metric_maxes metric_mins).desc.n_boolean_metrics
          (n_metrics
            - (init_index_state n_metrics metric_maxes metric_mins).desc.n_boolean_metrics)).map
          (fun c => gather_mask
            ((init_index_state n_metrics metric_maxes metric_mins).desc.index_metrics.getD
              (2 * c) 0 % 16)
            ((init_index_state n_metrics metric_maxes metric_mins).desc.index_metrics.getD
                (2 * c + 1) 0
              - (init_index_state n_metrics metric_maxes metric_mins).desc.index_metrics.getD
                (2 * c) 0)) := by
  have hinv := init_index_inv n_metrics metric_maxes metric_mins hn
  rw [(init_layout_fields n_docs metric_mins metric_maxes n_metrics).2.2.2.2.2]
  unfold createShuffleVecFromIndexes
  simp only []
  have hcount := hinv.count
  have hnb := hinv.nb_le
  rw [hcount, Nat.mod_eq_of_lt hn, Nat.mod_eq_of_lt (show
    (init_index_state n_metrics metric_maxes metric_mins).desc.n_boolean_metrics < 256
      by omega)]
  rw [shard_loop_get1 _ _ _ _ _ _ _ (le_refl _) (fun c _ hc => by
    have hcol := hinv.cols c hc
    omega)]
  simp [pad_vecs]

theorem gather_mask_getD (start size j : Nat) (hj : j < 16) :
    (gather_mask start size).getD j 0 = if j < size then (start + j) % 256 else 255 := by
  unfold gather_mask
  rw [getD_range_map _ _ _ _ hj]

/-- The gather masks of a created table of a valid layout: one per integer
column, in column order. -/
theorem create_get1_list (b n_cols : Nat) (mins maxes : List Int)
    (sizes vec_nums offsets : List Nat) (n_rows : Nat)
    (hv : valid_layout b n_cols mins maxes sizes vec_nums offsets) :
    (packed_table_create n_rows mins maxes sizes vec_nums offsets n_cols).shuffle_vecs_get1.length
      = n_cols - b := by
  obtain ⟨hnb, hent⟩ := valid_index_state b n_cols mins maxes sizes vec_nums offsets hv
  have hv2 := hv
  obtain ⟨h0, h256, hbn, hb4, hlast, hcol⟩ := hv2
  by_cases hint : n_cols - b = 0
  · have hT : (packed_table_create n_rows mins maxes sizes vec_nums offsets
        n_cols).shuffle_vecs_get1 = [] := by
      have hc := hnb
      unfold create_index_state at hc
      unfold packed_table_create createColumnIndexes
      simp only []
      rw [if_neg (by rw [hc]; omega)]
    rw [hT, hint]
    rfl
  · have hsz : ∀ x, x < n_cols → b ≤ x → sizes.getD x 0 ≠ 0 := fun x hx hbx h =>
      absurd ((hcol x hx).1.1 h) (by omega)
    obtain ⟨_, _, m3⟩ := create_masks n_rows mins maxes sizes vec_nums offsets n_cols
      (by rw [hnb]; exact hint)
    rw [m3, hnb, Nat.mod_eq_of_lt h256, Nat.mod_eq_of_lt (show b < 256 by omega),
      PackedTable.createShuffleVec_loop_get1 _ _ _ _ _ _ _ (le_refl _)
        (fun x hx1 hx2 => by
          rw [((hent x hx2).2 (hsz x hx2 hx1)).2.1]
          exact ((hcol x hx2).2.2.2.2.2 (hsz x hx2 hx1)).1)]
    simp [pad_vecs]

/-- C30: both versions of `createShuffleVecFromIndexes` emit one
`shuffle_vecs_get1` mask per integer column, in column order.  In a table
created for a valid layout with `b` boolean columns, and in the layout
`packed_shard_init` makes for a schema of fewer than 256 columns, the mask
number `c - n_boolean` of an integer column `c` of width `w` has the column's
positions inside its lane, `start .. start + w - 1`, in its bytes `0 .. w - 1`
and `0xFF` in every other byte. -/
theorem C30_gather_masks (b n_cols : Nat) (mins maxes : List Int)
    (sizes vec_nums offsets : List Nat) (n_rows : Nat)
    (hv : valid_layout b n_cols mins maxes sizes vec_nums offsets)
    (n_docs : Nat) (metric_mins metric_maxes : List Int) (n_metrics : Nat)
    (hn : n_metrics < 256) :
    (packed_table_create n_rows mins maxes sizes vec_nums offsets n_cols).shuffle_vecs_get1.length
      = n_cols - b ∧
    (∀ c, b ≤ c → c < n_cols → ∀ j, j < 16 →
      ((packed_table_create n_rows mins maxes sizes vec_nums offsets
          n_cols).shuffle_vecs_get1.getD (c - b) zero_vec).getD j 0
        = if j < sizes.getD c 0 then offsets.getD c 0 + j else 255) ∧
    (packed_shard_init n_docs metric_mins metric_maxes
        n_metrics).metrics_layout.shuffle_vecs_get1.length
      = n_metrics - (packed_shard_init n_docs metric_mins metric_maxes
          n_metrics).metrics_layout.n_boolean_metrics ∧
    (∀ c, (packed_shard_init n_docs metric_mins metric_maxes
          n_metrics).metrics_layout.n_boolean_metrics ≤ c → c < n_metrics → ∀ j, j < 16 →
      ((packed_shard_init n_docs metric_mins metric_maxes
          n_metrics).metrics_layout.shuffle_vecs_get1.getD
            (c - (packed_shard_init n_docs metric_mins metric_maxes
              n_metrics).metrics_layout.n_boolean_metrics) zero_vec).getD j 0
        = if j < (packed_shard_init n_docs metric_mins metric_maxes
              n_metrics).metrics_layout.index_metrics.getD (2 * c + 1) 0
            - (packed_shard_init n_docs metric_mins metric_maxes
              n_metrics).metrics_layout.index_metrics.getD (2 * c) 0
          then (packed_shard_init n_docs metric_mins metric_maxes
              n_metrics).metrics_layout.index_metrics.getD (2 * c) 0 % 16 + j
          else 255) := by
  refine ⟨create_get1_list b n_cols mins maxes sizes vec_nums offsets n_rows hv, ?_, ?_, ?_⟩
  · intro c hbc hc j hj
    rw [(create_column_masks b n_cols mins maxes sizes vec_nums offsets n_rows hv c hc hbc).2.2,
      gather_mask_getD _ _ _ hj]
    have hsz0 : sizes.getD c 0 ≠ 0 := fun h => absurd ((hv.2.2.2.2.2 c hc).1.1 h) (by omega)
    have hin := ((hv.2.2.2.2.2 c hc).2.2.2.2.2 hsz0).2.1
    split
    · exact Nat.mod_eq_of_lt (by omega)
    · rfl
  · obtain ⟨_, _, f3, _⟩ := init_layout_fields n_docs metric_mins metric_maxes n_metrics
    rw [init_get1_list n_docs metric_mins metric_maxes n_metrics hn, f3]
    simp
  · intro c hbc hc j hj
    obtain ⟨f1, _, f3, _⟩ := init_layout_fields n_docs metric_mins metric_maxes n_metrics
    rw [f3] at hbc
    rw [init_get1_list n_docs metric_mins metric_maxes n_metrics hn, f1, f3,
      getD_range'_map _ _ _ _ _ (by omega),
      show (init_index_state n_metrics metric_maxes metric_mins).desc.n_boolean_metrics
        + (c - (init_index_state n_metrics metric_maxes metric_mins).desc.n_boolean_metrics)
        = c by omega,
      gather_mask_getD _ _ _ hj]
    split
    · exact Nat.mod_eq_of_lt (by omega)
    · rfl

/-- C30 at the table and the shard of two seed scenarios: S1's table (10
one-byte columns from byte 4 on) and S3's shard (one boolean, then columns of
1, 2 and 3 bytes from byte 4 on). -/
theorem C30_gather_masks_witness :
    s1_table.shuffle_vecs_get1.length = 10 ∧
    s1_table.shuffle_vecs_get1.getD 2 zero_vec
      = [6, 255, 255, 255, 255, 255, 255, 255, 255, 255, 255, 255, 255, 255, 255, 255] ∧
    s3_shard.metrics_layout.shuffle_vecs_get1.length = 3 ∧
    s3_shard.metrics_layout.shuffle_vecs_get1.getD 2 zero_vec
      = [7, 8, 9, 255, 255, 255, 255, 255, 255, 255, 255, 255, 255, 255, 255, 255] := by
  obtain ⟨h1, _, h3, _⟩ := C30_gather_masks 0 10 (List.replicate 10 0) (List.replicate 10 13)
    (List.replicate 10 1) (List.replicate 10 0) [4, 5, 6, 7, 8, 9, 10, 11, 12, 13] 32
    (by decide) 2 [0, 0, 0, -1000] [1, 255, 65535, 1000000] 4 (by decide)
  refine ⟨?_, by decide, ?_, by decide⟩
  · have : s1_table.shuffle_vecs_get1 = (packed_table_create 32 (List.replicate 10 0)
        (List.replicate 10 13) (List.replicate 10 1) (List.replicate 10 0)
        [4, 5, 6, 7, 8, 9, 10, 11, 12, 13] 10).shuffle_vecs_get1 := by decide
    rw [this]
    exact h1
  · exact h3.trans (by decide)

end PackedShard

/-! ## `packed_table_create` has no failing path -/

namespace PackedTable

/-- C26, counterexample: a one-column layout whose column lies in lane 256 is
given a table, of 257 lanes padded to 258, in which the column is recorded in
lane 0. -/
theorem C26_lane_256_counterexample :
    (packed_table_create 1 [0] [255] [1] [256] [0] 1).col_2_vector = [0] ∧
    (packed_table_create 1 [0] [255] [1] [256] [0] 1).unpadded_row_size = 257 ∧
    (packed_table_create 1 [0] [255] [1] [256] [0] 1).row_size = 258 ∧
    (packed_table_create 1 [0] [255] [1] [256] [0] 1).data.length = 258 := by
  refine ⟨by decide, by decide, by decide, ?_⟩
  rw [(create_fields 1 [0] [255] [1] [256] [0] 1).2.2.2.2, List.length_replicate]
  decide

/-- C26, as the code has it: `packed_table_create` has no failing path; for
every layout it returns a table with the padded row size and the lanes of its
rows, and the lane it records for a column is the lane index modulo 256. -/
theorem C26_create_always_returns (n_rows : Nat) (mins maxes : List Int)
    (sizes vec_nums offsets : List Nat) (n_cols i : Nat) (hi : i < n_cols) :
    (packed_table_create n_rows mins maxes sizes vec_nums offsets n_cols).n_cols = n_cols ∧
    (packed_table_create n_rows mins maxes sizes vec_nums offsets n_cols).row_size
      = padded_row_size (vec_nums.getD (n_cols - 1) 0 + 1) ∧
    (packed_table_create n_rows mins maxes sizes vec_nums offsets n_cols).data.length
      = n_rows * padded_row_size (vec_nums.getD (n_cols - 1) 0 + 1) ∧
    (packed_table_create n_rows mins maxes sizes vec_nums offsets n_cols).col_2_vector.getD i 0
      = vec_nums.getD i 0 % 256 := by
  obtain ⟨-, h2, -, h4, h5⟩ := create_fields n_rows mins maxes sizes vec_nums offsets n_cols
  refine ⟨?_, h4, by rw [h5, List.length_replicate], ?_⟩
  · unfold packed_table_create createColumnIndexes
    simp only []
    split <;> simp [createShuffleBlendFromIndexes, createShuffleVecFromIndexes]
  · rw [h2]
    exact (col_index_loop_entries sizes vec_nums offsets n_cols _ i hi
      (by simp; omega) (by simpa using hi)).2.2

theorem C26_create_always_returns_witness :
    (packed_table_create 1 [0] [255] [1] [256] [0] 1).n_cols = 1 ∧
    (packed_table_create 1 [0] [255] [1] [256] [0] 1).row_size
      = padded_row_size (([256] : List Nat).getD (1 - 1) 0 + 1) ∧
    (packed_table_create 1 [0] [255] [1] [256] [0] 1).data.length
      = 1 * padded_row_size (([256] : List Nat).getD (1 - 1) 0 + 1) ∧
    (packed_table_create 1 [0] [255] [1] [256] [0] 1).col_2_vector.getD 0 0
      = ([256] : List Nat).getD 0 0 % 256 :=
  C26_create_always_returns 1 [0] [255] [1] [256] [0] 1 0 (by decide)

end PackedTable

/-! ## Chunks, the staging ring and the bit-trees of a pass -/

namespace Tgs

open PackedTable

/-- The loop over a slice makes one call per chunk of `slice_chunks`, in order. -/
theorem slice_loop_eq_chunks (decode : Groups.decoder) (T : packed_table_t) (mask : Nat)
    (fuel remaining : Nat) (read_addr : List Nat) (last_value : Int) (s : accumulate_state) :
    slice_loop decode T mask fuel remaining read_addr last_value s
      = (slice_chunks decode fuel remaining read_addr last_value).foldl (chunk_call T mask) s := by
  induction fuel generalizing remaining read_addr last_value s with
  | zero => rfl
  | succ f ih =>
    rw [slice_loop, slice_chunks]
    by_cases h : remaining > 0
    · rw [if_pos h, if_pos h]
      simp only [List.foldl_cons]
      rw [ih]
      rfl
    · rw [if_neg h, if_neg h]
      rfl

theorem prefix_sums_length (l : List Nat) (last : Nat) :
    (prefix_sums l last).length = l.length := by
  induction l generalizing last with
  | nil => rfl
  | cons d r ih => simp [prefix_sums, ih]

/-- Decoding a stream in two parts, the second seeded with the last id of the
first, gives the ids of the whole stream. -/
theorem prefix_sums_append (a b : List Nat) (last : Nat) :
    prefix_sums (a ++ b) last
      = prefix_sums a last ++ prefix_sums b ((prefix_sums a last).getD (a.length - 1) last) := by
  induction a generalizing last with
  | nil => simp [prefix_sums]
  | cons d r ih =>
    rw [List.cons_append, prefix_sums, prefix_sums, ih, List.cons_append]
    congr 2
    cases r with
    | nil => simp [prefix_sums]
    | cons e t =>
      have hlt : t.length < ((last + d + e) :: prefix_sums t (last + d + e)).length := by
        simp [prefix_sums_length]
      simp [prefix_sums, List.getElem?_eq_getElem hlt]

/-- The chunks of a slice of `remaining` docs under the prefix-sum decoder:
they hold as many ids as they count, between 1 and 1024 each; joined they are
the ids of the whole stream, and their counts add up to `remaining`. -/
theorem delta_chunks (fuel remaining : Nat) (stream : List Nat) (last : Nat)
    (hfuel : remaining ≤ fuel) (hlen : remaining ≤ stream.length) :
    (∀ ch ∈ slice_chunks delta_decode fuel remaining stream (last : Int),
      ch.1.length = ch.2 ∧ 0 < ch.2 ∧ ch.2 ≤ TGS_BUFFER_SIZE) ∧
    ((slice_chunks delta_decode fuel remaining stream (last : Int)).map Prod.fst).flatten
      = prefix_sums (stream.take remaining) last ∧
    ((slice_chunks delta_decode fuel remaining stream (last : Int)).map Prod.snd).sum
      = remaining := by
  induction fuel generalizing remaining stream last with
  | zero =>
    have h0 : remaining = 0 := by omega
    subst h0
    simp [slice_chunks, prefix_sums]
  | succ f ih =>
    rw [slice_chunks]
    by_cases h : remaining > 0
    · rw [if_pos h]
      simp only []
      generalize hc : (if remaining > TGS_BUFFER_SIZE then TGS_BUFFER_SIZE else remaining)
        = count
      have hc1 : 0 < count ∧ count ≤ remaining ∧ count ≤ TGS_BUFFER_SIZE := by
        rw [← hc]; unfold TGS_BUFFER_SIZE; split <;> omega
      have hdec : delta_decode stream count (last : Int)
          = (prefix_sums (stream.take count) last, count) := by
        simp [delta_decode]
      rw [hdec]
      simp only []
      have hl : (prefix_sums (stream.take count) last).length = count := by
        rw [prefix_sums_length, List.length_take]; omega
      have hseed : ∃ last2 : Nat, (prefix_sums (stream.take count) last).getD (count - 1) 0
          = last2 ∧ (prefix_sums (stream.take count) last).getD
            ((stream.take count).length - 1) last = last2 := by
        refine ⟨_, rfl, ?_⟩
        have htl : (stream.take count).length = count := by rw [List.length_take]; omega
        rw [htl, List.getD_eq_getElem _ _ (by omega), List.getD_eq_getElem _ _ (by omega)]
      obtain ⟨last2, hs1, hs2⟩ := hseed
      rw [hs1]
      obtain ⟨i1, i2, i3⟩ := ih (remaining - count) (stream.drop count) last2 (by omega)
        (by rw [List.length_drop]; omega)
      refine ⟨?_, ?_, ?_⟩
      · intro ch hch
        rcases List.mem_cons.mp hch with h1 | h1
        · subst h1
          exact ⟨hl, hc1.1, hc1.2.2⟩
        · exact i1 ch h1
      · simp only [List.map_cons, List.flatten_cons]
        rw [i2]
        have hsplit : stream.take remaining
            = stream.take count ++ (stream.drop count).take (remaining - count) := by
          have := List.take_add stream count (remaining - count)
          rw [← this]
          congr 1
          omega
        rw [hsplit, prefix_sums_append, hs2]
      · simp only [List.map_cons, List.sum_cons]
        rw [i3]
        omega
    · rw [if_neg h]
      have h0 : remaining = 0 := by omega
      subst h0
      simp [prefix_sums]

/-- C25: for a slice of `n` docs whose stream holds at least `n` deltas, with
the prefix-sum decoder: the loop of `tgs_execute_pass` over the slice makes one
call of `lookup_and_accumulate_grp_stats` per chunk, every chunk holds as many
ids as its count, between 1 and 1024; the chunks joined in order are the `n`
ids that one call of the decoder seeded with 0 gives for the whole stream, and
the counts add up to `n`. -/
theorem C25_chunked_decode (infos : List index_slice_info) (i mask : Nat)
    (s : accumulate_state)
    (hlen : (infos.getD i null_slice).n_docs_in_slice
      ≤ (infos.getD i null_slice).doc_slice.length) :
    slice_step delta_decode infos mask i s
      = (slice_chunks delta_decode (infos.getD i null_slice).n_docs_in_slice
          (infos.getD i null_slice).n_docs_in_slice (infos.getD i null_slice).doc_slice
          0).foldl (chunk_call (infos.getD i null_slice).packed_metrics mask) s ∧
    (∀ ch ∈ slice_chunks delta_decode (infos.getD i null_slice).n_docs_in_slice
        (infos.getD i null_slice).n_docs_in_slice (infos.getD i null_slice).doc_slice 0,
      ch.1.length = ch.2 ∧ 0 < ch.2 ∧ ch.2 ≤ 1024) ∧
    ((slice_chunks delta_decode (infos.getD i null_slice).n_docs_in_slice
        (infos.getD i null_slice).n_docs_in_slice (infos.getD i null_slice).doc_slice
        0).map Prod.fst).flatten
      = (delta_decode (infos.getD i null_slice).doc_slice
          (infos.getD i null_slice).n_docs_in_slice 0).1 ∧
    (delta_decode (infos.getD i null_slice).doc_slice
        (infos.getD i null_slice).n_docs_in_slice 0).1.length
      = (infos.getD i null_slice).n_docs_in_slice ∧
    ((slice_chunks delta_decode (infos.getD i null_slice).n_docs_in_slice
        (infos.getD i null_slice).n_docs_in_slice (infos.getD i null_slice).doc_slice
        0).map Prod.snd).sum
      = (infos.getD i null_slice).n_docs_in_slice := by
  obtain ⟨h1, h2, h3⟩ := delta_chunks (infos.getD i null_slice).n_docs_in_slice
    (infos.getD i null_slice).n_docs_in_slice (infos.getD i null_slice).doc_slice 0
    (le_refl _) hlen
  refine ⟨slice_loop_eq_chunks _ _ _ _ _ _ _ _, h1, h2, ?_, h3⟩
  show (prefix_sums _ _).length = _
  rw [prefix_sums_length, List.length_take]
  omega

set_option maxRecDepth 1000000 in
/-- C25 at a slice of 1025 docs: the loop decodes a chunk of 1024 ids and a
chunk of 1 id, which joined are the 1025 ids of the one-call decoding. -/
theorem C25_chunked_decode_witness :
    (slice_chunks delta_decode 1025 1025 (List.replicate 1025 1) 0).map Prod.snd
      = [1024, 1] ∧
    ((slice_chunks delta_decode 1025 1025 (List.replicate 1025 1) 0).map Prod.fst).flatten
      = (delta_decode (List.replicate 1025 1) 1025 0).1 ∧
    (delta_decode (List.replicate 1025 1) 1025 0).1.length = 1025 := by
  obtain ⟨_, _, h3, h4, _⟩ := C25_chunked_decode two_chunk_slices 0 31
    { group_stats := null_table, grp_buf := [], temp_buf := null_table } (by decide)
  exact ⟨by decide, h3, h4⟩

set_option maxRecDepth 100000 in
/-- The two sweeps of the modelled lookup-and-accumulate over a chunk longer
than the ring: a chunk of 33 docs (the docs 0..32 of `long_table`, all of
group 0) over the ring of 32 staging rows.  When the unpack sweep is over,
staging slot `0 & 31`, which the accumulate sweep reads for doc 0, holds the
row of doc 32 (5) and not the row of doc 0 (1); the accumulator ends with 41
where the rows of the 33 docs sum to 37. -/
theorem ring_slot_overwritten_at_33 :
    stored_value long_table 0 0 = 1 ∧ stored_value long_table 32 0 = 5 ∧
    unpacked_slot
      (for_loop (lookup_step long_table (List.range 33) 31) 33 0
        { group_stats := unpacked_table_create long_table 1,
          grp_buf := List.replicate 33 0,
          temp_buf := unpacked_table_copy_layout (unpacked_table_create long_table 1) 32
        }).temp_buf (0 &&& 31) ((unpacked_table_create long_table 1).col_offset.getD 0 0) = 5 ∧
    unpacked_slot
      (lookup_and_accumulate_grp_stats long_table (unpacked_table_create long_table 1)
        (List.range 33) 33 (List.replicate 33 0)
        (unpacked_table_copy_layout (unpacked_table_create long_table 1) 32) 31).group_stats
      0 ((unpacked_table_create long_table 1).col_offset.getD 0 0) = 41 ∧
    sum_where (fun i => decide ((packed_table_get_group long_table
        ((List.range 33).getD i 0)).toNat = 0))
      (fun i => stored_value long_table ((List.range 33).getD i 0) 0) 33 = 37 := by
  decide

/-- The two sweeps for chunks that fit the ring: over a table of a valid layout, with an
accumulator and a staging ring of the row layout `unpacked_table_create` gives
(whatever they hold), a chunk of at most 32 docs is staged and read back row by
row: when the unpack sweep is over, staging slot `i & 31` holds the row of doc
`i` of the chunk in every column and `grp_buf[i]` holds its group, and the
accumulate sweep adds to the slot of every group and column exactly the rows of
the chunk's docs of that group. -/
theorem ring_rows_short_chunk (b n_cols : Nat) (mins maxes : List Int)
    (sizes vec_nums offsets : List Nat)
    (hv : valid_layout b n_cols mins maxes sizes vec_nums offsets)
    (T : packed_table_t) (n_rows : Nat) (data : List Vec128)
    (hT : T = with_data (packed_table_create n_rows mins maxes sizes vec_nums offsets n_cols)
      data)
    (dest temp : unpacked_table_t) (rows : Nat) (docs : List Nat) (count : Nat)
    (grp_buf : List Int) (hc : count ≤ 32) (hg : count ≤ grp_buf.length)
    (hdest : dest.col_offset = (unpacked_table_create T rows).col_offset ∧
      dest.padded_row_len = (unpacked_table_create T rows).padded_row_len ∧
      rows * dest.padded_row_len ≤ dest.data.length)
    (htemp : temp.col_offset = (unpacked_table_create T rows).col_offset ∧
      temp.padded_row_len = (unpacked_table_create T rows).padded_row_len ∧
      32 * temp.padded_row_len ≤ temp.data.length)
    (hgrp : ∀ i, i < count → (packed_table_get_group T (docs.getD i 0)).toNat < rows) :
    (∀ i c, i < count → c < n_cols →
      unpacked_slot
        (for_loop (lookup_step T docs 31) count 0
          { group_stats := dest, grp_buf := grp_buf, temp_buf := temp }).temp_buf
        (i &&& 31) (dest.col_offset.getD c 0) = stored_value T (docs.getD i 0) c ∧
      (for_loop (lookup_step T docs 31) count 0
          { group_stats := dest, grp_buf := grp_buf, temp_buf := temp }).grp_buf.getD i 0
        = packed_table_get_group T (docs.getD i 0)) ∧
    (∀ g c, c < n_cols →
      to_int64 (unpacked_slot dest g (dest.col_offset.getD c 0))
        = unpacked_slot dest g (dest.col_offset.getD c 0) →
      unpacked_slot
        (lookup_and_accumulate_grp_stats T dest docs count grp_buf temp 31).group_stats g
        (dest.col_offset.getD c 0)
        = to_int64 (unpacked_slot dest g (dest.col_offset.getD c 0)
            + sum_where
                (fun i => decide ((packed_table_get_group T (docs.getD i 0)).toNat = g))
                (fun i => stored_value T (docs.getD i 0) c) count)) := by
  have hL : layout_facts T b n_cols (fun c => offsets.getD c 0) (fun c => sizes.getD c 0) := by
    rw [hT]
    exact create_layout_facts b n_cols mins maxes sizes vec_nums offsets n_rows data hv
  have hD0 := create_dest_facts T b n_cols rows hL.nb hL.ncols hL.b_le
  have hD : dest_facts temp T b n_cols :=
    dest_facts_congr _ _ T b n_cols hD0 htemp.1 htemp.2.1
  constructor
  · intro i c hi hcn
    obtain ⟨_, _, _, _, _, l6, l7⟩ := lookup_sweep T b n_cols _ _ hL docs
      { group_stats := dest, grp_buf := grp_buf, temp_buf := temp } hD htemp.2.2 count hc hg
    rw [and_31 i (by omega)]
    have h6 := l6 i c hi hcn
    have hoff : dest.col_offset = temp.col_offset := by rw [hdest.1, htemp.1]
    rw [hoff]
    exact ⟨h6, l7 i hi⟩
  · intro g c hcn h0
    obtain ⟨_, _, _, _, _, _, _, key⟩ := chunk_accumulate T b n_cols _ _ hL docs count hc
      { group_stats := dest, grp_buf := grp_buf, temp_buf := temp } hD
      (by show dest.col_offset = temp.col_offset; rw [hdest.1, htemp.1])
      (by show temp.padded_row_len = dest.padded_row_len; rw [hdest.2.1, htemp.2.1])
      htemp.2.2 hg rows hdest.2.2 hgrp
    exact key g c hcn h0

set_option maxRecDepth 100000 in
/-- The first 32 docs of `long_table`, which fill the ring once: staging
slot `i & 31` holds the row of doc `i` (1), and the accumulator of the one
group ends with 32. -/
theorem ring_rows_short_chunk_example :
    (∀ i, i < 32 →
      unpacked_slot
        (for_loop (lookup_step long_table (List.range 32) 31) 32 0
          { group_stats := unpacked_table_create long_table 1,
            grp_buf := List.replicate 32 0,
            temp_buf := unpacked_table_copy_layout (unpacked_table_create long_table 1) 32
          }).temp_buf
        (i &&& 31) ((unpacked_table_create long_table 1).col_offset.getD 0 0) = 1) ∧
    unpacked_slot
      (lookup_and_accumulate_grp_stats long_table (unpacked_table_create long_table 1)
        (List.range 32) 32 (List.replicate 32 0)
        (unpacked_table_copy_layout (unpacked_table_create long_table 1) 32) 31).group_stats 0
      ((unpacked_table_create long_table 1).col_offset.getD 0 0) = 32 := by
  obtain ⟨h1, h2⟩ := ring_rows_short_chunk 0 1 [0] [13] [1] [0] [4]
    (by decide) long_table 33 long_table.data (by decide)
    (unpacked_table_create long_table 1)
    (unpacked_table_copy_layout (unpacked_table_create long_table 1) 32) 1 (List.range 32) 32
    (List.replicate 32 0) (by decide) (by decide) ⟨rfl, rfl, by decide⟩ ⟨rfl, rfl, by decide⟩
    (by decide)
  constructor
  · intro i hi
    rw [(h1 i 0 hi (by decide)).1]
    exact (by decide : ∀ i, i < 32 →
      stored_value long_table ((List.range 32).getD i 0) 0 = 1) i hi
  · rw [h2 0 0 (by decide) (by
      rw [slot_zero_table _ (unpacked_table_create long_table 1) rfl]
      rfl)]
    decide

/-! ## The marks of the bit-trees in a pass -/

/-- The row unpack marks its destination row and no other row. -/
theorem unpack_row_tree (T : packed_table_t) (row : Nat) (U : unpacked_table_t)
    (dest_row prefetch : Nat) :
    (packed_table_unpack_row_to_table T row U dest_row prefetch).non_zero_rows
      = bit_tree_set U.non_zero_rows dest_row := by
  unfold packed_table_unpack_row_to_table
  simp only []
  split <;> rfl

/-- The unpack sweep does not touch the accumulator. -/
theorem lookup_loop_group_stats (T : packed_table_t) (docs : List Nat) (mask count lo : Nat)
    (s : accumulate_state) :
    (for_loop (lookup_step T docs mask) count lo s).group_stats = s.group_stats := by
  induction count generalizing lo s with
  | zero => rfl
  | succ k ih => rw [for_loop, ih]; rfl

/-- The accumulate sweep leaves the staging ring and the accumulator's
bit-tree as they are. -/
theorem accumulate_loop_tree (mask count lo : Nat) (s : accumulate_state) :
    (for_loop (accumulate_step mask) count lo s).temp_buf = s.temp_buf ∧
    (for_loop (accumulate_step mask) count lo s).group_stats.non_zero_rows
      = s.group_stats.non_zero_rows := by
  induction count generalizing lo s with
  | zero => exact ⟨rfl, rfl⟩
  | succ k ih =>
    rw [for_loop]
    obtain ⟨h1, h2⟩ := ih (lo + 1) (accumulate_step mask lo s)
    exact ⟨h1.trans rfl, h2.trans rfl⟩

/-- The marks of the staging ring after the unpack sweep of a chunk. -/
theorem lookup_loop_marks (T : packed_table_t) (docs : List Nat) (count : Nat)
    (s : accumulate_state) :
    (for_loop (lookup_step T docs 31) count 0 s).temp_buf.non_zero_rows.length
      = s.temp_buf.non_zero_rows.length ∧
    ∀ j, (for_loop (lookup_step T docs 31) count 0 s).temp_buf.non_zero_rows.getD j false = true
      ↔ (s.temp_buf.non_zero_rows.getD j false = true ∨
          (j < s.temp_buf.non_zero_rows.length ∧ j < 32 ∧ j < count)) := by
  induction count with
  | zero =>
    refine ⟨rfl, fun j => ?_⟩
    show s.temp_buf.non_zero_rows.getD j false = true ↔ _
    constructor
    · exact Or.inl
    · rintro (h | h)
      · exact h
      · omega
  | succ k ih =>
    obtain ⟨i1, i2⟩ := ih
    rw [for_loop_succ_last, Nat.zero_add]
    generalize for_loop (lookup_step T docs 31) k 0 s = s1 at i1 i2
    have hstep : (lookup_step T docs 31 k s1).temp_buf.non_zero_rows
        = s1.temp_buf.non_zero_rows.set (k &&& 31) true := by
      unfold lookup_step
      simp only []
      rw [unpack_row_tree]
      rfl
    have hmod : k &&& 31 = k % 32 := by
      have := Nat.and_pow_two_sub_one_eq_mod k 5
      simpa using this
    rw [hstep, hmod]
    refine ⟨by rw [List.length_set]; exact i1, fun j => ?_⟩
    by_cases hj : j = k % 32
    · subst hj
      by_cases hl : k % 32 < s1.temp_buf.non_zero_rows.length
      · rw [List.getD_eq_getElem _ _ (by rw [List.length_set]; exact hl)]
        simp only [List.getElem_set_self, true_iff]
        right
        have := Nat.mod_lt k (show 32 > 0 by omega)
        have := Nat.mod_le k 32
        omega
      · rw [List.getD_eq_default _ _ (by rw [List.length_set]; omega)]
        constructor
        · intro h; exact absurd h (by simp)
        · rintro (h | h)
          · rw [List.getD_eq_default _ _ (by omega)] at h
            exact absurd h (by simp)
          · omega
    · have hne : (s1.temp_buf.non_zero_rows.set (k % 32) true).getD j false
          = s1.temp_buf.non_zero_rows.getD j false := by
        simp only [List.getD_eq_getElem?_getD]
        rw [List.getElem?_set_ne (Ne.symm hj)]
      rw [hne, i2 j]
      constructor
      · rintro (h | h)
        · exact Or.inl h
        · exact Or.inr ⟨h.1, h.2.1, by omega⟩
      · rintro (h | h)
        · exact Or.inl h
        · right
          refine ⟨h.1, h.2.1, ?_⟩
          by_contra hk
          have hjk : j = k := by omega
          rw [hjk, Nat.mod_eq_of_lt (by omega)] at hj
          exact hj rfl

/-- One chunk: the accumulator's bit-tree is not touched; the staging ring
gains the marks of the slots the chunk's docs were unpacked into. -/
theorem chunk_marks (T : packed_table_t) (docs : List Nat) (count : Nat)
    (s : accumulate_state) :
    (lookup_and_accumulate_grp_stats T s.group_stats docs count s.grp_buf s.temp_buf
      31).group_stats.non_zero_rows = s.group_stats.non_zero_rows ∧
    (lookup_and_accumulate_grp_stats T s.group_stats docs count s.grp_buf s.temp_buf
      31).temp_buf.non_zero_rows.length = s.temp_buf.non_zero_rows.length ∧
    ∀ j, (lookup_and_accumulate_grp_stats T s.group_stats docs count s.grp_buf s.temp_buf
        31).temp_buf.non_zero_rows.getD j false = true
      ↔ (s.temp_buf.non_zero_rows.getD j false = true ∨
          (j < s.temp_buf.non_zero_rows.length ∧ j < 32 ∧ j < count)) := by
  have he : lookup_and_accumulate_grp_stats T s.group_stats docs count s.grp_buf s.temp_buf 31
      = for_loop (accumulate_step 31) count 0 (for_loop (lookup_step T docs 31) count 0 s) := rfl
  rw [he]
  obtain ⟨a1, a2⟩ := accumulate_loop_tree 31 count 0 (for_loop (lookup_step T docs 31) count 0 s)
  obtain ⟨l1, l2⟩ := lookup_loop_marks T docs count s
  rw [a1, a2, lookup_loop_group_stats]
  exact ⟨rfl, l1, l2⟩

/-- One slice, whatever the decoder gives. -/
theorem slice_marks (decode : Groups.decoder) (T : packed_table_t) (fuel remaining : Nat)
    (read_addr : List Nat) (last_value : Int) (s : accumulate_state)
    (hfuel : remaining ≤ fuel) :
    (slice_loop decode T 31 fuel remaining read_addr last_value s).group_stats.non_zero_rows
      = s.group_stats.non_zero_rows ∧
    (slice_loop decode T 31 fuel remaining read_addr last_value s).temp_buf.non_zero_rows.length
      = s.temp_buf.non_zero_rows.length ∧
    ∀ j, (slice_loop decode T 31 fuel remaining read_addr last_value
        s).temp_buf.non_zero_rows.getD j false = true
      ↔ (s.temp_buf.non_zero_rows.getD j false = true ∨
          (j < s.temp_buf.non_zero_rows.length ∧ j < 32 ∧ j < remaining)) := by
  induction fuel generalizing remaining read_addr last_value s with
  | zero =>
    refine ⟨rfl, rfl, fun j => ?_⟩
    show s.temp_buf.non_zero_rows.getD j false = true ↔ _
    constructor
    · exact Or.inl
    · rintro (h | h)
      · exact h
      · omega
  | succ f ih =>
    rw [slice_loop]
    by_cases h : remaining > 0
    · rw [if_pos h]
      simp only []
      generalize hc : (if remaining > TGS_BUFFER_SIZE then TGS_BUFFER_SIZE else remaining)
        = count
      have hc1 : 0 < count ∧ count ≤ remaining ∧ (count = remaining ∨ count = 1024) := by
        rw [← hc]; unfold TGS_BUFFER_SIZE; split <;> omega
      obtain ⟨c1, c2, c3⟩ := chunk_marks T (decode read_addr count last_value).1 count s
      generalize lookup_and_accumulate_grp_stats T s.group_stats
        (decode read_addr count last_value).1 count s.grp_buf s.temp_buf 31 = s1 at c1 c2 c3
      obtain ⟨i1, i2, i3⟩ := ih (remaining - count)
        (List.drop (decode read_addr count last_value).2 read_addr)
        (((decode read_addr count last_value).1.getD (count - 1) 0 : Nat) : Int) s1 (by omega)
      refine ⟨i1.trans c1, i2.trans c2, fun j => ?_⟩
      rw [i3 j, c3 j, c2]
      constructor
      · rintro ((h1 | h1) | h1)
        · exact Or.inl h1
        · exact Or.inr ⟨h1.1, h1.2.1, by omega⟩
        · exact Or.inr ⟨h1.1, h1.2.1, by omega⟩
      · rintro (h1 | h1)
        · exact Or.inl (Or.inl h1)
        · exact Or.inl (Or.inr ⟨h1.1, h1.2.1, by omega⟩)
    · rw [if_neg h]
      refine ⟨rfl, rfl, fun j => ?_⟩
      constructor
      · exact Or.inl
      · rintro (h1 | h1)
        · exact h1
        · omega

/-- The slices of a pass. -/
theorem slices_marks (decode : Groups.decoder) (infos : List index_slice_info) (ns : Nat)
    (s : accumulate_state) :
    (for_loop (slice_step decode infos 31) ns 0 s).group_stats.non_zero_rows
      = s.group_stats.non_zero_rows ∧
    (for_loop (slice_step decode infos 31) ns 0 s).temp_buf.non_zero_rows.length
      = s.temp_buf.non_zero_rows.length ∧
    ∀ j, (for_loop (slice_step decode infos 31) ns 0 s).temp_buf.non_zero_rows.getD j false
        = true
      ↔ (s.temp_buf.non_zero_rows.getD j false = true ∨
          (j < s.temp_buf.non_zero_rows.length ∧ j < 32 ∧
            ∃ k, k < ns ∧ j < (infos.getD k null_slice).n_docs_in_slice)) := by
  induction ns with
  | zero =>
    refine ⟨rfl, rfl, fun j => ?_⟩
    show s.temp_buf.non_zero_rows.getD j false = true ↔ _
    constructor
    · exact Or.inl
    · rintro (h | ⟨_, _, k, hk, _⟩)
      · exact h
      · omega
  | succ m ih =>
    obtain ⟨i1, i2, i3⟩ := ih
    rw [for_loop_succ_last, Nat.zero_add]
    generalize for_loop (slice_step decode infos 31) m 0 s = s1 at i1 i2 i3
    obtain ⟨c1, c2, c3⟩ := slice_marks decode (infos.getD m null_slice).packed_metrics
      (infos.getD m null_slice).n_docs_in_slice (infos.getD m null_slice).n_docs_in_slice
      (infos.getD m null_slice).doc_slice 0 s1 (le_refl _)
    have hs : slice_step decode infos 31 m s1
        = slice_loop decode (infos.getD m null_slice).packed_metrics 31
            (infos.getD m null_slice).n_docs_in_slice (infos.getD m null_slice).n_docs_in_slice
            (infos.getD m null_slice).doc_slice 0 s1 := rfl
    rw [hs]
    refine ⟨c1.trans i1, c2.trans i2, fun j => ?_⟩
    rw [c3 j, i3 j, i2]
    constructor
    · rintro ((h1 | ⟨h1, h2, k, hk, hj⟩) | h1)
      · exact Or.inl h1
      · exact Or.inr ⟨h1, h2, k, by omega, hj⟩
      · exact Or.inr ⟨h1.1, h1.2.1, m, by omega, h1.2.2⟩
    · rintro (h1 | ⟨h1, h2, k, hk, hj⟩)
      · exact Or.inl (Or.inl h1)
      · by_cases hkm : k = m
        · subst hkm
          exact Or.inr ⟨h1, h2, hj⟩
        · exact Or.inl (Or.inr ⟨h1, h2, k, by omega, hj⟩)

theorem getD_replicate_false (n j : Nat) : (List.replicate n false).getD j false = false := by
  by_cases hj : j < n
  · simp [List.getD_eq_getElem?_getD, List.getElem?_replicate, hj]
  · exact List.getD_eq_default _ _ (by simp; omega)

/-- The marks of a modelled pass over the one doc of `biased_table`, which
has group 0: group 0 receives the doc's row (its slot ends with 2), the
accumulator's bit-tree has no mark, and the mark of the row unpack is in the
staging ring, at slot 0. -/
theorem staged_pass_leaves_group_unmarked :
    packed_table_get_group biased_table 0 = 0 ∧
    (tgs_execute_pass delta_decode fresh_worker (fresh_session 1)
      biased_desc).2.1.grp_stats.map (fun u => unpacked_slot u 0 (u.col_offset.getD 0 0))
      = some 2 ∧
    (tgs_execute_pass delta_decode fresh_worker (fresh_session 1)
      biased_desc).2.1.grp_stats.map (fun u => u.non_zero_rows) = some [false] ∧
    (tgs_execute_pass delta_decode fresh_worker (fresh_session 1)
      biased_desc).2.2.temp_buf.map (fun u => u.non_zero_rows.getD 0 false) = some true := by
  decide

/-- Where the modelled pass marks rows: after a pass with a freshly allocated
accumulator, whatever the decoder gives, no row of the accumulator's bit-tree
is marked; the row unpack marks its destination, which is the staging ring:
slot `j` of the ring is marked exactly when `j < 32` and some slice holds more
than `j` docs. -/
theorem pass_marks_staging_slots (decode : Groups.decoder) (worker : worker_desc)
    (session : session_desc) (desc : tgs_desc)
    (hfresh : worker.grp_stats = none ∨ worker.buffer_size < 2048)
    (hns : 0 < desc.n_slices) :
    ∃ accum ring,
      (tgs_execute_pass decode worker session desc).2.1.grp_stats = some accum ∧
      (tgs_execute_pass decode worker session desc).2.2.temp_buf = some ring ∧
      accum.non_zero_rows = List.replicate session.num_groups false ∧
      ∀ j, ring.non_zero_rows.getD j false = true
        ↔ (j < 32 ∧ ∃ k, k < desc.n_slices.toNat ∧
            j < (desc.slices.getD k null_slice).n_docs_in_slice) := by
  have hrun : tgs_execute_pass decode worker session desc
      = (0,
         { (allocate_grp_stats worker session
              (desc.slices.getD 0 null_slice).packed_metrics).2.1 with
           grp_stats := some (for_loop (slice_step decode desc.slices
             (allocate_grp_stats worker session
               (desc.slices.getD 0 null_slice).packed_metrics).2.2.temp_buf_mask)
             desc.n_slices.toNat 0
             { group_stats := (allocate_grp_stats worker session
                 (desc.slices.getD 0 null_slice).packed_metrics).1,
               grp_buf := desc.grp_buf,
               temp_buf := (allocate_grp_stats worker session
                 (desc.slices.getD 0 null_slice).packed_metrics).2.2.temp_buf.getD
                   null_table }).group_stats },
         { (allocate_grp_stats worker session
              (desc.slices.getD 0 null_slice).packed_metrics).2.2 with
           temp_buf := (allocate_grp_stats worker session
             (desc.slices.getD 0 null_slice).packed_metrics).2.2.temp_buf.map
               (fun _ => (for_loop (slice_step decode desc.slices
                 (allocate_grp_stats worker session
                   (desc.slices.getD 0 null_slice).packed_metrics).2.2.temp_buf_mask)
                 desc.n_slices.toNat 0
                 { group_stats := (allocate_grp_stats worker session
                     (desc.slices.getD 0 null_slice).packed_metrics).1,
                   grp_buf := desc.grp_buf,
                   temp_buf := (allocate_grp_stats worker session
                     (desc.slices.getD 0 null_slice).packed_metrics).2.2.temp_buf.getD
                       null_table }).temp_buf)
           current_group_stats := some (for_loop (slice_step decode desc.slices
             (allocate_grp_stats worker session
               (desc.slices.getD 0 null_slice).packed_metrics).2.2.temp_buf_mask)
             desc.n_slices.toNat 0
             { group_stats := (allocate_grp_stats worker session
                 (desc.slices.getD 0 null_slice).packed_metrics).1,
               grp_buf := desc.grp_buf,
               temp_buf := (allocate_grp_stats worker session
                 (desc.slices.getD 0 null_slice).packed_metrics).2.2.temp_buf.getD
                   null_table }).group_stats }) := by
    unfold tgs_execute_pass
    rw [if_neg (by omega)]
  rw [hrun, allocate_fresh worker session _ hfresh]
  obtain ⟨m1, _, m3⟩ := slices_marks decode desc.slices desc.n_slices.toNat
    { group_stats := unpacked_table_create (desc.slices.getD 0 null_slice).packed_metrics
        session.num_groups,
      grp_buf := desc.grp_buf,
      temp_buf := unpacked_table_copy_layout
        (unpacked_table_create (desc.slices.getD 0 null_slice).packed_metrics
          session.num_groups) 32 }
  refine ⟨_, _, rfl, rfl, m1, fun j => ?_⟩
  refine (m3 j).trans ?_
  have hz : (List.replicate 32 false).getD j false = false := getD_replicate_false 32 j
  have hring : (unpacked_table_copy_layout
      (unpacked_table_create (desc.slices.getD 0 null_slice).packed_metrics
        session.num_groups) 32).non_zero_rows = List.replicate 32 false := rfl
  show ((unpacked_table_copy_layout _ 32).non_zero_rows.getD j false = true ∨
      (j < (unpacked_table_copy_layout _ 32).non_zero_rows.length ∧ _)) ↔ _
  rw [hring, hz, List.length_replicate]
  constructor
  · rintro (h | h)
    · exact absurd h (by simp)
    · exact h.2
  · intro h
    exact Or.inr ⟨h.1, h⟩

/-- Scenario S1 in the modelled pass: no group of the accumulator is marked,
and all 32 slots of the staging ring are. -/
theorem pass_marks_staging_slots_example :
    ∃ accum ring,
      (tgs_execute_pass delta_decode fresh_worker (fresh_session 4) s1_desc).2.1.grp_stats
        = some accum ∧
      (tgs_execute_pass delta_decode fresh_worker (fresh_session 4) s1_desc).2.2.temp_buf
        = some ring ∧
      accum.non_zero_rows = List.replicate 4 false ∧
      ∀ j, ring.non_zero_rows.getD j false = true
        ↔ (j < 32 ∧ ∃ k, k < s1_desc.n_slices.toNat ∧
            j < (s1_desc.slices.getD k null_slice).n_docs_in_slice) :=
  pass_marks_staging_slots delta_decode fresh_worker (fresh_session 4) s1_desc (Or.inl rfl) (by decide)

end Tgs

namespace PackedTable

/-- C32: in a table created from a valid layout, whatever its rows hold, for
every integer column `c` with byte range `[offsets c, offsets c + sizes c)` in
lane `vec_nums c`, every row whose lane exists and every 64-bit value `x`:
`internal_set_cell`, called with the column's mask number `c - b` and its
lane, replaces the bytes of that range in that lane of the row with the low
`sizes c` bytes of `x`, least significant first, and leaves the other bytes of
the lane, every other lane and the number of lanes as they were. -/
theorem C32_set_cell_frame (b n_cols : Nat) (mins maxes : List Int)
    (sizes vec_nums offsets : List Nat)
    (hv : valid_layout b n_cols mins maxes sizes vec_nums offsets)
    (T : packed_table_t) (n_rows : Nat) (data : List Vec128)
    (hT : T = with_data (packed_table_create n_rows mins maxes sizes vec_nums offsets n_cols)
      data)
    (r c : Nat) (x : Int) (hc1 : b ≤ c) (hc2 : c < n_cols)
    (hlane : r * T.row_size + vec_nums.getD c 0 < T.data.length) :
    (internal_set_cell T r (c - b) x (T.col_2_vector.getD c 0)).data.length = T.data.length ∧
    (∀ j, j < 16 →
      ((internal_set_cell T r (c - b) x (T.col_2_vector.getD c 0)).data.getD
          (r * T.row_size + vec_nums.getD c 0) zero_vec).getD j 0
        = if offsets.getD c 0 ≤ j ∧ j < offsets.getD c 0 + sizes.getD c 0
          then long_bits x / 256 ^ (j - offsets.getD c 0) % 256
          else (T.data.getD (r * T.row_size + vec_nums.getD c 0) zero_vec).getD j 0) ∧
    (∀ idx, idx ≠ r * T.row_size + vec_nums.getD c 0 →
      (internal_set_cell T r (c - b) x (T.col_2_vector.getD c 0)).data.getD idx zero_vec
        = T.data.getD idx zero_vec) := by
  obtain ⟨m1, m2, _⟩ := create_column_masks b n_cols mins maxes sizes vec_nums offsets n_rows
    hv c hc2 hc1
  have hput : T.shuffle_vecs_put.getD (c - b) zero_vec
      = scatter_mask (offsets.getD c 0) (sizes.getD c 0) := by rw [hT]; exact m1
  have hblend : T.blend_vecs_put.getD (c - b) zero_vec
      = blend_mask (offsets.getD c 0) (sizes.getD c 0) := by rw [hT]; exact m2
  have hsz0 : sizes.getD c 0 ≠ 0 := fun h => absurd ((hv.2.2.2.2.2 c hc2).1.1 h) (by omega)
  have hvc := (hv.2.2.2.2.2 c hc2).2.2.2.2.2 hsz0
  have hlane_eq : T.col_2_vector.getD c 0 = vec_nums.getD c 0 := by
    obtain ⟨_, f2, _⟩ := create_fields n_rows mins maxes sizes vec_nums offsets n_cols
    obtain ⟨_, hent⟩ := valid_index_state b n_cols mins maxes sizes vec_nums offsets hv
    rw [hT]
    show (packed_table_create n_rows mins maxes sizes vec_nums offsets n_cols).col_2_vector.getD
      c 0 = _
    rw [f2]
    exact ((hent c hc2).2 hsz0).2.2
  have hdata : (internal_set_cell T r (c - b) x (T.col_2_vector.getD c 0)).data
      = T.data.set (r * T.row_size + vec_nums.getD c 0)
          (_mm_blendv_epi8 (T.data.getD (r * T.row_size + vec_nums.getD c 0) zero_vec)
            (_mm_shuffle_epi8 (_mm_cvtsi64_si128 x)
              (scatter_mask (offsets.getD c 0) (sizes.getD c 0)))
            (blend_mask (offsets.getD c 0) (sizes.getD c 0))) := by
    unfold internal_set_cell
    simp only []
    rw [hlane_eq, hput, hblend, Nat.add_comm (vec_nums.getD c 0)]
  rw [hdata]
  refine ⟨List.length_set _ _ _, fun j hj => ?_, fun idx hidx => ?_⟩
  · rw [getD_set_eq _ _ _ _ hlane, getD_scatter_blend _ _ _ _ _ hj hvc.1]
  · rw [getD_set_ne _ _ _ _ _ (Ne.symm hidx)]

/-- C32 at the table of `biased_table`'s layout (one one-byte column at byte 4
of lane 0): the write of `0x1234` to the cell of row 0 puts `0x34` into byte 4
and keeps the header bytes. -/
theorem C32_set_cell_frame_witness :
    (internal_set_cell biased_table 0 (0 - 0) 0x1234
        (biased_table.col_2_vector.getD 0 0)).data.length = biased_table.data.length ∧
    (∀ j, j < 16 →
      ((internal_set_cell biased_table 0 (0 - 0) 0x1234
          (biased_table.col_2_vector.getD 0 0)).data.getD
          (0 * biased_table.row_size + ([0] : List Nat).getD 0 0) zero_vec).getD j 0
        = if ([4] : List Nat).getD 0 0 ≤ j ∧ j < ([4] : List Nat).getD 0 0 + ([1] : List Nat).getD 0 0
          then long_bits 0x1234 / 256 ^ (j - ([4] : List Nat).getD 0 0) % 256
          else (biased_table.data.getD (0 * biased_table.row_size + ([0] : List Nat).getD 0 0)
            zero_vec).getD j 0) ∧
    (∀ idx, idx ≠ 0 * biased_table.row_size + ([0] : List Nat).getD 0 0 →
      (internal_set_cell biased_table 0 (0 - 0) 0x1234
          (biased_table.col_2_vector.getD 0 0)).data.getD idx zero_vec
        = biased_table.data.getD idx zero_vec) :=
  C32_set_cell_frame 0 1 [5] [10] [1] [0] [4] (by decide) biased_table 1 biased_table.data
    (by decide) 0 0 0x1234 (by decide) (by decide) (by decide)

end PackedTable

namespace PackedTable

/-- C33: for every header field `bits` and every number `n <= 4` of boolean
columns, `unpack_bit_fields` leaves in 64-bit slot `j` of the destination row
(half `j mod 2` of lane `j / 2` of the row) bit `j` of the field, as 0 or 1,
for every `j < n`; the row is taken to lie inside the buffer. -/
theorem C33_unpack_bits (buf : List V2di) (dest_row bits n j : Nat) (hn : n ≤ 4)
    (hj : j < n) (hroom : dest_row + (n + 1) / 2 ≤ buf.length) :
    v2di_half ((unpack_bit_fields buf dest_row bits n).getD (dest_row + j / 2) (0, 0)) j
      = ((bits / 2 ^ j % 2 : Nat) : Int) := by
  unfold unpack_bit_fields
  rw [unpack_bits_getD, Nat.mod_eq_of_lt (by omega : n < 256),
    if_pos ⟨by omega, by omega, by omega⟩,
    show dest_row + j / 2 - dest_row = j / 2 by omega]
  have hl := lookup_table_halves (bits / 4 ^ (j / 2))
  unfold v2di_half
  have h4 : (4 : Nat) ^ (j / 2) = 2 ^ (2 * (j / 2)) := by
    rw [pow_mul]
    norm_num
  by_cases hev : j % 2 = 0
  · rw [if_pos hev, hl.1, h4, show 2 * (j / 2) = j by omega]
  · rw [if_neg hev, hl.2, h4, Nat.div_div_eq_div_mul, ← pow_succ,
      show 2 * (j / 2) + 1 = j by omega]

end PackedTable

namespace PackedTable

set_option maxRecDepth 100000 in
/-- C33 at scenario S2, doc 5: the header field is 5, slot 2 of the unpacked
row gets bit 2 of it, and the four slots of the row unpacked by
`packed_table_unpack_row_to_table` are the bits 1, 0, 1, 0 of the doc id. -/
theorem C33_unpack_bits_witness :
    bf_cols (load_u32 (s2_table.data.getD (5 * s2_table.row_size) zero_vec)) = 5 ∧
    v2di_half ((unpack_bit_fields (List.replicate 2 (0, 0)) 0 5 4).getD (0 + 2 / 2) (0, 0)) 2
      = ((5 / 2 ^ 2 % 2 : Nat) : Int) ∧
    (List.range 4).map (fun j =>
      unpacked_slot (packed_table_unpack_row_to_table s2_table 5
        (unpacked_table_create s2_table 2) 0 0) 0 j) = [1, 0, 1, 0] :=
  ⟨by decide,
   C33_unpack_bits (List.replicate 2 (0, 0)) 0 5 4 2 (by decide) (by decide) (by decide),
   by decide⟩

end PackedTable

namespace Tgs

open PackedTable

/-- After `allocate_grp_stats` the worker holds the returned accumulator and
records a size of at least 2048. -/
theorem allocate_worker (worker : worker_desc) (session : session_desc) (T : packed_table_t) :
    (allocate_grp_stats worker session T).2.1.grp_stats
      = some (allocate_grp_stats worker session T).1 ∧
    2048 ≤ (allocate_grp_stats worker session T).2.1.buffer_size := by
  unfold allocate_grp_stats
  cases hw : worker.grp_stats with
  | none => exact ⟨rfl, show (2048 : Int) ≤ 2048 from le_refl _⟩
  | some old =>
    simp only []
    by_cases hb : worker.buffer_size ≥ 2048
    · rw [if_pos hb]
      exact ⟨hw, hb⟩
    · rw [if_neg hb]
      exact ⟨rfl, show (2048 : Int) ≤ 2048 from le_refl _⟩

/-- A worker that holds an accumulator recorded with at least 2048 gets it
back, and neither the worker nor the session is touched. -/
theorem allocate_reuse (worker : worker_desc) (session : session_desc) (T : packed_table_t)
    (acc : unpacked_table_t) (hacc : worker.grp_stats = some acc)
    (hsize : 2048 ≤ worker.buffer_size) :
    allocate_grp_stats worker session T = (acc, worker, session) := by
  unfold allocate_grp_stats
  rw [hacc]
  simp only []
  rw [if_pos hsize]

/-- C35: whatever the worker was, once `allocate_grp_stats` has run, the worker
holds the returned accumulator with `buffer_size >= 2048 = gs_size` (2048
exactly when this call or an earlier one allocated it), so every later call,
for any session and any packed layout, takes the branch that returns the
existing accumulator and leaves worker and session as they are: the branch
that destroys and recreates the accumulator is not taken. -/
theorem C35_recreate_unreachable (worker : worker_desc) (session session2 : session_desc)
    (T T2 : packed_table_t) :
    (allocate_grp_stats worker session T).2.1.grp_stats
      = some (allocate_grp_stats worker session T).1 ∧
    2048 ≤ (allocate_grp_stats worker session T).2.1.buffer_size ∧
    ((worker.grp_stats = none ∨ worker.buffer_size < 2048) →
      (allocate_grp_stats worker session T).2.1.buffer_size = 2048) ∧
    allocate_grp_stats (allocate_grp_stats worker session T).2.1 session2 T2
      = ((allocate_grp_stats worker session T).1,
         (allocate_grp_stats worker session T).2.1, session2) := by
  obtain ⟨h1, h2⟩ := allocate_worker worker session T
  refine ⟨h1, h2, fun hfresh => ?_, allocate_reuse _ session2 T2 _ h1 h2⟩
  rw [allocate_fresh worker session T hfresh]

theorem C35_recreate_unreachable_witness :
    (allocate_grp_stats fresh_worker (fresh_session 1) biased_table).2.1.buffer_size = 2048 ∧
    allocate_grp_stats (allocate_grp_stats fresh_worker (fresh_session 1) biased_table).2.1
        (fresh_session 2) long_table
      = ((allocate_grp_stats fresh_worker (fresh_session 1) biased_table).1,
         (allocate_grp_stats fresh_worker (fresh_session 1) biased_table).2.1,
         fresh_session 2) :=
  ⟨(C35_recreate_unreachable fresh_worker (fresh_session 1) (fresh_session 2) biased_table
      long_table).2.2.1 (Or.inl rfl),
   (C35_recreate_unreachable fresh_worker (fresh_session 1) (fresh_session 2) biased_table
      long_table).2.2.2⟩

/-- C37 on the code: a worker that ran a pass in one session keeps its
accumulator (recorded size 2048); a pass with that worker in a second, fresh
session, here over a slice that lists no docs, returns 0 and leaves the second
session without a staging buffer (`temp_buf` null, `temp_buf_mask` 0), since
`allocate_grp_stats` returns the existing accumulator before it reaches the
lines that set them.  In the first session the buffer is there, with 32 rows
and mask 31. -/
theorem C37_second_session_without_staging :
    (tgs_execute_pass delta_decode fresh_worker (fresh_session 1) biased_desc).1 = 0 ∧
    ((tgs_execute_pass delta_decode fresh_worker (fresh_session 1)
        biased_desc).2.2.temp_buf.map (fun u => u.n_rows)) = some 32 ∧
    (tgs_execute_pass delta_decode fresh_worker (fresh_session 1)
        biased_desc).2.2.temp_buf_mask = 31 ∧
    (tgs_execute_pass delta_decode fresh_worker (fresh_session 1)
        biased_desc).2.1.buffer_size = 2048 ∧
    (tgs_execute_pass delta_decode
        (tgs_execute_pass delta_decode fresh_worker (fresh_session 1) biased_desc).2.1
        (fresh_session 1) empty_slice_desc).1 = 0 ∧
    (tgs_execute_pass delta_decode
        (tgs_execute_pass delta_decode fresh_worker (fresh_session 1) biased_desc).2.1
        (fresh_session 1) empty_slice_desc).2.2.temp_buf = none ∧
    (tgs_execute_pass delta_decode
        (tgs_execute_pass delta_decode fresh_worker (fresh_session 1) biased_desc).2.1
        (fresh_session 1) empty_slice_desc).2.2.temp_buf_mask = 0 := by
  decide

end Tgs

namespace PackedShard

open PackedTable

end PackedShard

namespace PackedTable

/-- The 64-bit word of a value shifted left by `k` bits is a multiple of
`2 ^ k`. -/
theorem long_bits_shift (x : Int) (k : Nat) (hk : k ≤ 64) :
    long_bits (x * 2 ^ k) = (x % 2 ^ (64 - k)).toNat * 2 ^ k := by
  unfold long_bits
  have e : (2 : Int) ^ 64 = 2 ^ k * 2 ^ (64 - k) := by
    rw [← pow_add]
    congr 1
    omega
  rw [e, Int.mul_comm x, Int.mul_emod_mul_of_pos _ _ (by positivity)]
  have h0 : (0 : Int) ≤ x % 2 ^ (64 - k) := Int.emod_nonneg _ (by positivity)
  have hz := Int.toNat_of_nonneg h0
  generalize (x % 2 ^ (64 - k)).toNat = z at hz
  rw [← hz]
  have hc : (2 : Int) ^ k * (z : Int) = ((z * 2 ^ k : Nat) : Int) := by
    push_cast
    ring
  rw [hc, Int.toNat_ofNat]

/-- The boolean field of the header after a store to the group field. -/
theorem bf_cols_set_grp (h g : Nat) : bf_cols (bf_set_grp h g) = bf_cols h := by
  unfold bf_cols bf_set_grp
  omega

/-- C40: in a table created from a valid layout, whatever its rows hold, and
for an existing row `r`: a write of any 64-bit value to a boolean column of the
row with `packed_table_set_cell` leaves the group of every row as it was; a
write of any group to the row with `packed_table_set_group` leaves the four
boolean bits of every header and the value every cell reads, boolean or
integer, as they were. -/
theorem C40_header_frame (b n_cols : Nat) (mins maxes : List Int)
    (sizes vec_nums offsets : List Nat)
    (hv : valid_layout b n_cols mins maxes sizes vec_nums offsets)
    (T : packed_table_t) (n_rows : Nat) (data : List Vec128)
    (hT : T = with_data (packed_table_create n_rows mins maxes sizes vec_nums offsets n_cols)
      data)
    (hdata : data.length
      = n_rows * (packed_table_create n_rows mins maxes sizes vec_nums offsets n_cols).row_size)
    (r : Nat) (hr : r < n_rows) :
    (∀ col value r2, col < b →
      packed_table_get_group (packed_table_set_cell T r col value) r2
        = packed_table_get_group T r2) ∧
    (∀ v r2,
      bf_cols (load_u32 ((packed_table_set_group T r v).data.getD (r2 * T.row_size) zero_vec))
        = bf_cols (load_u32 (T.data.getD (r2 * T.row_size) zero_vec))) ∧
    (∀ v r2 c, c < n_cols →
      packed_table_get_cell (packed_table_set_group T r v) r2 c
        = packed_table_get_cell T r2 c) := by
  have hF := create_cell_facts b n_rows n_cols mins maxes sizes vec_nums offsets data hv hdata
  rw [← hT] at hF
  have hb4 : b ≤ 4 := hv.2.2.2.1
  refine ⟨fun col value r2 hcol => ?_, fun v r2 => ?_, fun v r2 c hc => ?_⟩
  · have he : packed_table_set_cell T r col value
        = with_data T (T.data.set (r * T.row_size + 0)
            (store_u32 (T.data.getD (r * T.row_size + 0) zero_vec)
              ((load_u32 (T.data.getD (r * T.row_size + 0) zero_vec)
                ||| long_bits (to_int64 (value - T.col_mins.getD col 0)
                      * 2 ^ (GROUP_SIZE + col))) % 2 ^ 32))) := by
      unfold packed_table_set_cell
      simp only []
      rw [if_pos (by rw [hF.nb]; exact hcol)]
      rfl
    obtain ⟨_, g2, _, _⟩ := reads_after_lane T b n_rows n_cols mins sizes vec_nums offsets hF hb4
      r 0 (store_u32 (T.data.getD (r * T.row_size + 0) zero_vec)
        ((load_u32 (T.data.getD (r * T.row_size + 0) zero_vec)
          ||| long_bits (to_int64 (value - T.col_mins.getD col 0)
                * 2 ^ (GROUP_SIZE + col))) % 2 ^ 32)) hr hF.row_pos
    rw [he, g2 r2]
    by_cases h : r2 = r ∧ 0 = 0
    · rw [if_pos h, h.1, load_store_u32, Nat.mod_mod,
        long_bits_shift _ _ (by unfold GROUP_SIZE; omega),
        bf_grp_or_bit _ _ _ (by unfold GROUP_SIZE; omega)]
      rfl
    · rw [if_neg h]
  · have he : packed_table_set_group T r v
        = with_data T (T.data.set (r * T.row_size + 0)
            (store_u32 (T.data.getD (r * T.row_size + 0) zero_vec)
              (bf_set_grp (load_u32 (T.data.getD (r * T.row_size + 0) zero_vec))
                (Int.land v GROUP_MASK).toNat))) := rfl
    rw [he]
    show bf_cols (load_u32 ((T.data.set (r * T.row_size + 0) _).getD (r2 * T.row_size)
      zero_vec)) = _
    have hidx : r2 * T.row_size = r2 * T.row_size + 0 := rfl
    rw [hidx, lane_after_set _ r r2 0 0 T.row_size n_rows _ hF.row_pos hF.row_pos hr hF.rows]
    by_cases h : r2 = r ∧ 0 = 0
    · rw [if_pos h, h.1, load_store_u32, Nat.mod_eq_of_lt (bf_set_grp_lt _ _), bf_cols_set_grp]
    · rw [if_neg h]
  · exact (reads_after_set_group T b n_rows n_cols mins maxes sizes vec_nums offsets hF hv
      r v hr).2.2 r2 c hc

end PackedTable

namespace PackedTable

/-- C40 at `mixed_table` (one boolean and two one-byte columns): the write of
77, which is out of range, to the boolean cell keeps the group of the row, and
the write of the group -1 keeps the boolean bits and the cell of column 1. -/
theorem C40_header_frame_witness :
    packed_table_get_group (packed_table_set_cell mixed_table 0 0 77) 0
      = packed_table_get_group mixed_table 0 ∧
    bf_cols (load_u32 ((packed_table_set_group mixed_table 0 (-1)).data.getD
        (0 * mixed_table.row_size) zero_vec))
      = bf_cols (load_u32 (mixed_table.data.getD (0 * mixed_table.row_size) zero_vec)) ∧
    packed_table_get_cell (packed_table_set_group mixed_table 0 (-1)) 0 1
      = packed_table_get_cell mixed_table 0 1 := by
  obtain ⟨h1, h2, h3⟩ := C40_header_frame 1 3 [0, 0, 0] [1, 255, 255] [0, 1, 1] [0, 0, 0]
    [0, 4, 5] (by decide) mixed_table 1 mixed_table.data (by decide) (by decide) 0 (by decide)
  exact ⟨h1 0 77 0 (by decide), h2 (-1) 0, h3 (-1) 0 1 (by decide)⟩

end PackedTable

namespace PackedTable

/-! ## The pair masks of a created table -/

theorem getD_pair_mask (first : Nat × Nat) (second : Option (Nat × Nat)) (k : Nat)
    (hk : k < 16) :
    (pair_mask first second).getD k 0
      = if k < 8 then (if k < first.2 then (first.1 + k) % 256 else 255)
        else
          match second with
          | none => 255
          | some col => if k - 8 < col.2 then (col.1 + (k - 8)) % 256 else 255 := by
  simp only [pair_mask, getD_range16_map, hk, if_true]

theorem pair_walk_nil : pair_walk [] = [] := by
  rw [pair_walk]

theorem pair_walk_one (a : Nat × (Nat × Nat)) : pair_walk [a] = [pair_mask a.2 none] := by
  rw [pair_walk]

theorem pair_walk_same (a b : Nat × (Nat × Nat)) (rest : List (Nat × (Nat × Nat)))
    (h : b.1 = a.1) :
    pair_walk (a :: b :: rest) = pair_mask a.2 (some b.2) :: pair_walk rest := by
  rw [pair_walk, if_pos h]

theorem pair_walk_diff (a b : Nat × (Nat × Nat)) (rest : List (Nat × (Nat × Nat)))
    (h : b.1 ≠ a.1) :
    pair_walk (a :: b :: rest) = pair_mask a.2 none :: pair_walk (b :: rest) := by
  rw [pair_walk, if_neg h]

/-- The mask the loop emits for a column without a partner. -/
theorem single_pair_mask (start size : Nat) (hsz : size ≤ 8) :
    _mm_setr_epi8 (gather_fill size start 0 (List.replicate 16 255))
      = pair_mask (start, size) none := by
  unfold pair_mask
  apply setr_eq_of_getD
  intro j hj
  rw [gather_fill_getD]
  simp only [List.length_replicate, Nat.sub_zero]
  by_cases h8 : j < 8
  · rw [if_pos h8]
    by_cases hs : j < size
    · rw [if_pos ⟨Nat.zero_le _, by omega, hj⟩, if_pos hs]
      simp
    · have h2 : ¬ (0 ≤ j ∧ j < 0 + size ∧ j < 16) := by omega
      rw [if_neg h2, if_neg hs, getD_replicate _ _ _ hj]
  · have h2 : ¬ (0 ≤ j ∧ j < 0 + size ∧ j < 16) := by omega
    rw [if_neg h8, if_neg h2, getD_replicate _ _ _ hj]

/-- The mask the loop emits for two columns of a lane. -/
theorem double_pair_mask (start size start2 size2 : Nat) (hsz : size ≤ 8) :
    _mm_setr_epi8 (gather_fill size2 start2 8
        (gather_fill size start 0 (List.replicate 16 255)))
      = pair_mask (start, size) (some (start2, size2)) := by
  unfold pair_mask
  apply setr_eq_of_getD
  intro j hj
  rw [gather_fill_getD]
  simp only [gather_fill_length, List.length_replicate]
  by_cases h8 : j < 8
  · have h1 : ¬ (8 ≤ j ∧ j < 8 + size2 ∧ j < 16) := by omega
    rw [if_neg h1, if_pos h8, gather_fill_getD]
    simp only [List.length_replicate, Nat.sub_zero]
    by_cases hs : j < size
    · rw [if_pos ⟨Nat.zero_le _, by omega, hj⟩, if_pos hs]
      simp
    · have h2 : ¬ (0 ≤ j ∧ j < 0 + size ∧ j < 16) := by omega
      rw [if_neg h2, if_neg hs, getD_replicate _ _ _ hj]
  · rw [if_neg h8]
    by_cases hs : j - 8 < size2
    · rw [if_pos ⟨by omega, by omega, hj⟩, if_pos hs]
      simp
    · have h1 : ¬ (8 ≤ j ∧ j < 8 + size2 ∧ j < 16) := by omega
      have h2 : ¬ (0 ≤ j ∧ j < 0 + size ∧ j < 16) := by omega
      rw [if_neg h1, if_neg hs, gather_fill_getD]
      simp only [List.length_replicate]
      rw [if_neg h2, getD_replicate _ _ _ hj]

/-- The pair masks the main loop of `createShuffleVecFromIndexes` emits from
column `i` on are those of the walk along the columns. -/
theorem createShuffleVec_loop_walk (ic c2v : List Nat) (n : Nat)
    (fuel i : Nat) (g1 g2 : List Vec128) (hfuel : n - i ≤ fuel)
    (hsz : ∀ c, i ≤ c → c < n → ic.getD (2 * c + 1) 0 - ic.getD (2 * c) 0 ≤ 8) :
    (createShuffleVec_loop ic c2v n fuel i g1 g2).2
      = g2 ++ pair_walk ((List.range' i (n - i)).map (fun c =>
          (c2v.getD c 0, (ic.getD (2 * c) 0, ic.getD (2 * c + 1) 0 - ic.getD (2 * c) 0)))) := by
  induction fuel generalizing i g1 g2 with
  | zero =>
    have h0 : n - i = 0 := by omega
    simp [createShuffleVec_loop, h0, pair_walk_nil]
  | succ f ih =>
    rw [createShuffleVec_loop]
    by_cases hi : i < n
    · rw [if_pos hi]
      have hstep : n - i = (n - (i + 1)) + 1 := by omega
      simp only []
      by_cases hp : i + 1 < n ∧ c2v.getD (i + 1) 0 = c2v.getD i 0
      · rw [if_pos hp, ih (i + 2) _ _ (by omega) (fun c h1 h2 => hsz c (by omega) h2)]
        have hstep2 : n - (i + 1) = (n - (i + 2)) + 1 := by omega
        rw [hstep, List.range'_succ, hstep2, List.range'_succ, List.map_cons, List.map_cons,
          pair_walk_same _ _ _ hp.2,
          double_pair_mask _ _ _ _ (hsz i (le_refl _) hi)]
        simp [List.append_assoc]
      · rw [if_neg hp, ih (i + 1) _ _ (by omega) (fun c h1 h2 => hsz c (by omega) h2)]
        rw [hstep, List.range'_succ, List.map_cons, single_pair_mask _ _ (hsz i (le_refl _) hi)]
        by_cases hlast : i + 1 < n
        · have hstep2 : n - (i + 1) = (n - (i + 2)) + 1 := by omega
          have hne : c2v.getD (i + 1) 0 ≠ c2v.getD i 0 := fun e => hp ⟨hlast, e⟩
          rw [hstep2, List.range'_succ, List.map_cons, pair_walk_diff _ _ _ hne]
          simp [List.append_assoc]
        · have h0 : n - (i + 1) = 0 := by omega
          rw [h0]
          simp [pair_walk_one, pair_walk_nil, List.append_assoc]
    · rw [if_neg hi]
      have h0 : n - i = 0 := by omega
      simp [h0, pair_walk_nil]

end PackedTable

namespace PackedTable

/-! ## The walk along the columns, lane by lane -/

/-- A run of columns of one lane is paired off before the walk goes on. -/
theorem walk_block (v : Nat) :
    ∀ (A B : List (Nat × (Nat × Nat))), (∀ a ∈ A, a.1 = v) →
      (∀ b ∈ B.head?, b.1 ≠ v) →
      pair_walk (A ++ B) = lane_pairs (A.map Prod.snd) ++ pair_walk B
  | [], B, _, _ => by simp [lane_pairs]
  | [a], [], _, _ => by simp [lane_pairs, pair_walk_one, pair_walk_nil]
  | [a], b :: B, hA, hB => by
    have ha : a.1 = v := hA a (by simp)
    have hb : b.1 ≠ v := hB b (by simp)
    have hne : b.1 ≠ a.1 := by rw [ha]; exact hb
    simp [lane_pairs, pair_walk_diff _ _ _ hne]
  | a :: b :: A, B, hA, hB => by
    have ha : a.1 = v := hA a (by simp)
    have hb : b.1 = v := hA b (by simp)
    have he : b.1 = a.1 := by rw [ha, hb]
    have ih := walk_block v A B (fun x hx => hA x (by simp [hx])) hB
    simp only [List.cons_append, List.map_cons, lane_pairs]
    rw [pair_walk_same _ _ _ he, ih]

/-- In a list sorted by lane whose lanes are at least `v`, the columns of lane
`v` come first. -/
theorem sorted_split (v : Nat) :
    ∀ (L : List (Nat × (Nat × Nat))), L.Pairwise (fun a b => a.1 ≤ b.1) →
      (∀ a ∈ L, v ≤ a.1) →
      L = L.filter (fun a => decide (a.1 = v)) ++ L.filter (fun a => decide (a.1 ≠ v))
  | [], _, _ => by simp
  | a :: L, hs, hge => by
    have hs2 := List.pairwise_cons.mp hs
    by_cases ha : a.1 = v
    · have ih := sorted_split v L hs2.2 (fun x hx => hge x (by simp [hx]))
      rw [List.filter_cons_of_pos (by simpa using ha),
        List.filter_cons_of_neg (by simpa using ha), List.cons_append, ← ih]
    · have hgt : v < a.1 := lt_of_le_of_ne (hge a (by simp)) (Ne.symm ha)
      have hall : ∀ x ∈ L, x.1 ≠ v := fun x hx => by
        have := hs2.1 x hx
        omega
      have h1 : L.filter (fun a => decide (a.1 = v)) = [] := by
        rw [List.filter_eq_nil_iff]
        intro x hx
        simpa using hall x hx
      have h2 : L.filter (fun a => decide (a.1 ≠ v)) = L := by
        rw [List.filter_eq_self]
        intro x hx
        simpa using hall x hx
      rw [List.filter_cons_of_neg (by simpa using ha),
        List.filter_cons_of_pos (by simpa using ha), h1, h2, List.nil_append]

/-- The walk along columns sorted by lane pairs off each lane on its own. -/
theorem walk_lanes (m : Nat) :
    ∀ (v0 : Nat) (L : List (Nat × (Nat × Nat))), L.Pairwise (fun a b => a.1 ≤ b.1) →
      (∀ a ∈ L, v0 ≤ a.1 ∧ a.1 < v0 + m) →
      pair_walk L
        = ((List.range' v0 m).map (fun v =>
            lane_pairs ((L.filter (fun a => decide (a.1 = v))).map Prod.snd))).flatten := by
  induction m with
  | zero =>
    intro v0 L _ hb
    have hL : L = [] := by
      cases L with
      | nil => rfl
      | cons a L =>
        have := hb a (by simp)
        omega
    subst hL
    simp [pair_walk_nil]
  | succ m ih =>
    intro v0 L hs hb
    have hsplit := sorted_split v0 L hs (fun a ha => (hb a ha).1)
    have hB : ∀ x ∈ (L.filter (fun a => decide (a.1 ≠ v0))).head?, x.1 ≠ v0 := by
      intro x hx
      have hmem : x ∈ L.filter (fun a => decide (a.1 ≠ v0)) := List.mem_of_mem_head? hx
      simpa using (List.mem_filter.mp hmem).2
    have hwalk := walk_block v0 (L.filter (fun a => decide (a.1 = v0)))
      (L.filter (fun a => decide (a.1 ≠ v0)))
      (fun a ha => by simpa using (List.mem_filter.mp ha).2) hB
    rw [← hsplit] at hwalk
    rw [hwalk, ih (v0 + 1) (L.filter (fun a => decide (a.1 ≠ v0))) (hs.filter _)
      (fun a ha => by
        have h1 := hb a (List.mem_filter.mp ha).1
        have h2 : a.1 ≠ v0 := by simpa using (List.mem_filter.mp ha).2
        omega)]
    rw [List.range'_succ, List.map_cons, List.flatten_cons]
    congr 2
    apply List.map_congr_left
    intro v hv
    have hv1 : v0 + 1 ≤ v := (List.mem_range'_1.mp hv).1
    rw [List.filter_filter]
    congr 2
    apply List.filter_congr
    intro x _
    by_cases hx : x.1 = v
    · have : x.1 ≠ v0 := by omega
      simp [hx, this]
      omega
    · simp [hx]

/-- The columns of lane `v` among the columns `b..n-1`, taken from the list of
the columns with their lanes. -/
theorem lane_cols_of_walk (c2v : List Nat) (b n v : Nat) (col : Nat → Nat × Nat) :
    (((List.range' b (n - b)).map (fun c => (c2v.getD c 0, col c))).filter
        (fun a => decide (a.1 = v))).map Prod.snd
      = lane_cols c2v b n v col := by
  unfold lane_cols
  rw [List.filter_map, List.map_map]
  rfl

/-- The columns with their lanes are sorted by lane when the lanes do not
decrease along the columns. -/
theorem cols_sorted (c2v : List Nat) (b n : Nat) (col : Nat → Nat × Nat)
    (hmono : ∀ c c', b ≤ c → c ≤ c' → c' < n → c2v.getD c 0 ≤ c2v.getD c' 0) :
    ((List.range' b (n - b)).map (fun c => (c2v.getD c 0, col c))).Pairwise
      (fun a a' => a.1 ≤ a'.1) := by
  rw [List.pairwise_map]
  have h := List.pairwise_lt_range' b (n - b) 1
  refine List.Pairwise.imp_of_mem ?_ h
  intro c c' hc hc' hlt
  have h1 := List.mem_range'_1.mp hc
  have h2 := List.mem_range'_1.mp hc'
  exact hmono c c' h1.1 (by omega) (by omega)

/-- The walk along the integer columns of a row gives the pair masks of the
lanes, lane after lane. -/
theorem walk_all_lanes (c2v : List Nat) (b n n_lanes : Nat) (col : Nat → Nat × Nat)
    (hmono : ∀ c c', b ≤ c → c ≤ c' → c' < n → c2v.getD c 0 ≤ c2v.getD c' 0)
    (hlt : ∀ c, b ≤ c → c < n → c2v.getD c 0 < n_lanes) :
    pair_walk ((List.range' b (n - b)).map (fun c => (c2v.getD c 0, col c)))
      = all_lane_pairs c2v b n n_lanes col := by
  have h := walk_lanes n_lanes 0 _ (cols_sorted c2v b n col hmono) (by
    intro a ha
    obtain ⟨c, hc, rfl⟩ := List.mem_map.mp ha
    have h1 := List.mem_range'_1.mp hc
    exact ⟨Nat.zero_le _, by simpa using hlt c h1.1 (by omega)⟩)
  rw [h]
  unfold all_lane_pairs
  rw [List.range_eq_range']
  congr 2
  funext v
  rw [lane_cols_of_walk]

end PackedTable

namespace PackedShard

open PackedTable

/-! ## The pair masks of a shard layout -/

/-- The mask the shard loop emits for a column without a partner. -/
theorem shard_single_pair_mask (start size : Nat) (hsz : size ≤ 8)
    (hin : start % 16 + size ≤ 16) :
    _mm_setr_epi8 (gather_fill size start 0 (List.replicate 16 255))
      = pair_mask (start % 16, size) none := by
  unfold pair_mask
  apply setr_eq_of_getD
  intro j hj
  rw [shard_gather_fill_getD]
  simp only [List.length_replicate, Nat.sub_zero]
  by_cases h8 : j < 8
  · rw [if_pos h8]
    by_cases hs : j < size
    · rw [if_pos ⟨Nat.zero_le _, by omega, hj⟩, if_pos hs]
      omega
    · have h2 : ¬ (0 ≤ j ∧ j < 0 + size ∧ j < 16) := by omega
      rw [if_neg h2, if_neg hs, getD_replicate _ _ _ hj]
  · have h2 : ¬ (0 ≤ j ∧ j < 0 + size ∧ j < 16) := by omega
    rw [if_neg h8, if_neg h2, getD_replicate _ _ _ hj]

/-- The mask the shard loop emits for two columns of a lane. -/
theorem shard_double_pair_mask (start size start2 size2 : Nat) (hsz : size ≤ 8)
    (hin : start % 16 + size ≤ 16) (hin2 : start2 % 16 + size2 ≤ 16) :
    _mm_setr_epi8 (gather_fill size2 start2 8
        (gather_fill size start 0 (List.replicate 16 255)))
      = pair_mask (start % 16, size) (some (start2 % 16, size2)) := by
  unfold pair_mask
  apply setr_eq_of_getD
  intro j hj
  rw [shard_gather_fill_getD]
  simp only [shard_gather_fill_length, List.length_replicate]
  by_cases h8 : j < 8
  · have h1 : ¬ (8 ≤ j ∧ j < 8 + size2 ∧ j < 16) := by omega
    rw [if_neg h1, if_pos h8, shard_gather_fill_getD]
    simp only [List.length_replicate, Nat.sub_zero]
    by_cases hs : j < size
    · rw [if_pos ⟨Nat.zero_le _, by omega, hj⟩, if_pos hs]
      omega
    · have h2 : ¬ (0 ≤ j ∧ j < 0 + size ∧ j < 16) := by omega
      rw [if_neg h2, if_neg hs, getD_replicate _ _ _ hj]
  · rw [if_neg h8]
    by_cases hs : j - 8 < size2
    · rw [if_pos ⟨by omega, by omega, hj⟩, if_pos hs]
      omega
    · have h1 : ¬ (8 ≤ j ∧ j < 8 + size2 ∧ j < 16) := by omega
      have h2 : ¬ (0 ≤ j ∧ j < 0 + size ∧ j < 16) := by omega
      rw [if_neg h1, if_neg hs, shard_gather_fill_getD]
      simp only [List.length_replicate]
      rw [if_neg h2, getD_replicate _ _ _ hj]

/-- The pair masks the main loop of the shard's `createShuffleVecFromIndexes`
emits from column `i` on are those of the walk along the columns. -/
theorem shard_loop_walk (ic c2v : List Nat) (n : Nat)
    (fuel i : Nat) (g1 g2 : List Vec128) (hfuel : n - i ≤ fuel)
    (hsz : ∀ c, i ≤ c → c < n →
      ic.getD (2 * c + 1) 0 - ic.getD (2 * c) 0 ≤ 8 ∧
      ic.getD (2 * c) 0 % 16 + (ic.getD (2 * c + 1) 0 - ic.getD (2 * c) 0) ≤ 16) :
    (createShuffleVec_loop ic c2v n fuel i g1 g2).2
      = g2 ++ pair_walk ((List.range' i (n - i)).map (fun c =>
          (c2v.getD c 0,
            (ic.getD (2 * c) 0 % 16, ic.getD (2 * c + 1) 0 - ic.getD (2 * c) 0)))) := by
  induction fuel generalizing i g1 g2 with
  | zero =>
    have h0 : n - i = 0 := by omega
    simp [createShuffleVec_loop, h0, pair_walk_nil]
  | succ f ih =>
    rw [createShuffleVec_loop]
    by_cases hi : i < n
    · rw [if_pos hi]
      have hstep : n - i = (n - (i + 1)) + 1 := by omega
      simp only []
      by_cases hp : i + 1 < n ∧ c2v.getD (i + 1) 0 = c2v.getD i 0
      · rw [if_pos hp, ih (i + 2) _ _ (by omega) (fun c h1 h2 => hsz c (by omega) h2)]
        have hstep2 : n - (i + 1) = (n - (i + 2)) + 1 := by omega
        rw [hstep, List.range'_succ, hstep2, List.range'_succ, List.map_cons, List.map_cons,
          pair_walk_same _ _ _ hp.2,
          shard_double_pair_mask _ _ _ _ (hsz i (le_refl _) hi).1 (hsz i (le_refl _) hi).2
            (hsz (i + 1) (by omega) hp.1).2]
        simp [List.append_assoc]
      · rw [if_neg hp, ih (i + 1) _ _ (by omega) (fun c h1 h2 => hsz c (by omega) h2)]
        rw [hstep, List.range'_succ, List.map_cons,
          shard_single_pair_mask _ _ (hsz i (le_refl _) hi).1 (hsz i (le_refl _) hi).2]
        by_cases hlast : i + 1 < n
        · have hstep2 : n - (i + 1) = (n - (i + 2)) + 1 := by omega
          have hne : c2v.getD (i + 1) 0 ≠ c2v.getD i 0 := fun e => hp ⟨hlast, e⟩
          rw [hstep2, List.range'_succ, List.map_cons, pair_walk_diff _ _ _ hne]
          simp [List.append_assoc]
        · have h0 : n - (i + 1) = 0 := by omega
          rw [h0]
          simp [pair_walk_one, pair_walk_nil, List.append_assoc]
    · rw [if_neg hi]
      have h0 : n - i = 0 := by omega
      simp [h0, pair_walk_nil]

/-- The lanes the layout loop records do not decrease along the columns. -/
theorem metrics_lanes_mono (n : Nat) (s : metrics_index_state) (k : Nat)
    (hinv : metrics_inv n s k) (c d : Nat) (hd : c + d < k) :
    s.desc.metric_n_vector.getD c 0 ≤ s.desc.metric_n_vector.getD (c + d) 0 := by
  induction d with
  | zero => exact le_refl _
  | succ d ih =>
    have h1 := ih (by omega)
    have h2 := hinv.adj (c + d) (by omega)
    have h3 : s.desc.metric_n_vector.getD (c + d) 0
        ≤ s.desc.metric_n_vector.getD (c + d + 1) 0 := by
      split at h2
      · rw [h2.2]
      · rw [h2.2]; omega
    exact le_trans h1 h3

/-- Every recorded lane is below the number of lanes. -/
theorem metrics_lanes_lt (n : Nat) (s : metrics_index_state) (k : Nat)
    (hinv : metrics_inv n s k) (c : Nat) (hc : c < k) :
    s.desc.metric_n_vector.getD c 0 < s.n_vectors := by
  have h1 := metrics_lanes_mono n s k hinv c (k - 1 - c) (by omega)
  have h2 := (hinv.last (by omega)).2
  have e : c + (k - 1 - c) = k - 1 := by omega
  rw [e] at h1
  omega

/-- The layout fields of an initialised shard that bear on the pair masks. -/
theorem init_pair_fields (n_docs : Nat) (metric_mins metric_maxes : List Int)
    (n_metrics : Nat) :
    (packed_shard_init n_docs metric_mins metric_maxes
        n_metrics).metrics_layout.shuffle_vecs_get2
      = (createShuffleVecFromIndexes
          (init_index_state n_metrics metric_maxes metric_mins).desc).shuffle_vecs_get2 ∧
    (packed_shard_init n_docs metric_mins metric_maxes
        n_metrics).metrics_layout.n_metrics_per_vector
      = count_cols_per_vector
          (init_index_state n_metrics metric_maxes metric_mins).desc.metric_n_vector
          (init_index_state n_metrics metric_maxes metric_mins).desc.n_boolean_metrics
          n_metrics
          (List.replicate (init_index_state n_metrics metric_maxes metric_mins).n_vectors 0) :=
  ⟨rfl, rfl⟩

/-- The pair masks of an initialised shard of fewer than 256 columns, lane
after lane. -/
theorem init_get2_list (n_docs : Nat) (metric_mins metric_maxes : List Int)
    (n_metrics : Nat) (hn : n_metrics < 256) :
    (packed_shard_init n_docs metric_mins metric_maxes
        n_metrics).metrics_layout.shuffle_vecs_get2
      = pad_vecs
          (all_lane_pairs
            (init_index_state n_metrics metric_maxes metric_mins).desc.metric_n_vector
            (init_index_state n_metrics metric_maxes metric_mins).desc.n_boolean_metrics
            n_metrics (init_index_state n_metrics metric_maxes metric_mins).n_vectors
            (fun c =>
              ((init_index_state n_metrics metric_maxes metric_mins).desc.index_metrics.getD
                (2 * c) 0 % 16,
              (init_index_state n_metrics metric_maxes metric_mins).desc.index_metrics.getD
                  (2 * c + 1) 0
                - (init_index_state n_metrics metric_maxes metric_mins).desc.index_metrics.getD
                  (2 * c) 0)))
          (n_metrics
            - (init_index_state n_metrics metric_maxes metric_mins).desc.n_boolean_metrics) := by
  have hinv := init_index_inv n_metrics metric_maxes metric_mins hn
  rw [(init_pair_fields n_docs metric_mins metric_maxes n_metrics).1]
  unfold createShuffleVecFromIndexes
  simp only []
  have hcount := hinv.count
  have hnb := hinv.nb_le
  rw [hcount, Nat.mod_eq_of_lt hn, Nat.mod_eq_of_lt (show
    (init_index_state n_metrics metric_maxes metric_mins).desc.n_boolean_metrics < 256
      by omega)]
  rw [shard_loop_walk _ _ _ _ _ _ _ (le_refl _) (fun c _ hc => by
    have hcol := hinv.cols c hc
    omega)]
  rw [List.nil_append, walk_all_lanes _ _ _
    (init_index_state n_metrics metric_maxes metric_mins).n_vectors _
    (fun c c' _ h2 h3 => by
      have := metrics_lanes_mono n_metrics _ n_metrics hinv c (c' - c) (by omega)
      have e : c + (c' - c) = c' := by omega
      rw [e] at this
      exact this)
    (fun c _ h2 => metrics_lanes_lt n_metrics _ n_metrics hinv c h2)]

end PackedShard

namespace PackedTable

/-- A lane of `k` columns has `ceil(k/2)` pair masks. -/
theorem lane_pairs_length : ∀ (l : List (Nat × Nat)),
    (lane_pairs l).length = (l.length + 1) / 2
  | [] => rfl
  | [_] => by simp [lane_pairs]
  | _ :: _ :: rest => by
    simp only [lane_pairs, List.length_cons, lane_pairs_length rest]
    omega

/-- Pair mask number `p` of a lane is the mask of its columns number `2 p` and
`2 p + 1`, or of column number `2 p` alone when it is the last one. -/
theorem lane_pairs_getD : ∀ (l : List (Nat × Nat)) (p : Nat), 2 * p < l.length →
    (lane_pairs l).getD p zero_vec = pair_mask (l.getD (2 * p) (0, 0)) l[2 * p + 1]?
  | [], p, h => by simp at h
  | [a], p, h => by
    have hp : p = 0 := by
      simp only [List.length_singleton] at h
      omega
    subst hp
    simp [lane_pairs]
  | a :: b :: rest, 0, _ => by simp [lane_pairs]
  | a :: b :: rest, p + 1, h => by
    have h2 : 2 * p < rest.length := by
      simp only [List.length_cons] at h
      omega
    have ih := lane_pairs_getD rest p h2
    have e : 2 * (p + 1) = 2 * p + 1 + 1 := by ring
    simp only [lane_pairs, List.getD_cons_succ, ih, e, List.getElem?_cons_succ]

/-- The pair masks of a created table of a valid layout with an integer
column, lane after lane. -/
theorem create_get2_list (b n_cols : Nat) (mins maxes : List Int)
    (sizes vec_nums offsets : List Nat) (n_rows : Nat)
    (hv : valid_layout b n_cols mins maxes sizes vec_nums offsets) (hint : b < n_cols) :
    (packed_table_create n_rows mins maxes sizes vec_nums offsets n_cols).shuffle_vecs_get2
      = pad_vecs
          (all_lane_pairs
            (packed_table_create n_rows mins maxes sizes vec_nums offsets n_cols).col_2_vector
            b n_cols
            (packed_table_create n_rows mins maxes sizes vec_nums offsets
              n_cols).unpadded_row_size
            (fun c => (offsets.getD c 0, sizes.getD c 0)))
          (n_cols - b) := by
  obtain ⟨f1, f2, f3, f4, f5⟩ := create_fields n_rows mins maxes sizes vec_nums offsets n_cols
  obtain ⟨hnb, hent⟩ := valid_index_state b n_cols mins maxes sizes vec_nums offsets hv
  have hL := create_layout_facts b n_cols mins maxes sizes vec_nums offsets n_rows [] hv
  have hv' := hv
  obtain ⟨h0, h256, hbn, hb4, hlast, hcol⟩ := hv'
  have hsz : ∀ x, x < n_cols → b ≤ x → sizes.getD x 0 ≠ 0 := fun x hx hbx h =>
    absurd ((hcol x hx).1.1 h) (by omega)
  have hne : n_cols - (create_index_state n_cols sizes vec_nums offsets).n_boolean_cols ≠ 0 := by
    rw [hnb]; omega
  have hn : n_cols % 256 = n_cols := Nat.mod_eq_of_lt h256
  have hb : b % 256 = b := Nat.mod_eq_of_lt (by omega)
  rw [create_get2 n_rows mins maxes sizes vec_nums offsets n_cols hne, hnb, hn, hb,
    createShuffleVec_loop_walk _ _ _ _ _ _ _ (le_refl _) (fun c h1 h2 => by
      obtain ⟨_, i2, _⟩ := (hent c h2).2 (hsz c h2 h1)
      rw [i2]
      exact ((hcol c h2).2.2.2.2.2 (hsz c h2 h1)).1), List.nil_append]
  have hmap : (List.range' b (n_cols - b)).map (fun c =>
        ((create_index_state n_cols sizes vec_nums offsets).col_2_vector.getD c 0,
          ((create_index_state n_cols sizes vec_nums offsets).index_cols.getD (2 * c) 0,
            (create_index_state n_cols sizes vec_nums offsets).index_cols.getD (2 * c + 1) 0
              - (create_index_state n_cols sizes vec_nums offsets).index_cols.getD (2 * c) 0)))
      = (List.range' b (n_cols - b)).map (fun c =>
        ((packed_table_create n_rows mins maxes sizes vec_nums offsets n_cols).col_2_vector.getD
          c 0, (offsets.getD c 0, sizes.getD c 0))) := by
    apply List.map_congr_left
    intro c hc
    have hc1 := List.mem_range'_1.mp hc
    obtain ⟨i1, i2, _⟩ := (hent c (by omega)).2 (hsz c (by omega) hc1.1)
    rw [i2, i1, f2]
  rw [hmap, walk_all_lanes
    (packed_table_create n_rows mins maxes sizes vec_nums offsets n_cols).col_2_vector b n_cols
    (packed_table_create n_rows mins maxes sizes vec_nums offsets n_cols).unpadded_row_size
    (fun c => (offsets.getD c 0, sizes.getD c 0))
    (fun c c' h1 h2 h3 => hL.mono c c' h1 h2 h3) (fun c h1 h2 => hL.lane_lt c h1 h2)]

end PackedTable

namespace PackedShard

open PackedTable

/-- C31: `createShuffleVecFromIndexes` pairs the integer columns lane by lane.
For a table created with a valid layout that has an integer column, and for the
layout `packed_shard_init` makes for fewer than 256 columns, `shuffle_vecs_get2`
is, up to the zero padding of its allocation, the concatenation over the lanes
in order of the lane's pair masks, where `lane_pairs` takes the integer columns
of one lane two by two: a lane of `k` columns gives `ceil(k/2)` masks, mask
number `p` gathers the lane's column number `2 p` into bytes 0..7 and its column
number `2 p + 1` into bytes 8..15, and has `0xFF` in bytes 8..15 when the lane
has no such column.  No mask holds columns of two lanes. -/
theorem C31_pairs_within_lane (b n_cols : Nat) (mins maxes : List Int)
    (sizes vec_nums offsets : List Nat) (n_rows : Nat)
    (n_docs : Nat) (metric_mins metric_maxes : List Int) (n_metrics : Nat)
    (hv : valid_layout b n_cols mins maxes sizes vec_nums offsets) (hint : b < n_cols)
    (hn : n_metrics < 256) :
    (packed_table_create n_rows mins maxes sizes vec_nums offsets n_cols).shuffle_vecs_get2
      = pad_vecs
          (all_lane_pairs
            (packed_table_create n_rows mins maxes sizes vec_nums offsets n_cols).col_2_vector
            b n_cols
            (packed_table_create n_rows mins maxes sizes vec_nums offsets
              n_cols).unpadded_row_size
            (fun c => (offsets.getD c 0, sizes.getD c 0)))
          (n_cols - b) ∧
    (packed_shard_init n_docs metric_mins metric_maxes
        n_metrics).metrics_layout.shuffle_vecs_get2
      = pad_vecs
          (all_lane_pairs
            (packed_shard_init n_docs metric_mins metric_maxes
              n_metrics).metrics_layout.metric_n_vector
            (packed_shard_init n_docs metric_mins metric_maxes
              n_metrics).metrics_layout.n_boolean_metrics
            n_metrics
            (packed_shard_init n_docs metric_mins metric_maxes
              n_metrics).metrics_layout.n_metrics_per_vector.length
            (fun c =>
              ((packed_shard_init n_docs metric_mins metric_maxes
                  n_metrics).metrics_layout.index_metrics.getD (2 * c) 0 % 16,
                (packed_shard_init n_docs metric_mins metric_maxes
                    n_metrics).metrics_layout.index_metrics.getD (2 * c + 1) 0
                  - (packed_shard_init n_docs metric_mins metric_maxes
                    n_metrics).metrics_layout.index_metrics.getD (2 * c) 0)))
          (n_metrics
            - (packed_shard_init n_docs metric_mins metric_maxes
              n_metrics).metrics_layout.n_boolean_metrics) ∧
    (∀ l : List (Nat × Nat), (lane_pairs l).length = (l.length + 1) / 2) ∧
    (∀ (l : List (Nat × Nat)) (p : Nat), 2 * p < l.length →
      (lane_pairs l).getD p zero_vec = pair_mask (l.getD (2 * p) (0, 0)) l[2 * p + 1]?) ∧
    (∀ (first : Nat × Nat) (second : Option (Nat × Nat)) (k : Nat), k < 16 →
      (pair_mask first second).getD k 0
        = if k < 8 then (if k < first.2 then (first.1 + k) % 256 else 255)
          else
            match second with
            | none => 255
            | some col => if k - 8 < col.2 then (col.1 + (k - 8)) % 256 else 255) := by
  refine ⟨create_get2_list b n_cols mins maxes sizes vec_nums offsets n_rows hv hint, ?_,
    lane_pairs_length, lane_pairs_getD, getD_pair_mask⟩
  obtain ⟨i1, i2, i3, _, _, _⟩ := init_layout_fields n_docs metric_mins metric_maxes n_metrics
  rw [i1, i2, i3, (init_pair_fields n_docs metric_mins metric_maxes n_metrics).2,
    init_get2_list n_docs metric_mins metric_maxes n_metrics hn]
  unfold count_cols_per_vector
  rw [count_loop_length, List.length_replicate]

set_option maxRecDepth 100000 in
theorem C31_pairs_within_lane_witness :
    mixed_table.shuffle_vecs_get2
      = [_mm_setr_epi8 [4, 255, 255, 255, 255, 255, 255, 255,
          5, 255, 255, 255, 255, 255, 255, 255], zero_vec] ∧
    s3_shard.metrics_layout.shuffle_vecs_get2
      = [_mm_setr_epi8 [4, 255, 255, 255, 255, 255, 255, 255,
          5, 6, 255, 255, 255, 255, 255, 255],
         _mm_setr_epi8 [7, 8, 9, 255, 255, 255, 255, 255,
          255, 255, 255, 255, 255, 255, 255, 255], zero_vec] := by
  have h := C31_pairs_within_lane 1 3 [0, 0, 0] [1, 255, 255] [0, 1, 1] [0, 0, 0] [0, 4, 5] 1
    2 [0, 0, 0, -1000] [1, 255, 65535, 1000000] 4 (by decide) (by decide) (by decide)
  exact ⟨h.1.trans (by decide), h.2.1.trans (by decide)⟩

end PackedShard

namespace PackedTable

/-! ## The lane offsets of an unpacked row and the pair masks -/

theorem pairs_before_step (counts : List Nat) (v : Nat) :
    pairs_before counts (v + 1) = pairs_before counts v + (counts.getD v 0 + 1) / 2 := by
  unfold pairs_before
  rw [List.range_succ, List.map_append, List.sum_append]
  simp

/-- Lanes without integer columns have no pair masks. -/
theorem pairs_before_skip (counts : List Nat) (a k : Nat)
    (h : ∀ u, a ≤ u → u < a + k → counts.getD u 0 = 0) :
    pairs_before counts (a + k) = pairs_before counts a := by
  induction k with
  | zero => rfl
  | succ k ih =>
    rw [show a + (k + 1) = a + k + 1 by omega, pairs_before_step,
      h (a + k) (by omega) (by omega), ih (fun u h1 h2 => h u h1 (by omega))]
    simp

/-- The slot the row layout gives an integer column: twice the lane in which
the pair masks of its packed lane start, plus the number of columns of the
packed lane before it. -/
theorem slot_base (c2v counts : List Nat) (b n lanes : Nat)
    (hmono : ∀ c c', b ≤ c → c ≤ c' → c' < n → c2v.getD c 0 ≤ c2v.getD c' 0)
    (hlt : ∀ c, b ≤ c → c < n → c2v.getD c 0 < lanes)
    (hcounts : ∀ v, v < lanes →
      counts.getD v 0
        = List.countP (fun c => decide (c2v.getD c 0 = v)) (List.range' b (n - b)))
    (d : Nat) (hd : b + d < n) :
    unpacked_slot_of c2v b d
      = 2 * ((b + 1) / 2 + pairs_before counts (c2v.getD (b + d) 0))
        + List.countP (fun c => decide (c2v.getD c 0 = c2v.getD (b + d) 0))
            (List.range' b d) := by
  -- a lane no column lies in has count 0
  have hnone : ∀ u, u < lanes → (∀ x, b ≤ x → x < n → c2v.getD x 0 ≠ u) →
      counts.getD u 0 = 0 := by
    intro u hu hx
    rw [hcounts u hu, List.countP_eq_zero]
    intro x hxm
    have := List.mem_range'_1.mp hxm
    simpa using hx x this.1 (by omega)
  induction d with
  | zero =>
    have h0 : pairs_before counts (c2v.getD (b + 0) 0) = 0 := by
      have := pairs_before_skip counts 0 (c2v.getD (b + 0) 0) (fun u _ hu => by
        apply hnone u
        · have := hlt (b + 0) (by omega) hd
          omega
        · intro x hx1 hx2
          have := hmono (b + 0) x (by omega) (by omega) hx2
          omega)
      rw [Nat.zero_add] at this
      rw [this]
      simp [pairs_before]
    rw [unpacked_slot_of, h0]
    simp
  | succ d ih =>
    have ih := ih (by omega)
    have hm := hmono (b + d) (b + (d + 1)) (by omega) (by omega) hd
    rw [show b + (d + 1) = b + d + 1 by omega] at hm
    by_cases hs : c2v.getD (b + d + 1) 0 = c2v.getD (b + d) 0
    · rw [slot_of_succ_same _ _ _ hs, ih, show b + (d + 1) = b + d + 1 by omega, hs,
        List.range'_1_concat, List.countP_append]
      simp
      omega
    · have hlast : counts.getD (c2v.getD (b + d) 0) 0
          = List.countP (fun c => decide (c2v.getD c 0 = c2v.getD (b + d) 0))
              (List.range' b d) + 1 := by
        rw [hcounts _ (hlt (b + d) (by omega) (by omega))]
        have hsplit : List.range' b (n - b)
            = List.range' b d ++ [b + d] ++ List.range' (b + d + 1) (n - (b + d + 1)) := by
          rw [← List.range'_1_concat]
          have := List.range'_append_1 b (d + 1) (n - (b + d + 1))
          rw [show b + (d + 1) = b + d + 1 by omega,
            show n - (b + d + 1) + (d + 1) = n - b by omega] at this
          exact this.symm
        have hz : List.countP (fun c => decide (c2v.getD c 0 = c2v.getD (b + d) 0))
            (List.range' (b + d + 1) (n - (b + d + 1))) = 0 := by
          rw [List.countP_eq_zero]
          intro x hxm
          have hx := List.mem_range'_1.mp hxm
          have := hmono (b + d + 1) x (by omega) hx.1 (by omega)
          simp only [decide_eq_true_eq]
          omega
        rw [hsplit, List.countP_append, List.countP_append, hz]
        simp
      have hskip := pairs_before_skip counts (c2v.getD (b + d) 0 + 1)
        (c2v.getD (b + d + 1) 0 - (c2v.getD (b + d) 0 + 1)) (fun u h1 h2 => by
          apply hnone u
          · have := hlt (b + d + 1) (by omega) (by omega)
            omega
          · intro x hx1 hx2
            by_cases hxd : x ≤ b + d
            · have := hmono x (b + d) hx1 hxd (by omega)
              omega
            · have := hmono (b + d + 1) x (by omega) (by omega) hx2
              omega)
      rw [show c2v.getD (b + d) 0 + 1 + (c2v.getD (b + d + 1) 0 - (c2v.getD (b + d) 0 + 1))
        = c2v.getD (b + d + 1) 0 by omega, pairs_before_step, hlast] at hskip
      have hzero : List.countP (fun c => decide (c2v.getD c 0 = c2v.getD (b + d + 1) 0))
          (List.range' b (d + 1)) = 0 := by
        rw [List.countP_eq_zero]
        intro x hxm
        have hx := List.mem_range'_1.mp hxm
        have := hmono x (b + d) hx.1 (by omega) (by omega)
        simp only [decide_eq_true_eq]
        omega
      rw [slot_of_succ_diff _ _ _ hs, ih, show b + (d + 1) = b + d + 1 by omega, hzero, hskip]
      omega

/-- The slot of a column that starts a packed lane: twice the lane in which
the pair masks of its packed lane start. -/
theorem slot_base_first (c2v counts : List Nat) (b n lanes : Nat)
    (hmono : ∀ c c', b ≤ c → c ≤ c' → c' < n → c2v.getD c 0 ≤ c2v.getD c' 0)
    (hlt : ∀ c, b ≤ c → c < n → c2v.getD c 0 < lanes)
    (hcounts : ∀ v, v < lanes →
      counts.getD v 0
        = List.countP (fun c => decide (c2v.getD c 0 = v)) (List.range' b (n - b)))
    (c : Nat) (hc1 : b ≤ c) (hc2 : c < n)
    (hfirst : c = b ∨ c2v.getD (c - 1) 0 ≠ c2v.getD c 0) :
    unpacked_slot_of c2v b (c - b)
      = 2 * ((b + 1) / 2 + pairs_before counts (c2v.getD c 0)) := by
  have h := slot_base c2v counts b n lanes hmono hlt hcounts (c - b) (by omega)
  rw [show b + (c - b) = c by omega] at h
  have hz : List.countP (fun x => decide (c2v.getD x 0 = c2v.getD c 0))
      (List.range' b (c - b)) = 0 := by
    rw [List.countP_eq_zero]
    intro x hxm
    have hx := List.mem_range'_1.mp hxm
    simp only [decide_eq_true_eq]
    rcases hfirst with h1 | h1
    · omega
    · have h2 := hmono x (c - 1) hx.1 (by omega) (by omega)
      have h3 := hmono (c - 1) c (by omega) (by omega) hc2
      omega
  rw [h, hz, Nat.add_zero]

end PackedTable

namespace PackedTable

theorem pairs_before_mono (counts : List Nat) (v k : Nat) :
    pairs_before counts v ≤ pairs_before counts (v + k) := by
  induction k with
  | zero => exact le_refl _
  | succ k ih =>
    rw [show v + (k + 1) = v + k + 1 by omega, pairs_before_step]
    omega

/-- The lanes of an unpacked row end no later than the pair masks do. -/
theorem slot_last_room (c2v counts : List Nat) (b n lanes : Nat)
    (hmono : ∀ c c', b ≤ c → c ≤ c' → c' < n → c2v.getD c 0 ≤ c2v.getD c' 0)
    (hlt : ∀ c, b ≤ c → c < n → c2v.getD c 0 < lanes)
    (hcounts : ∀ v, v < lanes →
      counts.getD v 0
        = List.countP (fun c => decide (c2v.getD c 0 = v)) (List.range' b (n - b)))
    (hbn : b < n) :
    unpacked_slot_of c2v b (n - 1 - b) / 2 + 1 ≤ (b + 1) / 2 + pairs_before counts lanes := by
  have h := slot_base c2v counts b n lanes hmono hlt hcounts (n - 1 - b) (by omega)
  rw [show b + (n - 1 - b) = n - 1 by omega] at h
  have hl := hlt (n - 1) (by omega) (by omega)
  have hc := hcounts _ hl
  have hsplit : List.range' b (n - b) = List.range' b (n - 1 - b) ++ [n - 1] := by
    rw [show n - b = n - 1 - b + 1 by omega, List.range'_1_concat,
      show b + (n - 1 - b) = n - 1 by omega]
  have h1 : List.countP (fun c => decide (c2v.getD c 0 = c2v.getD (n - 1) 0)) [n - 1] = 1 := by
    simp [List.countP_cons]
  rw [hsplit, List.countP_append, h1] at hc
  have hm := pairs_before_mono counts (c2v.getD (n - 1) 0 + 1)
    (lanes - (c2v.getD (n - 1) 0 + 1))
  rw [show c2v.getD (n - 1) 0 + 1 + (lanes - (c2v.getD (n - 1) 0 + 1)) = lanes by omega,
    pairs_before_step] at hm
  omega

/-- C34: unpacking a row of a table with a valid layout.  The table has the
layout `packed_table_create` makes for a valid layout and any row data; the
destination `U` is any unpacked table in which, for every integer column `c0`
that starts a packed lane, the offset `col_offset[c0]` is even (the condition
`core` asserts) and `col_offset[c0] / 2 - ceil(n_boolean_cols / 2)` is the
number of pair masks of the packed lanes before the lane of `c0`, that is the
index of the first `shuffle_vecs_get2` mask of that lane, and whose rows have
room for the booleans and all pair masks.  Then the two lane loops of
`packed_table_unpack_row_to_table` are one pass over the packed lanes
`0 .. unpadded_row_size - 1`, each unpacked once and in order, and for every
integer column `c` and the first integer column `c0` of its packed lane the
64-bit slot `col_offset[c0] + (c - c0)` of the destination row holds the
stored value of column `c`, the value `packed_table_get_cell` adds the column
minimum to. -/
theorem C34_unpack_row_slots (b n_cols : Nat) (mins maxes : List Int)
    (sizes vec_nums offsets : List Nat) (n_rows : Nat) (data : List Vec128)
    (T : packed_table_t) (U : unpacked_table_t) (r d pf : Nat)
    (hv : valid_layout b n_cols mins maxes sizes vec_nums offsets)
    (hT : T = with_data (packed_table_create n_rows mins maxes sizes vec_nums offsets n_cols)
      data)
    (hassert : ∀ c0, b ≤ c0 → c0 < n_cols →
      (c0 = b ∨ T.col_2_vector.getD (c0 - 1) 0 ≠ T.col_2_vector.getD c0 0) →
      core_assertion U c0)
    (hmask : ∀ c0, b ≤ c0 → c0 < n_cols →
      (c0 = b ∨ T.col_2_vector.getD (c0 - 1) 0 ≠ T.col_2_vector.getD c0 0) →
      U.col_offset.getD c0 0 / 2
        = (b + 1) / 2 + pairs_before T.n_cols_per_vector (T.col_2_vector.getD c0 0))
    (hlen : (b + 1) / 2 + pairs_before T.n_cols_per_vector T.unpadded_row_size
      ≤ U.padded_row_len)
    (hroom : d * U.padded_row_len + U.padded_row_len ≤ U.data.length)
    (c c0 : Nat) (hc0 : b ≤ c0) (hc0c : c0 ≤ c) (hc : c < n_cols)
    (hfirst : c0 = b ∨ T.col_2_vector.getD (c0 - 1) 0 ≠ T.col_2_vector.getD c0 0)
    (hsame : T.col_2_vector.getD c0 0 = T.col_2_vector.getD c 0) :
    (packed_table_unpack_row_to_table T r U d pf).data
      = (unpack_lanes_seq T U (r * T.row_size) (d * U.padded_row_len) T.unpadded_row_size
          { vector_num := 0, column_idx := T.n_boolean_cols,
            buf := unpack_bit_fields U.data (d * U.padded_row_len)
              (bf_cols (load_u32 (T.data.getD (r * T.row_size) zero_vec)))
              T.n_boolean_cols }).buf ∧
    unpacked_slot (packed_table_unpack_row_to_table T r U d pf) d
        (U.col_offset.getD c0 0 + (c - c0))
      = stored_value T r c ∧
    packed_table_get_cell T r c = to_int64 (stored_value T r c + T.col_mins.getD c 0) := by
  have hL : layout_facts T b n_cols (fun c => offsets.getD c 0) (fun c => sizes.getD c 0) := by
    rw [hT]
    exact create_layout_facts b n_cols mins maxes sizes vec_nums offsets n_rows data hv
  have hbn : b < n_cols := by omega
  have hbase := slot_base_first T.col_2_vector T.n_cols_per_vector b n_cols
    T.unpadded_row_size hL.mono hL.lane_lt hL.counts
  have hUslot : ∀ x, b ≤ x → x < n_cols →
      (x = b ∨ T.col_2_vector.getD (x - 1) 0 ≠ T.col_2_vector.getD x 0) →
      U.col_offset.getD x 0 / 2 = unpacked_slot_of T.col_2_vector b (x - b) / 2 := by
    intro x h1 h2 h3
    rw [hmask x h1 h2 h3, hbase x h1 h2 h3]
    omega
  have hlast := slot_last_room T.col_2_vector T.n_cols_per_vector b n_cols
    T.unpadded_row_size hL.mono hL.lane_lt hL.counts hbn
  obtain ⟨_, _, _, hcells⟩ := unpack_row_data_first T U b n_cols r d pf _ _ hL hUslot
    (by omega) (fun _ => by omega) hroom
  refine ⟨?_, ?_, Tgs.get_cell_eq_stored T r c⟩
  · unfold packed_table_unpack_row_to_table
    simp only []
    rw [if_neg (by rw [hL.nb, hL.ncols]; omega)]
    simp only []
    rw [unpack_lanes_eq_seq T U (r * T.row_size) (d * U.padded_row_len) T.unpadded_row_size
      T.unpadded_row_size T.unpadded_row_size _ (by simp only []; omega)]
    simp only [Nat.sub_zero]
  · have hoff : U.col_offset.getD c0 0 = unpacked_slot_of T.col_2_vector b (c0 - b) := by
      have h1 : U.col_offset.getD c0 0 % 2 = 0 := hassert c0 hc0 (by omega) hfirst
      have h2 := hmask c0 hc0 (by omega) hfirst
      rw [hbase c0 hc0 (by omega) hfirst]
      omega
    have hadd : unpacked_slot_of T.col_2_vector b (c - b)
        = unpacked_slot_of T.col_2_vector b (c0 - b) + (c - c0) := by
      rw [show c - b = c0 - b + (c - c0) by omega]
      apply slot_of_add_same
      intro q hq
      have e1 : b + (c0 - b) + q + 1 = c0 + q + 1 := by omega
      have e2 : b + (c0 - b) + q = c0 + q := by omega
      rw [e1, e2]
      have m1 := hL.mono c0 (c0 + q) hc0 (by omega) (by omega)
      have m2 := hL.mono (c0 + q) (c0 + q + 1) (by omega) (by omega) (by omega)
      have m3 := hL.mono (c0 + q + 1) c (by omega) (by omega) hc
      omega
    rw [unpacked_slot_eq_half, (unpack_row_layout T r U d pf).2.1, hoff, ← hadd,
      hcells c (by omega) hc, stored_value_int T b r c hL.nb hL.b_le4 (by omega)]

end PackedTable

namespace PackedTable

set_option maxRecDepth 100000 in
theorem C34_unpack_row_slots_witness :
    valid_layout 0 3 [0, 0, 0] [9, 9, 9] [8, 8, 8] [0, 1, 1] [4, 0, 8] ∧
    two_lane_table.n_cols_per_vector = [1, 2] ∧
    unpacked_slot (packed_table_unpack_row_to_table two_lane_table 0 two_lane_dest 0 0) 0 3
      = 9 ∧
    packed_table_get_cell two_lane_table 0 2 = 9 := by
  have h := C34_unpack_row_slots 0 3 [0, 0, 0] [9, 9, 9] [8, 8, 8] [0, 1, 1] [4, 0, 8] 1
    two_lane_table.data two_lane_table two_lane_dest 0 0 0 (by decide) rfl
    (fun c0 _ h2 h3 => by
      have hc : c0 = 0 ∨ c0 = 1 ∨ c0 = 2 := by omega
      rcases hc with rfl | rfl | rfl
      · unfold core_assertion; decide
      · unfold core_assertion; decide
      · exact absurd h3 (by decide))
    (fun c0 _ h2 h3 => by
      have hc : c0 = 0 ∨ c0 = 1 ∨ c0 = 2 := by omega
      rcases hc with rfl | rfl | rfl
      · decide
      · decide
      · exact absurd h3 (by decide))
    (by decide) (by decide) 2 1 (by decide) (by decide) (by decide) (by decide) (by decide)
  exact ⟨by decide, by decide, h.2.1.trans (by decide), h.2.2.trans (by decide)⟩

end PackedTable

namespace PackedShard

open PackedTable

/-! ## The first pair mask of a lane -/

theorem countP_lt_succ (f : Nat → Nat) (v : Nat) (l : List Nat) :
    List.countP (fun c => decide (f c < v + 1)) l
      = List.countP (fun c => decide (f c < v)) l
        + List.countP (fun c => decide (f c = v)) l := by
  induction l with
  | nil => rfl
  | cons a l ih =>
    simp only [List.countP_cons, ih]
    by_cases h1 : f a < v
    · have h2 : f a < v + 1 := by omega
      have h3 : f a ≠ v := by omega
      simp [h1, h2, h3]
      omega
    · by_cases h3 : f a = v
      · have h2 : f a < v + 1 := by omega
        simp [h1, h2, h3]
        omega
      · have h2 : ¬ f a < v + 1 := by omega
        simp [h1, h2, h3]

/-- The pair masks of the lanes before `v` are no more than the columns of
those lanes. -/
theorem pairs_before_le (counts : List Nat) (f : Nat → Nat) (l : List Nat) (v : Nat)
    (hc : ∀ u, u < v → counts.getD u 0 = List.countP (fun c => decide (f c = u)) l) :
    pairs_before counts v ≤ List.countP (fun c => decide (f c < v)) l := by
  induction v with
  | zero => simp [pairs_before]
  | succ v ih =>
    rw [pairs_before_step, countP_lt_succ, hc v (by omega)]
    have := ih (fun u hu => hc u (by omega))
    omega

/-- The row-size loop leaves the entries before `i` alone. -/
theorem offset_loop_frame (desc : packed_metric_desc) (n i size : Nat) (offs : List Nat)
    (v : Nat) (hv : v < i) :
    (unpacked_offset_loop desc n i size offs).1.getD v 0 = offs.getD v 0 := by
  induction n generalizing i size offs with
  | zero => rfl
  | succ n ih =>
    rw [unpacked_offset_loop, ih (i + 1) _ _ (by omega), getD_set_ne _ _ _ _ _ (by omega)]

/-- The row-size loop records for every lane of the array the lanes the pair
masks of the lanes before it take, after the lanes of the booleans. -/
theorem offset_loop_getD (desc : packed_metric_desc) (base : Nat) (n i size : Nat)
    (offs : List Nat) (hsize : size = base + pairs_before desc.n_metrics_per_vector i)
    (v : Nat) (hv1 : i ≤ v) (hv2 : v < i + n) (hv3 : v < offs.length) :
    (unpacked_offset_loop desc n i size offs).1.getD v 0
      = (base + pairs_before desc.n_metrics_per_vector v) % 256 := by
  induction n generalizing i size offs with
  | zero => omega
  | succ n ih =>
    rw [unpacked_offset_loop]
    by_cases hvi : v = i
    · subst hvi
      rw [offset_loop_frame _ _ _ _ _ _ (by omega), getD_set_eq _ _ _ _ hv3, hsize]
    · rw [ih (i + 1) _ _ (by rw [pairs_before_step, hsize]; omega) (by omega) (by omega)
        (by simpa using hv3)]

theorem sum_initial_le (g : Nat → Nat) (v m : Nat) (h : v < m) :
    ((List.range v).map g).sum + g v ≤ ((List.range m).map g).sum := by
  induction m with
  | zero => omega
  | succ k ih =>
    rw [List.range_succ, List.map_append, List.sum_append]
    by_cases hvk : v = k
    · subst hvk
      simp
    · have := ih (by omega)
      omega

/-- Element `p` of the `v`-th of concatenated lists. -/
theorem flatten_range_getD (f : Nat → List Vec128) (m v p : Nat) (hv : v < m)
    (hp : p < (f v).length) :
    ((List.range m).map f).flatten.getD
        (((List.range v).map (fun u => (f u).length)).sum + p) zero_vec
      = (f v).getD p zero_vec := by
  induction m with
  | zero => omega
  | succ m ih =>
    have hlen : ∀ k, ((List.range k).map f).flatten.length
        = ((List.range k).map (fun u => (f u).length)).sum := by
      intro k
      rw [List.length_flatten, List.map_map]
      rfl
    have hsucc : ((List.range (m + 1)).map (fun u => (f u).length)).sum
        = ((List.range m).map (fun u => (f u).length)).sum + (f m).length := by
      rw [List.range_succ, List.map_append, List.sum_append]
      simp
    rw [List.range_succ, List.map_append, List.flatten_append]
    simp only [List.map_cons, List.map_nil, List.flatten_cons, List.flatten_nil,
      List.append_nil]
    by_cases hvm : v = m
    · subst hvm
      rw [List.getD_append_right _ _ _ _ (by rw [hlen]; omega), hlen]
      congr 1
      omega
    · have hlt : v < m := by omega
      have hi := ih hlt
      have hmono : ((List.range v).map (fun u => (f u).length)).sum + (f v).length
          ≤ ((List.range m).map (fun u => (f u).length)).sum :=
        sum_initial_le (fun u => (f u).length) v m hlt
      rw [List.getD_append _ _ _ _ (by rw [hlen]; omega), hi]

/-- The columns of a lane as the counting loop counts them. -/
theorem lane_cols_length (c2v : List Nat) (b n v : Nat) (col : Nat → Nat × Nat) :
    (lane_cols c2v b n v col).length
      = List.countP (fun c => decide (c2v.getD c 0 = v)) (List.range' b (n - b)) := by
  unfold lane_cols
  rw [List.length_map, List.countP_eq_length_filter]

/-- The pair masks before lane `v` in the concatenation over the lanes. -/
theorem pairs_before_eq (counts c2v : List Nat) (b n v : Nat) (col : Nat → Nat × Nat)
    (hc : ∀ u, u < v → counts.getD u 0 = (lane_cols c2v b n u col).length) :
    pairs_before counts v
      = ((List.range v).map (fun u => (lane_pairs (lane_cols c2v b n u col)).length)).sum := by
  unfold pairs_before
  congr 1
  apply List.map_congr_left
  intro u hu
  rw [lane_pairs_length, hc u (List.mem_range.mp hu)]

/-- The layout fields of an initialised shard that the row-size loop fills. -/
theorem init_offset_fields (n_docs : Nat) (metric_mins metric_maxes : List Int)
    (n_metrics : Nat) :
    (packed_shard_init n_docs metric_mins metric_maxes n_metrics).metrics_layout.unpacked_offset
      = (unpacked_offset_loop
          (createShuffleBlendFromIndexes (createShuffleVecFromIndexes
            (createMetricsIndexes (init_desc n_metrics) n_metrics metric_maxes metric_mins
              ((GROUP_SIZE + MAX_BIT_FIELDS + 7) / 8))))
          (padded_row_size (init_index_state n_metrics metric_maxes metric_mins).n_vectors) 0
          (((init_index_state n_metrics metric_maxes metric_mins).desc.n_boolean_metrics + 1) / 2)
          (List.replicate (init_index_state n_metrics metric_maxes metric_mins).n_vectors 0)).1 ∧
    (createShuffleBlendFromIndexes (createShuffleVecFromIndexes
        (createMetricsIndexes (init_desc n_metrics) n_metrics metric_maxes metric_mins
          ((GROUP_SIZE + MAX_BIT_FIELDS + 7) / 8)))).n_metrics_per_vector
      = (packed_shard_init n_docs metric_mins metric_maxes
          n_metrics).metrics_layout.n_metrics_per_vector :=
  ⟨rfl, rfl⟩

/-- The per-lane counters of an initialised shard of fewer than 256 columns
count the integer columns of each lane. -/
theorem init_counts (n_docs : Nat) (metric_mins metric_maxes : List Int)
    (n_metrics : Nat) (hn : n_metrics < 256) :
    (packed_shard_init n_docs metric_mins metric_maxes
        n_metrics).metrics_layout.n_metrics_per_vector.length
      = (init_index_state n_metrics metric_maxes metric_mins).n_vectors ∧
    ∀ u, u < (init_index_state n_metrics metric_maxes metric_mins).n_vectors →
      (packed_shard_init n_docs metric_mins metric_maxes
          n_metrics).metrics_layout.n_metrics_per_vector.getD u 0
        = List.countP
            (fun c => decide
              ((init_index_state n_metrics metric_maxes metric_mins).desc.metric_n_vector.getD
                c 0 = u))
            (List.range'
              (init_index_state n_metrics metric_maxes metric_mins).desc.n_boolean_metrics
              (n_metrics
                - (init_index_state n_metrics metric_maxes
                    metric_mins).desc.n_boolean_metrics)) := by
  rw [(init_pair_fields n_docs metric_mins metric_maxes n_metrics).2]
  unfold count_cols_per_vector
  refine ⟨by rw [count_loop_length, List.length_replicate], ?_⟩
  intro u hu
  rw [count_loop_getD _ _ _ _ _ (by simpa using hu)
    (by rw [getD_replicate _ _ _ hu]; omega), getD_replicate _ _ _ hu, Nat.zero_add]

end PackedShard

namespace PackedShard

open PackedTable

/-- C39: in the layout `packed_shard_init` makes for fewer than 256 columns
(the column count is kept in a byte), for every lane `v` of the row,
`unpacked_offset[v]` is `ceil(n_boolean_metrics/2)` plus the number of pair
masks of the lanes before `v`, where a lane of `k` integer columns has
`ceil(k/2)` pair masks; so `unpacked_offset[v] - ceil(n_boolean_metrics/2) + p`,
the index `unpack_vector` forms from the lane offset it is given, selects in
`shuffle_vecs_get2` pair mask number `p` of lane `v`. -/
theorem C39_offset_is_first_pair_mask (n_docs : Nat) (metric_mins metric_maxes : List Int)
    (n_metrics : Nat) (hn : n_metrics < 256) (v : Nat)
    (hv : v < (packed_shard_init n_docs metric_mins metric_maxes
      n_metrics).metrics_layout.n_metrics_per_vector.length) :
    (packed_shard_init n_docs metric_mins metric_maxes
        n_metrics).metrics_layout.unpacked_offset.getD v 0
      = ((packed_shard_init n_docs metric_mins metric_maxes
            n_metrics).metrics_layout.n_boolean_metrics + 1) / 2
        + pairs_before (packed_shard_init n_docs metric_mins metric_maxes
            n_metrics).metrics_layout.n_metrics_per_vector v ∧
    pairs_before (packed_shard_init n_docs metric_mins metric_maxes
        n_metrics).metrics_layout.n_metrics_per_vector v
      = ((List.range v).map (fun u =>
          (lane_pairs (lane_cols
            (packed_shard_init n_docs metric_mins metric_maxes
              n_metrics).metrics_layout.metric_n_vector
            (packed_shard_init n_docs metric_mins metric_maxes
              n_metrics).metrics_layout.n_boolean_metrics
            n_metrics u
            (fun c =>
              ((packed_shard_init n_docs metric_mins metric_maxes
                  n_metrics).metrics_layout.index_metrics.getD (2 * c) 0 % 16,
                (packed_shard_init n_docs metric_mins metric_maxes
                    n_metrics).metrics_layout.index_metrics.getD (2 * c + 1) 0
                  - (packed_shard_init n_docs metric_mins metric_maxes
                    n_metrics).metrics_layout.index_metrics.getD (2 * c) 0)))).length)).sum ∧
    ∀ p, p < ((packed_shard_init n_docs metric_mins metric_maxes
        n_metrics).metrics_layout.n_metrics_per_vector.getD v 0 + 1) / 2 →
      (packed_shard_init n_docs metric_mins metric_maxes
          n_metrics).metrics_layout.shuffle_vecs_get2.getD
          ((packed_shard_init n_docs metric_mins metric_maxes
              n_metrics).metrics_layout.unpacked_offset.getD v 0
            - ((packed_shard_init n_docs metric_mins metric_maxes
              n_metrics).metrics_layout.n_boolean_metrics + 1) / 2 + p) zero_vec
        = (lane_pairs (lane_cols
            (packed_shard_init n_docs metric_mins metric_maxes
              n_metrics).metrics_layout.metric_n_vector
            (packed_shard_init n_docs metric_mins metric_maxes
              n_metrics).metrics_layout.n_boolean_metrics
            n_metrics v
            (fun c =>
              ((packed_shard_init n_docs metric_mins metric_maxes
                  n_metrics).metrics_layout.index_metrics.getD (2 * c) 0 % 16,
                (packed_shard_init n_docs metric_mins metric_maxes
                    n_metrics).metrics_layout.index_metrics.getD (2 * c + 1) 0
                  - (packed_shard_init n_docs metric_mins metric_maxes
                    n_metrics).metrics_layout.index_metrics.getD (2 * c) 0)))).getD p
            zero_vec := by
  have hinv := init_index_inv n_metrics metric_maxes metric_mins hn
  obtain ⟨hlen, hcnt⟩ := init_counts n_docs metric_mins metric_maxes n_metrics hn
  obtain ⟨i1, i2, i3, _, _, _⟩ := init_layout_fields n_docs metric_mins metric_maxes n_metrics
  obtain ⟨o1, o2⟩ := init_offset_fields n_docs metric_mins metric_maxes n_metrics
  rw [hlen] at hv
  have hnb := hinv.nb_le
  have hcl : ∀ u, u < (init_index_state n_metrics metric_maxes metric_mins).n_vectors →
      (packed_shard_init n_docs metric_mins metric_maxes
          n_metrics).metrics_layout.n_metrics_per_vector.getD u 0
        = (lane_cols (init_index_state n_metrics metric_maxes metric_mins).desc.metric_n_vector
            (init_index_state n_metrics metric_maxes metric_mins).desc.n_boolean_metrics
            n_metrics u
            (fun c =>
              ((init_index_state n_metrics metric_maxes metric_mins).desc.index_metrics.getD
                (2 * c) 0 % 16,
              (init_index_state n_metrics metric_maxes metric_mins).desc.index_metrics.getD
                  (2 * c + 1) 0
                - (init_index_state n_metrics metric_maxes metric_mins).desc.index_metrics.getD
                  (2 * c) 0))).length := by
    intro u hu
    rw [lane_cols_length, hcnt u hu]
  have hsmall : pairs_before (packed_shard_init n_docs metric_mins metric_maxes
        n_metrics).metrics_layout.n_metrics_per_vector v
      ≤ n_metrics
        - (init_index_state n_metrics metric_maxes metric_mins).desc.n_boolean_metrics := by
    have h1 := pairs_before_le (packed_shard_init n_docs metric_mins metric_maxes
        n_metrics).metrics_layout.n_metrics_per_vector
      (fun c => (init_index_state n_metrics metric_maxes metric_mins).desc.metric_n_vector.getD
        c 0)
      (List.range' (init_index_state n_metrics metric_maxes metric_mins).desc.n_boolean_metrics
        (n_metrics
          - (init_index_state n_metrics metric_maxes metric_mins).desc.n_boolean_metrics))
      v (fun u hu => hcnt u (by omega))
    have h2 := List.countP_le_length
      (fun c => decide
        ((init_index_state n_metrics metric_maxes metric_mins).desc.metric_n_vector.getD c 0
          < v))
      (l := List.range'
        (init_index_state n_metrics metric_maxes metric_mins).desc.n_boolean_metrics
        (n_metrics
          - (init_index_state n_metrics metric_maxes metric_mins).desc.n_boolean_metrics))
    rw [List.length_range'] at h2
    exact le_trans h1 h2
  have hoff : (packed_shard_init n_docs metric_mins metric_maxes
        n_metrics).metrics_layout.unpacked_offset.getD v 0
      = ((init_index_state n_metrics metric_maxes metric_mins).desc.n_boolean_metrics + 1) / 2
        + pairs_before (packed_shard_init n_docs metric_mins metric_maxes
            n_metrics).metrics_layout.n_metrics_per_vector v := by
    rw [o1, offset_loop_getD _
      (((init_index_state n_metrics metric_maxes metric_mins).desc.n_boolean_metrics + 1) / 2)
      _ 0 _ _ (by simp [pairs_before]) v (Nat.zero_le _)
      (by
        have := le_padded_row_size
          (init_index_state n_metrics metric_maxes metric_mins).n_vectors
        omega)
      (by simpa using hv), o2]
    apply Nat.mod_eq_of_lt
    omega
  have hpb := pairs_before_eq (packed_shard_init n_docs metric_mins metric_maxes
      n_metrics).metrics_layout.n_metrics_per_vector
    (init_index_state n_metrics metric_maxes metric_mins).desc.metric_n_vector
    (init_index_state n_metrics metric_maxes metric_mins).desc.n_boolean_metrics n_metrics v
    (fun c =>
      ((init_index_state n_metrics metric_maxes metric_mins).desc.index_metrics.getD
        (2 * c) 0 % 16,
      (init_index_state n_metrics metric_maxes metric_mins).desc.index_metrics.getD
          (2 * c + 1) 0
        - (init_index_state n_metrics metric_maxes metric_mins).desc.index_metrics.getD
          (2 * c) 0))
    (fun u hu => hcl u (by omega))
  rw [i1, i2, i3]
  refine ⟨hoff, hpb, ?_⟩
  intro p hp
  rw [hoff, Nat.add_sub_cancel_left, init_get2_list n_docs metric_mins metric_maxes n_metrics hn,
    getD_pad_vecs, hpb]
  unfold all_lane_pairs
  exact flatten_range_getD _ _ v p hv (by rw [lane_pairs_length, ← hcl v hv]; exact hp)

set_option maxRecDepth 100000 in
theorem C39_offset_is_first_pair_mask_witness :
    (packed_shard_init 1 [0, 0, 0] [2 ^ 62, 2 ^ 62, 2 ^ 62] 3).metrics_layout.n_metrics_per_vector
      = [1, 2] ∧
    (packed_shard_init 1 [0, 0, 0] [2 ^ 62, 2 ^ 62, 2 ^ 62]
      3).metrics_layout.unpacked_offset.getD 1 0 = 1 ∧
    (packed_shard_init 1 [0, 0, 0] [2 ^ 62, 2 ^ 62, 2 ^ 62]
      3).metrics_layout.shuffle_vecs_get2.getD (1 - 0 + 0) zero_vec
      = _mm_setr_epi8 [0, 1, 2, 3, 4, 5, 6, 7, 8, 9, 10, 11, 12, 13, 14, 15] := by
  have h := C39_offset_is_first_pair_mask 1 [0, 0, 0] [2 ^ 62, 2 ^ 62, 2 ^ 62] 3
    (by decide) 1 (by decide)
  exact ⟨by decide, h.1.trans (by decide), (h.2.2 0 (by decide)).trans (by decide)⟩

end PackedShard

namespace PackedShard

open PackedTable

set_option maxRecDepth 100000 in
/-- C38: the row-size loop of `packed_shard_init` indexes past its arrays.  For
the schema of four 8-byte columns the layout has three lanes, so
`n_metrics_per_vector` and `unpacked_offset` have three entries, while the loop
runs `n_vectors_per_doc = 4` rounds (the padded row size): its round `i = 3`
reads `n_metrics_per_vector[3]` and writes `unpacked_offset[3]`, and the loop
with checked bounds fails.  With three rounds, the number of lanes, the checked
loop succeeds, and for the one-lane schema of scenario S3 the loop as written
stays inside the arrays. -/
theorem C38_row_size_loop_past_lanes :
    three_lane_layout.metric_n_vector = [0, 1, 1, 2] ∧
    three_lane_layout.n_metrics_per_vector.length = 3 ∧
    three_lane_layout.unpacked_offset.length = 3 ∧
    three_lane_layout.n_vectors_per_doc = 4 ∧
    unpacked_offset_loop_checked three_lane_layout three_lane_layout.n_vectors_per_doc 0
        ((three_lane_layout.n_boolean_metrics + 1) / 2) three_lane_layout.unpacked_offset
      = none ∧
    unpacked_offset_loop_checked three_lane_layout 3 0
        ((three_lane_layout.n_boolean_metrics + 1) / 2) three_lane_layout.unpacked_offset
      = some ([0, 1, 2], 3) ∧
    (packed_shard_init 1 [0, 0, 0, 0] [2 ^ 62, 2 ^ 62, 2 ^ 62, 2 ^ 62]
      4).metrics_layout.unpacked_offset = [0, 1, 2] ∧
    (unpacked_offset_loop_checked s3_shard.metrics_layout
        s3_shard.metrics_layout.n_vectors_per_doc 0
        ((s3_shard.metrics_layout.n_boolean_metrics + 1) / 2) [0]).isSome = true := by
  decide

end PackedShard

end Imhotep
